import Mathlib

/-! # drwebmirror: download-and-verify gate, protocol engines, chunked body loop

A shallow embedding of `src/network.c` (`download`, `download_check`, the body
loop of `conn_get`) and `src/drwebmirror.c` (`cache4`, `update4`, `cache5`,
`update5x_internal`, `cache7`, `update7`, `cacheA`, `updateA`).

C strings are lists of characters (no embedded NUL).  The operating system, the
network peer and the hash primitives are an environment `Env` over an abstract
world `W`; the program state is passed explicitly.  Every call that a property
speaks about appends an event to a ghost log.
-/

namespace Drwebmirror

/-! ## Data model -/

/-- A C string: the characters before the terminating NUL. -/
abbrev CString := List Char

/-- The value of `EXIT_SUCCESS` from `stdlib.h`. -/
def EXIT_SUCCESS : Int := 0

/-- The value of `EXIT_FAILURE` from `stdlib.h`. -/
def EXIT_FAILURE : Int := 1

/-- The checksum functions passed to `download_check` as `checksum_func`. -/
inductive Hasher where
  | crc32sum
  | crc32sum_lzma
  | md5sum
  | sha256sum
  | sha256sum_lzma
  deriving DecidableEq, Repr

/-- Modelled from the spec: the header `drwebmirror.h` that defines the `DL_*`
status codes is not among the sources; the spec lists the five outcomes of the
gate `{EXIST, DOWNLOADED, NOT_FOUND, TRY_AGAIN, FAILED}`, taken here as five
distinct values. -/
inductive DLStatus where
  | DL_EXIST
  | DL_DOWNLOADED
  | DL_NOT_FOUND
  | DL_TRY_AGAIN
  | DL_FAILED
  deriving DecidableEq, Repr

open DLStatus

/-- Modelled from the spec: the macro `DL_SUCCESS` of the missing header
`drwebmirror.h`; the successful outcomes of the gate are "EXISTS-VERIFIED" and
"DOWNLOADED". -/
def DL_SUCCESS (status : DLStatus) : Bool :=
  status == DL_DOWNLOADED || status == DL_EXIST

/-- Ghost events: the calls and outputs the properties speak about, in the order
in which the program performs them. -/
inductive Event where
  /-- control reaches the label `repeat4` / `repeat5` / `repeat7` / `repeatA` -/
  | repeat_label (counter_global : Int) (use_fast : Bool)
  /-- one call of `conn_get(filename)` -/
  | conn_get (filename : CString)
  /-- one call of `download(filename)` -/
  | download (filename : CString)
  /-- one call `checksum_func(filename, checksum_real)` with what it produced -/
  | checksum (func : Hasher) (filename : CString) (result : Option CString)
  /-- one call of `download_check`, with the values of `counter_global` and
  `use_fast` at the call -/
  | download_check (counter_global : Int) (use_fast : Bool) (filename : CString)
      (checksum_base : CString) (func : Hasher)
  /-- one call of `delete_files(directory, mask)` -/
  | delete_files (directory : CString) (mask : CString)
  /-- the return behind `printf("Nothing was changed\n")` -/
  | nothing_changed
  deriving DecidableEq, Repr

/-- The operating system, the network and the hash primitives, over a world `W`
(local file system plus remote server). -/
structure Env (W : Type) where
  /-- `exist(filename)` of `filesystem.c`: `stat` succeeds -/
  exist : W → CString → Bool
  /-- `get_size(filename)` of `filesystem.c`: `st_size`, or `-1` -/
  get_size : W → CString → Int
  /-- `checksum_func(filename, out)`: `some digest` on `EXIT_SUCCESS` -/
  checksum : Hasher → W → CString → Option CString
  /-- `check_size(filename, size)` -/
  check_size : W → CString → Int → Bool
  /-- `check_size_lzma(filename, size)` -/
  check_size_lzma : W → CString → Int → Bool
  /-- one request/response exchange of `conn_get(filename)`: its return value
  (`EXIT_SUCCESS`, `EXIT_FAILURE` or the HTTP status) and the new world -/
  conn_get : W → CString → Int × W
  /-- the effect of `delete_files(directory, mask)` on the world -/
  delete_files : W → CString → CString → W
  /-- `make_path(path)`: status and new world -/
  make_path : W → CString → Int × W
  /-- `make_path_for(filename)`: status and new world -/
  make_path_for : W → CString → Int × W
  /-- `do_lock(directory)`: status and new world -/
  do_lock : W → CString → Int × W
  /-- `fopen(name, "r")` followed by the successive results of
  `fscanf(fp, "%[^\r\n]\r\n", buf)` up to end of file; `none` when `fopen`
  fails.  The field stands for files that the calls read to the end
  (`scan_lines`); a file that begins with CR or LF, on which `fscanf` returns 0
  for ever, or has a line that overruns `buf`, is the matter of `line_loop` -/
  read_lines : W → CString → Option (List CString)
  /-- the same for the format `"%[^\n]\n"` of `cacheA` and `updateA` -/
  read_lines_lf : W → CString → Option (List CString)
  /-- the indeterminate content of the local array `main_hash_new`, which is
  compared after a `sha256sum` call whose status the engines ignore -/
  stack_garbage : CString

/-- Modelled from the spec: the AVL tree of `avl.c` (`avl_node`, `avl_insert`,
`avl_hash`) is not among the sources; the spec describes it as an ordered map
from local path to expected digest.  `[]` is the `NULL` tree. -/
abbrev AvlTree := List (CString × CString)

/-- Modelled from the spec: `avl_insert(tree, key, value)` of the missing
`avl.c`, insertion into the map from path to digest. -/
def avl_insert (tree : AvlTree) (key value : CString) : AvlTree :=
  (key, value) :: tree.filter (fun kv => kv.1 != key)

/-- Modelled from the spec: `avl_hash(tree, key)` of the missing `avl.c`, the
digest stored for the path, `none` for `NULL`. -/
def avl_hash (tree : AvlTree) (key : CString) : Option CString :=
  (tree.find? (fun kv => kv.1 == key)).map Prod.snd

/-- Program state: the world, the globals `use_fast` and `tree`, the engine's
local `counter_global`, and the ghost log. -/
structure State (W : Type) where
  world : W
  use_fast : Bool
  tree : AvlTree
  counter_global : Int
  log : List Event

/-- Ways in which a piece of code leaves the normal flow. -/
inductive Exit where
  /-- `return status;` from the engine -/
  | ret (status : Int)
  /-- `goto repeatN;` -/
  | restart
  /-- undefined behaviour (dereference of a null pointer and the like) -/
  | undef
  /-- the model ran out of fuel -/
  | nofuel
  deriving DecidableEq, Repr

/-- Result of a step: a value, or an exit. -/
inductive Ctl (α : Type) where
  | val (a : α)
  | exit (e : Exit)
  deriving DecidableEq, Repr

/-- Stateful code: a function from the state to a result and the new state. -/
def M (W : Type) (α : Type) : Type := State W → Ctl α × State W

/-- Sequencing: an exit skips the rest. -/
def M.bind {W α β : Type} (m : M W α) (f : α → M W β) : M W β := fun st =>
  match m st with
  | (Ctl.val a, st1) => f a st1
  | (Ctl.exit e, st1) => (Ctl.exit e, st1)

instance (W : Type) : Monad (M W) where
  pure a := fun st => (Ctl.val a, st)
  bind := M.bind

/-- Leave the normal flow. -/
def M.exit {W α : Type} (e : Exit) : M W α := fun st => (Ctl.exit e, st)

/-- Read the state. -/
def M.get {W : Type} : M W (State W) := fun st => (Ctl.val st, st)

/-- Append an event to the ghost log. -/
def M.log {W : Type} (e : Event) : M W Unit := fun st =>
  (Ctl.val (), { st with log := st.log ++ [e] })

/-- Run an operation of the environment that changes the world. -/
def M.io {W α : Type} (f : W → α × W) : M W α := fun st =>
  (Ctl.val (f st.world).1, { st with world := (f st.world).2 })

/-- Assign the global `use_fast`. -/
def M.set_use_fast {W : Type} (b : Bool) : M W Unit := fun st =>
  (Ctl.val (), { st with use_fast := b })

/-- Assign the global `tree`. -/
def M.set_tree {W : Type} (t : AvlTree) : M W Unit := fun st =>
  (Ctl.val (), { st with tree := t })

/-- Assign the local `counter_global`. -/
def M.set_counter {W : Type} (c : Int) : M W Unit := fun st =>
  (Ctl.val (), { st with counter_global := c })

/-! ## `network.c`: `download` and `download_check` -/

/-- A call of `conn_get(filename)`, seen from `download`. -/
def conn_get {W : Type} (E : Env W) (filename : CString) : M W Int := do
  M.log (Event.conn_get filename)
  M.io (fun w => E.conn_get w filename)

/-- The `switch` of `download`: the statuses after which it sleeps and counts
one attempt. -/
def correctable (status : Int) : Bool :=
  status == EXIT_FAILURE || status == 408 || status == 413 || status == 500 ||
  status == 502 || status == 503 || status == 504

/-- The `do ... while` loop of `download`; `counter` is its value at the top of
the body. -/
def download_loop {W : Type} (E : Env W) (MAX_REPEAT : Int) (filename : CString) :
    Nat → Int → M W Int
  | 0, _ => M.exit Exit.nofuel
  | fuel + 1, counter => do
    let status ← conn_get E filename
    let counter1 := if correctable status then counter + 1 else counter + MAX_REPEAT
    if counter1 < MAX_REPEAT ∧ status ≠ EXIT_SUCCESS ∧ status ≠ 404 then
      download_loop E MAX_REPEAT filename fuel counter1
    else
      pure status

/-- `download(filename)` of `network.c`. -/
def download {W : Type} (E : Env W) (MAX_REPEAT : Int) (filename : CString) : M W DLStatus := do
  M.log (Event.download filename)
  let status ← download_loop E MAX_REPEAT filename (MAX_REPEAT.toNat + 1) 0
  if status = EXIT_SUCCESS then pure DL_DOWNLOADED
  else if status = 404 then pure DL_NOT_FOUND
  else pure DL_FAILED

/-- A call `checksum_func(filename, checksum_real)`. -/
def checksum {W : Type} (E : Env W) (func : Hasher) (filename : CString) :
    M W (Option CString) := fun st =>
  (Ctl.val (E.checksum func st.world filename),
    { st with log := st.log ++ [Event.checksum func filename (E.checksum func st.world filename)] })

/-- The fast check at the head of `download_check`: `use_fast && tree &&
exist(filename)`, a digest in the tree, and `strcmp` equal to `checksum_base`. -/
def fast_check {W : Type} (E : Env W) (filename checksum_base : CString) (st : State W) : Bool :=
  if st.use_fast && !st.tree.isEmpty && E.exist st.world filename then
    match avl_hash st.tree filename with
    | some checksum_tree => checksum_base == checksum_tree
    | none => false
  else false

/-- The part of `download_check` after the fast check. -/
def download_check_slow {W : Type} (E : Env W) (MAX_REPEAT : Int)
    (filename checksum_base : CString) (checksum_func : Hasher) : M W DLStatus := do
  let real ← checksum E checksum_func filename
  if real = some checksum_base then pure DL_EXIST
  else do
    let status ← download E MAX_REPEAT filename
    if status ≠ DL_DOWNLOADED then pure status
    else do
      let real2 ← checksum E checksum_func filename
      match real2 with
      | none => pure DL_FAILED
      | some checksum_real =>
        if checksum_base ≠ checksum_real then pure DL_TRY_AGAIN
        else pure DL_DOWNLOADED

/-- `download_check(filename, checksum_base, checksum_real, checksum_func,
checksum_desc)` of `network.c`. -/
def download_check {W : Type} (E : Env W) (MAX_REPEAT : Int)
    (filename checksum_base : CString) (checksum_func : Hasher) : M W DLStatus := do
  let st ← M.get
  M.log (Event.download_check st.counter_global st.use_fast filename checksum_base checksum_func)
  if fast_check E filename checksum_base st then pure DL_EXIST
  else download_check_slow E MAX_REPEAT filename checksum_base checksum_func

/-! ## C library helpers -/

/-- The double quote character. -/
def QUOTE : Char := Char.ofNat 34

/-- The backslash character. -/
def BACKSLASH : Char := Char.ofNat 92

/-- `strchr(s, c)`: the suffix of `s` that starts at the first `c`, `none` for
`NULL`. -/
def strchr (s : CString) (c : Char) : Option CString :=
  match s.dropWhile (fun x => x != c) with
  | [] => none
  | t => some t

/-- `strrchr(s, c)`: the suffix of `s` that starts at the last `c`. -/
def strrchr : CString → Char → Option CString
  | [], _ => none
  | x :: xs, c =>
    match strrchr xs c with
    | some t => some t
    | none => if x = c then some (x :: xs) else none

/-- Whether `pat` stands at the head of `s`. -/
def starts_with : CString → CString → Bool
  | _, [] => true
  | [], _ :: _ => false
  | x :: xs, p :: ps => x == p && starts_with xs ps

/-- `strstr(s, pat)`: the suffix of `s` that starts at the first occurrence of
`pat`. -/
def strstr : CString → CString → Option CString
  | [], pat => if pat.isEmpty then some [] else none
  | x :: xs, pat => if starts_with (x :: xs) pat then some (x :: xs) else strstr xs pat

/-- `bsd_strlcpy(dst, src, size)`: the BSD `strlcpy`, which stores at most
`size - 1` characters of `src`. -/
def bsd_strlcpy (src : CString) (size : Nat) : CString := src.take (size - 1)

/-- `isspace` in the C locale. -/
def isspace (c : Char) : Bool :=
  c == ' ' || c == '\t' || c == '\n' || c == '\r' || c.toNat == 11 || c.toNat == 12

/-- `ULONG_MAX` for a 64-bit `unsigned long`. -/
def ULONG_MAX : Nat := 2 ^ 64 - 1

/-- Value of a digit in the given base, if it is one. -/
def digit_value (base : Nat) (c : Char) : Option Nat :=
  let v : Option Nat :=
    if '0' ≤ c ∧ c ≤ '9' then some (c.toNat - '0'.toNat)
    else if 'a' ≤ c ∧ c ≤ 'f' then some (c.toNat - 'a'.toNat + 10)
    else if 'A' ≤ c ∧ c ≤ 'F' then some (c.toNat - 'A'.toNat + 10)
    else none
  match v with
  | some d => if d < base then some d else none
  | none => none

/-- Accumulate the leading digits of `s`: value and rest. -/
def scan_digits (base : Nat) : CString → Nat → Nat × CString
  | [], acc => (acc, [])
  | c :: cs, acc =>
    match digit_value base c with
    | some d => scan_digits base cs (acc * base + d)
    | none => (acc, c :: cs)

/-- The conversions `%lu` (base 10) and `%lx` (base 16) of `sscanf` for a 64-bit
`unsigned long`, as `strtoul` performs them: white space is skipped, a sign and
(base 16) a `0x` are accepted, the value saturates at `ULONG_MAX` and is negated
modulo `2^64` after a minus sign.  `none` is a matching failure. -/
def scan_ulong (base : Nat) (s : CString) : Option (Nat × CString) :=
  let s1 := s.dropWhile isspace
  let neg := s1.head? == some '-'
  let s2 := if s1.head? == some '-' || s1.head? == some '+' then s1.tail else s1
  let s3 :=
    if base == 16 && (starts_with s2 ['0', 'x'] || starts_with s2 ['0', 'X'])
        && ((s2.drop 2).head?.bind (digit_value 16)).isSome then s2.drop 2 else s2
  match s3.head?.bind (digit_value base) with
  | none => none
  | some _ =>
    let r := scan_digits base s3 0
    let v := if r.1 > ULONG_MAX then ULONG_MAX else r.1
    some (if neg then (2 ^ 64 - v) % 2 ^ 64 else v, r.2)

/-- The cast `(off_t)filesize_ul` for 64-bit `unsigned long` and `off_t`. -/
def to_off_t (v : Nat) : Int :=
  if v < 2 ^ 63 then (v : Int) else (v : Int) - 2 ^ 64

/-- `sscanf(s, "%lu", &x)` with `x` initialised to `0`, followed by the cast to
`off_t`. -/
def scan_size (s : CString) : Int :=
  match scan_ulong 10 s with
  | some r => to_off_t r.1
  | none => 0

/-! ## `drwebmirror.c`: the v4, v5 and v5.2 engines -/

/-- Local file name of a `+`, `=` or `!` line (`cache4` 97-105, `update4`
203-211, `cache5` 292-300, `update5x_internal` 408-417): the four functions
repeat the same statements, which are embedded once.  `none`: no comma in
`filename`, so `* strchr(filename, ',')` writes through `NULL`. -/
def entry_filename (remotedir buf : CString) : Option CString :=
  let beg := buf.tail
  let beg := match strchr beg '>' with
    | some tmp => tmp.tail
    | none => beg
  let beg := match strrchr beg BACKSLASH with
    | some tmp => tmp.tail
    | none => beg
  let filename := remotedir ++ '/' :: beg
  match strchr filename ',' with
  | none => none
  | some _ => some ((filename.takeWhile (fun x => x != ',')).takeWhile (fun x => x != '|'))

/-- The pointer `tmp` after `tmp = strchr(buf, ','); do tmp++; while(* tmp == ' ');`.
`none`: no comma in `buf`. -/
def entry_after_comma (buf : CString) : Option CString :=
  match strchr buf ',' with
  | none => none
  | some tmp => some (tmp.tail.dropWhile (fun x => x == ' '))

/-- The `crc_base` of a v4 line: eight characters, leading zeros removed
(`cache4` 106-110, `update4` 212-216, the same statements in both). -/
def entry_crc_base (buf : CString) : Option CString :=
  match entry_after_comma buf with
  | none => none
  | some tmp => some ((bsd_strlcpy tmp 9).dropWhile (fun x => x == '0'))

/-- The `sha_base` of a v5 line (`cache5` 301-303). -/
def entry_sha_base (buf : CString) : Option CString :=
  match entry_after_comma buf with
  | none => none
  | some tmp => some (bsd_strlcpy tmp 65)

/-- Whether a line starts with `+`, `=` or `!`. -/
def is_download_line (buf : CString) : Bool :=
  buf.head? == some '+' || buf.head? == some '=' || buf.head? == some '!'

/-- The loop of `cache4`, on the lines read from `drweb32.lst`. -/
def cache4_lines {W : Type} (remotedir : CString) : List CString → M W Unit
  | [] => pure ()
  | buf :: rest => do
    (if is_download_line buf then
      match entry_filename remotedir buf, entry_crc_base buf with
      | some filename, some crc_base => do
        let st ← M.get
        M.set_tree (avl_insert (avl_insert st.tree filename crc_base)
          (filename ++ ".lzma".toList) crc_base)
      | _, _ => M.exit Exit.undef
    else pure ())
    cache4_lines remotedir rest

/-- `cache4()`. -/
def cache4 {W : Type} (E : Env W) (remotedir : CString) : M W Unit := do
  let st ← M.get
  match E.read_lines st.world (remotedir ++ "/drweb32.lst".toList) with
  | none => pure ()
  | some lines => cache4_lines remotedir lines

/-- The loop of `cache5`. -/
def cache5_lines {W : Type} (remotedir : CString) : List CString → M W Unit
  | [] => pure ()
  | buf :: rest => do
    (if is_download_line buf then
      match entry_filename remotedir buf, entry_sha_base buf with
      | some filename, some sha_base => do
        let st ← M.get
        M.set_tree (avl_insert (avl_insert st.tree filename sha_base)
          (filename ++ ".lzma".toList) sha_base)
      | _, _ => M.exit Exit.undef
    else pure ())
    cache5_lines remotedir rest

/-- `cache5(version_file)`. -/
def cache5 {W : Type} (E : Env W) (remotedir version_file : CString) : M W Unit := do
  let st ← M.get
  match E.read_lines st.world (remotedir ++ '/' :: version_file) with
  | none => pure ()
  | some lines => cache5_lines remotedir lines

/-- A call of `delete_files(directory, mask)`. -/
def delete_files {W : Type} (E : Env W) (directory mask : CString) : M W Unit := fun st =>
  (Ctl.val (), { st with world := E.delete_files st.world directory mask,
                         log := st.log ++ [Event.delete_files directory mask] })

/-- The block `if(use_fast) ...` before the label (`update4` 137-152,
`update5x_internal` 330-345, `update7` 605-620, `updateA` 858-877): yields
`main_hash_old` and `main_size_old`. -/
def fast_prepare {W : Type} (E : Env W) (manifest : CString) (cache : M W Unit) :
    M W (CString × Int) := do
  let st ← M.get
  if st.use_fast then
    let status ← checksum E Hasher.sha256sum manifest
    match status with
    | none => do
      M.set_use_fast false
      pure ([], 0)
    | some main_hash_old => do
      cache
      pure (main_hash_old, E.get_size st.world manifest)
  else pure ([], 0)

/-- From the label to the test of the new manifest (`update4` 154-178,
`update5x_internal` 347-371, `update7` 622-656, `updateA` 879-902): fast mode is
switched off after a restart, the manifest is downloaded, and in fast mode an
unchanged manifest ends the function with `EXIT_SUCCESS`. -/
def fetch_manifest {W : Type} (E : Env W) (MAX_REPEAT : Int) (manifest : CString)
    (main_hash_old : CString) (main_size_old : Int) : M W Unit := do
  let st ← M.get
  M.log (Event.repeat_label st.counter_global st.use_fast)
  (if st.counter_global > 0 ∧ st.use_fast then M.set_use_fast false else pure ())
  let status ← download E MAX_REPEAT manifest
  (if !DL_SUCCESS status then M.exit (Exit.ret EXIT_FAILURE) else pure ())
  let st ← M.get
  if st.use_fast ∧ E.get_size st.world manifest = main_size_old then
    let r ← checksum E Hasher.sha256sum manifest
    if main_hash_old = r.getD E.stack_garbage then
      M.log Event.nothing_changed
      M.exit (Exit.ret EXIT_SUCCESS)

/-- The three-way test after a `download_check` (`update4` 219-230 and its
copies): restart, fail, or go on. -/
def after_check {W : Type} (MAX_REPEAT : Int) (status : DLStatus) : M W Unit := do
  let st ← M.get
  if status = DL_TRY_AGAIN ∧ st.counter_global < MAX_REPEAT then M.exit Exit.restart
  else if !DL_SUCCESS status then M.exit (Exit.ret EXIT_FAILURE)
  else pure ()

/-- The "wrong size" block (`update5x_internal` 465-470 and its copies). -/
def wrong_size {W α : Type} (MAX_REPEAT : Int) : M W α := do
  let st ← M.get
  if st.counter_global ≥ MAX_REPEAT then M.exit (Exit.ret EXIT_FAILURE)
  else M.exit Exit.restart

/-- Deleting a local `.lzma` file the server does not have (`update4` 238-244,
`update5x_internal` 479-485); `buf` is the path of the `.lzma` file. -/
def delete_stale_lzma {W : Type} (E : Env W) (remotedir buf : CString) : M W Unit := do
  let st ← M.get
  if E.exist st.world buf then
    match strrchr buf '/' with
    | none => M.exit Exit.undef
    | some nm => delete_files E remotedir nm.tail

/-- A `+`, `=` or `!` line in `update4` (201-258). -/
def update4_entry {W : Type} (E : Env W) (MAX_REPEAT : Int) (remotedir buf : CString) :
    M W Unit :=
  match entry_filename remotedir buf, entry_crc_base buf with
  | some filename, some crc_base => do
    let status ← download_check E MAX_REPEAT filename crc_base Hasher.crc32sum
    after_check MAX_REPEAT status
    let buf := filename ++ ".lzma".toList
    let st ← M.get
    if status = DL_DOWNLOADED ∨ E.exist st.world buf then
      let status ← download_check E MAX_REPEAT buf crc_base Hasher.crc32sum_lzma
      if status = DL_NOT_FOUND then delete_stale_lzma E remotedir buf
      else after_check MAX_REPEAT status
  | _, _ => M.exit Exit.undef

/-- A `-` line (`update4` 262-267, `update5x_internal` 537-542). -/
def delete_entry {W : Type} (E : Env W) (remotedir buf : CString) : M W Unit :=
  match strchr buf.tail ',' with
  | none => M.exit Exit.undef
  | some _ => do
    let filename := buf.tail.takeWhile (fun x => x != ',')
    delete_files E remotedir filename
    delete_files E remotedir (filename ++ ".lzma".toList)

/-- The `while(flag)` loop of `update4` (195-269) on the lines of the manifest. -/
def update4_lines {W : Type} (E : Env W) (MAX_REPEAT : Int) (remotedir : CString) :
    List CString → M W Unit
  | [] => pure ()
  | buf :: rest => do
    (if is_download_line buf then update4_entry E MAX_REPEAT remotedir buf
     else if buf.head? = some '-' then delete_entry E remotedir buf
     else pure ())
    update4_lines E MAX_REPEAT remotedir rest

/-- A call of `download` whose status is dropped (the optional files). -/
def download_optional {W : Type} (E : Env W) (MAX_REPEAT : Int) (filename : CString) :
    M W Unit := do
  let _ ← download E MAX_REPEAT filename
  pure ()

/-- One pass of `update4`, from `repeat4` (154) to the final `return` (272). -/
def update4_pass {W : Type} (E : Env W) (MAX_REPEAT : Int) (remotedir : CString)
    (main_hash_old : CString) (main_size_old : Int) : M W Int := do
  fetch_manifest E MAX_REPEAT (remotedir ++ "/drweb32.lst".toList) main_hash_old main_size_old
  download_optional E MAX_REPEAT (remotedir ++ "/drweb32.lst.lzma".toList)
  download_optional E MAX_REPEAT (remotedir ++ "/version.lst".toList)
  download_optional E MAX_REPEAT (remotedir ++ "/version.lst.lzma".toList)
  download_optional E MAX_REPEAT (remotedir ++ "/drweb32.flg".toList)
  download_optional E MAX_REPEAT (remotedir ++ "/drweb32.flg.lzma".toList)
  let st ← M.get
  match E.read_lines st.world (remotedir ++ "/drweb32.lst".toList) with
  | none => M.exit Exit.undef
  | some lines => do
    update4_lines E MAX_REPEAT remotedir lines
    pure EXIT_SUCCESS

/-- The statement `counter_global++;` before a `goto repeatN;`. -/
def next_attempt {W : Type} (st : State W) : State W :=
  { st with counter_global := st.counter_global + 1 }

/-- The `goto` loop of an engine: a pass that ends in `Exit.restart` has
executed `counter_global++; goto repeatN;`. -/
def restart_loop {W : Type} (pass : M W Int) : Nat → M W Int
  | 0 => M.exit Exit.nofuel
  | fuel + 1 => fun st =>
    match pass st with
    | (Ctl.exit Exit.restart, st1) => restart_loop pass fuel (next_attempt st1)
    | r => r

/-- A function body: `return status;` ends it with that value. -/
def M.returning {W : Type} (body : M W Int) : M W Int := fun st =>
  match body st with
  | (Ctl.exit (Exit.ret status), st1) => (Ctl.val status, st1)
  | r => r

/-- The calls `make_path(dir)` and `do_lock(dir)` at the head of each engine. -/
def open_directory {W : Type} (E : Env W) (dir : CString) : M W Unit := do
  let status ← M.io (fun w => E.make_path w dir)
  (if status ≠ EXIT_SUCCESS then M.exit (Exit.ret EXIT_FAILURE) else pure ())
  let status ← M.io (fun w => E.do_lock w dir)
  if status ≠ EXIT_SUCCESS then M.exit (Exit.ret EXIT_FAILURE) else pure ()

/-- `update4()`. -/
def update4 {W : Type} (E : Env W) (MAX_REPEAT : Int) (remotedir : CString) : M W Int :=
  M.returning do
    M.set_counter 0
    open_directory E remotedir
    let old ← fast_prepare E (remotedir ++ "/drweb32.lst".toList) (cache4 E remotedir)
    restart_loop (update4_pass E MAX_REPEAT remotedir old.1 old.2) (MAX_REPEAT.toNat + 1)

/-- The size fields of a v5 / v5.2 line (`update5x_internal` 421-448), from the
pointer `tmp` at the digest: `filesize`, `filesize_lzma`, `has_sha_lzma`,
`sha_lzma_base`.  `none`: `tmp += sizeof(sha_base) - 1` steps over the end of
the string, and what follows is read from memory the model does not track. -/
def entry_sizes (tmp : CString) : Option (Int × Int × Bool × CString) :=
  if tmp.length < 64 then none
  else
    match strchr (tmp.drop 64) ',' with
    | none => some (-1, -1, false, [])
    | some t1 =>
      let filesize := scan_size t1.tail
      match strchr t1.tail ',' with
      | none => some (filesize, -1, false, [])
      | some t2 =>
        let t3 := t2.tail.dropWhile (fun x => x == ' ')
        if t3.length < 64 then none
        else
          match strchr (t3.drop 64) ',' with
          | none => some (filesize, -1, true, bsd_strlcpy t3 65)
          | some t4 => some (filesize, scan_size t4.tail, true, bsd_strlcpy t3 65)

/-- The fields of a `+`, `=` or `!` line in `update5x_internal` (405-448). -/
structure Entry5 where
  filename : CString
  sha_base : CString
  filesize : Int
  filesize_lzma : Int
  has_sha_lzma : Bool
  sha_lzma_base : CString
  deriving DecidableEq, Repr

/-- Parsing of a `+`, `=` or `!` line in `update5x_internal` (405-448). -/
def entry5_parse (remotedir buf : CString) : Option Entry5 :=
  match entry_filename remotedir buf, entry_after_comma buf with
  | some filename, some tmp =>
    match entry_sizes tmp with
    | none => none
    | some z => some { filename := filename, sha_base := bsd_strlcpy tmp 65, filesize := z.1,
                       filesize_lzma := z.2.1, has_sha_lzma := z.2.2.1,
                       sha_lzma_base := z.2.2.2 }
  | _, _ => none

/-- What `update5x_internal` does with the result `status` of the
`download_check` of the `.lzma` file (479-531). -/
def update5x_lzma_status {W : Type} (E : Env W) (MAX_REPEAT : Int) (remotedir : CString)
    (e : Entry5) (status : DLStatus) : M W Unit := do
  let buf := e.filename ++ ".lzma".toList
  let st ← M.get
  if status = DL_NOT_FOUND then delete_stale_lzma E remotedir buf
  else if status = DL_TRY_AGAIN ∧ st.counter_global < MAX_REPEAT then M.exit Exit.restart
  else if !DL_SUCCESS status then M.exit (Exit.ret EXIT_FAILURE)
  else if (e.filesize ≥ 0 ∧ !E.check_size_lzma st.world buf e.filesize) ∨
      (e.filesize_lzma ≥ 0 ∧ !E.check_size st.world buf e.filesize_lzma) then
    wrong_size MAX_REPEAT
  else if !st.use_fast ∧ e.has_sha_lzma then
    let real ← checksum E Hasher.sha256sum buf
    if real ≠ some e.sha_lzma_base then wrong_size MAX_REPEAT

/-- The `.lzma` part of a line in `update5x_internal` (473-533); `status` is the
result of the first `download_check`. -/
def update5x_lzma {W : Type} (E : Env W) (MAX_REPEAT : Int) (remotedir : CString) (e : Entry5)
    (status : DLStatus) : M W Unit := do
  let buf := e.filename ++ ".lzma".toList
  let st ← M.get
  if status = DL_DOWNLOADED ∨ E.exist st.world buf then
    let status ← download_check E MAX_REPEAT buf e.sha_base Hasher.sha256sum_lzma
    update5x_lzma_status E MAX_REPEAT remotedir e status

/-- A `+`, `=` or `!` line in `update5x_internal` (405-533). -/
def update5x_entry {W : Type} (E : Env W) (MAX_REPEAT : Int) (remotedir buf : CString) :
    M W Unit :=
  match entry5_parse remotedir buf with
  | none => M.exit Exit.undef
  | some e => do
    let status ← download_check E MAX_REPEAT e.filename e.sha_base Hasher.sha256sum
    after_check MAX_REPEAT status
    let st ← M.get
    (if e.filesize ≥ 0 ∧ !E.check_size st.world e.filename e.filesize then wrong_size MAX_REPEAT
     else pure ())
    update5x_lzma E MAX_REPEAT remotedir e status

/-- The `while(flag)` loop of `update5x_internal` (399-544). -/
def update5x_lines {W : Type} (E : Env W) (MAX_REPEAT : Int) (remotedir : CString) :
    List CString → M W Unit
  | [] => pure ()
  | buf :: rest => do
    (if is_download_line buf then update5x_entry E MAX_REPEAT remotedir buf
     else if buf.head? = some '-' then delete_entry E remotedir buf
     else pure ())
    update5x_lines E MAX_REPEAT remotedir rest

/-- One pass of `update5x_internal`, from `repeat5` (347) to the final `return`
(547). -/
def update5x_pass {W : Type} (E : Env W) (MAX_REPEAT : Int) (remotedir version_file : CString)
    (main_hash_old : CString) (main_size_old : Int) : M W Int := do
  fetch_manifest E MAX_REPEAT (remotedir ++ '/' :: version_file) main_hash_old main_size_old
  download_optional E MAX_REPEAT (remotedir ++ '/' :: version_file ++ ".lzma".toList)
  download_optional E MAX_REPEAT (remotedir ++ "/drweb32.flg".toList)
  download_optional E MAX_REPEAT (remotedir ++ "/drweb32.flg.lzma".toList)
  (if version_file ≠ "version.lst".toList then do
    download_optional E MAX_REPEAT (remotedir ++ "/version.lst".toList)
    download_optional E MAX_REPEAT (remotedir ++ "/version.lst.lzma".toList)
   else pure ())
  let st ← M.get
  match E.read_lines st.world (remotedir ++ '/' :: version_file) with
  | none => M.exit Exit.undef
  | some lines => do
    update5x_lines E MAX_REPEAT remotedir lines
    pure EXIT_SUCCESS

/-- `update5x_internal(version_file)`. -/
def update5x_internal {W : Type} (E : Env W) (MAX_REPEAT : Int)
    (remotedir version_file : CString) : M W Int :=
  M.returning do
    M.set_counter 0
    open_directory E remotedir
    let old ← fast_prepare E (remotedir ++ '/' :: version_file) (cache5 E remotedir version_file)
    restart_loop (update5x_pass E MAX_REPEAT remotedir version_file old.1 old.2)
      (MAX_REPEAT.toNat + 1)

/-- `update5()`. -/
def update5 {W : Type} (E : Env W) (MAX_REPEAT : Int) (remotedir : CString) : M W Int :=
  update5x_internal E MAX_REPEAT remotedir "version.lst".toList

/-- The pointer `strstr(buf, key) + strlen(key)`; `none` when `strstr` gives
`NULL`. -/
def after_key (buf key : CString) : Option CString :=
  match strstr buf key with
  | none => none
  | some t => some (t.drop key.length)

/-- The fields of a `<xml` or `<lzma` line (`cache7` 577-579, `update7` 677-684
and 744-751): `base_hash`, the file name under `directory`, and `filesize`. -/
def entry7_parse (directory buf : CString) : Option (CString × CString × Int) :=
  match after_key buf ("hash=".toList ++ [QUOTE]), after_key buf ("name=".toList ++ [QUOTE]) with
  | some h, some n =>
    match strchr (directory ++ '/' :: n) QUOTE with
    | none => none
    | some _ =>
      some (bsd_strlcpy h 65, (directory ++ '/' :: n).takeWhile (fun x => x != QUOTE),
        match after_key buf ("size=".toList ++ [QUOTE]) with
        | some t => scan_size t
        | none => -1)
  | _, _ => none

/-- Whether the line describes a file for `cache7` and the outer loop of
`update7`. -/
def is_file_line7 (buf : CString) : Bool :=
  (strstr buf "<xml".toList).isSome || (strstr buf "<lzma".toList).isSome

/-- The loop of `cache7`. -/
def cache7_lines {W : Type} (directory : CString) : List CString → M W Unit
  | [] => pure ()
  | buf :: rest => do
    (if is_file_line7 buf then
      match entry7_parse directory buf with
      | none => M.exit Exit.undef
      | some p => do
        let st ← M.get
        M.set_tree (avl_insert st.tree p.2.1 p.1)
    else pure ())
    cache7_lines directory rest

/-- `cache7(file, directory)`. -/
def cache7 {W : Type} (E : Env W) (file directory : CString) : M W Unit := do
  let st ← M.get
  match E.read_lines st.world file with
  | none => pure ()
  | some lines => cache7_lines directory lines

/-- The part of `s` before its last `c`: the string left by
`* strrchr(s, c) = '\0'`. -/
def before_last (s : CString) (c : Char) : Option CString :=
  match strrchr s c with
  | none => none
  | some t => some (s.take (s.length - t.length))

/-- The test `!exist(filename) && make_path_for(filename) != EXIT_SUCCESS`
(`update7` 686 and 753). -/
def cannot_make_path_for {W : Type} (E : Env W) (filename : CString) : M W Bool := do
  let st ← M.get
  if E.exist st.world filename then pure false
  else do
    let status ← M.io (fun w => E.make_path_for w filename)
    pure (decide (status ≠ EXIT_SUCCESS))

/-- The check of one file in `update7` (700-721 and 761-785): `download_check`,
the three-way test, the size test. -/
def update7_check {W : Type} (E : Env W) (MAX_REPEAT : Int) (filename base_hash : CString)
    (filesize : Int) : M W Unit := do
  let status ← download_check E MAX_REPEAT filename base_hash Hasher.sha256sum
  after_check MAX_REPEAT status
  let st ← M.get
  if filesize ≥ 0 ∧ !E.check_size st.world filename filesize then wrong_size MAX_REPEAT

/-- The inner `while(xflag)` loop of `update7` (733-787). -/
def update7_xlines {W : Type} (E : Env W) (MAX_REPEAT : Int) (directory : CString) :
    List CString → M W Unit
  | [] => pure ()
  | buf :: rest => do
    (if (strstr buf "<lzma".toList).isSome then
      match entry7_parse directory buf with
      | none => M.exit Exit.undef
      | some p => do
        let failed ← cannot_make_path_for E p.2.1
        (if failed then M.exit (Exit.ret EXIT_FAILURE) else pure ())
        update7_check E MAX_REPEAT p.2.1 p.1 p.2.2
    else pure ())
    update7_xlines E MAX_REPEAT directory rest

/-- A `<xml` or `<lzma` line of `versions.xml` in `update7` (666-790). -/
def update7_entry {W : Type} (E : Env W) (MAX_REPEAT : Int) (remotedir buf : CString) :
    M W Unit :=
  match entry7_parse remotedir buf with
  | none => M.exit Exit.undef
  | some p => do
    let failed ← cannot_make_path_for E p.2.1
    (if failed then M.exit (Exit.ret EXIT_FAILURE) else pure ())
    let st ← M.get
    (if !st.tree.isEmpty ∧ st.counter_global = 0 ∧ (strstr buf "<xml".toList).isSome then
      match before_last p.2.1 '/' with
      | none => M.exit Exit.undef
      | some directory => cache7 E p.2.1 directory
    else pure ())
    update7_check E MAX_REPEAT p.2.1 p.1 p.2.2
    if (strstr buf "<xml".toList).isSome then
      let st ← M.get
      match E.read_lines st.world p.2.1, before_last p.2.1 '/' with
      | some xlines, some directory => update7_xlines E MAX_REPEAT directory xlines
      | _, _ => M.exit Exit.undef

/-- The outer `while(flag)` loop of `update7` (661-791). -/
def update7_lines {W : Type} (E : Env W) (MAX_REPEAT : Int) (remotedir : CString) :
    List CString → M W Unit
  | [] => pure ()
  | buf :: rest => do
    (if is_file_line7 buf then update7_entry E MAX_REPEAT remotedir buf else pure ())
    update7_lines E MAX_REPEAT remotedir rest

/-- One pass of `update7`, from `repeat7` (622) to the final `return` (794). -/
def update7_pass {W : Type} (E : Env W) (MAX_REPEAT : Int) (remotedir : CString)
    (main_hash_old : CString) (main_size_old : Int) : M W Int := do
  fetch_manifest E MAX_REPEAT (remotedir ++ "/versions.xml".toList) main_hash_old main_size_old
  let st ← M.get
  match E.read_lines st.world (remotedir ++ "/versions.xml".toList) with
  | none => M.exit Exit.undef
  | some lines => do
    update7_lines E MAX_REPEAT remotedir lines
    pure EXIT_SUCCESS

/-- `update7()`. -/
def update7 {W : Type} (E : Env W) (MAX_REPEAT : Int) (remotedir : CString) : M W Int :=
  M.returning do
    M.set_counter 0
    open_directory E remotedir
    let old ← fast_prepare E (remotedir ++ "/versions.xml".toList)
      (cache7 E (remotedir ++ "/versions.xml".toList) remotedir)
    restart_loop (update7_pass E MAX_REPEAT remotedir old.1 old.2) (MAX_REPEAT.toNat + 1)

/-! ## `drwebmirror.c`: the Android engine -/

/-- The conversion `%[^,]` of `sscanf`: a non-empty run of characters other than
a comma, and the rest. -/
def scan_not_comma (s : CString) : Option (CString × CString) :=
  match s.span (fun x => x != ',') with
  | ([], _) => none
  | (m, rest) => some (m, rest)

/-- The format text `", "` of `sscanf`: a comma, then any white space. -/
def scan_comma (s : CString) : Option CString :=
  match s with
  | ',' :: rest => some (rest.dropWhile isspace)
  | _ => none

/-- The conversion `%s` of `sscanf`: white space is skipped, then a non-empty
run of characters that are not white space is stored. -/
def scan_word (s : CString) : Option CString :=
  match (s.dropWhile isspace).span (fun x => !isspace x) with
  | ([], _) => none
  | (m, _) => some m

/-- Modelled from the spec: `to_lowercase` is not among the sources; the spec
says that the Android MD5 is lowercased on parse. -/
def to_lowercase (s : CString) : CString := s.map Char.toLower

/-- The tail `", %[^,], %*[^,], %*[^,], %s"` shared by the formats of `cacheA`
(818) and `updateA` (922): `md5_base` and `filename_base`.  `none`: one of the
two arrays is left unwritten, or `md5_base[33]` is overrun. -/
def scanA_tail (s : CString) : Option (CString × CString) := do
  let s ← scan_comma s
  let md5 ← scan_not_comma s
  let s ← scan_comma md5.2
  let f5 ← scan_not_comma s
  let s ← scan_comma f5.2
  let f6 ← scan_not_comma s
  let s ← scan_comma f6.2
  let filename_base ← scan_word s
  if md5.1.length ≤ 32 then some (md5.1, filename_base) else none

/-- The head `"%*[^,], %lx"` of both formats: `file_op` (initialised to `0`) and
the rest of the input when the conversion was done. -/
def scanA_file_op (buf : CString) : Nat × Option CString :=
  match scan_not_comma buf with
  | none => (0, none)
  | some f1 =>
    match scan_comma f1.2 with
    | none => (0, none)
    | some s =>
      match scan_ulong 16 s with
      | none => (0, none)
      | some r => (r.1, some r.2)

/-- The `sscanf` of `updateA` (922): `file_op`, `filesize_ul`, `md5_base`,
`filename_base`.  `none`: `filename_base` or `md5_base` is read without having
been written. -/
def entryA_parse (buf : CString) : Option (Nat × Nat × CString × CString) :=
  match scanA_file_op buf with
  | (_, none) => none
  | (file_op, some s) =>
    match scan_comma s with
    | none => none
    | some s1 =>
      match scan_ulong 16 s1 with
      | none => none
      | some r =>
        match scanA_tail r.2 with
        | none => none
        | some t => some (file_op, r.1, t.1, t.2)

/-- The `sscanf` of `cacheA` (818), whose third conversion is `%*[^,]`:
`file_op` and, when they were written, `md5_base` and `filename_base`. -/
def entryA_cache_parse (buf : CString) : Nat × Option (CString × CString) :=
  match scanA_file_op buf with
  | (file_op, none) => (file_op, none)
  | (file_op, some s) =>
    (file_op,
      match scan_comma s with
      | none => none
      | some s1 =>
        match scan_not_comma s1 with
        | none => none
        | some f3 => scanA_tail f3.2)

/-- The loop of `cacheA`; `flag_files` tells whether `[Files]` has been seen. -/
def cacheA_lines {W : Type} (directory : CString) : Bool → List CString → M W Unit
  | _, [] => pure ()
  | true, buf :: rest =>
    if buf.head? = some '[' ∨ buf.length < 84 then pure ()
    else do
      (match entryA_cache_parse buf with
      | (0, some t) => do
        let st ← M.get
        M.set_tree (avl_insert st.tree (directory ++ '/' :: t.2) (to_lowercase t.1))
      | (0, none) => M.exit Exit.undef
      | _ => pure ())
      cacheA_lines directory true rest
  | false, buf :: rest =>
    cacheA_lines directory (starts_with buf "[Files]".toList) rest

/-- `cacheA(directory)`. -/
def cacheA {W : Type} (E : Env W) (remotedir directory : CString) : M W Unit := do
  let st ← M.get
  match E.read_lines_lf st.world remotedir with
  | none => pure ()
  | some lines => cacheA_lines directory false lines

/-- An entry line of the `[Files]` section in `updateA` (916-971). -/
def updateA_entry {W : Type} (E : Env W) (MAX_REPEAT : Int) (real_dir buf : CString) :
    M W Unit :=
  match entryA_parse buf with
  | none => M.exit Exit.undef
  | some (file_op, filesize_ul, md5, filename_base) => do
    let filename := real_dir ++ '/' :: filename_base
    let md5_base := to_lowercase md5
    let filesize := to_off_t filesize_ul
    if file_op = 0 then
      let status ← download_check E MAX_REPEAT filename md5_base Hasher.md5sum
      after_check MAX_REPEAT status
      let st ← M.get
      if !E.check_size st.world filename filesize then wrong_size MAX_REPEAT
    else if file_op = 2 then
      let st ← M.get
      if E.exist st.world filename then delete_files E real_dir filename_base
    else M.exit (Exit.ret EXIT_FAILURE)

/-- The `while(flag)` loop of `updateA` (906-979). -/
def updateA_lines {W : Type} (E : Env W) (MAX_REPEAT : Int) (real_dir : CString) :
    Bool → List CString → M W Unit
  | _, [] => pure ()
  | true, buf :: rest =>
    if buf.head? = some '[' ∨ buf.length < 84 then pure ()
    else do
      updateA_entry E MAX_REPEAT real_dir buf
      updateA_lines E MAX_REPEAT real_dir true rest
  | false, buf :: rest =>
    updateA_lines E MAX_REPEAT real_dir (starts_with buf "[Files]".toList) rest

/-- One pass of `updateA`, from `repeatA` (879) to the final `return` (982). -/
def updateA_pass {W : Type} (E : Env W) (MAX_REPEAT : Int) (remotedir real_dir : CString)
    (main_hash_old : CString) (main_size_old : Int) : M W Int := do
  fetch_manifest E MAX_REPEAT remotedir main_hash_old main_size_old
  let st ← M.get
  match E.read_lines_lf st.world remotedir with
  | none => M.exit Exit.undef
  | some lines => do
    updateA_lines E MAX_REPEAT real_dir false lines
    pure EXIT_SUCCESS

/-- `updateA()`. -/
def updateA {W : Type} (E : Env W) (MAX_REPEAT : Int) (remotedir : CString) : M W Int :=
  match before_last remotedir '/' with
  | none => M.exit Exit.undef
  | some real_dir =>
    M.returning do
      M.set_counter 0
      open_directory E real_dir
      let old ← fast_prepare E remotedir (cacheA E remotedir real_dir)
      restart_loop (updateA_pass E MAX_REPEAT remotedir real_dir old.1 old.2)
        (MAX_REPEAT.toNat + 1)

/-! ## A small concrete environment

Files and server resources are association lists from path to content; the
digest of a file under every hasher is its content, its size is its length. -/

/-- A concrete world: local files and what the server holds for each path. -/
structure SmallWorld where
  files : List (CString × CString)
  server : List (CString × CString)
  deriving DecidableEq, Repr

/-- Content stored under a path. -/
def SmallWorld.lookup (m : List (CString × CString)) (k : CString) : Option CString :=
  (m.find? (fun kv => kv.1 == k)).map Prod.snd

/-- Store content under a path. -/
def SmallWorld.store (m : List (CString × CString)) (k v : CString) :
    List (CString × CString) :=
  (k, v) :: m.filter (fun kv => kv.1 != k)

/-- Lines of a text: split at line feeds, empty lines dropped.  A carriage
return and the blanks at the head of a line are kept, unlike `fscanf`, whose
white space directive takes them; the manifests of the examples have neither,
and there the lines are those of `scan_lines`. -/
def SmallWorld.lines (text : CString) : List CString :=
  (text.splitOn '\n').filter (fun l => !l.isEmpty)

/-- The concrete environment over `SmallWorld`. -/
def smallEnv : Env SmallWorld where
  exist w f := (SmallWorld.lookup w.files f).isSome
  get_size w f := match SmallWorld.lookup w.files f with
    | some c => (c.length : Int)
    | none => -1
  checksum _ w f := SmallWorld.lookup w.files f
  check_size w f n := match SmallWorld.lookup w.files f with
    | some c => decide ((c.length : Int) = n)
    | none => false
  check_size_lzma w f n := match SmallWorld.lookup w.files f with
    | some c => decide ((c.length : Int) = n)
    | none => false
  conn_get w f := match SmallWorld.lookup w.server f with
    | some c => (0, { w with files := SmallWorld.store w.files f c })
    | none => (404, w)
  delete_files w d m :=
    { w with files := w.files.filter (fun kv => kv.1 != d ++ '/' :: m) }
  make_path w _ := (0, w)
  make_path_for w _ := (0, w)
  do_lock w _ := (0, w)
  read_lines w f := (SmallWorld.lookup w.files f).map SmallWorld.lines
  read_lines_lf w f := (SmallWorld.lookup w.files f).map SmallWorld.lines
  stack_garbage := []

/-- A state over the concrete world with an empty log. -/
def smallState (files server : List (CString × CString)) (use_fast : Bool) (tree : AvlTree) :
    State SmallWorld :=
  { world := { files := files, server := server }, use_fast := use_fast, tree := tree,
    counter_global := 0, log := [] }

/-! ## Specification predicates -/

/-- Events that code below the label may log while `counter_global = c` and
`use_fast = f`: a `download_check` event records exactly these two values. -/
def Event.in_pass (c : Int) (f : Bool) : Event → Prop
  | Event.download_check c1 f1 _ _ _ => c1 = c ∧ f1 = f
  | Event.repeat_label _ _ => False
  | Event.nothing_changed => False
  | _ => True

/-- The state after a piece of code below the label: `use_fast` and
`counter_global` are kept and the log has grown by events of the pass. -/
def Grows {W : Type} (st st1 : State W) : Prop :=
  st1.use_fast = st.use_fast ∧ st1.counter_global = st.counter_global ∧
  ∃ evs, st1.log = st.log ++ evs ∧ ∀ e ∈ evs, Event.in_pass st.counter_global st.use_fast e

/-- Code below the label: it relates the states by `Grows`, never runs out of
fuel, leaves through `goto repeatN` only while `counter_global < MAX_REPEAT`,
and never through `return EXIT_SUCCESS`. -/
def Obeys {W α : Type} (MAX_REPEAT : Int) (m : M W α) : Prop :=
  ∀ st, Grows st (m st).2 ∧ (m st).1 ≠ Ctl.exit Exit.nofuel ∧
    ((m st).1 = Ctl.exit Exit.restart → st.counter_global < MAX_REPEAT) ∧
    (m st).1 ≠ Ctl.exit (Exit.ret EXIT_SUCCESS)

/-- The state in which `download_check` goes on after its call was logged. -/
def noted {W : Type} (filename checksum_base : CString) (func : Hasher) (st : State W) :
    State W :=
  { st with log := st.log ++
      [Event.download_check st.counter_global st.use_fast filename checksum_base func] }

/-- The flag that an event records. -/
def Event.flag : Event → Option Bool
  | Event.repeat_label _ f => some f
  | Event.download_check _ f _ _ _ => some f
  | _ => none

/-- The counter that a label event records. -/
def Event.label : Event → Option Int
  | Event.repeat_label c _ => some c
  | _ => none

/-- What one pass of an engine does to the state, from the label on. -/
def PassOK {W : Type} (MAX_REPEAT : Int) (manifest : CString) (pass : M W Int) : Prop :=
  ∀ st, (pass st).2.counter_global = st.counter_global ∧
    (pass st).2.use_fast = (st.use_fast && decide (st.counter_global ≤ 0)) ∧
    (pass st).1 ≠ Ctl.exit Exit.nofuel ∧
    ((pass st).1 = Ctl.exit Exit.restart → st.counter_global < MAX_REPEAT) ∧
    ((pass st).1 = Ctl.exit (Exit.ret EXIT_SUCCESS) → (pass st).2.use_fast = true) ∧
    ∃ evs, (pass st).2.log = st.log ++
        Event.repeat_label st.counter_global st.use_fast :: Event.download manifest :: evs ∧
      (∀ e ∈ evs, Event.label e = none) ∧
      (∀ c f p b h, Event.download_check c f p b h ∈ evs →
        c = st.counter_global ∧ f = (pass st).2.use_fast) ∧
      (Event.nothing_changed ∈ evs → (pass st).1 = Ctl.exit (Exit.ret EXIT_SUCCESS) ∧
        ∃ k r, evs = List.replicate (k + 1) (Event.conn_get manifest) ++
          [Event.checksum Hasher.sha256sum manifest r, Event.nothing_changed])

/-- The state after the label: the event is logged and fast mode is off after a
restart. -/
def after_label {W : Type} (st : State W) : State W :=
  { st with use_fast := st.use_fast && decide (st.counter_global ≤ 0),
            log := st.log ++ [Event.repeat_label st.counter_global st.use_fast] }

/-- The events of consecutive passes: pass number `i` logs its label with
counter `c + i`, downloads the manifest, and goes on with its own events. -/
def pass_events (manifest : CString) : Int → List (Bool × List Event) → List Event
  | _, [] => []
  | c, s :: rest =>
    Event.repeat_label c s.1 :: Event.download manifest :: s.2 ++
      pass_events manifest (c + 1) rest

/-- What a run of the restart loop does to the state. -/
def RunOK {W : Type} (MAX_REPEAT : Int) (manifest : CString) (st : State W) (res : Ctl Int)
    (st1 : State W) : Prop :=
  res ≠ Ctl.exit Exit.nofuel ∧ res ≠ Ctl.exit Exit.restart ∧
  (st1.use_fast = true → st.use_fast = true) ∧
  ∃ (segs : List (Bool × List Event)) (evs : List Event),
    st1.log = st.log ++ evs ∧ evs = pass_events manifest st.counter_global segs ∧
    (∀ s ∈ segs, ∀ e ∈ s.2, Event.label e = none) ∧
    st1.counter_global + 1 = st.counter_global + segs.length ∧
    (2 ≤ segs.length → st1.counter_global ≤ MAX_REPEAT) ∧
    (∀ c f p b h, Event.download_check c f p b h ∈ evs → 0 < c → f = false) ∧
    (evs.filterMap Event.flag).Pairwise (fun a b => a = false → b = false) ∧
    (∀ b ∈ evs.filterMap Event.flag, b = true → st.use_fast = true) ∧
    (∀ b ∈ evs.filterMap Event.flag, st1.use_fast = true → b = true) ∧
    (Event.nothing_changed ∈ evs → res = Ctl.exit (Exit.ret EXIT_SUCCESS) ∧
      ∃ pre k r, evs = pre ++ Event.download manifest ::
        List.replicate (k + 1) (Event.conn_get manifest) ++
          [Event.checksum Hasher.sha256sum manifest r, Event.nothing_changed])

/-- Code that logs nothing, keeps `use_fast`, `counter_global` and the world, and
leaves the normal flow only through undefined behaviour. -/
def Quiet {W α : Type} (m : M W α) : Prop :=
  ∀ st, (m st).2.log = st.log ∧ (m st).2.use_fast = st.use_fast ∧
    (m st).2.counter_global = st.counter_global ∧ (m st).2.world = st.world ∧
    ((∃ a, (m st).1 = Ctl.val a) ∨ (m st).1 = Ctl.exit Exit.undef)

/-- The shape shared by the engines once the local directory is known. -/
def engine {W : Type} (E : Env W) (MAX_REPEAT : Int) (dir manifest : CString)
    (cache : M W Unit) (pass : CString → Int → M W Int) : M W Int :=
  M.returning do
    M.set_counter 0
    open_directory E dir
    let old ← fast_prepare E manifest cache
    restart_loop (pass old.1 old.2) (MAX_REPEAT.toNat + 1)

/-- What a call of an engine does to the state. -/
def EngineOK {W : Type} (MAX_REPEAT : Int) (manifest : CString) (st : State W) (res : Ctl Int)
    (st1 : State W) : Prop :=
  ((∃ status, res = Ctl.val status) ∨ res = Ctl.exit Exit.undef) ∧
  ∃ (st0 : State W) (pre : List Event),
    st0.log = st.log ++ pre ∧
    (∀ e ∈ pre, ∃ r, e = Event.checksum Hasher.sha256sum manifest r) ∧
    (st0.use_fast = true → st.use_fast = true) ∧
    ((st1.log = st0.log ∧ st1.use_fast = st0.use_fast) ∨
      (st0.counter_global = 0 ∧ ∃ res0, RunOK MAX_REPEAT manifest st0 res0 st1 ∧
        (res0 = res ∨ ∃ status, res0 = Ctl.exit (Exit.ret status) ∧ res = Ctl.val status)))

/-- Code before the label: it logs at most checksum events of the manifest, keeps
`counter_global`, and can only switch fast mode off. -/
def Prelude {W α : Type} (manifest : CString) (m : M W α) : Prop :=
  ∀ st, ((∃ a, (m st).1 = Ctl.val a) ∨ (m st).1 = Ctl.exit (Exit.ret EXIT_FAILURE) ∨
      (m st).1 = Ctl.exit Exit.undef) ∧
    (m st).2.counter_global = st.counter_global ∧
    ((m st).2.use_fast = true → st.use_fast = true) ∧
    ∃ pre, (m st).2.log = st.log ++ pre ∧
      ∀ e ∈ pre, ∃ r, e = Event.checksum Hasher.sha256sum manifest r

/-- Fast mode along a run from `st` to `st1`: every `download_check` that was
called with `counter_global > 0` saw `use_fast = 0`, and the values of `use_fast`
recorded at the labels and gate calls never go from `0` back to `1`, from the
value at the start to the value at the end. -/
def FastOffAfterRestart {W : Type} (st st1 : State W) : Prop :=
  ∃ evs, st1.log = st.log ++ evs ∧
    (∀ c f p b h, Event.download_check c f p b h ∈ evs → 0 < c → f = false) ∧
    (evs.filterMap Event.flag).Pairwise (fun a b => a = false → b = false) ∧
    (∀ b ∈ evs.filterMap Event.flag, b = true → st.use_fast = true) ∧
    (∀ b ∈ evs.filterMap Event.flag, st1.use_fast = true → b = true) ∧
    (st1.use_fast = true → st.use_fast = true)

/-- Whether the event is a call of `download`. -/
def Event.is_download : Event → Bool
  | Event.download _ => true
  | _ => false

/-- The state in which `download_check` stands after the first call of the
checksum function, when the fast check did not apply. -/
def hashed {W : Type} (E : Env W) (filename checksum_base : CString) (func : Hasher)
    (st : State W) : State W :=
  { noted filename checksum_base func st with
    log := (noted filename checksum_base func st).log ++
      [Event.checksum func filename (E.checksum func st.world filename)] }

/-- Reference decision of the gate, after steps 2 to 4 of the spec: (2) if the
file exists and its recomputed digest equals the expected one the result is
`EXIST`; (3) otherwise the transport is invoked, `NOT_FOUND` stays `NOT_FOUND` and
a failure gives `FAILED`; (4) after a download the digest is recomputed, equal
gives `DOWNLOADED`, unequal gives `TRY_AGAIN`, and a digest that cannot be
computed gives `FAILED`. -/
def gate_reference (expected : CString) (file_exists : Bool) (digest_before : Option CString)
    (transport : DLStatus) (digest_after : Option CString) : DLStatus :=
  if file_exists = true ∧ digest_before = some expected then DL_EXIST
  else
    match transport with
    | DL_NOT_FOUND => DL_NOT_FOUND
    | DL_DOWNLOADED =>
      match digest_after with
      | some digest => if digest = expected then DL_DOWNLOADED else DL_TRY_AGAIN
      | none => DL_FAILED
    | _ => DL_FAILED

/-- The decision of `download_check` when its fast check does not apply.  With
`transport` the result of the one call of `download` that follows a digest
other than the expected one: the status is the one `gate_reference` gives; an
equal digest of the file as it is gives `DL_EXIST` without any call of
`download`; otherwise `download` is called exactly once, a result other than
`DL_DOWNLOADED` is returned as it is in the state `download` left, and after
`DL_DOWNLOADED` the file is hashed once more. -/
def SlowGate {W : Type} (E : Env W) (MAX_REPEAT : Int) (filename checksum_base : CString)
    (func : Hasher) (st : State W) : Prop :=
    ∃ (transport : DLStatus) (st1 : State W),
      download E MAX_REPEAT filename (hashed E filename checksum_base func st) =
        (Ctl.val transport, st1) ∧
      (download_check E MAX_REPEAT filename checksum_base func st).1 =
        Ctl.val (gate_reference checksum_base (E.exist st.world filename)
          (E.checksum func st.world filename) transport
          (E.checksum func st1.world filename)) ∧
      (E.checksum func st.world filename = some checksum_base →
        download_check E MAX_REPEAT filename checksum_base func st =
          (Ctl.val DL_EXIST, hashed E filename checksum_base func st) ∧
        (((hashed E filename checksum_base func st).log.drop st.log.length).countP
          Event.is_download = 0)) ∧
      (E.checksum func st.world filename ≠ some checksum_base →
        (((download_check E MAX_REPEAT filename checksum_base func st).2.log.drop
          st.log.length).countP Event.is_download = 1) ∧
        (transport ≠ DL_DOWNLOADED →
          download_check E MAX_REPEAT filename checksum_base func st =
            (Ctl.val transport, st1)) ∧
        (transport = DL_DOWNLOADED →
          download_check E MAX_REPEAT filename checksum_base func st =
            (Ctl.val (match E.checksum func st1.world filename with
              | none => DL_FAILED
              | some real => if checksum_base ≠ real then DL_TRY_AGAIN else DL_DOWNLOADED),
             { st1 with log := st1.log ++
                 [Event.checksum func filename (E.checksum func st1.world filename)] })))

/-- A state of the concrete world in fast mode: the local file `d/a` holds `XY`
while the index built from the previous manifest holds the digest `AB` for it. -/
def stale_state : State SmallWorld :=
  smallState [("d/a".toList, "XY".toList)] [("d/a".toList, "AB".toList)] true
    [("d/a".toList, "AB".toList)]

/-- The same world with fast mode off. -/
def plain_state : State SmallWorld :=
  smallState [("d/a".toList, "XY".toList)] [("d/a".toList, "AB".toList)] false []

/-! ### The unchanged manifest in fast mode -/

/-- The state in which the index is built: the prior manifest has been hashed. -/
def prior_hashed {W : Type} (manifest hash_old : CString) (sa : State W) : State W :=
  { sa with log := sa.log ++ [Event.checksum Hasher.sha256sum manifest (some hash_old)] }

/-- The situation of an unchanged manifest for an engine with local directory
`dir`, main manifest `manifest` and index builder `cache`, started in `st`: fast
mode is on, the directory is made and locked, the prior manifest on disk has
the SHA-256 `hash_old`, the index is built, the download of the manifest
succeeds, and the downloaded manifest has the size and the SHA-256 of the prior
one. -/
def UnchangedManifest {W : Type} (E : Env W) (MAX_REPEAT : Int) (dir manifest : CString)
    (cache : M W Unit) (hash_old : CString) (st : State W) : Prop :=
  st.use_fast = true ∧
  (open_directory E dir { st with counter_global := 0 }).1 = Ctl.val () ∧
  E.checksum Hasher.sha256sum
    (open_directory E dir { st with counter_global := 0 }).2.world manifest = some hash_old ∧
  (cache (prior_hashed manifest hash_old
    (open_directory E dir { st with counter_global := 0 }).2)).1 = Ctl.val () ∧
  (download E MAX_REPEAT manifest (after_label (cache (prior_hashed manifest hash_old
    (open_directory E dir { st with counter_global := 0 }).2)).2)).1 = Ctl.val DL_DOWNLOADED ∧
  E.get_size (download E MAX_REPEAT manifest (after_label (cache (prior_hashed manifest hash_old
      (open_directory E dir { st with counter_global := 0 }).2)).2)).2.world manifest =
    E.get_size (open_directory E dir { st with counter_global := 0 }).2.world manifest ∧
  E.checksum Hasher.sha256sum (download E MAX_REPEAT manifest (after_label
    (cache (prior_hashed manifest hash_old
      (open_directory E dir { st with counter_global := 0 }).2)).2)).2.world manifest =
    some hash_old

/-- The short circuit: the engine returns `EXIT_SUCCESS`, and all it has done is
to hash the prior manifest, pass the label once, download the manifest (one call
of `download`), hash the new manifest and report that nothing was changed. -/
def ShortCircuit {W : Type} (manifest hash_old : CString) (st : State W) (res : Ctl Int)
    (st1 : State W) : Prop :=
  res = Ctl.val EXIT_SUCCESS ∧
  ∃ k, st1.log = st.log ++
    ([Event.checksum Hasher.sha256sum manifest (some hash_old), Event.repeat_label 0 true,
      Event.download manifest] ++ List.replicate (k + 1) (Event.conn_get manifest) ++
     [Event.checksum Hasher.sha256sum manifest (some hash_old), Event.nothing_changed])

/-- No short circuit before the download: whenever a run reports that nothing
was changed, this is the last thing it does, directly after a call of `download`
for the manifest and a call of `sha256sum` on the downloaded manifest. -/
def ShortCircuitLate {W : Type} (manifest : CString) (st st1 : State W) : Prop :=
  ∀ evs, st1.log = st.log ++ evs → Event.nothing_changed ∈ evs →
    ∃ pre k r, evs = pre ++ Event.download manifest ::
      List.replicate (k + 1) (Event.conn_get manifest) ++
        [Event.checksum Hasher.sha256sum manifest r, Event.nothing_changed]

/-- A state of the concrete world after an earlier run: the manifest `+a, AB` is
on disk and on the server, the server holds `AB` for `d/a`, and the local file
`d/a` has been changed to `XY` since. -/
def mutated_state (use_fast : Bool) : State SmallWorld :=
  smallState [("d/drweb32.lst".toList, "+a, AB".toList), ("d/a".toList, "XY".toList)]
    [("d/drweb32.lst".toList, "+a, AB".toList), ("d/a".toList, "AB".toList)] use_fast []

/-- Whether the event is a call of `download_check` for the given file and
checksum function. -/
def Event.is_check_of (filename : CString) (func : Hasher) : Event → Bool
  | Event.download_check _ _ p _ h => p == filename && h == func
  | _ => false

/-! ### The `.lzma` sibling of an entry -/

/-- The code run on a line goes on, from state `s1`, with a call of
`download_check` for `lzma` with expected checksum `base` and function `func`. -/
def RunsLzmaGate {W : Type} (s1 : State W) (lzma base : CString) (func : Hasher)
    (res : Ctl Unit × State W) : Prop :=
  ∃ evs, res.2.log = s1.log ++
    Event.download_check s1.counter_global s1.use_fast lzma base func :: evs

/-- A state in which `d/a` is present with the listed checksum and there is
no `d/a.lzma`, neither locally nor on the server. -/
def present_state : State SmallWorld :=
  smallState [("d/a".toList, "AB".toList)] [("d/a".toList, "AB".toList)] false []

/-- A state in which `d/a` and `d/a.lzma` are present with the listed checksum. -/
def present_lzma_state : State SmallWorld :=
  smallState [("d/a".toList, "AB".toList), ("d/a.lzma".toList, "AB".toList)] [] false []

/-! ### Entries checked by a run with fast mode off -/

/-- Code that, started with fast mode off and ending normally, leaves fast mode
off and extends the log by events that satisfy `Q`. -/
def Verifies {W α : Type} (m : M W α) (Q : List Event → Prop) : Prop :=
  ∀ st a st1, st.use_fast = false → m st = (Ctl.val a, st1) →
    st1.use_fast = false ∧ ∃ evs, st1.log = st.log ++ evs ∧ Q evs

/-- What the log of a `+`, `=` or `!` line of `drweb32.lst` has to hold: the
checksum function was called on the file and gave the listed value. -/
def checked4 (remotedir buf : CString) (evs : List Event) : Prop :=
  ∃ filename crc_base, entry_filename remotedir buf = some filename ∧
    entry_crc_base buf = some crc_base ∧
    Event.checksum Hasher.crc32sum filename (some crc_base) ∈ evs

/-- What the log of the loop of `update4` has to hold for the lines of
`drweb32.lst`. -/
def verified4 (remotedir : CString) (lines : List CString) (evs : List Event) : Prop :=
  ∀ buf ∈ lines, is_download_line buf = true → checked4 remotedir buf evs

/-- What the log of a `+`, `=` or `!` line of a v5 / v5.2 manifest has to hold. -/
def checked5 (remotedir buf : CString) (evs : List Event) : Prop :=
  ∃ e, entry5_parse remotedir buf = some e ∧
    Event.checksum Hasher.sha256sum e.filename (some e.sha_base) ∈ evs

/-- What the log of the loop of `update5x_internal` has to hold for the lines
of the manifest. -/
def verified5 (remotedir : CString) (lines : List CString) (evs : List Event) : Prop :=
  ∀ buf ∈ lines, is_download_line buf = true → checked5 remotedir buf evs

/-- What the log has to hold for a line of a file description in `update7`:
the checksum function gave the value of `hash=` for the file of `name=`. -/
def checked7 (directory buf : CString) (evs : List Event) : Prop :=
  ∃ p, entry7_parse directory buf = some p ∧
    Event.checksum Hasher.sha256sum p.2.1 (some p.1) ∈ evs

/-- What the log of the loop of `update7` has to hold for the lines of
`versions.xml`: each `<xml` or `<lzma` line is checked, and for each `<xml`
line every `<lzma` line of the file it names, as read in some world `w`, is
checked as well. -/
def verified7 {W : Type} (E : Env W) (remotedir : CString) (lines : List CString)
    (evs : List Event) : Prop :=
  ∀ buf ∈ lines, is_file_line7 buf = true →
    checked7 remotedir buf evs ∧
    ((strstr buf "<xml".toList).isSome = true →
      ∃ (p : CString × CString × Int) (w : W) (xlines : List CString) (directory : CString),
        entry7_parse remotedir buf = some p ∧ E.read_lines w p.2.1 = some xlines ∧
        before_last p.2.1 '/' = some directory ∧
        ∀ xbuf ∈ xlines, (strstr xbuf "<lzma".toList).isSome = true →
          checked7 directory xbuf evs)

/-- The lines that the loop of `updateA` treats as entries: those after the
line `[Files]` up to the next line that begins with `[` or is shorter than 84
characters. -/
def filesA : Bool → List CString → List CString
  | _, [] => []
  | true, buf :: rest =>
    if buf.head? = some '[' ∨ buf.length < 84 then [] else buf :: filesA true rest
  | false, buf :: rest => filesA (starts_with buf "[Files]".toList) rest

/-- What the log has to hold for an entry line of `updateA` with `file_op = 0`. -/
def checkedA (real_dir buf : CString) (evs : List Event) : Prop :=
  ∃ file_op filesize md5 filename_base,
    entryA_parse buf = some (file_op, filesize, md5, filename_base) ∧
    (file_op = 0 → Event.checksum Hasher.md5sum (real_dir ++ '/' :: filename_base)
      (some (to_lowercase md5)) ∈ evs)

/-- What the log of the loop of `updateA` has to hold for the lines of the
manifest. -/
def verifiedA (real_dir : CString) (lines : List CString) (evs : List Event) : Prop :=
  ∀ buf ∈ filesA false lines, checkedA real_dir buf evs

/-- A state of the concrete world in fast mode whose manifest is out of date
for `d/b` only, while the local file `d/a` no longer has the listed checksum. -/
def drift_state : State SmallWorld :=
  smallState [("d/drweb32.lst".toList, "+a, AB\n+b, CD".toList), ("d/a".toList, "XY".toList),
      ("d/b".toList, "CD".toList)]
    [("d/drweb32.lst".toList, "+a, AB\n+b, EF".toList), ("d/a".toList, "AB".toList),
      ("d/b".toList, "EF".toList)] true []

/-- A state of the concrete world with fast mode off and an empty directory;
the manifest of the server lists `a` and then deletes it. -/
def add_delete_state : State SmallWorld :=
  smallState [] [("d/drweb32.lst".toList, "+a, AB\n-a, ".toList), ("d/a".toList, "AB".toList)]
    false []

/-- The run of an engine from `st` to `st1` ended with a complete run of the
loop over the lines of the manifest as it was read in state `s`, with fast mode
off, and the events of that loop satisfy `spec`. -/
def SyncVerified {W : Type} (read : W → Option (List CString))
    (loop : List CString → M W Unit) (spec : List CString → List Event → Prop)
    (st st1 : State W) : Prop :=
  ∃ (s : State W) (lines : List CString) (pre evs : List Event),
    s.use_fast = false ∧ s.log = st.log ++ pre ∧ read s.world = some lines ∧
    loop lines s = (Ctl.val (), st1) ∧ st1.log = s.log ++ evs ∧ spec lines evs

/-- A pass, or the rest of one: when it is started with fast mode off and
returns `EXIT_SUCCESS` through its last statement, the loop over the lines of
the manifest has run to its end and its events satisfy `spec`. -/
def Completes {W : Type} (read : W → Option (List CString))
    (loop : List CString → M W Unit) (spec : List CString → List Event → Prop)
    (m : M W Int) : Prop :=
  ∀ st st1, st.use_fast = false → m st = (Ctl.val EXIT_SUCCESS, st1) →
    SyncVerified read loop spec st st1

/-! ### A run again over a changed file -/

/-- Code that keeps the property `P` of the world. -/
def KeepsWorld {W α : Type} (P : W → Prop) (m : M W α) : Prop :=
  ∀ st, P st.world → P (m st).2.world

/-- The events of a `download_check` that found another digest than `D`,
downloaded the file and then found `D`, followed by further events `rest`. -/
def Healed {W : Type} (E : Env W) (func : Hasher) (filename D : CString)
    (s st1 : State W) : Prop :=
  ∃ (k : Nat) (rest : List Event),
    st1.log = s.log ++
      ([Event.download_check s.counter_global s.use_fast filename D func,
        Event.checksum func filename (E.checksum func s.world filename),
        Event.download filename] ++ List.replicate (k + 1) (Event.conn_get filename) ++
        [Event.checksum func filename (some D)] ++ rest)

/-- The digest of `filename` is not changed by a request for its `.lzma`
sibling nor by deleting the name of that sibling in `remotedir`. -/
def SiblingFrame {W : Type} (E : Env W) (func : Hasher) (remotedir filename : CString) : Prop :=
  (∀ w, E.checksum func (E.conn_get w (filename ++ ".lzma".toList)).2 filename =
    E.checksum func w filename) ∧
  (∀ w nm, strrchr (filename ++ ".lzma".toList) '/' = some nm →
    E.checksum func (E.delete_files w remotedir nm.tail) filename = E.checksum func w filename)

/-- The server of the mirroring scenario: a manifest with one line and its file. -/
def mirror_server : List (CString × CString) :=
  [("d/drweb32.lst".toList, "+a, AB".toList), ("d/a".toList, "AB".toList)]

/-- The state after a first run of `update4` into an empty directory. -/
def first_run : State SmallWorld :=
  (update4 smallEnv 3 "d".toList (smallState [] mirror_server true [])).2

/-- The state in which the engine is run again: the files of the first run,
with `d/a` overwritten by `XY`. -/
def rerun_state (use_fast : Bool) : State SmallWorld :=
  smallState (SmallWorld.store first_run.world.files "d/a".toList "XY".toList) mirror_server
    use_fast []

/-! ### The size check -/

/-- The state at the label at the start of attempt number `i` of the loop of
passes that starts in `st`: each earlier pass was left by `counter_global++;
goto repeatN;`. -/
def attempt {W : Type} (pass : M W Int) : Nat → State W → State W
  | 0, st => st
  | i + 1, st => attempt pass i (next_attempt (pass st).2)

/-- The pass ended in the "wrong size" block: its result is the result of that
block in the state in which the pass ended. -/
def EndsInWrongSize {W : Type} (MAX_REPEAT : Int) (r : Ctl Int × State W) : Prop :=
  r = wrong_size MAX_REPEAT r.2

/-- The rule of the "wrong size" block for a result `r` reached from state `s`:
restart while `counter_global < MAX_REPEAT`, failure otherwise. -/
def SizeRule {W α : Type} (MAX_REPEAT : Int) (s : State W) (r : Ctl α × State W) : Prop :=
  (s.counter_global < MAX_REPEAT → r = (Ctl.exit Exit.restart, s)) ∧
  (MAX_REPEAT ≤ s.counter_global → r = (Ctl.exit (Exit.ret EXIT_FAILURE), s))

/-- A run of an engine in which every attempt ends in the "wrong size" block:
the engine returns `EXIT_FAILURE` from the pass with `counter_global =
MAX_REPEAT`, that is after exactly `MAX_REPEAT` restarts. -/
def SizeMismatchRun {W : Type} (E : Env W) (MAX_REPEAT : Int) (dir manifest : CString)
    (cache : M W Unit) (pass : CString → Int → M W Int) (st : State W)
    (res : Ctl Int × State W) : Prop :=
  ∀ (sa sb : State W) (old : CString × Int),
    open_directory E dir { st with counter_global := 0 } = (Ctl.val (), sa) →
    fast_prepare E manifest cache sa = (Ctl.val old, sb) →
    (∀ i, i ≤ MAX_REPEAT.toNat →
      EndsInWrongSize MAX_REPEAT (pass old.1 old.2 (attempt (pass old.1 old.2) i sb))) →
    res = (Ctl.val EXIT_FAILURE,
      (pass old.1 old.2 (attempt (pass old.1 old.2) MAX_REPEAT.toNat sb)).2) ∧
    res.2.counter_global = MAX_REPEAT

/-- A line of a v5 manifest: the file `a`, the digest of 64 letters `a` and the
declared size 3. -/
def size_line : CString :=
  "=a, ".toList ++ List.replicate 64 'a' ++ ", 3".toList

/-- A state of the concrete world in which `d/a` has the listed digest and 64
bytes instead of the declared 3, locally and on the server, and the manifest
on disk is the one of the server. -/
def size_state (use_fast : Bool) : State SmallWorld :=
  smallState [("d/version.lst".toList, size_line), ("d/a".toList, List.replicate 64 'a')]
    [("d/version.lst".toList, size_line), ("d/a".toList, List.replicate 64 'a')] use_fast []

/-! ## `network.c`: the body loop of `conn_get` -/

/-- The character `'\0'`. -/
def NUL : Char := Char.ofNat 0

/-- The locals of `conn_get` in its body loop (717-836): the memory of
`buffer` (the `NETBUFSIZE + 4` bytes of `calloc`), `bufpos` and `bufend` as
offsets into it, `msgcurr`, `chunk_size`, `chunk_curr`; the results of the
calls of `recv` still to come; and the bytes written to `fp` so far. -/
structure BodyState where
  buffer : List Char
  bufpos : Nat
  bufend : Nat
  msgcurr : Nat
  chunk_size : Nat
  chunk_curr : Nat
  stream : List (List Char)
  written : List Char
  deriving DecidableEq, Repr

/-- How the body loop is left. -/
inductive BodyExit where
  /-- `break` out of `while(1)`: the function closes the file and goes on -/
  | finished
  /-- `return EXIT_FAILURE;` after `recv_count <= 0` -/
  | failure
  /-- an access outside `buffer`, or a `memmove` of a wrapped size -/
  | undef
  /-- the `assert` fails -/
  | aborted
  /-- the model ran out of fuel -/
  | nofuel
  deriving DecidableEq, Repr

/-- Where the body loop stands: at the top of `while(1)` or at the test of the
inner `while`. -/
inductive BodyLoc where
  | outer
  | inner
  deriving DecidableEq, Repr

/-- One step of the body loop: go on at a location or leave. -/
inductive BodyStep where
  | next (loc : BodyLoc) (s : BodyState)
  | exit (e : BodyExit) (s : BodyState)
  deriving DecidableEq, Repr

/-- The loop `while(bufpos < bufend && (*bufpos == '\r' || *bufpos == '\n'))
bufpos++;` (722-723); the first argument bounds the number of rounds.  `none`:
a read outside `buffer`. -/
def skip_crlf (buffer : List Char) (bufend : Nat) : Nat → Nat → Option Nat
  | 0, bufpos => some bufpos
  | n + 1, bufpos =>
    if bufpos < bufend then
      match buffer[bufpos]? with
      | none => none
      | some c => if c = '\r' ∨ c = '\n' then skip_crlf buffer bufend n (bufpos + 1)
                  else some bufpos
    else some bufpos

/-- The search of `strchr` in the bytes `mem` that begin at offset `i`: the
offset of the first `c` before a `'\0'`.  `none`: the end of `buffer` is reached
first. -/
def strchr_from (c : Char) : List Char → Nat → Option (Option Nat)
  | [], _ => none
  | x :: xs, i =>
    if x = c then some (some i)
    else if x = NUL then some none
    else strchr_from c xs (i + 1)

/-- `strchr(buffer + pos, c)` as an offset into `buffer`. -/
def strchr_at (buffer : List Char) (pos : Nat) (c : Char) : Option (Option Nat) :=
  strchr_from c (buffer.drop pos) pos

/-- The C string at `buffer + pos`. -/
def cstring_at (buffer : List Char) (pos : Nat) : CString :=
  (buffer.drop pos).takeWhile (fun x => x != NUL)

/-- Read `n` bytes at `buffer + pos`.  `none`: outside `buffer`. -/
def mem_read (buffer : List Char) (pos n : Nat) : Option (List Char) :=
  if pos + n ≤ buffer.length then some ((buffer.drop pos).take n) else none

/-- Write `data` at `buffer + pos`.  `none`: outside `buffer`. -/
def mem_write (buffer : List Char) (pos : Nat) (data : List Char) : Option (List Char) :=
  if pos + data.length ≤ buffer.length then
    some (buffer.take pos ++ data ++ buffer.drop (pos + data.length))
  else none

/-- `recv(sock_fd, p, len, 0)`: the next result of the stream, cut at `len`
bytes; the end of the stream gives no bytes. -/
def recv (stream : List (List Char)) (len : Nat) : List Char × List (List Char) :=
  match stream with
  | [] => ([], [])
  | seg :: rest =>
    if seg.length ≤ len then (seg, rest) else (seg.take len, seg.drop len :: rest)

/-- The block "Write content" (745-767). -/
def body_write (is_chunked : Bool) (s : BodyState) : BodyStep :=
  if s.bufpos ≠ s.bufend then
    let chunk_curr0 := (((s.bufend : Int) - (s.bufpos : Int)) % 2 ^ 64).toNat
    let chunk_curr :=
      if (is_chunked = true ∨ s.chunk_size > 0) ∧ chunk_curr0 > s.chunk_size then s.chunk_size
      else chunk_curr0
    if chunk_curr > 0 then
      match mem_read s.buffer s.bufpos chunk_curr with
      | none => BodyStep.exit BodyExit.undef s
      | some data =>
        let s1 := { s with chunk_curr := chunk_curr,
                           msgcurr := (s.msgcurr + chunk_curr) % 2 ^ 64,
                           written := s.written ++ data,
                           bufpos := s.bufpos + chunk_curr }
        if is_chunked = true ∧ s1.bufpos ≠ s1.bufend then BodyStep.next BodyLoc.outer s1
        else BodyStep.next BodyLoc.inner s1
    else BodyStep.next BodyLoc.inner { s with chunk_curr := chunk_curr }
  else BodyStep.next BodyLoc.inner s

/-- From the top of `while(1)` to the inner `while` (719-767). -/
def body_outer (is_chunked : Bool) (msgsize : Nat) (s0 : BodyState) : BodyStep :=
  let s := { s0 with chunk_size := 0, chunk_curr := 0 }
  if is_chunked then
    match skip_crlf s.buffer s.bufend (s.bufend - s.bufpos) s.bufpos with
    | none => BodyStep.exit BodyExit.undef s
    | some bufpos =>
      let s1 := { s with bufpos := bufpos }
      if bufpos ≠ s1.bufend then
        match strchr_at s1.buffer bufpos '\r' with
        | none => BodyStep.exit BodyExit.undef s1
        | some none => body_write is_chunked s1
        | some (some tmp) =>
          let chunk_size :=
            match scan_ulong 16 (cstring_at s1.buffer bufpos) with
            | some r => r.1
            | none => 0
          let s2 := { s1 with chunk_size := chunk_size, bufpos := tmp + 2 }
          if chunk_size = 0 then BodyStep.exit BodyExit.finished s2
          else body_write is_chunked s2
      else body_write is_chunked s1
  else if s.msgcurr ≠ 0 then BodyStep.exit BodyExit.finished s
  else body_write is_chunked { s with chunk_size := msgsize }

/-- The move of the unread bytes to the start of `buffer` at the head of the
inner loop (774-783).  `none`: `bufend - bufpos` is negative, so that the size of
the `memmove` wraps. -/
def body_compact (s : BodyState) : Option BodyState :=
  if s.bufpos ≠ s.bufend then
    if s.bufpos ≤ s.bufend then
      match mem_read s.buffer s.bufpos (s.bufend - s.bufpos) with
      | none => none
      | some data =>
        match mem_write s.buffer 0 data with
        | none => none
        | some buffer => some { s with buffer := buffer, bufend := s.bufend - s.bufpos, bufpos := 0 }
    else none
  else some { s with bufpos := 0, bufend := 0 }

/-- One round of the inner `while` (769-835), from its test on. -/
def body_inner (NETBUFSIZE : Nat) (is_chunked : Bool) (s : BodyState) : BodyStep :=
  if s.chunk_size = 0 ∨ s.chunk_curr < s.chunk_size then
    match body_compact s with
    | none => BodyStep.exit BodyExit.undef s
    | some s1 =>
      if is_chunked = false ∧ s1.chunk_curr ≠ s1.msgcurr then BodyStep.exit BodyExit.aborted s1
      else
        let r := recv s1.stream (NETBUFSIZE - (s1.bufend - s1.bufpos))
        let recv_count := r.1.length
        if is_chunked = false ∧ recv_count = 0 ∧ s1.chunk_size = 0 then
          BodyStep.next BodyLoc.outer { s1 with stream := r.2 }
        else if recv_count = 0 then BodyStep.exit BodyExit.failure { s1 with stream := r.2 }
        else
          match (mem_write s1.buffer s1.bufend r.1).bind
              (fun b => mem_write b (s1.bufend + recv_count) [NUL]) with
          | none => BodyStep.exit BodyExit.undef s1
          | some buffer =>
            let s2 := { s1 with buffer := buffer, bufend := s1.bufend + recv_count,
                                stream := r.2 }
            if is_chunked = true ∧ s2.chunk_size = 0 then BodyStep.next BodyLoc.outer s2
            else
              let write_count0 := (s2.chunk_size + 2 ^ 64 - s2.chunk_curr) % 2 ^ 64
              let write_count := if write_count0 ≥ recv_count then recv_count else write_count0
              match mem_read s2.buffer s2.bufpos write_count with
              | none => BodyStep.exit BodyExit.undef s2
              | some data =>
                BodyStep.next BodyLoc.inner
                  { s2 with written := s2.written ++ data,
                            bufpos := s2.bufpos + write_count,
                            chunk_curr := (s2.chunk_curr + write_count) % 2 ^ 64,
                            msgcurr := (s2.msgcurr + write_count) % 2 ^ 64 }
  else BodyStep.next BodyLoc.outer s

/-- One step of the body loop from the given location. -/
def body_step (NETBUFSIZE : Nat) (is_chunked : Bool) (msgsize : Nat) (loc : BodyLoc)
    (s : BodyState) : BodyStep :=
  match loc with
  | BodyLoc.outer => body_outer is_chunked msgsize s
  | BodyLoc.inner => body_inner NETBUFSIZE is_chunked s

/-- The loop `while(1)` of `conn_get` (717-836), with fuel. -/
def body_loop (NETBUFSIZE : Nat) (is_chunked : Bool) (msgsize : Nat) :
    Nat → BodyLoc → BodyState → BodyExit × BodyState
  | 0, _, s => (BodyExit.nofuel, s)
  | fuel + 1, loc, s =>
    match body_step NETBUFSIZE is_chunked msgsize loc s with
    | BodyStep.next loc1 s1 => body_loop NETBUFSIZE is_chunked msgsize fuel loc1 s1
    | BodyStep.exit e s1 => (e, s1)

/-- The body part of `conn_get` (713-836): `buffer`, `bufpos` and `bufend` are
as the header loop left them, `stream` holds the results of the calls of `recv`
to come.  The result is the way the loop is left and the bytes written to the
file. -/
def conn_get_body (NETBUFSIZE : Nat) (is_chunked : Bool) (msgsize : Nat) (fuel : Nat)
    (buffer : List Char) (bufpos bufend : Nat) (stream : List (List Char)) :
    BodyExit × List Char :=
  let r := body_loop NETBUFSIZE is_chunked (if is_chunked then 0 else msgsize) fuel BodyLoc.outer
    { buffer := buffer, bufpos := bufpos, bufend := bufend, msgcurr := 0, chunk_size := 0,
      chunk_curr := 0, stream := stream, written := [] }
  (r.1, r.2.written)

/-- The memory of `buffer` after the header loop has read the bytes `header` in
one `recv`, for `NETBUFSIZE = 64`. -/
def buffer_after (header : List Char) : List Char :=
  header ++ List.replicate (64 + 4 - header.length) NUL

/-- A response header that announces a chunked body. -/
def chunked_header : List Char :=
  "HTTP/1.1 200 OK\r\nTransfer-Encoding: chunked\r\n\r\n".toList

/-- A response header that announces a body of one byte. -/
def identity_header : List Char :=
  "HTTP/1.1 200 OK\r\nContent-Length: 1\r\n\r\n".toList

/-! ## The attempts of a call of `download` -/

/-- The world in which `download` makes attempt number `i` (from 0), when the
earlier attempts were made from `w` on. -/
def attempt_world {W : Type} (E : Env W) (filename : CString) : Nat → W → W
  | 0, w => w
  | i + 1, w => attempt_world E filename i (E.conn_get w filename).2

/-- What `conn_get` returns in attempt number `i` (from 0). -/
def attempt_status {W : Type} (E : Env W) (filename : CString) (i : Nat) (w : W) : Int :=
  (E.conn_get (attempt_world E filename i w) filename).1

/-- The state after `download(filename)` has called `conn_get` exactly `n`
times. -/
def after_attempts {W : Type} (E : Env W) (filename : CString) (n : Nat) (st : State W) :
    State W :=
  { st with world := attempt_world E filename n st.world,
            log := st.log ++ Event.download filename ::
              List.replicate n (Event.conn_get filename) }

/-- `download(filename)` makes exactly `n` calls of `conn_get` and returns
`status`. -/
def DownloadMakes {W : Type} (E : Env W) (MAX_REPEAT : Int) (filename : CString)
    (st : State W) (n : Nat) (status : DLStatus) : Prop :=
  download E MAX_REPEAT filename st = (Ctl.val status, after_attempts E filename n st)

/-- A scripted transport: the world is the list of the values that the
following calls of `conn_get` return (a local failure once it is used up);
nothing else is observable. -/
def scriptEnv : Env (List Int) where
  exist _ _ := false
  get_size _ _ := -1
  checksum _ _ _ := none
  check_size _ _ _ := false
  check_size_lzma _ _ _ := false
  conn_get w _ := match w with
    | [] => (EXIT_FAILURE, [])
    | s :: r => (s, r)
  delete_files w _ _ := w
  make_path w _ := (0, w)
  make_path_for w _ := (0, w)
  do_lock w _ := (0, w)
  read_lines _ _ := none
  read_lines_lf _ _ := none
  stack_garbage := []

/-- A state over the scripted transport with an empty log. -/
def scriptState (script : List Int) : State (List Int) :=
  { world := script, use_fast := false, tree := [], counter_global := 0, log := [] }

/-! ## `network.c`: the header part of `conn_get` -/

/-- The type `struct tm` of `time.h`. -/
structure TM where
  tm_sec : Int
  tm_min : Int
  tm_hour : Int
  tm_mday : Int
  tm_mon : Int
  tm_year : Int
  tm_wday : Int
  tm_yday : Int
  tm_isdst : Int
  deriving DecidableEq, Repr

/-- `INT_MIN` for a 32-bit `int`. -/
def INT_MIN : Int := -2 ^ 31

/-- `INT_MAX` for a 32-bit `int`. -/
def INT_MAX : Int := 2 ^ 31 - 1

/-- The digits of a conversion `%d` of `sscanf` (and of `atoi`): white space is
skipped, a sign is accepted, then at least one decimal digit is taken.  The
result is the mathematical value, not yet stored into an `int`, and the rest of
the input.  `none` is a matching failure. -/
def scan_int (s : CString) : Option (Int × CString) :=
  let s1 := s.dropWhile isspace
  let neg := s1.head? == some '-'
  let s2 := if s1.head? == some '-' || s1.head? == some '+' then s1.tail else s1
  match s2.head?.bind (digit_value 10) with
  | none => none
  | some _ =>
    let r := scan_digits 10 s2 0
    some (if neg then -(r.1 : Int) else (r.1 : Int), r.2)

/-- The members of `raw_time` that the `sscanf` calls of `conn_get` assign. -/
inductive TMField where
  | mday
  | year
  | hour
  | min
  | sec
  deriving DecidableEq, Repr

/-- Assignment to a member of `raw_time`. -/
def TM.assign (t : TM) (f : TMField) (v : Int) : TM :=
  match f with
  | TMField.mday => { t with tm_mday := v }
  | TMField.year => { t with tm_year := v }
  | TMField.hour => { t with tm_hour := v }
  | TMField.min => { t with tm_min := v }
  | TMField.sec => { t with tm_sec := v }

/-- The directives that occur in the three `sscanf` formats for `Last-Modified`
(602-617). -/
inductive ScanDir where
  /-- `%*[^c]`: a non-empty run of characters other than `c`, not stored -/
  | skip_until (c : Char)
  /-- `%[^c]` with the argument `month` -/
  | month_until (c : Char)
  /-- an ordinary character of the format -/
  | lit (c : Char)
  /-- white space in the format: any amount of white space in the input -/
  | ws
  /-- `%d` with the address of a member of `raw_time` -/
  | int (field : TMField)
  deriving DecidableEq, Repr

/-- What the `sscanf` calls for `Last-Modified` work on: `raw_time`, the array
`char month[4]` (`none` while it is indeterminate), the number of input items
assigned by the running call, and whether an assignment left the object it was
made to (undefined behaviour). -/
structure ScanTime where
  raw_time : TM
  month : Option CString
  count : Nat
  overrun : Bool
  deriving DecidableEq, Repr

/-- One directive of `sscanf`: the rest of the input and the new state, or
`none` when the call stops here (matching or input failure, or an overrun, which
is then recorded). -/
def scan_dir (d : ScanDir) (s : CString) (st : ScanTime) : ScanTime × Option CString :=
  match d with
  | ScanDir.ws => (st, some (s.dropWhile isspace))
  | ScanDir.lit c =>
    match s with
    | [] => (st, none)
    | x :: xs => if x = c then (st, some xs) else (st, none)
  | ScanDir.skip_until c =>
    if s.takeWhile (fun x => x != c) = [] then (st, none)
    else (st, some (s.dropWhile (fun x => x != c)))
  | ScanDir.month_until c =>
    let tok := s.takeWhile (fun x => x != c)
    if tok = [] then (st, none)
    else if tok.length + 1 ≤ 4 then
      ({ st with month := some tok, count := st.count + 1 }, some (s.dropWhile (fun x => x != c)))
    else ({ st with overrun := true }, none)
  | ScanDir.int f =>
    match scan_int s with
    | none => (st, none)
    | some r =>
      if INT_MIN ≤ r.1 ∧ r.1 ≤ INT_MAX then
        ({ st with raw_time := st.raw_time.assign f r.1, count := st.count + 1 }, some r.2)
      else ({ st with overrun := true }, none)

/-- A call `sscanf(input, format, ...)` for a format given as its list of
directives.  (The return value `EOF` is not told from 0: both differ from 6.) -/
def sscanf_time : List ScanDir → CString → ScanTime → ScanTime
  | [], _, st => st
  | d :: ds, s, st =>
    match scan_dir d s st with
    | (st1, none) => st1
    | (st1, some rest) => sscanf_time ds rest st1

/-- The format `"%*[^,], %d %[^ ] %d %d:%d:%d"` (603) with the arguments
`tm_mday`, `month`, `tm_year`, `tm_hour`, `tm_min`, `tm_sec`. -/
def format_rfc1123 : List ScanDir :=
  [ScanDir.skip_until ',', ScanDir.lit ',', ScanDir.ws, ScanDir.int TMField.mday, ScanDir.ws,
   ScanDir.month_until ' ', ScanDir.ws, ScanDir.int TMField.year, ScanDir.ws,
   ScanDir.int TMField.hour, ScanDir.lit ':', ScanDir.int TMField.min, ScanDir.lit ':',
   ScanDir.int TMField.sec]

/-- The format `"%*[^,], %d-%[^-]-%d %d:%d:%d"` (609) with the arguments
`tm_mday`, `month`, `tm_year`, `tm_hour`, `tm_min`, `tm_sec`. -/
def format_rfc850 : List ScanDir :=
  [ScanDir.skip_until ',', ScanDir.lit ',', ScanDir.ws, ScanDir.int TMField.mday,
   ScanDir.lit '-', ScanDir.month_until '-', ScanDir.lit '-', ScanDir.int TMField.year,
   ScanDir.ws, ScanDir.int TMField.hour, ScanDir.lit ':', ScanDir.int TMField.min,
   ScanDir.lit ':', ScanDir.int TMField.sec]

/-- The format `"%*[^ ] %[^ ] %d %d:%d:%d %d"` (615) with the arguments `month`,
`tm_mday`, `tm_hour`, `tm_min`, `tm_sec`, `tm_year`. -/
def format_asctime : List ScanDir :=
  [ScanDir.skip_until ' ', ScanDir.ws, ScanDir.month_until ' ', ScanDir.ws,
   ScanDir.int TMField.mday, ScanDir.ws, ScanDir.int TMField.hour, ScanDir.lit ':',
   ScanDir.int TMField.min, ScanDir.lit ':', ScanDir.int TMField.sec, ScanDir.ws,
   ScanDir.int TMField.year]

/-- The statement `if(current_sscanf_count != valid_sscanf_count)
current_sscanf_count = sscanf(field_content, format, ...);`.  Nothing is
defined any more once an object was overrun. -/
def try_format (field_content : CString) (st : ScanTime) (format : List ScanDir) : ScanTime :=
  if st.overrun = true ∨ st.count = 6 then st
  else sscanf_time format field_content { st with count := 0 }

/-- The three `sscanf` attempts on the content of `Last-Modified` (591-617),
from `memset(&raw_time, 0, ...)` on. -/
def scan_last_modified (field_content : CString) : ScanTime :=
  let raw_time : TM :=
    { tm_sec := 0, tm_min := 0, tm_hour := 0, tm_mday := 0, tm_mon := 0, tm_year := 0,
      tm_wday := -1, tm_yday := -1, tm_isdst := -1 }
  let st : ScanTime := { raw_time := raw_time, month := none, count := 0, overrun := false }
  let st := try_format field_content st format_rfc1123
  let st := try_format field_content st format_rfc850
  try_format field_content st format_asctime

/-- The chain `if(strcmp(month, "jan") == 0) raw_time.tm_mon = 0; else if ...`
(623-634); `none` is its last branch `else assert(0);`. -/
def month_index (month : CString) : Option Int :=
  if month = "jan".toList then some 0
  else if month = "feb".toList then some 1
  else if month = "mar".toList then some 2
  else if month = "apr".toList then some 3
  else if month = "may".toList then some 4
  else if month = "jun".toList then some 5
  else if month = "jul".toList then some 6
  else if month = "aug".toList then some 7
  else if month = "sep".toList then some 8
  else if month = "oct".toList then some 9
  else if month = "nov".toList then some 10
  else if month = "dec".toList then some 11
  else none

/-- How the handling of a `Last-Modified` field ends. -/
inductive LastModified (α : Type) where
  /-- six items were assigned and the month is known: the value computed -/
  | parsed (a : α)
  /-- no format assigned six items: `lastmod = 0` and the warning -/
  | fallback
  /-- an `sscanf` call wrote past the end of `month` or stored a value that an
  `int` cannot hold -/
  | undef
  /-- the statement `assert(0)` was reached -/
  | aborted
  deriving DecidableEq, Repr

/-- The broken-down time that `conn_get` passes to `mktime` for the content of a
`Last-Modified` field (583-636). -/
def last_modified_tm (field_content : CString) : LastModified TM :=
  let st := scan_last_modified field_content
  if st.overrun then LastModified.undef
  else if st.count = 6 then
    match st.month with
    | none => LastModified.undef
    | some m =>
      match month_index (to_lowercase (m.take 3)) with
      | none => LastModified.aborted
      | some mon =>
        let t := { st.raw_time with tm_mon := mon }
        LastModified.parsed
          (if t.tm_year ≥ 1900 then { t with tm_year := t.tm_year - 1900 } else t)
  else LastModified.fallback

/-- The value of `lastmod` after a `Last-Modified` field (583-643); `mktime` is
the function of the C library, `tzshift` the global of the missing
`drwebmirror.h`. -/
def last_modified (mktime : TM → Int) (tzshift : Int) (field_content : CString) :
    LastModified Int :=
  match last_modified_tm field_content with
  | LastModified.parsed t =>
    let lastmod := mktime t
    LastModified.parsed (if lastmod > 0 then lastmod + tzshift else lastmod)
  | LastModified.fallback => LastModified.fallback
  | LastModified.undef => LastModified.undef
  | LastModified.aborted => LastModified.aborted

/-- What the header loop of `conn_get` reads of the configuration: the globals
`servername` and `tzshift`, the constants `NETBUFSIZE` and `STRBUFSIZE` of the
missing `drwebmirror.h`, and `mktime` of the C library. -/
structure HeaderConfig where
  servername : CString
  NETBUFSIZE : Nat
  STRBUFSIZE : Nat
  tzshift : Int
  mktime : TM → Int

/-- The locals `servername_dl`, `serverport_dl` and `filename_dl` of
`conn_get`: where the request goes. -/
structure Target where
  servername_dl : CString
  serverport_dl : Nat
  filename_dl : CString
  deriving DecidableEq, Repr

/-- The locals of `conn_get` in its header loop (426-681): the memory of
`buffer`, `bufpos` and `bufend` as offsets into it, `status`, `msgsize`,
`is_chunked`, `lastmod`, the target of the request, the arrays `field_name` and
`field_content` (`none` while indeterminate), the results of the calls of `recv`
still to come, and `ka`: the last assignment to `sock_fd_ka` made by the loop
(`some true` for `sock_fd_ka = sock_fd`, `some false` for
`sock_fd_ka = SOCKET_BAD_VALUE`, `none` if there was none). -/
structure HeaderState where
  buffer : List Char
  bufpos : Nat
  bufend : Nat
  status : Int
  msgsize : Nat
  is_chunked : Bool
  lastmod : Int
  target : Target
  field_name : Option CString
  field_content : Option CString
  stream : List (List Char)
  ka : Option Bool
  deriving DecidableEq, Repr

/-- How the header loop is left. -/
inductive HeaderExit where
  /-- `return EXIT_FAILURE;` after `recv_count <= 0` (437-452) -/
  | recv_failed
  /-- `return status;` with `status == EXIT_FAILURE` (481-488) -/
  | bad_status
  /-- `goto redirect;` (535) -/
  | redirect
  /-- `return EXIT_FAILURE;` after an unsupported `Transfer-Encoding` (652-660) -/
  | unsupported
  /-- `msgbegin = 1`: the loop ends (666-675) -/
  | msgbegin
  /-- an access outside an object, a read of an indeterminate array, or a value
  that its type cannot hold -/
  | undef
  /-- an `assert` fails -/
  | aborted
  /-- the model ran out of fuel -/
  | nofuel
  deriving DecidableEq, Repr

/-- One step of the header loop: go on or leave. -/
inductive HeaderStep where
  | next (s : HeaderState)
  | exit (e : HeaderExit) (s : HeaderState)
  deriving DecidableEq, Repr

/-- The C string at `buffer + pos`; `none` when `pos` is outside `buffer` or no
`'\0'` follows inside it. -/
def cstring_in (buffer : List Char) (pos : Nat) : Option CString :=
  if (buffer.drop pos).contains NUL then some (cstring_at buffer pos) else none

/-- Offset of the first occurrence of `pat` in `s`, counted from `i`. -/
def find_from (pat : CString) : CString → Nat → Option Nat
  | [], i => if pat.isEmpty then some i else none
  | x :: xs, i => if starts_with (x :: xs) pat then some i else find_from pat xs (i + 1)

/-- `strstr(buffer + pos, pat)` as an offset into `buffer`; the outer `none`:
outside `buffer`. -/
def strstr_at (buffer : List Char) (pos : Nat) (pat : CString) : Option (Option Nat) :=
  match cstring_in buffer pos with
  | none => none
  | some s => some (find_from pat s pos)

/-- Offset of the first `c` in the C string `s`. -/
def index_of (s : CString) (c : Char) : Option Nat :=
  if s.contains c then some (s.takeWhile (fun x => x != c)).length else none

/-- The test of the two loops over the header fields (498 and 558) and of the
`if` after them (664). -/
inductive FieldTest where
  /-- `tmp != NULL && tmp - 2 != strstr(bufpos - 2, "\r\n\r\n")`: a field
  follows -/
  | field
  /-- `tmp != NULL && tmp - 2 == strstr(bufpos - 2, "\r\n\r\n")`: the empty line
  at `tmp` -/
  | empty_line (tmp : Nat)
  /-- `tmp == NULL` -/
  | no_cr
  /-- `bufpos` or `bufpos - 2` is outside `buffer` -/
  | undef
  deriving DecidableEq, Repr

/-- `(tmp = strchr(bufpos, '\r')) != NULL && tmp - 2 != strstr(bufpos - 2,
"\r\n\r\n")`. -/
def field_test (buffer : List Char) (bufpos : Nat) : FieldTest :=
  match strchr_at buffer bufpos '\r' with
  | none => FieldTest.undef
  | some none => FieldTest.no_cr
  | some (some tmp) =>
    if bufpos < 2 then FieldTest.undef
    else
      match strstr_at buffer (bufpos - 2) ['\r', '\n', '\r', '\n'] with
      | none => FieldTest.undef
      | some r => if r = some (tmp - 2) then FieldTest.empty_line tmp else FieldTest.field

/-- A call `sscanf(input, "%[^c]", array)` for an array of `size` bytes that
holds `old`: the new content of the array, which a matching failure leaves as it
was.  `none`: the array is overrun. -/
def scan_until (c : Char) (size : Nat) (input : CString) (old : Option CString) :
    Option (Option CString) :=
  let tok := input.takeWhile (fun x => x != c)
  if tok = [] then some old
  else if tok.length + 1 ≤ size then some (some tok)
  else none

/-- The first four statements of the body of both field loops (500-503 and
560-563): `field_name` and `field_content` are read and `bufpos` advances.
`none`: undefined (an access outside `buffer`, an array overrun, or `strlen` of
an indeterminate array). -/
def scan_field (STRBUFSIZE : Nat) (s : HeaderState) : Option HeaderState := do
  let input ← cstring_in s.buffer s.bufpos
  let name ← scan_until ':' 255 input s.field_name
  let field_name ← name
  let bufpos1 := s.bufpos + field_name.length + 2
  let input ← cstring_in s.buffer bufpos1
  let content ← scan_until '\r' STRBUFSIZE input s.field_content
  let field_content ← content
  some { s with field_name := some field_name, field_content := some field_content,
                bufpos := bufpos1 + field_content.length + 2 }

/-- The value `atoi(s)` converted to `uint16_t`.  `none`: the number does not
fit an `int`. -/
def atoi_u16 (s : CString) : Option Nat :=
  match scan_int s with
  | none => some 0
  | some r => if INT_MIN ≤ r.1 ∧ r.1 ≤ INT_MAX then some (r.1 % 65536).toNat else none

/-- The block "Parse new location" (504-527) for the content of a `Location`
field.  `none`: `filename_beg` is `NULL` and is dereferenced, or the port does
not fit an `int`. -/
def parse_location (STRBUFSIZE : Nat) (field_content : CString) (t : Target) : Option Target :=
  match find_from [':', '/', '/'] field_content 0 with
  | none => some t
  | some i =>
    let servername_beg := field_content.drop (i + 3)
    match index_of servername_beg '/' with
    | none => none
    | some filename_beg =>
      let filename_dl :=
        if servername_beg.drop (filename_beg + 1) ≠ [] then
          bsd_strlcpy (servername_beg.drop (filename_beg + 1)) STRBUFSIZE
        else ['/']
      let cut := servername_beg.take filename_beg
      match index_of servername_beg ':' with
      | none =>
        some { servername_dl := bsd_strlcpy cut 256, serverport_dl := 80,
               filename_dl := filename_dl }
      | some serverport_beg =>
        if serverport_beg < filename_beg then
          match atoi_u16 (cut.drop (serverport_beg + 1)) with
          | none => none
          | some port =>
            some { servername_dl := bsd_strlcpy (cut.take serverport_beg) 256,
                   serverport_dl := port, filename_dl := filename_dl }
        else
          some { servername_dl := bsd_strlcpy cut 256, serverport_dl := 80,
                 filename_dl := filename_dl }

/-- The loop over the header fields of a redirect response (498-527), which
looks for `Location`.  The first argument bounds the number of rounds. -/
def redirect_fields (STRBUFSIZE : Nat) : Nat → HeaderState → HeaderStep
  | 0, s => HeaderStep.exit HeaderExit.nofuel s
  | n + 1, s =>
    match field_test s.buffer s.bufpos with
    | FieldTest.undef => HeaderStep.exit HeaderExit.undef s
    | FieldTest.field =>
      match scan_field STRBUFSIZE s with
      | none => HeaderStep.exit HeaderExit.undef s
      | some s1 =>
        if s1.field_name = some "Location".toList then
          match parse_location STRBUFSIZE (s1.field_content.getD []) s1.target with
          | none => HeaderStep.exit HeaderExit.undef s1
          | some t => redirect_fields STRBUFSIZE n { s1 with target := t }
        else redirect_fields STRBUFSIZE n s1
    | _ => HeaderStep.exit HeaderExit.redirect s

/-- The chain of `if(strcmp(field_name, ...) == 0)` for one header field
(565-661). -/
def handle_field (c : HeaderConfig) (s : HeaderState) (field_name field_content : CString) :
    HeaderStep :=
  if field_name = "Connection".toList then
    let content := to_lowercase field_content
    HeaderStep.next
      { s with field_content := some content,
               ka := some (decide (content = "keep-alive".toList ∧
                      c.servername = s.target.servername_dl)) }
  else if field_name = "Content-Length".toList then
    match scan_ulong 10 field_content with
    | none => HeaderStep.next s
    | some r => HeaderStep.next { s with msgsize := r.1 }
  else if field_name = "Last-Modified".toList then
    match last_modified c.mktime c.tzshift field_content with
    | LastModified.parsed lastmod => HeaderStep.next { s with lastmod := lastmod }
    | LastModified.fallback => HeaderStep.next { s with lastmod := 0 }
    | LastModified.undef => HeaderStep.exit HeaderExit.undef s
    | LastModified.aborted => HeaderStep.exit HeaderExit.aborted s
  else if field_name = "Transfer-Encoding".toList then
    let content := to_lowercase field_content
    let s1 := { s with field_content := some content }
    if content = "chunked".toList then HeaderStep.next { s1 with is_chunked := true }
    else if content = "identity".toList then HeaderStep.next { s1 with is_chunked := false }
    else HeaderStep.exit HeaderExit.unsupported { s1 with ka := some false }
  else HeaderStep.next s

/-- The `if` after the field loop (664-681): at the empty line the loop is
left with `bufpos` at the body, else the unread bytes move to the start of
`buffer`. -/
def header_finish (s : HeaderState) (t : FieldTest) : HeaderStep :=
  match t with
  | FieldTest.empty_line tmp =>
    if (s.bufend : Int) - ((tmp : Int) + 2) > 0 then
      HeaderStep.exit HeaderExit.msgbegin { s with bufpos := tmp + 2 }
    else HeaderStep.exit HeaderExit.msgbegin { s with bufpos := 0, bufend := 0 }
  | _ =>
    if s.bufpos ≤ s.bufend then
      match (mem_read s.buffer s.bufpos (s.bufend - s.bufpos)).bind
          (fun data => (mem_write s.buffer 0 data).bind
            (fun b => mem_write b (s.bufend - s.bufpos) [NUL])) with
      | none => HeaderStep.exit HeaderExit.undef s
      | some buffer =>
        HeaderStep.next { s with buffer := buffer, bufend := s.bufend - s.bufpos, bufpos := 0 }
    else HeaderStep.exit HeaderExit.undef s

/-- The loop over the header fields of any other response (558-662) and the
`if` after it.  The first argument bounds the number of rounds. -/
def header_fields (c : HeaderConfig) : Nat → HeaderState → HeaderStep
  | 0, s => HeaderStep.exit HeaderExit.nofuel s
  | n + 1, s =>
    match field_test s.buffer s.bufpos with
    | FieldTest.undef => HeaderStep.exit HeaderExit.undef s
    | FieldTest.field =>
      match scan_field c.STRBUFSIZE s with
      | none => HeaderStep.exit HeaderExit.undef s
      | some s1 =>
        match handle_field c s1 (s1.field_name.getD []) (s1.field_content.getD []) with
        | HeaderStep.next s2 => header_fields c n s2
        | HeaderStep.exit e s2 => HeaderStep.exit e s2
    | t => header_finish s t

/-- Whether `conn_get` follows a response as a redirect (493), `follow`
standing for `redirect_num < MAX_REDIRECT`. -/
def is_redirect (status : Int) (follow : Bool) : Bool :=
  ((300 ≤ status && status ≤ 303) || status == 307) && follow

/-- The block `if(status < 0)` up to the `return status;` (467-489): the status
line is parsed.  `next`: `status` is not `EXIT_FAILURE`. -/
def parse_status (s : HeaderState) : HeaderStep :=
  match strchr_at s.buffer 0 ' ' with
  | none => HeaderStep.exit HeaderExit.undef s
  | some none => HeaderStep.exit HeaderExit.bad_status { s with status := EXIT_FAILURE }
  | some (some sp) =>
    let bufpos := sp + 1
    match scan_int (cstring_at s.buffer bufpos) with
    | some r =>
      if INT_MIN ≤ r.1 ∧ r.1 ≤ INT_MAX then
        match strchr_at s.buffer bufpos '\n' with
        | none => HeaderStep.exit HeaderExit.undef s
        | some none => HeaderStep.exit HeaderExit.bad_status { s with status := EXIT_FAILURE }
        | some (some nl) =>
          if r.1 = EXIT_FAILURE then
            HeaderStep.exit HeaderExit.bad_status { s with status := r.1, bufpos := nl + 1 }
          else HeaderStep.next { s with status := r.1, bufpos := nl + 1 }
      else HeaderStep.exit HeaderExit.undef s
    | none =>
      match strchr_at s.buffer bufpos '\n' with
      | none => HeaderStep.exit HeaderExit.undef s
      | some none => HeaderStep.exit HeaderExit.bad_status { s with status := EXIT_FAILURE }
      | some (some nl) => HeaderStep.next { s with bufpos := nl + 1 }

/-- One round of the loop `while(!msgbegin)` (428-681) after `recv` has
returned a positive count. -/
def header_parse (c : HeaderConfig) (follow : Bool) (s : HeaderState) : HeaderStep :=
  if s.status < 0 then
    match parse_status s with
    | HeaderStep.next s1 =>
      if is_redirect s1.status follow then redirect_fields c.STRBUFSIZE (s1.buffer.length + 1) s1
      else header_fields c (s1.buffer.length + 1) s1
    | HeaderStep.exit e s1 => HeaderStep.exit e s1
  else header_fields c (s.buffer.length + 1) s

/-- One round of the loop `while(!msgbegin)` (428-681). -/
def header_round (c : HeaderConfig) (follow : Bool) (s0 : HeaderState) : HeaderStep :=
  let s := { s0 with field_name := none, field_content := none }
  let r := recv s.stream (c.NETBUFSIZE - s.bufend)
  match (mem_write s.buffer s.bufend r.1).bind
      (fun b => mem_write b (s.bufend + r.1.length) [NUL]) with
  | none => HeaderStep.exit HeaderExit.undef s
  | some buffer =>
    let s1 := { s with buffer := buffer, bufpos := s.bufend, bufend := s.bufend + r.1.length,
                       stream := r.2 }
    if r.1.length = 0 then HeaderStep.exit HeaderExit.recv_failed s1
    else header_parse c follow s1

/-- The loop `while(!msgbegin)` of `conn_get` (426-681), with fuel. -/
def header_loop (c : HeaderConfig) (follow : Bool) : Nat → HeaderState → HeaderExit × HeaderState
  | 0, s => (HeaderExit.nofuel, s)
  | fuel + 1, s =>
    match header_round c follow s with
    | HeaderStep.next s1 => header_loop c follow fuel s1
    | HeaderStep.exit e s1 => (e, s1)

/-! ## `network.c`: a call of `conn_get` -/

/-- What `conn_get` reads of the configuration besides `HeaderConfig`: the
globals of `network.c` (48-72), `key_md5sum` and `key_userid` of
`drwebmirror.c`.  The flags are `int8_t` holding 0 or 1. -/
structure NetConfig extends HeaderConfig where
  serverport : Nat
  http_version : CString
  use_http_auth : Bool
  http_auth : CString
  useragent : CString
  syshash : CString
  use_syshash : Bool
  use_android : Bool
  use_proxy : Bool
  use_proxy_auth : Bool
  proxy_address : CString
  proxy_port : Nat
  proxy_auth : CString
  key_md5sum : CString
  key_userid : CString

/-- What the world does for one request of `conn_get`: whether `conn_open`
succeeds if it is called, whether `send` succeeds, the results of the following
calls of `recv` on the socket (after them `recv` returns 0), whether
`fopen(filename, "wb")` succeeds and whether `set_mtime` does. -/
structure Exchange where
  connect_ok : Bool
  send_ok : Bool
  stream : List (List Char)
  fopen_ok : Bool
  set_mtime_ok : Bool
  deriving DecidableEq, Repr

/-- What `conn_get` does to the world, in order. -/
inductive NetEvent where
  /-- `conn_open(&sock_fd, server, port)` returned `EXIT_SUCCESS` with this
  descriptor -/
  | conn_open (fd : Nat) (server : CString) (port : Nat)
  /-- `conn_open(&sock_fd, server, port)` failed -/
  | conn_open_failed (server : CString) (port : Nat)
  /-- the request was sent on the socket -/
  | send (fd : Nat) (request : CString)
  /-- `conn_close(&sock_fd)` -/
  | conn_close (fd : Nat)
  /-- `fopen(filename, "wb")` succeeded -/
  | fopen (filename : CString)
  /-- `set_mtime(filename, lastmod)` succeeded -/
  | set_mtime (filename : CString) (lastmod : Int)
  deriving DecidableEq, Repr

/-- The world of `conn_get`: the static `sock_fd_ka` (`none` for
`SOCKET_BAD_VALUE`), the bytes that arrived on that socket and were not read,
the next free descriptor, the exchanges to come, what was done so far, and the
local files with their content. -/
structure NetWorld where
  sock_fd_ka : Option Nat
  unread : List (List Char)
  next_fd : Nat
  script : List Exchange
  events : List NetEvent
  files : List (CString × CString)
  deriving DecidableEq, Repr

/-- What a call of `conn_get` comes to. -/
inductive GetResult where
  /-- the value returned: `EXIT_SUCCESS`, `EXIT_FAILURE` or the status of the
  response -/
  | ret (status : Int)
  /-- undefined behaviour -/
  | undef
  /-- an `assert` failed -/
  | aborted
  /-- the model ran out of fuel -/
  | nofuel
  deriving DecidableEq, Repr

/-- The locals of `conn_get` that live across `goto redirect`. -/
structure GetLocals where
  buffer : List Char
  target : Target
  conn_ka : CString
  redirect_num : Nat
  deriving DecidableEq, Repr

/-- One step from the label `redirect`: go there again or return. -/
inductive RoundStep where
  | again (l : GetLocals) (w : NetWorld)
  | done (r : GetResult) (w : NetWorld)
  deriving DecidableEq, Repr

/-- The decimal digits that `%u` prints. -/
def print_unsigned (n : Nat) : CString := (Nat.repr n).toList

/-- The request that the `sprintf` calls of `conn_get` put together
(332-380). -/
def build_request (c : NetConfig) (t : Target) (conn_ka : CString) : CString :=
  (if c.use_proxy then
    "GET http://".toList ++ t.servername_dl ++ ":".toList ++ print_unsigned t.serverport_dl ++
      "/".toList ++ t.filename_dl ++ " HTTP/".toList ++ c.http_version ++ "\r\n".toList ++
      "Proxy-Connection: ".toList ++ conn_ka ++ "\r\n".toList ++
      (if c.use_proxy_auth then
        "Proxy-Authorization: Basic ".toList ++ c.proxy_auth ++ "\r\n".toList
       else [])
   else
    "GET /".toList ++ t.filename_dl ++ " HTTP/".toList ++ c.http_version ++ "\r\n".toList) ++
  "Accept: */*\r\nAccept-Encoding: identity\r\nAccept-Ranges: bytes\r\nHost: ".toList ++
    t.servername_dl ++ ":".toList ++ print_unsigned t.serverport_dl ++ "\r\n".toList ++
  (if c.use_http_auth then "Authorization: Basic ".toList ++ c.http_auth ++ "\r\n".toList
   else []) ++
  (if c.use_android then []
   else "X-DrWeb-Validate: ".toList ++ c.key_md5sum ++ "\r\nX-DrWeb-KeyNumber: ".toList ++
     c.key_userid ++ "\r\n".toList) ++
  (if c.use_syshash then "X-DrWeb-SysHash: ".toList ++ c.syshash ++ "\r\n".toList else []) ++
  (if c.useragent ≠ [] then "User-Agent: ".toList ++ c.useragent ++ "\r\n".toList else []) ++
  "Connection: ".toList ++ conn_ka ++ "\r\nCache-Control: no-cache\r\n\r\n".toList

/-- The value of `sock_fd_ka` after the header loop has made the assignment
`ka` to it. -/
def apply_ka (ka : Option Bool) (sock_fd : Nat) (sock_fd_ka : Option Nat) : Option Nat :=
  match ka with
  | none => sock_fd_ka
  | some true => some sock_fd
  | some false => none

/-- The statement `conn_close(&sock_fd);`: the socket is closed and
`sock_fd_ka` becomes `SOCKET_BAD_VALUE` (90-98). -/
def conn_close (sock_fd : Nat) (w : NetWorld) : NetWorld :=
  { w with sock_fd_ka := none, unread := [], events := w.events ++ [NetEvent.conn_close sock_fd] }

/-- The statement `if(!socket_good(&sock_fd_ka)) conn_close(&sock_fd);`; a
socket that stays cached keeps the bytes `stream` that were not read. -/
def close_unless_kept (sock_fd : Nat) (stream : List (List Char)) (w : NetWorld) : NetWorld :=
  match w.sock_fd_ka with
  | none => conn_close sock_fd w
  | some _ => { w with unread := stream }

/-- A redirect to the same server and port closes nothing (528-535): a cached
socket keeps the bytes `stream` that were not read. -/
def close_unless_kept_redirect (stream : List (List Char)) (w : NetWorld) : NetWorld :=
  match w.sock_fd_ka with
  | none => { w with unread := [] }
  | some _ => { w with unread := stream }

/-- The end of `conn_get` after the body loop was left with `r` (765-852): the
socket is closed unless it is cached, and the modification time is set if
`Last-Modified` gave one. -/
def conn_get_end (filename : CString) (x : Exchange) (sock_fd : Nat) (lastmod : Int)
    (r : BodyExit × BodyState) (w : NetWorld) : GetResult × NetWorld :=
  match r.1 with
  | BodyExit.finished =>
    let w1 := close_unless_kept sock_fd r.2.stream w
    if lastmod ≠ 0 then
      if x.set_mtime_ok then
        (GetResult.ret EXIT_SUCCESS,
          { w1 with events := w1.events ++ [NetEvent.set_mtime filename lastmod] })
      else (GetResult.ret EXIT_FAILURE, w1)
    else (GetResult.ret EXIT_SUCCESS, w1)
  | BodyExit.failure => (GetResult.ret EXIT_FAILURE, conn_close sock_fd w)
  | BodyExit.undef => (GetResult.undef, w)
  | BodyExit.aborted => (GetResult.aborted, w)
  | BodyExit.nofuel => (GetResult.nofuel, w)

/-- The part of `conn_get` that follows the header loop (683-852): the status is
returned unless it is 200 or 203, else the file is opened, the body loop runs
and writes to it.  On the return of the body loop after a failed `recv`
(791-805) the stream is not closed: the file is given the bytes written until
then, which reach it when the stream is flushed, at the exit of the process at
the latest. -/
def conn_get_finish (c : NetConfig) (fuel : Nat) (filename : CString) (x : Exchange)
    (sock_fd : Nat) (h : HeaderState) (w : NetWorld) : GetResult × NetWorld :=
  if h.status ≠ 200 ∧ h.status ≠ 203 then
    (GetResult.ret h.status, close_unless_kept sock_fd h.stream w)
  else if x.fopen_ok = false then
    (GetResult.ret EXIT_FAILURE, close_unless_kept sock_fd h.stream w)
  else
    let r := body_loop c.NETBUFSIZE h.is_chunked (if h.is_chunked then 0 else h.msgsize) fuel
      BodyLoc.outer
      { buffer := h.buffer, bufpos := h.bufpos, bufend := h.bufend, msgcurr := 0,
        chunk_size := 0, chunk_curr := 0, stream := h.stream, written := [] }
    conn_get_end filename x sock_fd h.lastmod r
      { w with events := w.events ++ [NetEvent.fopen filename],
               files := SmallWorld.store w.files filename r.2.written }

/-- What follows the header loop of one request (437-852). -/
def conn_get_after_header (c : NetConfig) (fuel : Nat) (filename : CString) (x : Exchange)
    (sock_fd : Nat) (l : GetLocals) (e : HeaderExit) (h : HeaderState) (w0 : NetWorld) :
    RoundStep :=
  let w := { w0 with sock_fd_ka := apply_ka h.ka sock_fd w0.sock_fd_ka }
  match e with
  | HeaderExit.recv_failed => RoundStep.done (GetResult.ret EXIT_FAILURE) (conn_close sock_fd w)
  | HeaderExit.bad_status =>
    RoundStep.done (GetResult.ret h.status) (close_unless_kept sock_fd h.stream w)
  | HeaderExit.unsupported => RoundStep.done (GetResult.ret EXIT_FAILURE) (conn_close sock_fd w)
  | HeaderExit.redirect =>
    let l1 : GetLocals :=
      { buffer := h.buffer, target := h.target, conn_ka := l.conn_ka,
        redirect_num := l.redirect_num + 1 }
    if c.servername ≠ h.target.servername_dl ∨ c.serverport ≠ h.target.serverport_dl then
      RoundStep.again l1 (conn_close sock_fd w)
    else RoundStep.again l1 (close_unless_kept_redirect h.stream w)
  | HeaderExit.msgbegin =>
    let r := conn_get_finish c fuel filename x sock_fd h w
    RoundStep.done r.1 r.2
  | HeaderExit.undef => RoundStep.done GetResult.undef w
  | HeaderExit.aborted => RoundStep.done GetResult.aborted w
  | HeaderExit.nofuel => RoundStep.done GetResult.nofuel w

/-- The locals of `conn_get` before the header loop (307-311 and 424-425):
`buffer` holds the request with `buffer[0] = '\0'`, `bufpos` and `bufend` are at
its start, `status` is -1. -/
def header_start (buffer : List Char) (target : Target) (stream : List (List Char)) :
    HeaderState :=
  { buffer := NUL :: buffer.tail, bufpos := 0, bufend := 0, status := -1, msgsize := 0,
    is_chunked := false, lastmod := 0, target := target, field_name := none,
    field_content := none, stream := stream, ka := none }

/-- The request of one round and the header loop (332-681), on the socket
`sock_fd` whose unread bytes are `unread`; `MAX_REDIRECT` is the constant of the
missing `drwebmirror.h`. -/
def conn_get_exchange (c : NetConfig) (MAX_REDIRECT fuel : Nat) (filename : CString)
    (x : Exchange)
    (sock_fd : Nat) (unread : List (List Char)) (l : GetLocals) (w : NetWorld) : RoundStep :=
  let request := build_request c l.target l.conn_ka
  match mem_write l.buffer 0 (request ++ [NUL]) with
  | none => RoundStep.done GetResult.undef w
  | some buffer =>
    if x.send_ok = false then RoundStep.done (GetResult.ret EXIT_FAILURE) (conn_close sock_fd w)
    else
      let w1 := { w with events := w.events ++ [NetEvent.send sock_fd request] }
      let r := header_loop c.toHeaderConfig (decide (l.redirect_num < MAX_REDIRECT)) fuel
        (header_start buffer l.target (unread ++ x.stream))
      conn_get_after_header c fuel filename x sock_fd l r.1 r.2 w1

/-- One pass from the label `redirect` of `conn_get` (307-852). -/
def conn_get_round (c : NetConfig) (MAX_REDIRECT fuel : Nat) (filename : CString)
    (l0 : GetLocals) (w0 : NetWorld) : RoundStep :=
  let l :=
    if c.servername ≠ l0.target.servername_dl ∨ c.serverport ≠ l0.target.serverport_dl then
      { l0 with conn_ka := bsd_strlcpy "close".toList 11 }
    else l0
  let x := w0.script.headD
    { connect_ok := false, send_ok := false, stream := [], fopen_ok := false,
      set_mtime_ok := false }
  let w := { w0 with script := w0.script.tail }
  match w.sock_fd_ka with
  | none =>
    let server := if c.use_proxy then c.proxy_address else l.target.servername_dl
    let port := if c.use_proxy then c.proxy_port else l.target.serverport_dl
    if x.connect_ok then
      conn_get_exchange c MAX_REDIRECT fuel filename x w.next_fd [] l
        { w with next_fd := w.next_fd + 1,
                 events := w.events ++ [NetEvent.conn_open w.next_fd server port] }
    else
      RoundStep.done (GetResult.ret EXIT_FAILURE)
        { w with events := w.events ++ [NetEvent.conn_open_failed server port] }
  | some fd => conn_get_exchange c MAX_REDIRECT fuel filename x fd w.unread l w

/-- The passes of `conn_get` from the label `redirect`; the first argument
bounds their number. -/
def conn_get_rounds (c : NetConfig) (MAX_REDIRECT fuel : Nat) (filename : CString) :
    Nat → GetLocals → NetWorld → GetResult × NetWorld
  | 0, _, w => (GetResult.nofuel, w)
  | n + 1, l, w =>
    match conn_get_round c MAX_REDIRECT fuel filename l w with
    | RoundStep.again l1 w1 => conn_get_rounds c MAX_REDIRECT fuel filename n l1 w1
    | RoundStep.done r w1 => (r, w1)

/-- A call `conn_get(filename)` (279-853).  `fuel` bounds the rounds of the
header loop of each request and the steps of the body loop; a request follows
at most `MAX_REDIRECT` redirects, so that there are at most `MAX_REDIRECT + 1`
passes. -/
def conn_get_call (c : NetConfig) (MAX_REDIRECT fuel : Nat) (filename : CString)
    (w : NetWorld) : GetResult × NetWorld :=
  conn_get_rounds c MAX_REDIRECT fuel filename (MAX_REDIRECT + 1)
    { buffer := List.replicate (c.NETBUFSIZE + 4) NUL,
      target := { servername_dl := bsd_strlcpy c.servername 256, serverport_dl := c.serverport,
                  filename_dl := bsd_strlcpy filename c.STRBUFSIZE },
      conn_ka := bsd_strlcpy "Keep-Alive".toList 11, redirect_num := 0 } w

/-! ### A configuration and a world for the examples -/

/-- Days from 1970-01-01 to the given day of the Gregorian calendar. -/
def days_from_civil (year month day : Int) : Int :=
  let y := if month ≤ 2 then year - 1 else year
  let era := y / 400
  let yoe := y - era * 400
  let doy := (153 * (month + (if month > 2 then -3 else 9)) + 2) / 5 + day - 1
  let doe := yoe * 365 + yoe / 4 - yoe / 100 + doy
  era * 146097 + doe - 719468

/-- An instance of `mktime` for the examples: the seconds since the epoch of a
broken-down time read as UTC. -/
def utc_mktime (t : TM) : Int :=
  days_from_civil (t.tm_year + 1900) (t.tm_mon + 1) t.tm_mday * 86400 +
    t.tm_hour * 3600 + t.tm_min * 60 + t.tm_sec

/-- A configuration for the examples: the server `host-a:80`, no proxy, no
authentication, the Android protocol (no `X-DrWeb-*` request lines), buffers of
256 and 128 bytes. -/
def exampleConfig : NetConfig :=
  { servername := "host-a".toList, NETBUFSIZE := 256, STRBUFSIZE := 128, tzshift := 0,
    mktime := utc_mktime, serverport := 80, http_version := "1.1".toList,
    use_http_auth := false, http_auth := [], useragent := [], syshash := [],
    use_syshash := false, use_android := true, use_proxy := false, use_proxy_auth := false,
    proxy_address := [], proxy_port := 0, proxy_auth := [], key_md5sum := [], key_userid := [] }

/-- An exchange in which everything local succeeds and the server sends the
given text in one piece and then closes the connection. -/
def answer (response : String) : Exchange :=
  { connect_ok := true, send_ok := true, stream := [response.toList], fopen_ok := true,
    set_mtime_ok := true }

/-- A world before the first request: no cached socket, no file, the given
exchanges to come. -/
def freshWorld (script : List Exchange) : NetWorld :=
  { sock_fd_ka := none, unread := [], next_fd := 3, script := script, events := [], files := [] }

/-- An exchange in which everything local succeeds and the server answers with
the status code `s`, no header field, and the body `body`. -/
def status_answer (s : Nat) : Exchange :=
  { connect_ok := true, send_ok := true,
    stream := ["HTTP/1.1 ".toList ++ print_unsigned s ++ " X\r\n\r\nbody".toList],
    fopen_ok := true, set_mtime_ok := true }

/-- What a call `conn_get("f")` comes to in the example configuration, with no
redirect followed (`MAX_REDIRECT = 0`), when the server answers with the status
code `s`. -/
def status_outcome (s : Nat) : GetResult × NetWorld :=
  conn_get_call exampleConfig 0 20 "f".toList (freshWorld [status_answer s])

/-- Whether the event is a successful `fopen(filename, "wb")`. -/
def NetEvent.is_fopen : NetEvent → Bool
  | NetEvent.fopen _ => true
  | _ => false

/-- Whether the event is a request sent. -/
def NetEvent.is_send : NetEvent → Bool
  | NetEvent.send _ _ => true
  | _ => false

/-- The files that the calls of `conn_get` have opened for writing so far. -/
def NetWorld.opened (w : NetWorld) : List NetEvent := w.events.filter NetEvent.is_fopen

/-- The number of requests that the calls of `conn_get` have sent so far. -/
def NetWorld.requests (w : NetWorld) : Nat := (w.events.filter NetEvent.is_send).length

/-- What `conn_get` may touch without opening a file: the local files and the
list of files opened are as before. -/
def SameFiles (w w1 : NetWorld) : Prop := w1.files = w.files ∧ w1.opened = w.opened

/-- A step of `conn_get` that goes on, or returns a value other than
`EXIT_SUCCESS` and `EXIT_FAILURE`, has left the files of `w0` alone. -/
inductive KeepsFiles (w0 : NetWorld) : RoundStep → Prop where
  | again (l : GetLocals) (w1 : NetWorld) (h : SameFiles w0 w1) :
    KeepsFiles w0 (RoundStep.again l w1)
  | done (r : GetResult) (w1 : NetWorld)
    (h : ∀ status, r = GetResult.ret status → status ≠ EXIT_SUCCESS → status ≠ EXIT_FAILURE →
      SameFiles w0 w1) :
    KeepsFiles w0 (RoundStep.done r w1)

/-- What a call `conn_get("f")` comes to in the example configuration when the
server answers 200 with `Transfer-Encoding: gzip`. -/
def gzip_outcome : GetResult × NetWorld :=
  conn_get_call exampleConfig 0 20 "f".toList
    (freshWorld [answer "HTTP/1.1 200 OK\r\nTransfer-Encoding: gzip\r\n\r\nxx"])

/-- The connections that the calls of `conn_get` have opened so far: the
descriptor, the server and the port of each. -/
def NetWorld.connections (w : NetWorld) : List (Nat × CString × Nat) :=
  w.events.filterMap (fun e =>
    match e with
    | NetEvent.conn_open fd server port => some (fd, server, port)
    | _ => none)

/-- The descriptors on which the calls of `conn_get` have sent their requests
so far, in order. -/
def NetWorld.sent_on (w : NetWorld) : List Nat :=
  w.events.filterMap (fun e =>
    match e with
    | NetEvent.send fd _ => some fd
    | _ => none)

/-- The descriptors that the calls of `conn_get` have closed so far. -/
def NetWorld.closed (w : NetWorld) : List Nat :=
  w.events.filterMap (fun e =>
    match e with
    | NetEvent.conn_close fd => some fd
    | _ => none)

/-- The world after `conn_get("f")` and then `conn_get("h")` in the example
configuration (server `host-a:80`, `MAX_REDIRECT = 1`): the request for `f` is
answered by a redirect to port 8080 of the same host, where the answer carries
`Connection: keep-alive`; the request for `h` is answered with 200. -/
def port_run : (GetResult × NetWorld) × (GetResult × NetWorld) :=
  let first := conn_get_call exampleConfig 1 20 "f".toList
    (freshWorld
      [answer "HTTP/1.1 302 Found\r\nLocation: http://host-a:8080/g\r\n\r\n",
       answer "HTTP/1.1 200 OK\r\nConnection: keep-alive\r\nContent-Length: 2\r\n\r\nok",
       answer "HTTP/1.1 200 OK\r\nContent-Length: 2\r\n\r\nhi"])
  (first, conn_get_call exampleConfig 1 20 "h".toList first.2)

/-- The world after `conn_get("f")` and then `conn_get("g")` in the example
configuration (server `host-a:80`, `MAX_REDIRECT = 1`) when `host-a` answers
each request with a redirect to `host-b` and `host-b` answers 200 with
`Connection: keep-alive`. -/
def redirect_run : (GetResult × NetWorld) × (GetResult × NetWorld) :=
  let first := conn_get_call exampleConfig 1 20 "f".toList
    (freshWorld
      [answer "HTTP/1.1 302 Found\r\nLocation: http://host-b/f\r\n\r\n",
       answer "HTTP/1.1 200 OK\r\nConnection: keep-alive\r\nContent-Length: 2\r\n\r\nok",
       answer "HTTP/1.1 302 Found\r\nLocation: http://host-b/g\r\n\r\n",
       answer "HTTP/1.1 200 OK\r\nConnection: keep-alive\r\nContent-Length: 2\r\n\r\nhi"])
  (first, conn_get_call exampleConfig 1 20 "g".toList first.2)

/-- The locals of `conn_get` at the label `redirect` after a redirect of the
request for `f` to `http://host-b/f`. -/
def host_b_locals : GetLocals :=
  { buffer := List.replicate (256 + 4) NUL,
    target := { servername_dl := "host-b".toList, serverport_dl := 80,
                filename_dl := "f".toList },
    conn_ka := "Keep-Alive".toList, redirect_num := 1 }

/-- The header loop works on a request that went to a server other than
`servername` and has not assigned `sock_fd` to `sock_fd_ka`. -/
def NotKept (c : HeaderConfig) (s : HeaderState) : Prop :=
  c.servername ≠ s.target.servername_dl ∧ s.ka ≠ some true

/-- A step of the header loop that keeps `NotKept`. -/
inductive StaysUncached (c : HeaderConfig) : HeaderStep → Prop where
  | next (s : HeaderState) (h : NotKept c s) : StaysUncached c (HeaderStep.next s)
  | exit (e : HeaderExit) (s : HeaderState) (h : s.ka ≠ some true) :
    StaysUncached c (HeaderStep.exit e s)

/-- The world in which a pass of `conn_get` ends. -/
def RoundStep.world : RoundStep → NetWorld
  | RoundStep.again _ w => w
  | RoundStep.done _ w => w

/-- The broken-down time of 1994-11-06 08:49:37 as `conn_get` passes it to
`mktime`: day 6, month index 10, year 94. -/
def example_time : TM :=
  { tm_sec := 37, tm_min := 49, tm_hour := 8, tm_mday := 6, tm_mon := 10, tm_year := 94,
    tm_wday := -1, tm_yday := -1, tm_isdst := -1 }

/-- The state of the `sscanf` calls for `Last-Modified` before the first
one. -/
def scan_start : ScanTime :=
  { raw_time := { tm_sec := 0, tm_min := 0, tm_hour := 0, tm_mday := 0, tm_mon := 0,
                  tm_year := 0, tm_wday := -1, tm_yday := -1, tm_isdst := -1 },
    month := none, count := 0, overrun := false }

/-- What a call `conn_get("f")` comes to in the example configuration when the
server answers 200 with the given `Last-Modified` value and the body `ok`. -/
def last_modified_outcome (value : String) : GetResult × NetWorld :=
  conn_get_call exampleConfig 0 20 "f".toList
    (freshWorld
      [{ connect_ok := true, send_ok := true,
         stream := ["HTTP/1.1 200 OK\r\nLast-Modified: ".toList ++ value.toList ++
           "\r\nContent-Length: 2\r\n\r\nok".toList],
         fopen_ok := true, set_mtime_ok := true }])

/-- An exchange in which everything local succeeds and the server answers 200
with the body `ok`. -/
def ok_answer : Exchange :=
  answer "HTTP/1.1 200 OK\r\nContent-Length: 2\r\n\r\nok"

/-- The target of the request for `f` in the example configuration. -/
def chain_target : Target :=
  { servername_dl := "host-a".toList, serverport_dl := 80, filename_dl := "f".toList }

/-- The request for `f` in the example configuration. -/
def chain_request : CString := build_request exampleConfig chain_target "Keep-Alive".toList

/-- The memory of `buffer` once the request for `f` is written to it. -/
def chain_buffer : List Char :=
  chain_request ++ List.replicate (256 + 4 - chain_request.length) NUL

/-- The locals of `conn_get` at the label `redirect` in a chain of redirects of
the request for `f` to itself: the target is unchanged, and `buffer` holds
nothing behind the place of the request. -/
def ChainLocals (l : GetLocals) : Prop :=
  l.target = chain_target ∧ l.conn_ka = "Keep-Alive".toList ∧
    mem_write l.buffer 0 (chain_request ++ [NUL]) = some chain_buffer

/-- The world after one more request for `f` was sent on a new connection and
answered by a redirect that `conn_get` follows. -/
def after_redirect (w : NetWorld) : NetWorld :=
  { w with unread := [], next_fd := w.next_fd + 1, script := w.script.tail,
           events := w.events ++ [NetEvent.conn_open w.next_fd "host-a".toList 80,
             NetEvent.send w.next_fd chain_request] }

set_option maxRecDepth 100000 in
/-- What a call `conn_get("f")` comes to in the example configuration, with
the given fuel, when the server sends the given pieces and closes the
connection. -/
def body_outcome (fuel : Nat) (stream : List String) : GetResult × NetWorld :=
  conn_get_call exampleConfig 0 fuel "f".toList
    (freshWorld
      [{ connect_ok := true, send_ok := true, stream := stream.map String.toList,
         fopen_ok := true, set_mtime_ok := true }])

/-- The first round of the header loop on the response `response` to the
request for `f`. -/
def first_round (response : String) : HeaderStep :=
  header_round exampleConfig.toHeaderConfig false
    (header_start chain_buffer chain_target [response.toList])

set_option maxRecDepth 100000 in
/-- Whether `conn_get` treats the status code `s` as the two rules of its end
say: 200 and 203 write the body `body` to `f` and give `EXIT_SUCCESS`, every
other code is returned as it is with no file opened. -/
def status_as_expected (s : Nat) : Bool :=
  decide ((status_outcome s).1 = GetResult.ret (if s = 200 ∨ s = 203 then EXIT_SUCCESS else s) ∧
    (status_outcome s).2.files =
      (if s = 200 ∨ s = 203 then [("f".toList, "body".toList)] else []) ∧
    (status_outcome s).2.opened =
      (if s = 200 ∨ s = 203 then [NetEvent.fopen "f".toList] else []))

/-- The first event that the code `m` appends to the log is `e st`, where `st`
is the state in which it starts. -/
def LogsFirst {W α : Type} (e : State W → Event) (m : M W α) : Prop :=
  ∀ st, ∃ evs, (m st).2.log = st.log ++ e st :: evs

/-- The event that `download_check` logs for its call. -/
def gate_event {W : Type} (filename checksum_base : CString) (func : Hasher) (st : State W) :
    Event :=
  Event.download_check st.counter_global st.use_fast filename checksum_base func

/-- The pointer `beg` of a `+`, `=` or `!` line after the two searches
(`update4` 203-207 and its copies): behind the first `>` and then behind the
last backslash of what follows the operation character. -/
def entry_beg (buf : CString) : CString :=
  let beg := buf.tail
  let beg := match strchr beg '>' with
    | some tmp => tmp.tail
    | none => beg
  match strrchr beg BACKSLASH with
  | some tmp => tmp.tail
  | none => beg

/-- A state of the concrete world in fast mode that holds `d/a` and
`d/a.lzma` and the index of the manifest `+b, CD`, `+a, AB`, `+c, EF`. -/
def indexed_state : State SmallWorld :=
  smallState [("d/a".toList, "XY".toList), ("d/a.lzma".toList, "Z".toList)] [] true
    (cache4_lines "d".toList ["+b, CD".toList, "+a, AB".toList, "+c, EF".toList]
      (smallState [] [] true [])).2.tree

/-! ## `filesystem.c`: the matcher of `delete_files` -/

/-- What the loop `while(flag)` of `delete_files` (130-162) does with one
directory entry. -/
inductive MaskResult where
  /-- the loop ended with `flag = 0`: `remove` is called for the entry -/
  | selected
  /-- the loop was left by `break` with `flag = 1`: the entry is kept -/
  | rejected
  /-- a pointer was moved past the terminator of its string and the byte behind
  it was read -/
  | undef
  /-- the model ran out of fuel -/
  | nofuel
  deriving DecidableEq, Repr

/-- One round of the loop `while(flag)`: it goes on with new pointers or ends. -/
inductive MaskStep where
  | again (curr_name curr_mask : CString)
  | done (r : MaskResult)
  deriving DecidableEq, Repr

/-- The statement `if(* curr_name == '\0' && * curr_mask == '\0') flag = 0;`
that follows `curr_name++; curr_mask++;` (148 and 157). -/
def mask_advance (curr_name curr_mask : CString) : MaskStep :=
  if curr_name = [] ∧ curr_mask = [] then MaskStep.done MaskResult.selected
  else MaskStep.again curr_name curr_mask

/-- The body of the loop `while(flag)` of `delete_files` (132-161); the pointers
`curr_name` and `curr_mask` are the rests of the two strings. -/
def mask_round (curr_name curr_mask : CString) : MaskStep :=
  if curr_mask.head? = some '*' then
    match curr_mask.dropWhile (fun x => x == '*') with
    | [] => MaskStep.done MaskResult.selected
    | c :: mask1 =>
      match curr_name.dropWhile (fun x => x != c) with
      | [] => MaskStep.done MaskResult.rejected
      | _ :: name1 => mask_advance name1 mask1
  else if curr_mask.head? = some '?' ∨ curr_name.head? = curr_mask.head? then
    match curr_name, curr_mask with
    | _ :: name1, _ :: mask1 => mask_advance name1 mask1
    | _, _ => MaskStep.done MaskResult.undef
  else MaskStep.done MaskResult.rejected

/-- The loop `while(flag)` of `delete_files` (130-162). -/
def mask_loop : Nat → CString → CString → MaskResult
  | 0, _, _ => MaskResult.nofuel
  | fuel + 1, curr_name, curr_mask =>
    match mask_round curr_name curr_mask with
    | MaskStep.again name1 mask1 => mask_loop fuel name1 mask1
    | MaskStep.done r => r

/-- The matcher of `delete_files` for the entry `d_name` and the mask `mask`;
every round but the last moves `curr_mask` forward, so `strlen(mask) + 1` rounds
are enough. -/
def mask_match (d_name mask : CString) : MaskResult :=
  mask_loop (mask.length + 1) d_name mask

/-- The loop `while((dp = readdir(dfd)) != NULL)` of `delete_files` (125-170) on
the names that `readdir` yields: the paths for which `remove` is called, in
order.  `none`: the matcher left the defined behaviour for one of the names. -/
def delete_files_loop (directory mask : CString) : List CString → Option (List CString)
  | [] => some []
  | d_name :: rest =>
    match mask_match d_name mask with
    | MaskResult.selected =>
      (delete_files_loop directory mask rest).map (fun l => (directory ++ '/' :: d_name) :: l)
    | MaskResult.rejected => delete_files_loop directory mask rest
    | _ => none

/-- `delete_files(directory, mask)` (114-174); `listing` is `none` when
`opendir` fails and otherwise the names of the entries.  The result is the
return value and the paths handed to `remove`. -/
def delete_files_on (directory mask : CString) (listing : Option (List CString)) :
    Option (Int × List CString) :=
  match listing with
  | none => some (EXIT_FAILURE, [])
  | some d_names => (delete_files_loop directory mask d_names).map (fun l => (EXIT_SUCCESS, l))

/-- Reference semantics of a mask, in the words of the specification: `*`
matches any possibly empty sequence of characters, `?` matches exactly one
character, other characters match themselves. -/
def glob_spec : CString → CString → Bool
  | [], d_name => d_name.isEmpty
  | c :: mask, d_name =>
    if c = '*' then d_name.tails.any (fun t => glob_spec mask t)
    else
      match d_name with
      | [] => false
      | x :: rest => (c == '?' || c == x) && glob_spec mask rest

/-- The names that `readdir` yields for `directory` in the concrete world: `.`,
`..` and, for every file below `directory`, the first component of its path
relative to `directory` (the name of the file or of a subdirectory). -/
def SmallWorld.readdir (files : List (CString × CString)) (directory : CString) :
    List CString :=
  ".".toList :: "..".toList ::
    (files.filterMap (fun kv =>
      if starts_with kv.1 (directory ++ ['/']) then
        some ((kv.1.drop (directory.length + 1)).takeWhile (fun x => x != '/'))
      else none)).eraseDups

/-- The calls `remove(path)` for the paths `paths`: a file with that path is
deleted; for `.`, `..` and a subdirectory that is not empty `remove` fails and
nothing changes. -/
def SmallWorld.remove_all (files : List (CString × CString)) (paths : List CString) :
    List (CString × CString) :=
  files.filter (fun kv => !paths.contains kv.1)

/-- The concrete environment in which `delete_files` is the function of
`filesystem.c`, run on the listing of the directory.  (Where the matcher leaves
the defined behaviour the world is kept; the examples do not get there.) -/
def dirEnv : Env SmallWorld :=
  { smallEnv with
    delete_files := fun w directory mask =>
      match delete_files_on directory mask (some (SmallWorld.readdir w.files directory)) with
      | some r => { w with files := SmallWorld.remove_all w.files r.2 }
      | none => w }

/-- A `[Files]` line of an Android manifest with `file_op = 0x2` for the name
`a?`. -/
def delete_line_query : CString :=
  "old-signature-file-of-the-previous-release, 00000002, 00000000, 0123456789abcdef0123456789abcdef, 0, 0, a?".toList

/-- A `[Files]` line of an Android manifest with `file_op = 0x2` for the
relative path `sub/old.bin`. -/
def delete_line_sub : CString :=
  "old-signature-file-of-the-previous-release, 00000002, 00000000, 0123456789abcdef0123456789abcdef, 0, 0, sub/old.bin".toList

/-- A `[Files]` line of an Android manifest with `file_op = 0x2` for the name
`ab`. -/
def delete_line_plain : CString :=
  "old-signature-file-of-the-previous-release, 00000002, 00000000, 0123456789abcdef0123456789abcdef, 0, 0, ab".toList

/-- Whether an event belongs to a call of the gate: the note of the call, a
call of the checksum function, a call of `download` or of `conn_get`. -/
def Event.of_gate : Event → Bool
  | Event.download_check _ _ _ _ _ => true
  | Event.checksum _ _ _ => true
  | Event.download _ => true
  | Event.conn_get _ => true
  | _ => false

/-- Every event that the code `m` appends to the log satisfies `P`. -/
def Appends {W α : Type} (P : Event → Prop) (m : M W α) : Prop :=
  ∀ st, ∃ evs, (m st).2.log = st.log ++ evs ∧ ∀ e ∈ evs, P e

/-- The `case 0x0` block of `updateA` (930-955) for the file `filename`. -/
def updateA_download {W : Type} (E : Env W) (MAX_REPEAT : Int) (filename md5_base : CString)
    (filesize : Int) : M W Unit := do
  let status ← download_check E MAX_REPEAT filename md5_base Hasher.md5sum
  after_check MAX_REPEAT status
  let st ← M.get
  if !E.check_size st.world filename filesize then wrong_size MAX_REPEAT

/-! ## `filesystem.c`: `make_dir` and `make_path` -/

/-- The system calls of `make_dir` over a world `W`. -/
structure DirOps (W : Type) where
  /-- `stat(name, &st)`: `none` when it fails, otherwise `S_ISDIR(st.st_mode)` -/
  stat : W → CString → Option Bool
  /-- `mkdir(name, MODE_DIR)`: whether it returned `0`, and the new world -/
  mkdir : W → CString → Bool × W
  /-- `chmod(name, MODE_DIR)`, whose result is not looked at -/
  chmod : W → CString → W

/-- `make_dir(name)` of `filesystem.c` (50-69): the status and the new world. -/
def make_dir {W : Type} (F : DirOps W) (name : CString) (w : W) : Int × W :=
  match F.stat w name with
  | none =>
    match F.mkdir w name with
    | (true, w1) => (EXIT_SUCCESS, F.chmod w1 name)
    | (false, w1) => (EXIT_FAILURE, w1)
  | some false => (EXIT_FAILURE, w)
  | some true => (EXIT_SUCCESS, F.chmod w name)

/-- How a call of `make_path` ends. -/
inductive PathResult where
  /-- `return status;` -/
  | ret (status : Int)
  /-- `strchr` was called with the null pointer, or `tmppath` has no terminator -/
  | undef
  /-- the model ran out of fuel -/
  | nofuel
  deriving DecidableEq, Repr

/-- The loop `while(flag)` of `make_path` (80-95) on the string `tmppath`;
`curr` is the offset of the pointer `curr` in `tmppath`, `none` for `NULL`, and
`make_dir` is the function called for the prefixes. -/
def make_path_loop {W : Type} (make_dir : CString → W → Int × W) (tmppath : CString) :
    Nat → Option Nat → Int → W → PathResult × W
  | 0, _, _, w => (PathResult.nofuel, w)
  | _ + 1, none, _, w => (PathResult.undef, w)
  | fuel + 1, some curr, status, w =>
    match strchr (tmppath.drop curr) '/' with
    | some t =>
      make_path_loop make_dir tmppath fuel (some (tmppath.length - t.length + 1))
        (make_dir (tmppath.take (tmppath.length - t.length)) w).1
        (make_dir (tmppath.take (tmppath.length - t.length)) w).2
    | none =>
      if status = EXIT_SUCCESS then
        (PathResult.ret (make_dir tmppath w).1, (make_dir tmppath w).2)
      else make_path_loop make_dir tmppath fuel none status w

/-- `make_path(path)` of `filesystem.c` (72-97).  `strncpy` copies at most
`STRBUFSIZE - 1` characters into the uninitialised `tmppath` and writes a
terminator only when `path` is shorter than that.  Every round with a pointer
moves `curr` forward, so `strlen(path) + 2` rounds are enough. -/
def make_path {W : Type} (STRBUFSIZE : Nat) (make_dir : CString → W → Int × W)
    (path : CString) (w : W) : PathResult × W :=
  if path.length + 1 < STRBUFSIZE then
    make_path_loop make_dir path (path.length + 2) (some 0) EXIT_SUCCESS w
  else (PathResult.undef, w)

/-- A concrete file system for `make_dir`: the world is the list of the
directories that exist; `stat` and `mkdir` fail for the empty name, and `mkdir`
creates a directory whose parent exists (a name without `/` is created in the
current directory, the name `/x` in the root). -/
def listOps : DirOps (List CString) where
  stat w name := if name ≠ [] ∧ name ∈ w then some true else none
  mkdir w name :=
    if name = [] then (false, w)
    else
      match before_last name '/' with
      | none => (true, w ++ [name])
      | some parent =>
        if parent = [] ∨ parent ∈ w then (true, w ++ [name]) else (false, w)
  chmod w _ := w

/-- A file system on which nothing can be created (read-only, or no
permission): `stat` finds the directories of the list, `mkdir` fails. -/
def frozenOps : DirOps (List CString) where
  stat w name := if name ∈ w then some true else none
  mkdir w _ := (false, w)
  chmod w _ := w

/-- A state of the concrete world in fast mode that holds `d/a` with the
content `AB` and the index of the manifest `+a, AB`, `+a, CD`, which lists one
path twice. -/
def twice_listed_state : State SmallWorld :=
  smallState [("d/a".toList, "AB".toList)] [] true
    (cache4_lines "d".toList ["+a, AB".toList, "+a, CD".toList]
      (smallState [] [] true [])).2.tree

/-! ## `network.c`: the passes of a call of `conn_get` -/

/-- The locals of `conn_get` when the label `redirect` is reached for the first
time (299-305). -/
def conn_get_locals (c : NetConfig) (filename : CString) : GetLocals :=
  { buffer := List.replicate (c.NETBUFSIZE + 4) NUL,
    target := { servername_dl := bsd_strlcpy c.servername 256, serverport_dl := c.serverport,
                filename_dl := bsd_strlcpy filename c.STRBUFSIZE },
    conn_ka := bsd_strlcpy "Keep-Alive".toList 11, redirect_num := 0 }

/-- A pass of `conn_get` at the head of its header loop (426): the exchange that
the world holds for it, the socket, the locals that live across
`goto redirect`, the world after `send`, and the locals of the loop. -/
structure Sent where
  x : Exchange
  sock_fd : Nat
  l : GetLocals
  w : NetWorld
  start : HeaderState
  deriving DecidableEq, Repr

/-- The request of a pass on the socket `sock_fd` (332-425), up to the header
loop.  `none`: the pass ends here, since the request does not fit `buffer` or
`send` fails. -/
def conn_get_send_on (c : NetConfig) (x : Exchange) (sock_fd : Nat)
    (unread : List (List Char)) (l : GetLocals) (w : NetWorld) : Option Sent :=
  let request := build_request c l.target l.conn_ka
  match mem_write l.buffer 0 (request ++ [NUL]) with
  | none => none
  | some buffer =>
    if x.send_ok = false then none
    else
      some { x := x, sock_fd := sock_fd, l := l,
             w := { w with events := w.events ++ [NetEvent.send sock_fd request] },
             start := header_start buffer l.target (unread ++ x.stream) }

/-- A pass from the label `redirect` up to its header loop (307-425).  `none`:
the pass ends before the loop, since `conn_open` or `send` fails or the request
does not fit `buffer`. -/
def conn_get_send (c : NetConfig) (l0 : GetLocals) (w0 : NetWorld) : Option Sent :=
  let l :=
    if c.servername ≠ l0.target.servername_dl ∨ c.serverport ≠ l0.target.serverport_dl then
      { l0 with conn_ka := bsd_strlcpy "close".toList 11 }
    else l0
  let x := w0.script.headD
    { connect_ok := false, send_ok := false, stream := [], fopen_ok := false,
      set_mtime_ok := false }
  let w := { w0 with script := w0.script.tail }
  match w.sock_fd_ka with
  | none =>
    let server := if c.use_proxy then c.proxy_address else l.target.servername_dl
    let port := if c.use_proxy then c.proxy_port else l.target.serverport_dl
    if x.connect_ok then
      conn_get_send_on c x w.next_fd [] l
        { w with next_fd := w.next_fd + 1,
                 events := w.events ++ [NetEvent.conn_open w.next_fd server port] }
    else none
  | some fd => conn_get_send_on c x fd w.unread l w

/-- How the header loop of the pass from `l`, `w` is left, and the locals of the
loop then.  `none`: the pass ends before the loop. -/
def pass_header (c : NetConfig) (MAX_REDIRECT fuel : Nat) (l : GetLocals) (w : NetWorld) :
    Option (HeaderExit × HeaderState) :=
  (conn_get_send c l w).map (fun q =>
    header_loop c.toHeaderConfig (decide (q.l.redirect_num < MAX_REDIRECT)) fuel q.start)

/-- The locals and the world at the label `redirect` after `k` passes that all
ended with `goto redirect`.  `none`: one of them ended otherwise. -/
def after_redirects (c : NetConfig) (MAX_REDIRECT fuel : Nat) (filename : CString) :
    Nat → GetLocals → NetWorld → Option (GetLocals × NetWorld)
  | 0, l, w => some (l, w)
  | k + 1, l, w =>
    match conn_get_round c MAX_REDIRECT fuel filename l w with
    | RoundStep.again l1 w1 => after_redirects c MAX_REDIRECT fuel filename k l1 w1
    | RoundStep.done _ _ => none

/-- In a call `conn_get(filename)` from the world `w`: how the header loop of
the pass after `k` followed redirects is left, and the `status` it has read.
`none`: there is no such pass, or it ends before its header loop. -/
def call_header (c : NetConfig) (MAX_REDIRECT fuel : Nat) (filename : CString) (k : Nat)
    (w : NetWorld) : Option (HeaderExit × Int) :=
  (after_redirects c MAX_REDIRECT fuel filename k (conn_get_locals c filename) w).bind
    (fun p => (pass_header c MAX_REDIRECT fuel p.1 p.2).map (fun r => (r.1, r.2.status)))

/-- What one pass does to the number of redirects followed and to the number of
requests sent: a pass that ends with `goto redirect` was made with
`redirect_num < MAX_REDIRECT`, has added one to `redirect_num` and has sent one
request; a pass that returns has sent at most one. -/
inductive PassCounts (MAX_REDIRECT : Nat) (l : GetLocals) (w : NetWorld) : RoundStep → Prop where
  | again (l1 : GetLocals) (w1 : NetWorld) (hnum : l.redirect_num < MAX_REDIRECT)
    (hl : l1.redirect_num = l.redirect_num + 1) (hreq : w1.requests = w.requests + 1) :
    PassCounts MAX_REDIRECT l w (RoundStep.again l1 w1)
  | done (r : GetResult) (w1 : NetWorld) (hreq : w1.requests ≤ w.requests + 1) :
    PassCounts MAX_REDIRECT l w (RoundStep.done r w1)

/-- The locals of the header loop when it is left at an unsupported
`Transfer-Encoding` (650-659): `field_name` holds `Transfer-Encoding`,
`field_content` the value in lower case, which is neither `chunked` nor
`identity`, and `sock_fd_ka` was made `SOCKET_BAD_VALUE`. -/
def AtUnsupported (h : HeaderState) : Prop :=
  h.field_name = some "Transfer-Encoding".toList ∧ h.ka = some false ∧
  ∃ v, h.field_content = some (to_lowercase v) ∧ to_lowercase v ≠ "chunked".toList ∧
    to_lowercase v ≠ "identity".toList

/-- An environment over `NetWorld` whose `conn_get` is the call of `conn_get`
of `network.c`: `E.conn_get` gives the value and the world of every call that
returns. -/
def RunsConnGet (c : NetConfig) (MAX_REDIRECT fuel : Nat) (E : Env NetWorld) : Prop :=
  ∀ w filename status w1,
    conn_get_call c MAX_REDIRECT fuel filename w = (GetResult.ret status, w1) →
    E.conn_get w filename = (status, w1)

/-- The environment over `NetWorld`: `conn_get` is the call of `conn_get` of
`network.c`, the local files are those of the world, with the digest of a file
its content.  A call that does not return (undefined behaviour, a failed
`assert`, the model out of fuel) has no value; `EXIT_FAILURE` stands for it
here, and what is proved of `netEnv` is proved of calls that return. -/
def netEnv (c : NetConfig) (MAX_REDIRECT fuel : Nat) : Env NetWorld where
  exist w f := (SmallWorld.lookup w.files f).isSome
  get_size w f := match SmallWorld.lookup w.files f with
    | some content => (content.length : Int)
    | none => -1
  checksum _ w f := SmallWorld.lookup w.files f
  check_size w f n := match SmallWorld.lookup w.files f with
    | some content => decide ((content.length : Int) = n)
    | none => false
  check_size_lzma w f n := match SmallWorld.lookup w.files f with
    | some content => decide ((content.length : Int) = n)
    | none => false
  conn_get w f := match conn_get_call c MAX_REDIRECT fuel f w with
    | (GetResult.ret status, w1) => (status, w1)
    | (_, w1) => (EXIT_FAILURE, w1)
  delete_files w d m :=
    { w with files := w.files.filter (fun kv => kv.1 != d ++ '/' :: m) }
  make_path w _ := (0, w)
  make_path_for w _ := (0, w)
  do_lock w _ := (0, w)
  read_lines w f := (SmallWorld.lookup w.files f).map SmallWorld.lines
  read_lines_lf w f := (SmallWorld.lookup w.files f).map SmallWorld.lines
  stack_garbage := []

/-- A state over `NetWorld` with an empty log. -/
def netState (w : NetWorld) : State NetWorld :=
  { world := w, use_fast := false, tree := [], counter_global := 0, log := [] }

/-- What the ways to leave the header loop tell of the response: `goto redirect`
is taken only for a status 300, 301, 302, 303 or 307 while `redirect_num <
MAX_REDIRECT`; `return EXIT_FAILURE;` (658) only at an unsupported
`Transfer-Encoding`. -/
def ExitFacts (follow : Bool) (e : HeaderExit) (h : HeaderState) : Prop :=
  (e = HeaderExit.redirect → is_redirect h.status follow = true) ∧
  (e = HeaderExit.unsupported → AtUnsupported h)

/-- The exchange in which the server answers 200 with the header
`Transfer-Encoding: GZip`. -/
def gzip_answer : Exchange :=
  answer "HTTP/1.1 200 OK\r\nTransfer-Encoding: GZip\r\n\r\nxx"

/-- The exchange in which the server answers with a redirect that carries
`Transfer-Encoding: gzip` before its `Location`. -/
def gzip_redirect : Exchange :=
  answer "HTTP/1.1 302 Found\r\nTransfer-Encoding: gzip\r\nLocation: http://host-a/f\r\n\r\n"

/-- The setting of a run of `update4` over a mirror whose manifest has the one
line `buf`, which names `filename` with the digest `D`; `Inv` holds of the
worlds of the setting.  In these worlds the local manifest is that line, the
server holds `filename` with the digest `D`, and every other operation of the
engine (requests for other files, `make_path`, `do_lock`, the removal of the
`.lzma` sibling) leaves the digest of `filename` as it is. -/
structure MirrorSetting {W : Type} (E : Env W) (remotedir buf filename D : CString)
    (Inv : W → Prop) : Prop where
  line : is_download_line buf = true
  name : entry_filename remotedir buf = some filename
  crc : entry_crc_base buf = some D
  other : ∀ g ∈ [remotedir ++ "/drweb32.lst".toList, remotedir ++ "/drweb32.lst.lzma".toList,
    remotedir ++ "/version.lst".toList, remotedir ++ "/version.lst.lzma".toList,
    remotedir ++ "/drweb32.flg".toList, remotedir ++ "/drweb32.flg.lzma".toList], g ≠ filename
  manifest : ∀ w, Inv w → E.read_lines w (remotedir ++ "/drweb32.lst".toList) = some [buf]
  served : ∀ w, Inv w → (E.conn_get w filename).1 = EXIT_SUCCESS →
    E.checksum Hasher.crc32sum (E.conn_get w filename).2 filename = some D
  inv_conn_get : ∀ w g, Inv w → Inv (E.conn_get w g).2
  inv_make_path : ∀ w, Inv w → Inv (E.make_path w remotedir).2
  inv_do_lock : ∀ w, Inv w → Inv (E.do_lock w remotedir).2
  inv_delete : ∀ w nm, strrchr (filename ++ ".lzma".toList) '/' = some nm → Inv w →
    Inv (E.delete_files w remotedir nm.tail)
  frame_conn_get : ∀ w g, Inv w → g ≠ filename →
    E.checksum Hasher.crc32sum (E.conn_get w g).2 filename =
      E.checksum Hasher.crc32sum w filename
  frame_make_path : ∀ w, Inv w →
    E.checksum Hasher.crc32sum (E.make_path w remotedir).2 filename =
      E.checksum Hasher.crc32sum w filename
  frame_do_lock : ∀ w, Inv w →
    E.checksum Hasher.crc32sum (E.do_lock w remotedir).2 filename =
      E.checksum Hasher.crc32sum w filename
  frame_delete : ∀ w nm, strrchr (filename ++ ".lzma".toList) '/' = some nm → Inv w →
    E.checksum Hasher.crc32sum (E.delete_files w remotedir nm.tail) filename =
      E.checksum Hasher.crc32sum w filename

/-- The worlds of the mirroring scenario: the server is `mirror_server` and the
local manifest is its one line. -/
def mirror_world (w : SmallWorld) : Prop :=
  w.server = mirror_server ∧
    SmallWorld.lookup w.files "d/drweb32.lst".toList = some "+a, AB".toList

/-! ## `drwebmirror.c`: the loop over the bytes of the manifest -/

/-- What a call `fscanf(fp, "%[^\r\n]\r\n", buf)` comes to (`cache4` 91,
`update4` 197, `cache5` 286, `update5x_internal` 401, `update7` 693). -/
inductive Fscanf where
  /-- the input is at its end: the value is -1 and `buf` is as it was -/
  | eof
  /-- the first byte is CR or LF: `%[^\r\n]` matches nothing, the value is 0,
  no byte is consumed and `buf` is as it was -/
  | no_match
  /-- the value is 1: `buf` holds the bytes up to the next CR or LF, and the
  white space behind them is consumed -/
  | line (buf rest : CString)
  /-- the bytes up to the next CR or LF and the terminator do not fit the
  array `buf` of `STRBUFSIZE` bytes -/
  | overrun
  deriving DecidableEq, Repr

/-- The call `fscanf(fp, "%[^\r\n]\r\n", buf)` on the bytes `input` still to be
read from `fp`: `%[^\r\n]` takes the bytes up to the next CR or LF, at least
one, with no bound on their number; the directives `\r` and `\n` of the format
are white space, which consumes all white space that follows.  As a C string,
`buf` ends at its first `'\0'`. -/
def fscanf_line (STRBUFSIZE : Nat) (input : CString) : Fscanf :=
  match input with
  | [] => Fscanf.eof
  | c :: _ =>
    if c = '\r' ∨ c = '\n' then Fscanf.no_match
    else
      let tok := input.takeWhile (fun x => x != '\r' && x != '\n')
      if STRBUFSIZE ≤ tok.length then Fscanf.overrun
      else
        Fscanf.line (tok.takeWhile (fun x => x != NUL))
          ((input.drop tok.length).dropWhile isspace)

/-- The successive contents of `buf` that the calls of `fscanf` give up to the
end of the input, in at most `n` calls.  `none`: a call returns 0 or overruns
`buf`. -/
def scan_lines_within (STRBUFSIZE : Nat) : Nat → CString → Option (List CString)
  | 0, _ => some []
  | n + 1, input =>
    match fscanf_line STRBUFSIZE input with
    | Fscanf.eof => some []
    | Fscanf.line l rest => (scan_lines_within STRBUFSIZE n rest).map (fun ls => l :: ls)
    | _ => none

/-- The lines of a manifest as the calls of `fscanf` deliver them; every call
that returns 1 consumes a byte, so that one call more than there are bytes
reaches the end. -/
def scan_lines (STRBUFSIZE : Nat) (input : CString) : Option (List CString) :=
  scan_lines_within STRBUFSIZE (input.length + 1) input

/-- The number of calls `download(filename)` in a log. -/
def downloads_of (filename : CString) (log : List Event) : Nat :=
  log.countP (fun e => e == Event.download filename)

/-- The number of passages of a label `repeatN` in a log. -/
def labels_of (log : List Event) : Nat :=
  log.countP (fun e => (Event.label e).isSome)

/-- Whether the event is a call `download_check(filename, ...)`. -/
def Event.is_gate (filename : CString) : Event → Bool
  | Event.download_check _ _ f _ _ => f == filename
  | _ => false

/-- The number of calls `download_check(filename, ...)` in a log. -/
def gates_of (filename : CString) (log : List Event) : Nat :=
  log.countP (Event.is_gate filename)

/-- Code that logs at most `n` calls `download(manifest)` beyond one for each
label it passes and one for each call of the gate for `manifest`. -/
def Spends {W α : Type} (manifest : CString) (n : Nat) (m : M W α) : Prop :=
  ∀ st, ∃ evs, (m st).2.log = st.log ++ evs ∧
    downloads_of manifest evs ≤ labels_of evs + gates_of manifest evs + n

@[simp] theorem M.bind_val {W α β : Type} (m : M W α) (f : α → M W β) (st st1 : State W) (a : α)
    (h : m st = (Ctl.val a, st1)) : (m >>= f) st = f a st1 := by
  show M.bind m f st = _
  simp [M.bind, h]

theorem M.bind_exit {W α β : Type} (m : M W α) (f : α → M W β) (st st1 : State W) (e : Exit)
    (h : m st = (Ctl.exit e, st1)) : (m >>= f) st = (Ctl.exit e, st1) := by
  show M.bind m f st = _
  simp [M.bind, h]

theorem M.bind_apply {W α β : Type} (m : M W α) (f : α → M W β) (st : State W) :
    (m >>= f) st = match m st with
      | (Ctl.val a, st1) => f a st1
      | (Ctl.exit e, st1) => (Ctl.exit e, st1) := rfl

@[simp] theorem M.pure_apply {W α : Type} (a : α) (st : State W) :
    (pure a : M W α) st = (Ctl.val a, st) := rfl

/-! ### The transport wrapper `download` -/

theorem download_loop_spec {W : Type} (E : Env W) (MAX_REPEAT : Int) (filename : CString) :
    ∀ (fuel : Nat) (counter : Int) (st : State W), 0 ≤ counter → 0 < fuel →
      MAX_REPEAT - counter < fuel →
      ∃ status k, ∃ st1 : State W,
        download_loop E MAX_REPEAT filename fuel counter st = (Ctl.val status, st1) ∧
        st1.log = st.log ++ List.replicate (k + 1) (Event.conn_get filename) ∧
        st1.use_fast = st.use_fast ∧ st1.tree = st.tree ∧
        st1.counter_global = st.counter_global := by
  intro fuel
  induction fuel with
  | zero => intro counter st _ h; omega
  | succ n ih =>
    intro counter st h0 _ h
    simp only [download_loop, conn_get, M.bind_apply, M.log, M.io]
    split_ifs with hc hcont hcont
    · obtain ⟨status, k, st1, h1, h2, h3, h4, h5⟩ :=
        ih (counter + 1) _ (by omega) (by omega) (by omega)
      refine ⟨status, k + 1, st1, h1, ?_, h3, h4, h5⟩
      rw [h2]
      simp [List.replicate_succ]
    · exact ⟨_, 0, _, rfl, by simp, rfl, rfl, rfl⟩
    · omega
    · exact ⟨_, 0, _, rfl, by simp, rfl, rfl, rfl⟩

theorem download_spec {W : Type} (E : Env W) (MAX_REPEAT : Int) (filename : CString)
    (st : State W) :
    ∃ status k, ∃ st1 : State W,
      download E MAX_REPEAT filename st = (Ctl.val status, st1) ∧
      (status = DL_DOWNLOADED ∨ status = DL_NOT_FOUND ∨ status = DL_FAILED) ∧
      st1.log = st.log ++ Event.download filename ::
        List.replicate (k + 1) (Event.conn_get filename) ∧
      st1.use_fast = st.use_fast ∧ st1.tree = st.tree ∧
      st1.counter_global = st.counter_global := by
  obtain ⟨status, k, st1, h1, h2, h3, h4, h5⟩ :=
    download_loop_spec E MAX_REPEAT filename (MAX_REPEAT.toNat + 1) 0
      { st with log := st.log ++ [Event.download filename] } (le_refl _) (by omega) (by omega)
  simp only [download, M.bind_apply, M.log, h1]
  refine ⟨if status = EXIT_SUCCESS then DL_DOWNLOADED else if status = 404 then DL_NOT_FOUND
    else DL_FAILED, k, st1, ?_, ?_, ?_, h3, h4, h5⟩
  · split_ifs <;> rfl
  · split_ifs <;> simp
  · rw [h2]; simp

theorem download_check_eq {W : Type} (E : Env W) (MAX_REPEAT : Int)
    (filename checksum_base : CString) (func : Hasher) (st : State W) :
    download_check E MAX_REPEAT filename checksum_base func st =
      if fast_check E filename checksum_base st then
        (Ctl.val DL_EXIST, noted filename checksum_base func st)
      else download_check_slow E MAX_REPEAT filename checksum_base func
        (noted filename checksum_base func st) := by
  simp only [download_check, M.bind_apply, M.get, M.log, noted]
  split_ifs <;> rfl

theorem Grows.refl {W : Type} (st : State W) : Grows st st :=
  ⟨rfl, rfl, [], by simp, by simp⟩

theorem Grows.trans {W : Type} {a b c : State W} (h1 : Grows a b) (h2 : Grows b c) :
    Grows a c := by
  obtain ⟨f1, c1, evs1, l1, q1⟩ := h1
  obtain ⟨f2, c2, evs2, l2, q2⟩ := h2
  refine ⟨f2.trans f1, c2.trans c1, evs1 ++ evs2, by rw [l2, l1, List.append_assoc], ?_⟩
  intro e he
  rcases List.mem_append.mp he with h | h
  · exact q1 e h
  · rw [← f1, ← c1]; exact q2 e h

theorem obeys_pure {W α : Type} (MAX_REPEAT : Int) (a : α) :
    Obeys MAX_REPEAT (pure a : M W α) := fun st =>
  ⟨Grows.refl st, by simp, by simp, by simp⟩

theorem obeys_exit {W α : Type} (MAX_REPEAT : Int) (e : Exit) (h1 : e ≠ Exit.nofuel)
    (h2 : e ≠ Exit.restart) (h3 : e ≠ Exit.ret EXIT_SUCCESS) :
    Obeys MAX_REPEAT (M.exit e : M W α) := fun st =>
  ⟨Grows.refl st, by simpa [M.exit] using h1, by simp [M.exit, h2],
    by simpa [M.exit] using h3⟩

theorem obeys_bind {W α β : Type} {MAX_REPEAT : Int} {m : M W α} {f : α → M W β}
    (hm : Obeys MAX_REPEAT m) (hf : ∀ a, Obeys MAX_REPEAT (f a)) :
    Obeys MAX_REPEAT (m >>= f) := by
  intro st
  obtain ⟨g, n, r, z⟩ := hm st
  rw [M.bind_apply]
  rcases hres : m st with ⟨c, st1⟩
  rw [hres] at g n r z
  cases c with
  | val a =>
    obtain ⟨g2, n2, r2, z2⟩ := hf a st1
    dsimp only at g n r ⊢
    refine ⟨g.trans g2, n2, fun h => ?_, z2⟩
    have := r2 h
    rw [g.2.1] at this
    exact this
  | exit e =>
    dsimp only at g n r z ⊢
    exact ⟨g, by simpa using n, by simpa using r, by simpa using z⟩

theorem obeys_get {W : Type} (MAX_REPEAT : Int) : Obeys MAX_REPEAT (M.get : M W (State W)) :=
  fun st => ⟨Grows.refl st, by simp [M.get], by simp [M.get], by simp [M.get]⟩

theorem obeys_io {W α : Type} (MAX_REPEAT : Int) (f : W → α × W) :
    Obeys MAX_REPEAT (M.io f) := fun st =>
  ⟨⟨rfl, rfl, [], by simp [M.io], by simp⟩, by simp [M.io], by simp [M.io], by simp [M.io]⟩

theorem obeys_set_tree {W : Type} (MAX_REPEAT : Int) (t : AvlTree) :
    Obeys MAX_REPEAT (M.set_tree t : M W Unit) := fun st =>
  ⟨⟨rfl, rfl, [], by simp [M.set_tree], by simp⟩, by simp [M.set_tree], by simp [M.set_tree],
    by simp [M.set_tree]⟩

theorem obeys_checksum {W : Type} (MAX_REPEAT : Int) (E : Env W) (func : Hasher)
    (filename : CString) : Obeys MAX_REPEAT (checksum E func filename) := fun st =>
  ⟨⟨rfl, rfl, [_], rfl, by simp [Event.in_pass]⟩, by simp [checksum], by simp [checksum],
    by simp [checksum]⟩

theorem obeys_delete_files {W : Type} (MAX_REPEAT : Int) (E : Env W)
    (directory mask : CString) : Obeys MAX_REPEAT (delete_files E directory mask) := fun st =>
  ⟨⟨rfl, rfl, [_], rfl, by simp [Event.in_pass]⟩, by simp [delete_files], by simp [delete_files],
    by simp [delete_files]⟩

theorem obeys_download {W : Type} (MAX_REPEAT : Int) (E : Env W) (filename : CString) :
    Obeys MAX_REPEAT (download E MAX_REPEAT filename) := by
  intro st
  obtain ⟨status, k, st1, h1, -, h2, h3, -, h5⟩ := download_spec E MAX_REPEAT filename st
  rw [h1]
  refine ⟨⟨h3, h5, _, h2, ?_⟩, by simp, by simp, by simp⟩
  intro e he
  simp only [List.mem_cons, List.mem_replicate] at he
  rcases he with rfl | ⟨-, rfl⟩ <;> simp [Event.in_pass]

theorem obeys_download_check {W : Type} (MAX_REPEAT : Int) (E : Env W)
    (filename checksum_base : CString) (func : Hasher) :
    Obeys MAX_REPEAT (download_check E MAX_REPEAT filename checksum_base func) := by
  intro st
  have key : Obeys MAX_REPEAT (download_check_slow E MAX_REPEAT filename checksum_base func) := by
    unfold download_check_slow
    refine obeys_bind (obeys_checksum _ _ _ _) fun real => ?_
    split
    · exact obeys_pure _ _
    refine obeys_bind (obeys_download _ _ _) fun status => ?_
    split
    · exact obeys_pure _ _
    refine obeys_bind (obeys_checksum _ _ _ _) fun real2 => ?_
    split
    · exact obeys_pure _ _
    · split <;> exact obeys_pure _ _
  rw [download_check_eq]
  split_ifs
  · exact ⟨⟨rfl, rfl, [_], rfl, by simp [Event.in_pass]⟩, by simp, by simp, by simp⟩
  · obtain ⟨g, n, r, z⟩ := key (noted filename checksum_base func st)
    refine ⟨Grows.trans (b := noted filename checksum_base func st) ⟨rfl, rfl, [_], rfl, ?_⟩ g,
      n, r, z⟩
    simp [Event.in_pass]

theorem obeys_of_get {W α : Type} {MAX_REPEAT : Int} {f : State W → M W α}
    (h : ∀ st, Grows st (f st st).2 ∧ (f st st).1 ≠ Ctl.exit Exit.nofuel ∧
      ((f st st).1 = Ctl.exit Exit.restart → st.counter_global < MAX_REPEAT) ∧
      (f st st).1 ≠ Ctl.exit (Exit.ret EXIT_SUCCESS)) :
    Obeys MAX_REPEAT (M.get >>= f) := fun st => h st

theorem obeys_after_check {W : Type} (MAX_REPEAT : Int) (status : DLStatus) :
    Obeys MAX_REPEAT (after_check MAX_REPEAT status : M W Unit) := by
  intro st
  simp only [after_check, M.bind_apply, M.get]
  split_ifs with h1 h2
  · exact ⟨Grows.refl st, by simp [M.exit], fun _ => h1.2, by simp [M.exit]⟩
  · exact ⟨Grows.refl st, by simp [M.exit], by simp [M.exit],
      by simp [M.exit, EXIT_FAILURE, EXIT_SUCCESS]⟩
  · exact ⟨Grows.refl st, by simp, by simp, by simp⟩

theorem obeys_wrong_size {W α : Type} (MAX_REPEAT : Int) :
    Obeys MAX_REPEAT (wrong_size MAX_REPEAT : M W α) := by
  intro st
  simp only [wrong_size, M.bind_apply, M.get]
  split_ifs with h1
  · exact ⟨Grows.refl st, by simp [M.exit], by simp [M.exit],
      by simp [M.exit, EXIT_FAILURE, EXIT_SUCCESS]⟩
  · exact ⟨Grows.refl st, by simp [M.exit], fun _ => by omega, by simp [M.exit]⟩

theorem obeys_delete_stale_lzma {W : Type} (MAX_REPEAT : Int) (E : Env W)
    (remotedir buf : CString) : Obeys MAX_REPEAT (delete_stale_lzma E remotedir buf) := by
  unfold delete_stale_lzma
  refine obeys_bind (obeys_get _) fun st => ?_
  split
  · split
    · exact obeys_exit _ _ (by simp) (by simp) (by decide)
    · exact obeys_delete_files _ _ _ _
  · exact obeys_pure _ _

theorem obeys_update4_entry {W : Type} (MAX_REPEAT : Int) (E : Env W)
    (remotedir buf : CString) : Obeys MAX_REPEAT (update4_entry E MAX_REPEAT remotedir buf) := by
  unfold update4_entry
  split
  · refine obeys_bind (obeys_download_check _ _ _ _ _) fun status => ?_
    refine obeys_bind (obeys_after_check _ _) fun _ => ?_
    refine obeys_bind (obeys_get _) fun st => ?_
    split
    · refine obeys_bind (obeys_download_check _ _ _ _ _) fun status => ?_
      split
      · exact obeys_delete_stale_lzma _ _ _ _
      · exact obeys_after_check _ _
    · exact obeys_pure _ _
  · exact obeys_exit _ _ (by simp) (by simp) (by decide)

theorem obeys_delete_entry {W : Type} (MAX_REPEAT : Int) (E : Env W)
    (remotedir buf : CString) : Obeys MAX_REPEAT (delete_entry E remotedir buf) := by
  unfold delete_entry
  split
  · exact obeys_exit _ _ (by simp) (by simp) (by decide)
  · exact obeys_bind (obeys_delete_files _ _ _ _) fun _ => obeys_delete_files _ _ _ _

theorem obeys_update4_lines {W : Type} (MAX_REPEAT : Int) (E : Env W) (remotedir : CString)
    (lines : List CString) : Obeys MAX_REPEAT (update4_lines E MAX_REPEAT remotedir lines) := by
  induction lines with
  | nil => exact obeys_pure _ _
  | cons buf rest ih =>
    unfold update4_lines
    refine obeys_bind ?_ fun _ => ih
    split
    · exact obeys_update4_entry _ _ _ _
    · split
      · exact obeys_delete_entry _ _ _ _
      · exact obeys_pure _ _

theorem obeys_download_optional {W : Type} (MAX_REPEAT : Int) (E : Env W) (filename : CString) :
    Obeys MAX_REPEAT (download_optional E MAX_REPEAT filename) :=
  obeys_bind (obeys_download _ _ _) fun _ => obeys_pure _ _

theorem obeys_update5x_lzma_status {W : Type} (MAX_REPEAT : Int) (E : Env W)
    (remotedir : CString) (e : Entry5) (status : DLStatus) :
    Obeys MAX_REPEAT (update5x_lzma_status E MAX_REPEAT remotedir e status) := by
  unfold update5x_lzma_status
  refine obeys_of_get fun st1 => ?_
  split_ifs with h1 h2 h3 h4 h5
  · exact obeys_delete_stale_lzma _ _ _ _ st1
  · exact ⟨Grows.refl st1, by simp [M.exit], fun _ => h2.2, by simp [M.exit]⟩
  · exact obeys_exit _ _ (by simp) (by simp) (by decide) st1
  · exact obeys_wrong_size _ st1
  · refine obeys_bind (obeys_checksum _ _ _ _) (fun real => ?_) st1
    split
    · exact obeys_wrong_size _
    · exact obeys_pure _ _
  · exact ⟨Grows.refl st1, by simp, by simp, by simp⟩

theorem obeys_update5x_lzma {W : Type} (MAX_REPEAT : Int) (E : Env W) (remotedir : CString)
    (e : Entry5) (status : DLStatus) :
    Obeys MAX_REPEAT (update5x_lzma E MAX_REPEAT remotedir e status) := by
  unfold update5x_lzma
  refine obeys_bind (obeys_get _) fun st => ?_
  split
  · exact obeys_bind (obeys_download_check _ _ _ _ _) fun status =>
      obeys_update5x_lzma_status _ _ _ _ _
  · exact obeys_pure _ _

theorem obeys_update5x_entry {W : Type} (MAX_REPEAT : Int) (E : Env W)
    (remotedir buf : CString) : Obeys MAX_REPEAT (update5x_entry E MAX_REPEAT remotedir buf) := by
  unfold update5x_entry
  split
  · exact obeys_exit _ _ (by simp) (by simp) (by decide)
  · refine obeys_bind (obeys_download_check _ _ _ _ _) fun status => ?_
    refine obeys_bind (obeys_after_check _ _) fun _ => ?_
    refine obeys_bind (obeys_get _) fun st => ?_
    refine obeys_bind ?_ fun _ => obeys_update5x_lzma _ _ _ _ _
    split
    · exact obeys_wrong_size _
    · exact obeys_pure _ _

theorem obeys_update5x_lines {W : Type} (MAX_REPEAT : Int) (E : Env W) (remotedir : CString)
    (lines : List CString) : Obeys MAX_REPEAT (update5x_lines E MAX_REPEAT remotedir lines) := by
  induction lines with
  | nil => exact obeys_pure _ _
  | cons buf rest ih =>
    unfold update5x_lines
    refine obeys_bind ?_ fun _ => ih
    split
    · exact obeys_update5x_entry _ _ _ _
    · split
      · exact obeys_delete_entry _ _ _ _
      · exact obeys_pure _ _

theorem obeys_cache7_lines {W : Type} (MAX_REPEAT : Int) (directory : CString)
    (lines : List CString) : Obeys MAX_REPEAT (cache7_lines directory lines : M W Unit) := by
  induction lines with
  | nil => exact obeys_pure _ _
  | cons buf rest ih =>
    unfold cache7_lines
    refine obeys_bind ?_ fun _ => ih
    split
    · split
      · exact obeys_exit _ _ (by simp) (by simp) (by decide)
      · exact obeys_bind (obeys_get _) fun st => obeys_set_tree _ _
    · exact obeys_pure _ _

theorem obeys_cache7 {W : Type} (MAX_REPEAT : Int) (E : Env W) (file directory : CString) :
    Obeys MAX_REPEAT (cache7 E file directory) := by
  unfold cache7
  refine obeys_bind (obeys_get _) fun st => ?_
  split
  · exact obeys_pure _ _
  · exact obeys_cache7_lines _ _ _

theorem obeys_cannot_make_path_for {W : Type} (MAX_REPEAT : Int) (E : Env W)
    (filename : CString) : Obeys MAX_REPEAT (cannot_make_path_for E filename) := by
  unfold cannot_make_path_for
  refine obeys_bind (obeys_get _) fun st => ?_
  split
  · exact obeys_pure _ _
  · exact obeys_bind (obeys_io _ _) fun _ => obeys_pure _ _

theorem obeys_update7_check {W : Type} (MAX_REPEAT : Int) (E : Env W)
    (filename base_hash : CString) (filesize : Int) :
    Obeys MAX_REPEAT (update7_check E MAX_REPEAT filename base_hash filesize) := by
  unfold update7_check
  refine obeys_bind (obeys_download_check _ _ _ _ _) fun status => ?_
  refine obeys_bind (obeys_after_check _ _) fun _ => ?_
  refine obeys_bind (obeys_get _) fun st => ?_
  split
  · exact obeys_wrong_size _
  · exact obeys_pure _ _

theorem obeys_update7_xlines {W : Type} (MAX_REPEAT : Int) (E : Env W) (directory : CString)
    (lines : List CString) : Obeys MAX_REPEAT (update7_xlines E MAX_REPEAT directory lines) := by
  induction lines with
  | nil => exact obeys_pure _ _
  | cons buf rest ih =>
    unfold update7_xlines
    refine obeys_bind ?_ fun _ => ih
    split
    · split
      · exact obeys_exit _ _ (by simp) (by simp) (by decide)
      · refine obeys_bind (obeys_cannot_make_path_for _ _ _) fun failed => ?_
        refine obeys_bind ?_ fun _ => obeys_update7_check _ _ _ _ _
        split
        · exact obeys_exit _ _ (by simp) (by simp) (by decide)
        · exact obeys_pure _ _
    · exact obeys_pure _ _

theorem obeys_update7_entry {W : Type} (MAX_REPEAT : Int) (E : Env W)
    (remotedir buf : CString) : Obeys MAX_REPEAT (update7_entry E MAX_REPEAT remotedir buf) := by
  unfold update7_entry
  split
  · exact obeys_exit _ _ (by simp) (by simp) (by decide)
  · refine obeys_bind (obeys_cannot_make_path_for _ _ _) fun failed => ?_
    refine obeys_bind ?_ fun _ => ?_
    · split
      · exact obeys_exit _ _ (by simp) (by simp) (by decide)
      · exact obeys_pure _ _
    refine obeys_bind (obeys_get _) fun st => ?_
    refine obeys_bind ?_ fun _ => ?_
    · split
      · split
        · exact obeys_exit _ _ (by simp) (by simp) (by decide)
        · exact obeys_cache7 _ _ _ _
      · exact obeys_pure _ _
    refine obeys_bind (obeys_update7_check _ _ _ _ _) fun _ => ?_
    split
    · refine obeys_bind (obeys_get _) fun st => ?_
      split
      · exact obeys_update7_xlines _ _ _ _
      · exact obeys_exit _ _ (by simp) (by simp) (by decide)
    · exact obeys_pure _ _

theorem obeys_update7_lines {W : Type} (MAX_REPEAT : Int) (E : Env W) (remotedir : CString)
    (lines : List CString) : Obeys MAX_REPEAT (update7_lines E MAX_REPEAT remotedir lines) := by
  induction lines with
  | nil => exact obeys_pure _ _
  | cons buf rest ih =>
    unfold update7_lines
    refine obeys_bind ?_ fun _ => ih
    split
    · exact obeys_update7_entry _ _ _ _
    · exact obeys_pure _ _

theorem obeys_updateA_entry {W : Type} (MAX_REPEAT : Int) (E : Env W)
    (real_dir buf : CString) : Obeys MAX_REPEAT (updateA_entry E MAX_REPEAT real_dir buf) := by
  unfold updateA_entry
  split
  · exact obeys_exit _ _ (by simp) (by simp) (by decide)
  · dsimp only
    split
    · refine obeys_bind (obeys_download_check _ _ _ _ _) fun status => ?_
      refine obeys_bind (obeys_after_check _ _) fun _ => ?_
      refine obeys_bind (obeys_get _) fun st => ?_
      split
      · exact obeys_wrong_size _
      · exact obeys_pure _ _
    · split
      · refine obeys_bind (obeys_get _) fun st => ?_
        split
        · exact obeys_delete_files _ _ _ _
        · exact obeys_pure _ _
      · exact obeys_exit _ _ (by simp) (by simp) (by decide)

theorem obeys_updateA_lines {W : Type} (MAX_REPEAT : Int) (E : Env W) (real_dir : CString)
    (lines : List CString) :
    ∀ flag_files, Obeys MAX_REPEAT (updateA_lines E MAX_REPEAT real_dir flag_files lines) := by
  induction lines with
  | nil => intro f; cases f <;> exact obeys_pure _ _
  | cons buf rest ih =>
    intro f
    cases f with
    | true =>
      unfold updateA_lines
      split
      · exact obeys_pure _ _
      · exact obeys_bind (obeys_updateA_entry _ _ _ _) fun _ => ih true
    | false =>
      unfold updateA_lines
      exact ih _

theorem fetch_manifest_eq {W : Type} (E : Env W) (MAX_REPEAT : Int) (manifest : CString)
    (main_hash_old : CString) (main_size_old : Int) (st : State W) :
    fetch_manifest E MAX_REPEAT manifest main_hash_old main_size_old st =
      match download E MAX_REPEAT manifest (after_label st) with
      | (Ctl.val status, st1) =>
        if !DL_SUCCESS status then (Ctl.exit (Exit.ret EXIT_FAILURE), st1)
        else if st1.use_fast ∧ E.get_size st1.world manifest = main_size_old then
          if main_hash_old = (E.checksum Hasher.sha256sum st1.world manifest).getD
              E.stack_garbage then
            (Ctl.exit (Exit.ret EXIT_SUCCESS), { st1 with log := st1.log ++
              [Event.checksum Hasher.sha256sum manifest
                (E.checksum Hasher.sha256sum st1.world manifest), Event.nothing_changed] })
          else
            (Ctl.val (), { st1 with log := st1.log ++
              [Event.checksum Hasher.sha256sum manifest
                (E.checksum Hasher.sha256sum st1.world manifest)] })
        else (Ctl.val (), st1)
      | (Ctl.exit e, st1) => (Ctl.exit e, st1) := by
  have hst : (if st.counter_global > 0 ∧ st.use_fast = true then
      (M.set_use_fast false : M W Unit) else pure ())
      { st with log := st.log ++ [Event.repeat_label st.counter_global st.use_fast] } =
      (Ctl.val (), after_label st) := by
    unfold after_label
    by_cases hc : st.counter_global > 0 <;> cases hf : st.use_fast <;>
      simp [hc, hf, M.set_use_fast, not_le.mpr, not_lt.mp]
  simp only [fetch_manifest, M.bind_apply, M.get, M.log, hst]
  rcases hd : download E MAX_REPEAT manifest _ with ⟨c, st1⟩
  cases c with
  | exit e => rfl
  | val status =>
    dsimp only
    by_cases hs : DL_SUCCESS status = true
    · simp only [hs, Bool.not_true, Bool.false_eq_true, if_false, M.pure_apply]
      split_ifs with h1 h2
      · simp [M.bind_apply, checksum, h2, M.log, M.exit]
      · simp [M.bind_apply, checksum, h2]
      · rfl
    · simp only [Bool.not_eq_true] at hs
      simp [hs, M.exit]

theorem in_pass_label (c : Int) (f : Bool) (e : Event) (h : Event.in_pass c f e) :
    Event.label e = none := by
  cases e <;> simp_all [Event.in_pass, Event.label]

theorem in_pass_check (c : Int) (f : Bool) (c1 : Int) (f1 : Bool) (p b : CString) (h : Hasher)
    (hq : Event.in_pass c f (Event.download_check c1 f1 p b h)) : c1 = c ∧ f1 = f := hq

theorem in_pass_changed (c : Int) (f : Bool) : ¬ Event.in_pass c f Event.nothing_changed :=
  fun h => h

theorem pass_ok {W : Type} (E : Env W) (MAX_REPEAT : Int) (manifest : CString)
    (main_hash_old : CString) (main_size_old : Int) (rest : M W Int)
    (hrest : Obeys MAX_REPEAT rest) :
    PassOK MAX_REPEAT manifest
      (fetch_manifest E MAX_REPEAT manifest main_hash_old main_size_old >>= fun _ => rest) := by
  intro st
  obtain ⟨status, k, st1, hd, -, hlog, hf, -, hc⟩ :=
    download_spec E MAX_REPEAT manifest (after_label st)
  have hf1 : st1.use_fast = (st.use_fast && decide (st.counter_global ≤ 0)) := hf
  have hc1 : st1.counter_global = st.counter_global := hc
  have hlog1 : st1.log = st.log ++ Event.repeat_label st.counter_global st.use_fast ::
      Event.download manifest :: List.replicate (k + 1) (Event.conn_get manifest) := by
    rw [hlog]; simp [after_label]
  have hconn : ∀ e ∈ List.replicate (k + 1) (Event.conn_get manifest),
      Event.in_pass st.counter_global st1.use_fast e := by
    intro e he
    rw [List.mem_replicate] at he
    rw [he.2]; trivial
  -- the continuation from a state that extends `st1` by events of the pass
  have cont : ∀ (st2 : State W) (more : List Event), st2.use_fast = st1.use_fast →
      st2.counter_global = st1.counter_global →
      st2.log = st1.log ++ more → (∀ e ∈ more, Event.in_pass st.counter_global st1.use_fast e) →
      (rest st2).2.counter_global = st.counter_global ∧
      (rest st2).2.use_fast = (st.use_fast && decide (st.counter_global ≤ 0)) ∧
      (rest st2).1 ≠ Ctl.exit Exit.nofuel ∧
      ((rest st2).1 = Ctl.exit Exit.restart → st.counter_global < MAX_REPEAT) ∧
      ((rest st2).1 = Ctl.exit (Exit.ret EXIT_SUCCESS) → (rest st2).2.use_fast = true) ∧
      ∃ evs, (rest st2).2.log = st.log ++
          Event.repeat_label st.counter_global st.use_fast :: Event.download manifest :: evs ∧
        (∀ e ∈ evs, Event.label e = none) ∧
        (∀ c f p b h, Event.download_check c f p b h ∈ evs →
          c = st.counter_global ∧ f = (rest st2).2.use_fast) ∧
        (Event.nothing_changed ∈ evs → (rest st2).1 = Ctl.exit (Exit.ret EXIT_SUCCESS) ∧
          ∃ k r, evs = List.replicate (k + 1) (Event.conn_get manifest) ++
            [Event.checksum Hasher.sha256sum manifest r, Event.nothing_changed]) := by
    intro st2 more h2f h2c h2l hmore
    obtain ⟨⟨gf, gc, evs, gl, gq⟩, gn, gr, gz⟩ := hrest st2
    have hall : ∀ e ∈ List.replicate (k + 1) (Event.conn_get manifest) ++ more ++ evs,
        Event.in_pass st.counter_global st1.use_fast e := by
      intro e he
      simp only [List.mem_append] at he
      rcases he with (he | he) | he
      · exact hconn e he
      · exact hmore e he
      · have := gq e he
        rwa [h2c, hc1, h2f] at this
    refine ⟨by rw [gc, h2c, hc1], by rw [gf, h2f, hf1], gn, fun h => ?_, fun h => absurd h gz,
      List.replicate (k + 1) (Event.conn_get manifest) ++ more ++ evs, ?_, ?_, ?_, ?_⟩
    · have := gr h; rwa [h2c, hc1] at this
    · rw [gl, h2l, hlog1]; simp
    · exact fun e he => in_pass_label _ _ e (hall e he)
    · intro c f p b h he
      have := in_pass_check _ _ _ _ _ _ _ (hall _ he)
      rw [gf, h2f]; exact this
    · intro he
      exact absurd (hall _ he) (in_pass_changed _ _)
  rw [M.bind_apply, fetch_manifest_eq, hd]
  dsimp only
  split_ifs with h1 h2 h3
  · -- the download failed
    refine ⟨hc1, hf1, by simp, by simp, by simp [EXIT_FAILURE, EXIT_SUCCESS],
      List.replicate (k + 1) (Event.conn_get manifest), hlog1, ?_, ?_, ?_⟩
    · exact fun e he => in_pass_label _ _ e (hconn e he)
    · intro c f p b h he
      exact in_pass_check _ _ _ _ _ _ _ (hconn _ he)
    · intro he
      exact absurd (hconn _ he) (in_pass_changed _ _)
  · -- nothing was changed
    refine ⟨hc1, hf1, by simp, by simp, fun _ => h2.1,
      List.replicate (k + 1) (Event.conn_get manifest) ++
      [Event.checksum Hasher.sha256sum manifest (E.checksum Hasher.sha256sum st1.world manifest),
        Event.nothing_changed], ?_, ?_, ?_, ?_⟩
    · dsimp only; rw [hlog1]; simp
    · intro e he
      simp only [List.mem_append, List.mem_cons, List.mem_singleton, List.mem_replicate,
        List.not_mem_nil, or_false] at he
      rcases he with ⟨-, rfl⟩ | rfl | rfl <;> rfl
    · intro c f p b h he
      simp only [List.mem_append, List.mem_cons, List.mem_singleton, List.mem_replicate,
        List.not_mem_nil, or_false] at he
      rcases he with ⟨-, he⟩ | he | he <;> cases he
    · intro _
      exact ⟨rfl, k, _, rfl⟩
  · exact cont _ [Event.checksum Hasher.sha256sum manifest
      (E.checksum Hasher.sha256sum st1.world manifest)] rfl rfl rfl
      (by intro e he; rw [List.mem_singleton] at he; rw [he]; trivial)
  · exact cont st1 [] rfl rfl (by simp) (by simp)

theorem flag_of_pass_event (evs : List Event) (c : Int) (f : Bool)
    (hl : ∀ e ∈ evs, Event.label e = none)
    (hg : ∀ c1 f1 p b h, Event.download_check c1 f1 p b h ∈ evs → c1 = c ∧ f1 = f) :
    ∀ b ∈ evs.filterMap Event.flag, b = f := by
  intro b hb
  rw [List.mem_filterMap] at hb
  obtain ⟨e, he, hfl⟩ := hb
  cases e with
  | repeat_label c1 f1 => have := hl _ he; simp [Event.label] at this
  | download_check c1 f1 p b1 h =>
    simp only [Event.flag, Option.some.injEq] at hfl
    rw [← hfl]; exact (hg _ _ _ _ _ he).2
  | conn_get _ => simp [Event.flag] at hfl
  | download _ => simp [Event.flag] at hfl
  | checksum _ _ _ => simp [Event.flag] at hfl
  | delete_files _ _ => simp [Event.flag] at hfl
  | nothing_changed => simp [Event.flag] at hfl

theorem restart_loop_succ {W : Type} (pass : M W Int) (n : Nat) (st : State W) :
    restart_loop pass (n + 1) st =
      match pass st with
      | (Ctl.exit Exit.restart, st1) => restart_loop pass n (next_attempt st1)
      | r => r := rfl

theorem restart_loop_ok {W : Type} (MAX_REPEAT : Int) (manifest : CString) (pass : M W Int)
    (hp : PassOK MAX_REPEAT manifest pass) :
    ∀ (fuel : Nat) (st : State W), 0 < fuel → MAX_REPEAT - st.counter_global < fuel →
      RunOK MAX_REPEAT manifest st (restart_loop pass fuel st).1 (restart_loop pass fuel st).2 := by
  intro fuel
  induction fuel with
  | zero => intro st h; omega
  | succ n ih =>
    intro st _ hfuel
    obtain ⟨hc, hf, hn, hr, -, evs, hlog, hlab, hgate, hchg⟩ := hp st
    have hflags := flag_of_pass_event evs _ _ hlab hgate
    rw [restart_loop_succ]
    generalize pass st = r at *
    obtain ⟨res, st1⟩ := r
    dsimp only at hc hf hn hr hlog hgate hchg hflags
    have hle : st1.use_fast = true → st.use_fast = true := by
      intro h; rw [hf] at h; simp only [Bool.and_eq_true] at h; exact h.1
    have hpos : 0 < st.counter_global → st1.use_fast = false := by
      intro h; rw [hf]; simp; intro _; omega
    -- facts about the events of this pass
    have pgate : ∀ c f p b h, Event.download_check c f p b h ∈
        Event.repeat_label st.counter_global st.use_fast :: Event.download manifest :: evs →
        0 < c → f = false := by
      intro c f p b h he hc0
      simp only [List.mem_cons] at he
      rcases he with he | he | he
      · cases he
      · cases he
      · obtain ⟨h1, h2⟩ := hgate _ _ _ _ _ he
        rw [h2]; exact hpos (h1 ▸ hc0)
    have pflags : List.filterMap Event.flag
        (Event.repeat_label st.counter_global st.use_fast :: Event.download manifest :: evs) =
        st.use_fast :: List.filterMap Event.flag evs := by
      simp [List.filterMap_cons, Event.flag]
    have ppw : (st.use_fast :: List.filterMap Event.flag evs).Pairwise
        (fun a b => a = false → b = false) := by
      rw [List.pairwise_cons]
      refine ⟨fun b hb ha => ?_, ?_⟩
      · rw [hflags b hb]
        cases hst1 : st1.use_fast
        · rfl
        · have := hle hst1; rw [ha] at this; cases this
      · apply List.Pairwise.imp_of_mem (R := fun _ _ => True)
        · intro a b ha hb _ hfa
          rw [hflags b hb, ← hflags a ha]; exact hfa
        · exact List.pairwise_of_forall (fun _ _ => trivial)
    have pub : ∀ b ∈ st.use_fast :: List.filterMap Event.flag evs, b = true →
        st.use_fast = true := by
      intro b hb hbt
      rcases List.mem_cons.mp hb with hb | hb
      · rw [← hb]; exact hbt
      · exact hle (by rw [← hflags b hb]; exact hbt)
    have plb : ∀ b ∈ st.use_fast :: List.filterMap Event.flag evs, st1.use_fast = true →
        b = true := by
      intro b hb h1
      rcases List.mem_cons.mp hb with hb | hb
      · rw [hb]; exact hle h1
      · rw [hflags b hb]; exact h1
    by_cases hres : res = Ctl.exit Exit.restart
    · -- the pass ends in a restart
      subst hres
      have hlt := hr rfl
      dsimp only
      have e1 : (next_attempt st1).use_fast = st1.use_fast := rfl
      have e2 : (next_attempt st1).log = st1.log := rfl
      have e3 : (next_attempt st1).counter_global = st.counter_global + 1 := by
        show st1.counter_global + 1 = _
        rw [hc]
      generalize next_attempt st1 = st2 at e1 e2 e3 ⊢
      obtain ⟨rn, rr, ruf, segs, evs2, rlog, revs, rlab, rcnt, rmax, rgate, rpw, rub, rlb, rchg⟩ :=
        ih st2 (by omega) (by omega)
      rw [e1] at ruf rub
      rw [e2, hlog] at rlog
      rw [e3] at revs rcnt
      refine ⟨rn, rr, fun h => hle (ruf h), (st.use_fast, evs) :: segs,
        (Event.repeat_label st.counter_global st.use_fast :: Event.download manifest :: evs)
          ++ evs2,
        ?_, ?_, ?_, ?_, ?_, ?_, ?_, ?_, ?_, ?_⟩
      · rw [rlog]; simp
      · rw [revs]; simp [pass_events]
      · intro s hs e he
        rcases List.mem_cons.mp hs with rfl | hs
        · exact hlab e he
        · exact rlab s hs e he
      · simp only [List.length_cons, Nat.cast_add, Nat.cast_one]; omega
      · intro _
        by_cases h2 : 2 ≤ segs.length
        · exact rmax h2
        · have : (segs.length : Int) ≤ 1 := by omega
          omega
      · intro c f p b h he hc0
        rcases List.mem_append.mp he with he | he
        · exact pgate _ _ _ _ _ he hc0
        · exact rgate _ _ _ _ _ he hc0
      · rw [List.filterMap_append, pflags, List.pairwise_append]
        refine ⟨ppw, rpw, fun a ha b hb hfa => ?_⟩
        cases hb1 : b
        · rfl
        · have h1 := rub b hb hb1
          have := plb a ha h1
          rw [hfa] at this; cases this
      · intro b hb hbt
        rw [List.filterMap_append, pflags] at hb
        rcases List.mem_append.mp hb with hb | hb
        · exact pub b hb hbt
        · exact hle (rub b hb hbt)
      · intro b hb hend
        rw [List.filterMap_append, pflags] at hb
        rcases List.mem_append.mp hb with hb | hb
        · exact plb b hb (ruf hend)
        · exact rlb b hb hend
      · intro he
        rcases List.mem_append.mp he with he | he
        · simp only [List.mem_cons] at he
          rcases he with he | he | he
          · cases he
          · cases he
          · have := (hchg he).1
            cases this
        · obtain ⟨h1, pre, k, r, h2⟩ := rchg he
          refine ⟨h1, (Event.repeat_label st.counter_global st.use_fast ::
            Event.download manifest :: evs) ++ pre, k, r, ?_⟩
          rw [h2]; simp
    · -- the pass ends the loop
      have hstep : (match (res, st1) with
          | (Ctl.exit Exit.restart, st1) => restart_loop pass n (next_attempt st1)
          | r => r) = (res, st1) := by
        split
        · rename_i heq
          simp only [Prod.mk.injEq] at heq
          exact absurd heq.1 hres
        · rfl
      rw [hstep]
      refine ⟨hn, hres, hle, [(st.use_fast, evs)],
        Event.repeat_label st.counter_global st.use_fast :: Event.download manifest :: evs,
        hlog, by simp [pass_events], ?_, by simp [hc], by simp, pgate, ?_, ?_, ?_, ?_⟩
      · intro s hs e he
        rw [List.mem_singleton] at hs
        subst hs
        exact hlab e he
      · rw [pflags]; exact ppw
      · rw [pflags]; exact pub
      · rw [pflags]; exact plb
      · intro he
        simp only [List.mem_cons] at he
        rcases he with he | he | he
        · cases he
        · cases he
        · obtain ⟨h1, k, r, h2⟩ := hchg he
          exact ⟨h1, [Event.repeat_label st.counter_global st.use_fast], k, r, by rw [h2]; simp⟩

theorem quiet_pure {W α : Type} (a : α) : Quiet (pure a : M W α) :=
  fun _ => ⟨rfl, rfl, rfl, rfl, Or.inl ⟨a, rfl⟩⟩

theorem quiet_undef {W α : Type} : Quiet (M.exit Exit.undef : M W α) :=
  fun _ => ⟨rfl, rfl, rfl, rfl, Or.inr rfl⟩

theorem quiet_get {W : Type} : Quiet (M.get : M W (State W)) :=
  fun st => ⟨rfl, rfl, rfl, rfl, Or.inl ⟨st, rfl⟩⟩

theorem quiet_set_tree {W : Type} (t : AvlTree) : Quiet (M.set_tree t : M W Unit) :=
  fun _ => ⟨rfl, rfl, rfl, rfl, Or.inl ⟨(), rfl⟩⟩

theorem quiet_bind {W α β : Type} {m : M W α} {f : α → M W β} (hm : Quiet m)
    (hf : ∀ a, Quiet (f a)) : Quiet (m >>= f) := by
  intro st
  obtain ⟨h1, h2, h3, h4, h5⟩ := hm st
  rw [M.bind_apply]
  generalize m st = r at *
  obtain ⟨c, st1⟩ := r
  cases c with
  | val a =>
    obtain ⟨g1, g2, g3, g4, g5⟩ := hf a st1
    dsimp only at h1 h2 h3 h4 ⊢
    exact ⟨g1.trans h1, g2.trans h2, g3.trans h3, g4.trans h4, g5⟩
  | exit e =>
    dsimp only at h1 h2 h3 h4 h5 ⊢
    refine ⟨h1, h2, h3, h4, Or.inr ?_⟩
    rcases h5 with ⟨a, h⟩ | h
    · cases h
    · cases h; rfl

theorem quiet_cache4_lines {W : Type} (remotedir : CString) (lines : List CString) :
    Quiet (cache4_lines remotedir lines : M W Unit) := by
  induction lines with
  | nil => exact quiet_pure _
  | cons buf rest ih =>
    unfold cache4_lines
    refine quiet_bind ?_ fun _ => ih
    split
    · split
      · exact quiet_bind quiet_get fun _ => quiet_set_tree _
      · exact quiet_undef
    · exact quiet_pure _

theorem quiet_cache4 {W : Type} (E : Env W) (remotedir : CString) :
    Quiet (cache4 E remotedir) := by
  unfold cache4
  refine quiet_bind quiet_get fun st => ?_
  split
  · exact quiet_pure _
  · exact quiet_cache4_lines _ _

theorem quiet_cache5_lines {W : Type} (remotedir : CString) (lines : List CString) :
    Quiet (cache5_lines remotedir lines : M W Unit) := by
  induction lines with
  | nil => exact quiet_pure _
  | cons buf rest ih =>
    unfold cache5_lines
    refine quiet_bind ?_ fun _ => ih
    split
    · split
      · exact quiet_bind quiet_get fun _ => quiet_set_tree _
      · exact quiet_undef
    · exact quiet_pure _

theorem quiet_cache5 {W : Type} (E : Env W) (remotedir version_file : CString) :
    Quiet (cache5 E remotedir version_file) := by
  unfold cache5
  refine quiet_bind quiet_get fun st => ?_
  split
  · exact quiet_pure _
  · exact quiet_cache5_lines _ _

theorem quiet_cache7_lines {W : Type} (directory : CString) (lines : List CString) :
    Quiet (cache7_lines directory lines : M W Unit) := by
  induction lines with
  | nil => exact quiet_pure _
  | cons buf rest ih =>
    unfold cache7_lines
    refine quiet_bind ?_ fun _ => ih
    split
    · split
      · exact quiet_undef
      · exact quiet_bind quiet_get fun _ => quiet_set_tree _
    · exact quiet_pure _

theorem quiet_cache7 {W : Type} (E : Env W) (file directory : CString) :
    Quiet (cache7 E file directory) := by
  unfold cache7
  refine quiet_bind quiet_get fun st => ?_
  split
  · exact quiet_pure _
  · exact quiet_cache7_lines _ _

theorem quiet_cacheA_lines {W : Type} (directory : CString) (lines : List CString) :
    ∀ flag_files, Quiet (cacheA_lines directory flag_files lines : M W Unit) := by
  induction lines with
  | nil => intro f; cases f <;> exact quiet_pure _
  | cons buf rest ih =>
    intro f
    cases f with
    | true =>
      unfold cacheA_lines
      split
      · exact quiet_pure _
      · refine quiet_bind ?_ fun _ => ih true
        split
        · exact quiet_bind quiet_get fun _ => quiet_set_tree _
        · exact quiet_undef
        · exact quiet_pure _
    | false =>
      unfold cacheA_lines
      exact ih _

theorem quiet_cacheA {W : Type} (E : Env W) (remotedir directory : CString) :
    Quiet (cacheA E remotedir directory) := by
  unfold cacheA
  refine quiet_bind quiet_get fun st => ?_
  split
  · exact quiet_pure _
  · exact quiet_cacheA_lines _ _ _

theorem prelude_open_directory {W : Type} (E : Env W) (manifest dir : CString) :
    Prelude manifest (open_directory E dir) := by
  intro st
  by_cases h1 : (E.make_path st.world dir).1 = EXIT_SUCCESS
  · by_cases h2 : (E.do_lock (E.make_path st.world dir).2 dir).1 = EXIT_SUCCESS
    · have e : open_directory E dir st = (Ctl.val (),
          { st with world := (E.do_lock (E.make_path st.world dir).2 dir).2 }) := by
        simp [open_directory, M.bind_apply, M.io, h1, h2]
      rw [e]
      exact ⟨Or.inl ⟨(), rfl⟩, rfl, id, [], by simp, by simp⟩
    · have e : open_directory E dir st = (Ctl.exit (Exit.ret EXIT_FAILURE),
          { st with world := (E.do_lock (E.make_path st.world dir).2 dir).2 }) := by
        simp [open_directory, M.bind_apply, M.io, h1, h2, M.exit]
      rw [e]
      exact ⟨Or.inr (Or.inl rfl), rfl, id, [], by simp, by simp⟩
  · have e : open_directory E dir st = (Ctl.exit (Exit.ret EXIT_FAILURE),
        { st with world := (E.make_path st.world dir).2 }) := by
      simp [open_directory, M.bind_apply, M.io, h1, M.exit]
    rw [e]
    exact ⟨Or.inr (Or.inl rfl), rfl, id, [], by simp, by simp⟩

theorem fast_prepare_eq {W : Type} (E : Env W) (manifest : CString) (cache : M W Unit)
    (st : State W) :
    fast_prepare E manifest cache st =
      if st.use_fast then
        match E.checksum Hasher.sha256sum st.world manifest with
        | none => (Ctl.val ([], 0), { st with use_fast := false, log := st.log ++
            [Event.checksum Hasher.sha256sum manifest none] })
        | some h =>
          match cache { st with log := st.log ++
              [Event.checksum Hasher.sha256sum manifest (some h)] } with
          | (Ctl.val _, st1) => (Ctl.val (h, E.get_size st.world manifest), st1)
          | (Ctl.exit e, st1) => (Ctl.exit e, st1)
      else (Ctl.val ([], 0), st) := by
  by_cases hf : st.use_fast = true
  · rw [if_pos hf]
    simp only [fast_prepare, M.bind_apply, M.get, if_pos hf, checksum]
    split
    · rename_i hs
      simp only [hs, M.bind_apply, M.set_use_fast, M.pure_apply]
    · rename_i h hs
      simp only [hs]
      rw [M.bind_apply]
      generalize cache _ = r
      obtain ⟨c, s1⟩ := r
      cases c <;> rfl
  · rw [if_neg hf]
    simp only [fast_prepare, M.bind_apply, M.get, if_neg hf, M.pure_apply]

theorem prelude_fast_prepare {W : Type} (E : Env W) (manifest : CString) (cache : M W Unit)
    (hq : Quiet cache) : Prelude manifest (fast_prepare E manifest cache) := by
  intro st
  rw [fast_prepare_eq]
  split_ifs with hf
  · split
    · exact ⟨Or.inl ⟨_, rfl⟩, rfl, fun _ => hf, [_], rfl, by simp⟩
    · rename_i h hs
      obtain ⟨q1, q2, q3, -, q5⟩ := hq { st with log := st.log ++
        [Event.checksum Hasher.sha256sum manifest (some h)] }
      generalize cache _ = r at *
      obtain ⟨c, st1⟩ := r
      dsimp only at q1 q2 q3 q5
      cases c with
      | val a =>
        exact ⟨Or.inl ⟨_, rfl⟩, q3, fun _ => hf, [_], q1, by simp⟩
      | exit e =>
        rcases q5 with ⟨a, h⟩ | h
        · cases h
        · cases h
          exact ⟨Or.inr (Or.inr rfl), q3, fun _ => hf, [_], q1, by simp⟩
  · exact ⟨Or.inl ⟨_, rfl⟩, rfl, id, [], by simp, by simp⟩

theorem engine_ok {W : Type} (E : Env W) (MAX_REPEAT : Int) (dir manifest : CString)
    (cache : M W Unit) (pass : CString → Int → M W Int) (hq : Quiet cache)
    (hp : ∀ h s, PassOK MAX_REPEAT manifest (pass h s)) (st : State W) :
    EngineOK MAX_REPEAT manifest st (engine E MAX_REPEAT dir manifest cache pass st).1
      (engine E MAX_REPEAT dir manifest cache pass st).2 := by
  obtain ⟨o1, o2, o3, pre1, o4, o5⟩ :=
    prelude_open_directory E manifest dir { st with counter_global := 0 }
  simp only [engine, M.returning, M.bind_apply, M.set_counter]
  generalize open_directory E dir _ = r at *
  obtain ⟨c, sa⟩ := r
  dsimp only at o1 o2 o3 o4
  rcases o1 with ⟨a, h⟩ | h | h
  · cases h
    dsimp only
    obtain ⟨p1, p2, p3, pre2, p4, p5⟩ := prelude_fast_prepare E manifest cache hq sa
    generalize fast_prepare E manifest cache sa = r at *
    obtain ⟨c, sb⟩ := r
    dsimp only at p1 p2 p3 p4
    have hlogb : sb.log = st.log ++ (pre1 ++ pre2) := by rw [p4, o4, List.append_assoc]
    have hpre : ∀ e ∈ pre1 ++ pre2, ∃ r, e = Event.checksum Hasher.sha256sum manifest r := by
      intro e he
      rcases List.mem_append.mp he with he | he
      · exact o5 e he
      · exact p5 e he
    rcases p1 with ⟨old, h⟩ | h | h
    · cases h
      dsimp only
      have hrun := restart_loop_ok MAX_REPEAT manifest (pass old.1 old.2) (hp _ _)
        (MAX_REPEAT.toNat + 1) sb (Nat.succ_pos _) (by rw [p2, o2]; omega)
      generalize restart_loop (pass old.1 old.2) (MAX_REPEAT.toNat + 1) sb = r at *
      obtain ⟨res0, sc⟩ := r
      dsimp only at hrun
      have hcases : (∃ status, res0 = Ctl.val status) ∨ (∃ status, res0 = Ctl.exit (Exit.ret status))
          ∨ res0 = Ctl.exit Exit.undef := by
        rcases res0 with a | e
        · exact Or.inl ⟨a, rfl⟩
        · cases e with
          | ret s => exact Or.inr (Or.inl ⟨s, rfl⟩)
          | restart => exact absurd rfl hrun.2.1
          | undef => exact Or.inr (Or.inr rfl)
          | nofuel => exact absurd rfl hrun.1
      rcases hcases with ⟨s, rfl⟩ | ⟨s, rfl⟩ | rfl
      · exact ⟨Or.inl ⟨s, rfl⟩, sb, pre1 ++ pre2, hlogb, hpre, fun h => o3 (p3 h),
          Or.inr ⟨by rw [p2, o2], _, hrun, Or.inl rfl⟩⟩
      · exact ⟨Or.inl ⟨s, rfl⟩, sb, pre1 ++ pre2, hlogb, hpre, fun h => o3 (p3 h),
          Or.inr ⟨by rw [p2, o2], _, hrun, Or.inr ⟨s, rfl, rfl⟩⟩⟩
      · exact ⟨Or.inr rfl, sb, pre1 ++ pre2, hlogb, hpre, fun h => o3 (p3 h),
          Or.inr ⟨by rw [p2, o2], _, hrun, Or.inl rfl⟩⟩
    · cases h
      exact ⟨Or.inl ⟨_, rfl⟩, sb, pre1 ++ pre2, hlogb, hpre, fun h => o3 (p3 h),
        Or.inl ⟨rfl, rfl⟩⟩
    · cases h
      exact ⟨Or.inr rfl, sb, pre1 ++ pre2, hlogb, hpre, fun h => o3 (p3 h), Or.inl ⟨rfl, rfl⟩⟩
  · cases h
    exact ⟨Or.inl ⟨_, rfl⟩, sa, pre1, o4, o5, o3, Or.inl ⟨rfl, rfl⟩⟩
  · cases h
    exact ⟨Or.inr rfl, sa, pre1, o4, o5, o3, Or.inl ⟨rfl, rfl⟩⟩

theorem update4_pass_ok {W : Type} (E : Env W) (MAX_REPEAT : Int) (remotedir : CString)
    (main_hash_old : CString) (main_size_old : Int) :
    PassOK MAX_REPEAT (remotedir ++ "/drweb32.lst".toList)
      (update4_pass E MAX_REPEAT remotedir main_hash_old main_size_old) := by
  unfold update4_pass
  refine pass_ok E MAX_REPEAT _ _ _ _ ?_
  refine obeys_bind (obeys_download_optional _ _ _) fun _ => ?_
  refine obeys_bind (obeys_download_optional _ _ _) fun _ => ?_
  refine obeys_bind (obeys_download_optional _ _ _) fun _ => ?_
  refine obeys_bind (obeys_download_optional _ _ _) fun _ => ?_
  refine obeys_bind (obeys_download_optional _ _ _) fun _ => ?_
  refine obeys_bind (obeys_get _) fun st => ?_
  split
  · exact obeys_exit _ _ (by simp) (by simp) (by decide)
  · exact obeys_bind (obeys_update4_lines _ _ _ _) fun _ => obeys_pure _ _

theorem update5x_pass_ok {W : Type} (E : Env W) (MAX_REPEAT : Int)
    (remotedir version_file : CString) (main_hash_old : CString) (main_size_old : Int) :
    PassOK MAX_REPEAT (remotedir ++ '/' :: version_file)
      (update5x_pass E MAX_REPEAT remotedir version_file main_hash_old main_size_old) := by
  unfold update5x_pass
  refine pass_ok E MAX_REPEAT _ _ _ _ ?_
  refine obeys_bind (obeys_download_optional _ _ _) fun _ => ?_
  refine obeys_bind (obeys_download_optional _ _ _) fun _ => ?_
  refine obeys_bind (obeys_download_optional _ _ _) fun _ => ?_
  refine obeys_bind ?_ fun _ => ?_
  · split
    · exact obeys_bind (obeys_download_optional _ _ _) fun _ => obeys_download_optional _ _ _
    · exact obeys_pure _ _
  refine obeys_bind (obeys_get _) fun st => ?_
  split
  · exact obeys_exit _ _ (by simp) (by simp) (by decide)
  · exact obeys_bind (obeys_update5x_lines _ _ _ _) fun _ => obeys_pure _ _

theorem update7_pass_ok {W : Type} (E : Env W) (MAX_REPEAT : Int) (remotedir : CString)
    (main_hash_old : CString) (main_size_old : Int) :
    PassOK MAX_REPEAT (remotedir ++ "/versions.xml".toList)
      (update7_pass E MAX_REPEAT remotedir main_hash_old main_size_old) := by
  unfold update7_pass
  refine pass_ok E MAX_REPEAT _ _ _ _ ?_
  refine obeys_bind (obeys_get _) fun st => ?_
  split
  · exact obeys_exit _ _ (by simp) (by simp) (by decide)
  · exact obeys_bind (obeys_update7_lines _ _ _ _) fun _ => obeys_pure _ _

theorem updateA_pass_ok {W : Type} (E : Env W) (MAX_REPEAT : Int) (remotedir real_dir : CString)
    (main_hash_old : CString) (main_size_old : Int) :
    PassOK MAX_REPEAT remotedir
      (updateA_pass E MAX_REPEAT remotedir real_dir main_hash_old main_size_old) := by
  unfold updateA_pass
  refine pass_ok E MAX_REPEAT _ _ _ _ ?_
  refine obeys_bind (obeys_get _) fun st => ?_
  split
  · exact obeys_exit _ _ (by simp) (by simp) (by decide)
  · exact obeys_bind (obeys_updateA_lines _ _ _ _ _) fun _ => obeys_pure _ _

theorem update4_ok {W : Type} (E : Env W) (MAX_REPEAT : Int) (remotedir : CString)
    (st : State W) :
    EngineOK MAX_REPEAT (remotedir ++ "/drweb32.lst".toList) st
      (update4 E MAX_REPEAT remotedir st).1 (update4 E MAX_REPEAT remotedir st).2 :=
  engine_ok E MAX_REPEAT remotedir _ (cache4 E remotedir)
    (fun h s => update4_pass E MAX_REPEAT remotedir h s) (quiet_cache4 _ _)
    (fun _ _ => update4_pass_ok _ _ _ _ _) st

theorem update5x_ok {W : Type} (E : Env W) (MAX_REPEAT : Int) (remotedir version_file : CString)
    (st : State W) :
    EngineOK MAX_REPEAT (remotedir ++ '/' :: version_file) st
      (update5x_internal E MAX_REPEAT remotedir version_file st).1
      (update5x_internal E MAX_REPEAT remotedir version_file st).2 :=
  engine_ok E MAX_REPEAT remotedir _ (cache5 E remotedir version_file)
    (fun h s => update5x_pass E MAX_REPEAT remotedir version_file h s) (quiet_cache5 _ _ _)
    (fun _ _ => update5x_pass_ok _ _ _ _ _ _) st

theorem update7_ok {W : Type} (E : Env W) (MAX_REPEAT : Int) (remotedir : CString)
    (st : State W) :
    EngineOK MAX_REPEAT (remotedir ++ "/versions.xml".toList) st
      (update7 E MAX_REPEAT remotedir st).1 (update7 E MAX_REPEAT remotedir st).2 :=
  engine_ok E MAX_REPEAT remotedir _ (cache7 E (remotedir ++ "/versions.xml".toList) remotedir)
    (fun h s => update7_pass E MAX_REPEAT remotedir h s) (quiet_cache7 _ _ _)
    (fun _ _ => update7_pass_ok _ _ _ _ _) st

theorem updateA_ok {W : Type} (E : Env W) (MAX_REPEAT : Int) (remotedir : CString)
    (st : State W) :
    EngineOK MAX_REPEAT remotedir st
      (updateA E MAX_REPEAT remotedir st).1 (updateA E MAX_REPEAT remotedir st).2 := by
  unfold updateA
  cases before_last remotedir '/' with
  | none => exact ⟨Or.inr rfl, st, [], by simp, by simp, id, Or.inl ⟨rfl, rfl⟩⟩
  | some real_dir =>
    exact engine_ok E MAX_REPEAT real_dir _ (cacheA E remotedir real_dir)
      (fun h s => updateA_pass E MAX_REPEAT remotedir real_dir h s) (quiet_cacheA _ _ _)
      (fun _ _ => updateA_pass_ok _ _ _ _ _ _) st

theorem filterMap_none {α β : Type} (f : α → Option β) (l : List α) (h : ∀ e ∈ l, f e = none) :
    l.filterMap f = [] := by
  induction l with
  | nil => rfl
  | cons a l ih =>
    rw [List.filterMap_cons, h a (List.mem_cons_self _ _)]
    exact ih fun e he => h e (List.mem_cons_of_mem _ he)

theorem engine_fast_off {W : Type} (MAX_REPEAT : Int) (manifest : CString) (st : State W)
    (res : Ctl Int) (st1 : State W) (h : EngineOK MAX_REPEAT manifest st res st1) :
    FastOffAfterRestart st st1 := by
  obtain ⟨-, st0, pre, hlog, hpre, huf, hrun⟩ := h
  have hflag : pre.filterMap Event.flag = [] := by
    apply filterMap_none
    intro e he
    obtain ⟨r, rfl⟩ := hpre e he
    rfl
  have hgate : ∀ c f p b h, Event.download_check c f p b h ∈ pre → 0 < c → f = false := by
    intro c f p b h he
    obtain ⟨r, hr⟩ := hpre _ he
    cases hr
  rcases hrun with ⟨h1, h2⟩ | ⟨-, res0, ⟨-, -, ruf, segs, evs, rlog, -, -, -, -, rgate, rpw, rub, rlb, -⟩, -⟩
  · refine ⟨pre, by rw [h1, hlog], hgate, ?_, ?_, ?_, fun h => huf (h2 ▸ h)⟩
    · rw [hflag]; exact List.Pairwise.nil
    · rw [hflag]; simp
    · rw [hflag]; simp
  · refine ⟨pre ++ evs, by rw [rlog, hlog, List.append_assoc], ?_, ?_, ?_, ?_,
      fun h => huf (ruf h)⟩
    · intro c f p b h he hc
      rcases List.mem_append.mp he with he | he
      · exact hgate _ _ _ _ _ he hc
      · exact rgate _ _ _ _ _ he hc
    · rw [List.filterMap_append, hflag]; exact rpw
    · rw [List.filterMap_append, hflag]
      exact fun b hb hbt => huf (rub b hb hbt)
    · rw [List.filterMap_append, hflag]; exact rlb

/-- C4. In each of the four engines (`update4`, `update5x_internal`, `update7`,
`updateA`), every `download_check` called while `counter_global > 0` finds
`use_fast = 0`, and `use_fast`, once cleared, is never set again: the values
recorded at the labels and at the gate calls are non-increasing, from the value
at entry to the value at exit. -/
theorem fast_mode_off_after_restart {W : Type} (E : Env W) (MAX_REPEAT : Int)
    (remotedir version_file : CString) (st : State W) :
    FastOffAfterRestart st (update4 E MAX_REPEAT remotedir st).2 ∧
    FastOffAfterRestart st (update5x_internal E MAX_REPEAT remotedir version_file st).2 ∧
    FastOffAfterRestart st (update7 E MAX_REPEAT remotedir st).2 ∧
    FastOffAfterRestart st (updateA E MAX_REPEAT remotedir st).2 :=
  ⟨engine_fast_off _ _ _ _ _ (update4_ok E MAX_REPEAT remotedir st),
   engine_fast_off _ _ _ _ _ (update5x_ok E MAX_REPEAT remotedir version_file st),
   engine_fast_off _ _ _ _ _ (update7_ok E MAX_REPEAT remotedir st),
   engine_fast_off _ _ _ _ _ (updateA_ok E MAX_REPEAT remotedir st)⟩

theorem download_check_slow_cases {W : Type} (E : Env W) (MAX_REPEAT : Int)
    (filename checksum_base : CString) (func : Hasher) (st : State W) :
    let before := E.checksum func st.world filename
    let st0 : State W := { st with log := st.log ++ [Event.checksum func filename before] }
    (before = some checksum_base →
      download_check_slow E MAX_REPEAT filename checksum_base func st = (Ctl.val DL_EXIST, st0)) ∧
    (before ≠ some checksum_base →
      ∃ status st1, download E MAX_REPEAT filename st0 = (Ctl.val status, st1) ∧
        (status ≠ DL_DOWNLOADED →
          download_check_slow E MAX_REPEAT filename checksum_base func st =
            (Ctl.val status, st1)) ∧
        (status = DL_DOWNLOADED →
          download_check_slow E MAX_REPEAT filename checksum_base func st =
            (Ctl.val (match E.checksum func st1.world filename with
              | none => DL_FAILED
              | some real => if checksum_base ≠ real then DL_TRY_AGAIN else DL_DOWNLOADED),
             { st1 with log := st1.log ++
                 [Event.checksum func filename (E.checksum func st1.world filename)] }))) := by
  intro before st0
  constructor
  · intro hb
    simp only [before] at hb
    simp [download_check_slow, M.bind_apply, checksum, hb, st0, before]
  · intro hb
    obtain ⟨status, k, st1, h1, -⟩ := download_spec E MAX_REPEAT filename st0
    simp only [before] at hb
    simp only [st0, before] at h1
    refine ⟨status, st1, h1, ?_, ?_⟩
    · intro hs
      simp [download_check_slow, M.bind_apply, checksum, hb, h1, hs]
    · intro hs
      subst hs
      simp only [download_check_slow, M.bind_apply, checksum, hb, h1, if_false, ne_eq,
        not_true_eq_false, if_true]
      cases hreal : E.checksum func st1.world filename with
      | none => simp
      | some real => by_cases hr : checksum_base = real <;> simp [hr]

theorem avl_hash_nonempty (tree : AvlTree) (key value : CString)
    (h : avl_hash tree key = some value) : tree.isEmpty = false := by
  cases tree with
  | nil => simp [avl_hash] at h
  | cons a t => rfl

theorem fast_check_off {W : Type} (E : Env W) (filename checksum_base : CString) (st : State W)
    (h : st.use_fast = false ∨ avl_hash st.tree filename ≠ some checksum_base) :
    fast_check E filename checksum_base st = false := by
  unfold fast_check
  split_ifs with hc
  · rcases h with h | h
    · simp [h] at hc
    · split
      · rename_i t ht
        simp only [beq_eq_false_iff_ne, ne_eq]
        intro he
        exact h (by rw [ht, he])
      · rfl
  · rfl

theorem count_download_replicate (k : Nat) (filename : CString) :
    (List.replicate k (Event.conn_get filename)).countP Event.is_download = 0 := by
  induction k with
  | zero => rfl
  | succ n ih => simp [List.replicate_succ, Event.is_download, ih]

/-- C2. When fast mode is active, the file exists and the integrity index holds
a digest for the path: if that digest equals the expected one, `download_check`
returns `DL_EXIST` in a state that differs from the initial one only by the
logged call (the world is untouched and neither the checksum function nor
`download` is called); otherwise it continues with the hash-then-download
sequence `download_check_slow`. -/
theorem gate_fast_path {W : Type} (E : Env W) (MAX_REPEAT : Int)
    (filename checksum_base checksum_tree : CString) (func : Hasher) (st : State W)
    (hfast : st.use_fast = true) (hexist : E.exist st.world filename = true)
    (hindex : avl_hash st.tree filename = some checksum_tree) :
    (checksum_tree = checksum_base →
      download_check E MAX_REPEAT filename checksum_base func st =
        (Ctl.val DL_EXIST, noted filename checksum_base func st)) ∧
    (checksum_tree ≠ checksum_base →
      download_check E MAX_REPEAT filename checksum_base func st =
        download_check_slow E MAX_REPEAT filename checksum_base func
          (noted filename checksum_base func st)) := by
  have hne := avl_hash_nonempty _ _ _ hindex
  rw [download_check_eq]
  constructor
  · intro he
    have : fast_check E filename checksum_base st = true := by
      simp [fast_check, hfast, hexist, hindex, hne, he]
    rw [if_pos this]
  · intro he
    have : fast_check E filename checksum_base st = false := by
      simp [fast_check, hfast, hexist, hindex, hne]
      exact fun h => he h.symm
    rw [this]; rfl

theorem hashed_log {W : Type} (E : Env W) (filename checksum_base : CString) (func : Hasher)
    (st : State W) :
    (hashed E filename checksum_base func st).log = st.log ++
      [Event.download_check st.counter_global st.use_fast filename checksum_base func,
       Event.checksum func filename (E.checksum func st.world filename)] := by
  simp [hashed, noted]

/-- C3. With fast mode off, or when the index has no equal digest for the path,
`download_check` decides as the reference procedure of steps 2-4 does
(`SlowGate`).  If the checksum function yields the expected digest for the file
as it is, the result is `DL_EXIST` and `download` is not called.  Otherwise
`download` is called exactly once; a result other than `DL_DOWNLOADED` is
returned as it is, in the state `download` left (nothing is hashed again); after
`DL_DOWNLOADED` the file is hashed once more, a failure gives `DL_FAILED`, an
equal digest `DL_DOWNLOADED`, an unequal one `DL_TRY_AGAIN`. -/
theorem gate_without_fast_path {W : Type} (E : Env W) (MAX_REPEAT : Int)
    (filename checksum_base : CString) (func : Hasher) (st : State W)
    (hslow : st.use_fast = false ∨ avl_hash st.tree filename ≠ some checksum_base)
    (hexist : E.checksum func st.world filename ≠ none → E.exist st.world filename = true) :
    SlowGate E MAX_REPEAT filename checksum_base func st := by
  unfold SlowGate
  have hoff := fast_check_off E filename checksum_base st hslow
  have heq : download_check E MAX_REPEAT filename checksum_base func st =
      download_check_slow E MAX_REPEAT filename checksum_base func
        (noted filename checksum_base func st) := by
    rw [download_check_eq, hoff]; rfl
  obtain ⟨c1, c2⟩ := download_check_slow_cases E MAX_REPEAT filename checksum_base func
    (noted filename checksum_base func st)
  obtain ⟨transport, k, st1, hd, htr, hlog, -⟩ :=
    download_spec E MAX_REPEAT filename (hashed E filename checksum_base func st)
  have hcount1 : ((st1.log.drop st.log.length).countP Event.is_download = 1) := by
    rw [hlog, hashed_log, List.append_assoc, List.drop_left]
    simp [List.countP_cons, List.countP_append, Event.is_download, count_download_replicate]
  refine ⟨transport, st1, hd, ?_, ?_, ?_⟩
  · rw [heq]
    by_cases hb : E.checksum func st.world filename = some checksum_base
    · rw [c1 hb]
      have hex := hexist (by rw [hb]; simp)
      simp [gate_reference, hex, hb]
    · obtain ⟨t2, s2, hd2, n1, n2⟩ := c2 hb
      have e : (Ctl.val t2, s2) = (Ctl.val transport, st1) := hd2.symm.trans hd
      simp only [Prod.mk.injEq, Ctl.val.injEq] at e
      obtain ⟨rfl, rfl⟩ := e
      by_cases ht : t2 = DL_DOWNLOADED
      · rw [n2 ht]
        subst ht
        simp only [gate_reference, hb, and_false, if_false]
        cases E.checksum func s2.world filename with
        | none => rfl
        | some real =>
          by_cases hr : checksum_base = real
          · simp [hr]
          · have hr2 : ¬ real = checksum_base := fun h => hr h.symm
            simp [hr, hr2]
      · rw [n1 ht]
        rcases htr with h | h | h
        · exact absurd h ht
        · subst h; simp [gate_reference, hb]
        · subst h; simp [gate_reference, hb]
  · intro hb
    refine ⟨by rw [heq]; exact c1 hb, ?_⟩
    rw [hashed_log, List.drop_left]
    simp [Event.is_download]
  · intro hb
    obtain ⟨t2, s2, hd2, n1, n2⟩ := c2 hb
    have e : (Ctl.val t2, s2) = (Ctl.val transport, st1) := hd2.symm.trans hd
    simp only [Prod.mk.injEq, Ctl.val.injEq] at e
    obtain ⟨rfl, rfl⟩ := e
    refine ⟨?_, fun ht => by rw [heq]; exact n1 ht, fun ht => by rw [heq]; exact n2 ht⟩
    rw [heq]
    by_cases ht : t2 = DL_DOWNLOADED
    · rw [n2 ht]
      dsimp only
      rw [hlog, hashed_log, List.append_assoc, List.append_assoc, List.drop_left]
      simp [List.countP_cons, List.countP_append, Event.is_download, count_download_replicate]
    · rw [n1 ht]; exact hcount1

/-- Soundness of the gate: a successful result of `download_check` means that the
checksum function, applied to the file in the state in which the gate returns,
yields exactly the expected digest, unless the gate returned through its fast
check (fast mode on, the file exists, the index holds the expected digest for
the path), in which case nothing was hashed and the world is untouched. -/
theorem download_check_sound {W : Type} (E : Env W) (MAX_REPEAT : Int)
    (filename checksum_base : CString) (func : Hasher) (st st1 : State W) (status : DLStatus)
    (hrun : download_check E MAX_REPEAT filename checksum_base func st = (Ctl.val status, st1))
    (hok : status = DL_EXIST ∨ status = DL_DOWNLOADED) :
    (E.checksum func st1.world filename = some checksum_base ∧
      ∃ evs, st1.log = st.log ++ evs ++ [Event.checksum func filename (some checksum_base)]) ∨
    (status = DL_EXIST ∧ st.use_fast = true ∧ E.exist st.world filename = true ∧
      avl_hash st.tree filename = some checksum_base ∧ st1.world = st.world) := by
  rw [download_check_eq] at hrun
  by_cases hf : fast_check E filename checksum_base st = true
  · right
    rw [if_pos hf] at hrun
    simp only [Prod.mk.injEq, Ctl.val.injEq] at hrun
    obtain ⟨rfl, rfl⟩ := hrun
    unfold fast_check at hf
    split_ifs at hf with hc
    simp only [Bool.and_eq_true, Bool.not_eq_true', List.isEmpty_eq_false] at hc
    split at hf
    · rename_i t ht
      simp only [beq_iff_eq] at hf
      exact ⟨rfl, hc.1.1, hc.2, by rw [ht, hf], rfl⟩
    · cases hf
  · left
    rw [if_neg hf] at hrun
    obtain ⟨c1, c2⟩ := download_check_slow_cases E MAX_REPEAT filename checksum_base func
      (noted filename checksum_base func st)
    by_cases hb : E.checksum func st.world filename = some checksum_base
    · have h1 := c1 hb
      rw [h1] at hrun
      simp only [Prod.mk.injEq, Ctl.val.injEq] at hrun
      obtain ⟨-, rfl⟩ := hrun
      exact ⟨hb, [Event.download_check st.counter_global st.use_fast filename checksum_base func],
        by simp [noted, hb]⟩
    · obtain ⟨t2, s2, hd2, n1, n2⟩ := c2 hb
      obtain ⟨t3, k, s3, hd3, htr, hlog, -⟩ := download_spec E MAX_REPEAT filename
        { noted filename checksum_base func st with
          log := (noted filename checksum_base func st).log ++
            [Event.checksum func filename (E.checksum func st.world filename)] }
      have e : (Ctl.val t2, s2) = (Ctl.val t3, s3) := hd2.symm.trans hd3
      simp only [Prod.mk.injEq, Ctl.val.injEq] at e
      obtain ⟨rfl, rfl⟩ := e
      by_cases ht : t2 = DL_DOWNLOADED
      · rw [n2 ht] at hrun
        simp only [Prod.mk.injEq, Ctl.val.injEq] at hrun
        obtain ⟨hs, rfl⟩ := hrun
        cases hreal : E.checksum func s2.world filename with
        | none =>
          rw [hreal] at hs
          rcases hok with h | h <;> rw [h] at hs <;> cases hs
        | some real =>
          rw [hreal] at hs
          by_cases hr : checksum_base = real
          · subst hr
            refine ⟨rfl, [Event.download_check st.counter_global st.use_fast filename
                checksum_base func,
              Event.checksum func filename (E.checksum func st.world filename)] ++
              Event.download filename :: List.replicate (k + 1) (Event.conn_get filename), ?_⟩
            dsimp only
            rw [hlog]
            simp [noted, List.append_assoc]
          · simp only [ne_eq, hr, not_false_eq_true, if_true] at hs
            rcases hok with h | h <;> rw [h] at hs <;> cases hs
      · rw [n1 ht] at hrun
        simp only [Prod.mk.injEq, Ctl.val.injEq] at hrun
        obtain ⟨rfl, rfl⟩ := hrun
        rcases htr with h | h | h
        · exact absurd h ht
        · rcases hok with h2 | h2 <;> rw [h2] at h <;> cases h
        · rcases hok with h2 | h2 <;> rw [h2] at h <;> cases h

theorem gate_fast_path_witness :
    stale_state.use_fast = true ∧
    smallEnv.exist stale_state.world "d/a".toList = true ∧
    avl_hash stale_state.tree "d/a".toList = some "AB".toList ∧
    download_check smallEnv 3 "d/a".toList "AB".toList Hasher.crc32sum stale_state =
      (Ctl.val DL_EXIST, noted "d/a".toList "AB".toList Hasher.crc32sum stale_state) :=
  ⟨rfl, by decide, by decide,
    (gate_fast_path smallEnv 3 "d/a".toList "AB".toList "AB".toList Hasher.crc32sum stale_state
      rfl (by decide) (by decide)).1 rfl⟩

theorem gate_without_fast_path_witness :
    (plain_state.use_fast = false ∨
      avl_hash plain_state.tree "d/a".toList ≠ some "AB".toList) ∧
    (smallEnv.checksum Hasher.crc32sum plain_state.world "d/a".toList ≠ none →
      smallEnv.exist plain_state.world "d/a".toList = true) ∧
    SlowGate smallEnv 3 "d/a".toList "AB".toList Hasher.crc32sum plain_state :=
  ⟨Or.inl rfl, by decide,
    gate_without_fast_path smallEnv 3 "d/a".toList "AB".toList Hasher.crc32sum plain_state
      (Or.inl rfl) (by decide)⟩

theorem open_directory_keeps {W : Type} (E : Env W) (dir : CString) (st : State W) :
    (open_directory E dir st).2.use_fast = st.use_fast ∧
    (open_directory E dir st).2.counter_global = st.counter_global ∧
    (open_directory E dir st).2.log = st.log ∧ (open_directory E dir st).2.tree = st.tree := by
  by_cases h1 : (E.make_path st.world dir).1 = EXIT_SUCCESS
  · by_cases h2 : (E.do_lock (E.make_path st.world dir).2 dir).1 = EXIT_SUCCESS
    · have e : open_directory E dir st = (Ctl.val (),
          { st with world := (E.do_lock (E.make_path st.world dir).2 dir).2 }) := by
        simp [open_directory, M.bind_apply, M.io, h1, h2]
      rw [e]; exact ⟨rfl, rfl, rfl, rfl⟩
    · have e : open_directory E dir st = (Ctl.exit (Exit.ret EXIT_FAILURE),
          { st with world := (E.do_lock (E.make_path st.world dir).2 dir).2 }) := by
        simp [open_directory, M.bind_apply, M.io, h1, h2, M.exit]
      rw [e]; exact ⟨rfl, rfl, rfl, rfl⟩
  · have e : open_directory E dir st = (Ctl.exit (Exit.ret EXIT_FAILURE),
        { st with world := (E.make_path st.world dir).2 }) := by
      simp [open_directory, M.bind_apply, M.io, h1, M.exit]
    rw [e]; exact ⟨rfl, rfl, rfl, rfl⟩

theorem engine_short_circuit {W : Type} (E : Env W) (MAX_REPEAT : Int) (dir manifest : CString)
    (cache : M W Unit) (rest : M W Int) (hash_old : CString) (st : State W) (hq : Quiet cache)
    (h : UnchangedManifest E MAX_REPEAT dir manifest cache hash_old st) :
    ShortCircuit manifest hash_old st
      (engine E MAX_REPEAT dir manifest cache
        (fun h s => fetch_manifest E MAX_REPEAT manifest h s >>= fun _ => rest) st).1
      (engine E MAX_REPEAT dir manifest cache
        (fun h s => fetch_manifest E MAX_REPEAT manifest h s >>= fun _ => rest) st).2 := by
  obtain ⟨hfast, hopen, hsum, hcache, hdl, hsize, hsame⟩ := h
  obtain ⟨o1, o2, o3, -⟩ := open_directory_keeps E dir { st with counter_global := 0 }
  generalize hsa : (open_directory E dir { st with counter_global := 0 }) = ra at *
  obtain ⟨ca, sa⟩ := ra
  dsimp only at hopen hsum hcache hdl hsize hsame o1 o2 o3
  subst hopen
  obtain ⟨q1, q2, q3, -, -⟩ := hq (prior_hashed manifest hash_old sa)
  generalize hsb : cache (prior_hashed manifest hash_old sa) = rb at *
  obtain ⟨cb, sb⟩ := rb
  dsimp only at hcache hdl hsize hsame q1 q2 q3
  subst hcache
  obtain ⟨status, k, sc', hd, -, dlog, duf, -, -⟩ :=
    download_spec E MAX_REPEAT manifest (after_label sb)
  generalize hsc : download E MAX_REPEAT manifest (after_label sb) = rc at *
  obtain ⟨cc, sc⟩ := rc
  dsimp only at hdl hsize hsame
  subst hdl
  simp only [Prod.mk.injEq, Ctl.val.injEq] at hd
  obtain ⟨-, rfl⟩ := hd
  have hsbf : sb.use_fast = true := by
    rw [q2]; show sa.use_fast = true; rw [o1]; exact hfast
  have hsbc : sb.counter_global = 0 := by
    rw [q3]; show sa.counter_global = 0; rw [o2]
  have hscf : sc.use_fast = true := by
    rw [duf]; simp [after_label, hsbf, hsbc]
  have hfp : fast_prepare E manifest cache sa =
      (Ctl.val (hash_old, E.get_size sa.world manifest), sb) := by
    rw [fast_prepare_eq, if_pos (by rw [o1]; exact hfast)]
    simp only [hsum]
    have : cache { sa with log := sa.log ++
        [Event.checksum Hasher.sha256sum manifest (some hash_old)] } = (Ctl.val (), sb) := hsb
    rw [this]
  have hfm : fetch_manifest E MAX_REPEAT manifest hash_old (E.get_size sa.world manifest) sb =
      (Ctl.exit (Exit.ret EXIT_SUCCESS), { sc with log := sc.log ++
        [Event.checksum Hasher.sha256sum manifest (some hash_old), Event.nothing_changed] }) := by
    rw [fetch_manifest_eq, hsc]
    simp [DL_SUCCESS, hscf, hsize, hsame]
  have hloop : restart_loop (fetch_manifest E MAX_REPEAT manifest hash_old
      (E.get_size sa.world manifest) >>= fun _ => rest) (MAX_REPEAT.toNat + 1) sb =
      (Ctl.exit (Exit.ret EXIT_SUCCESS), { sc with log := sc.log ++
        [Event.checksum Hasher.sha256sum manifest (some hash_old), Event.nothing_changed] }) := by
    rw [restart_loop_succ, M.bind_apply, hfm]
  have heng : engine E MAX_REPEAT dir manifest cache
      (fun h s => fetch_manifest E MAX_REPEAT manifest h s >>= fun _ => rest) st =
      (Ctl.val EXIT_SUCCESS, { sc with log := sc.log ++
        [Event.checksum Hasher.sha256sum manifest (some hash_old), Event.nothing_changed] }) := by
    simp only [engine, M.returning, M.bind_apply, M.set_counter, hsa, hfp, hloop]
  rw [heng]
  refine ⟨rfl, k, ?_⟩
  dsimp only
  rw [dlog]
  have : (after_label sb).log = st.log ++
      [Event.checksum Hasher.sha256sum manifest (some hash_old), Event.repeat_label 0 true] := by
    simp only [after_label, hsbc, hsbf, q1, prior_hashed, o3, List.append_assoc,
      List.singleton_append]
  rw [this]
  simp

theorem engine_short_circuit_late {W : Type} (MAX_REPEAT : Int) (manifest : CString)
    (st : State W) (res : Ctl Int) (st1 : State W)
    (h : EngineOK MAX_REPEAT manifest st res st1) : ShortCircuitLate manifest st st1 := by
  obtain ⟨-, st0, pre, hlog, hpre, -, hrun⟩ := h
  intro evs hevs hmem
  have hnot : Event.nothing_changed ∉ pre := by
    intro hm
    obtain ⟨r, hr⟩ := hpre _ hm
    cases hr
  rcases hrun with ⟨h1, -⟩ | ⟨-, res0, ⟨-, -, -, segs, evs2, rlog, -, -, -, -, -, -, -, -, rchg⟩, -⟩
  · rw [h1, hlog] at hevs
    have := List.append_cancel_left hevs
    rw [← this] at hmem
    exact absurd hmem hnot
  · rw [rlog, hlog, List.append_assoc] at hevs
    have he := List.append_cancel_left hevs
    rw [← he] at hmem
    rcases List.mem_append.mp hmem with hm | hm
    · exact absurd hm hnot
    · obtain ⟨-, p2, k, r, h2⟩ := rchg hm
      exact ⟨pre ++ p2, k, r, by rw [← he, h2]; simp⟩

/-- C7. In each of the four engines: in fast mode with a prior manifest on disk,
if the freshly downloaded manifest has the size and the SHA-256 of the prior one
(`UnchangedManifest`), the engine returns `EXIT_SUCCESS` after exactly one call
of `download`, that of the manifest, with no sibling download, no
`download_check` and no `delete_files` (`ShortCircuit` gives the whole log);
and no run reports "nothing was changed" other than directly after the download
and the hashing of the new manifest (`ShortCircuitLate`). -/
theorem unchanged_manifest_short_circuit {W : Type} (E : Env W) (MAX_REPEAT : Int)
    (remotedir version_file hash_old : CString) (st : State W) :
    (UnchangedManifest E MAX_REPEAT remotedir (remotedir ++ "/drweb32.lst".toList)
        (cache4 E remotedir) hash_old st →
      ShortCircuit (remotedir ++ "/drweb32.lst".toList) hash_old st
        (update4 E MAX_REPEAT remotedir st).1 (update4 E MAX_REPEAT remotedir st).2) ∧
    (UnchangedManifest E MAX_REPEAT remotedir (remotedir ++ '/' :: version_file)
        (cache5 E remotedir version_file) hash_old st →
      ShortCircuit (remotedir ++ '/' :: version_file) hash_old st
        (update5x_internal E MAX_REPEAT remotedir version_file st).1
        (update5x_internal E MAX_REPEAT remotedir version_file st).2) ∧
    (UnchangedManifest E MAX_REPEAT remotedir (remotedir ++ "/versions.xml".toList)
        (cache7 E (remotedir ++ "/versions.xml".toList) remotedir) hash_old st →
      ShortCircuit (remotedir ++ "/versions.xml".toList) hash_old st
        (update7 E MAX_REPEAT remotedir st).1 (update7 E MAX_REPEAT remotedir st).2) ∧
    (∀ real_dir, before_last remotedir '/' = some real_dir →
      UnchangedManifest E MAX_REPEAT real_dir remotedir (cacheA E remotedir real_dir)
        hash_old st →
      ShortCircuit remotedir hash_old st
        (updateA E MAX_REPEAT remotedir st).1 (updateA E MAX_REPEAT remotedir st).2) ∧
    ShortCircuitLate (remotedir ++ "/drweb32.lst".toList) st
      (update4 E MAX_REPEAT remotedir st).2 ∧
    ShortCircuitLate (remotedir ++ '/' :: version_file) st
      (update5x_internal E MAX_REPEAT remotedir version_file st).2 ∧
    ShortCircuitLate (remotedir ++ "/versions.xml".toList) st
      (update7 E MAX_REPEAT remotedir st).2 ∧
    ShortCircuitLate remotedir st (updateA E MAX_REPEAT remotedir st).2 := by
  refine ⟨fun h => ?_, fun h => ?_, fun h => ?_, fun real_dir hdir h => ?_,
    engine_short_circuit_late _ _ _ _ _ (update4_ok E MAX_REPEAT remotedir st),
    engine_short_circuit_late _ _ _ _ _ (update5x_ok E MAX_REPEAT remotedir version_file st),
    engine_short_circuit_late _ _ _ _ _ (update7_ok E MAX_REPEAT remotedir st),
    engine_short_circuit_late _ _ _ _ _ (updateA_ok E MAX_REPEAT remotedir st)⟩
  · exact engine_short_circuit E MAX_REPEAT remotedir _ (cache4 E remotedir) _ hash_old st
      (quiet_cache4 _ _) h
  · exact engine_short_circuit E MAX_REPEAT remotedir _ (cache5 E remotedir version_file) _
      hash_old st (quiet_cache5 _ _ _) h
  · exact engine_short_circuit E MAX_REPEAT remotedir _
      (cache7 E (remotedir ++ "/versions.xml".toList) remotedir) _ hash_old st
      (quiet_cache7 _ _ _) h
  · unfold updateA
    rw [hdir]
    exact engine_short_circuit E MAX_REPEAT real_dir remotedir (cacheA E remotedir real_dir)
      _ hash_old st (quiet_cacheA _ _ _) h

theorem unchanged_manifest_short_circuit_witness :
    UnchangedManifest smallEnv 3 "d".toList ("d".toList ++ "/drweb32.lst".toList)
      (cache4 smallEnv "d".toList) "+a, AB".toList (mutated_state true) ∧
    ShortCircuit ("d".toList ++ "/drweb32.lst".toList) "+a, AB".toList (mutated_state true)
      (update4 smallEnv 3 "d".toList (mutated_state true)).1
      (update4 smallEnv 3 "d".toList (mutated_state true)).2 :=
  ⟨by unfold UnchangedManifest; decide,
    (unchanged_manifest_short_circuit smallEnv 3 "d".toList "version.lst".toList
      "+a, AB".toList (mutated_state true)).1 (by unfold UnchangedManifest; decide)⟩

theorem grows_of_obeys {W α : Type} {MAX_REPEAT : Int} {m : M W α} (hm : Obeys MAX_REPEAT m)
    (st : State W) : ∃ evs, (m st).2.log = st.log ++ evs := by
  obtain ⟨⟨-, -, evs, h, -⟩, -⟩ := hm st
  exact ⟨evs, h⟩

theorem download_check_val {W : Type} (E : Env W) (MAX_REPEAT : Int)
    (filename checksum_base : CString) (func : Hasher) (st : State W) :
    ∃ status st1 evs, download_check E MAX_REPEAT filename checksum_base func st =
        (Ctl.val status, st1) ∧
      st1.log = st.log ++
        Event.download_check st.counter_global st.use_fast filename checksum_base func :: evs ∧
      st1.use_fast = st.use_fast ∧ st1.counter_global = st.counter_global := by
  rw [download_check_eq]
  have key : ∀ (t : DLStatus) (s : State W),
      (∃ e1, s.log = (noted filename checksum_base func st).log ++ e1) →
      s.use_fast = st.use_fast → s.counter_global = st.counter_global →
      ∃ status st1 evs, ((Ctl.val t, s) : Ctl DLStatus × State W) = (Ctl.val status, st1) ∧
        st1.log = st.log ++
          Event.download_check st.counter_global st.use_fast filename checksum_base func :: evs ∧
        st1.use_fast = st.use_fast ∧ st1.counter_global = st.counter_global := by
    rintro t s ⟨e1, h1⟩ h2 h3
    refine ⟨t, s, e1, rfl, ?_, h2, h3⟩
    rw [h1]
    simp [noted]
  split_ifs with hf
  · exact key _ _ ⟨[], by simp⟩ rfl rfl
  · obtain ⟨c1, c2⟩ := download_check_slow_cases E MAX_REPEAT filename checksum_base func
      (noted filename checksum_base func st)
    by_cases hb : E.checksum func (noted filename checksum_base func st).world filename =
        some checksum_base
    · rw [c1 hb]
      exact key _ _ ⟨_, rfl⟩ rfl rfl
    · obtain ⟨t, s2, hd, n1, n2⟩ := c2 hb
      obtain ⟨t3, k, s3, hd3, -, hlog, huf, -, hcnt⟩ := download_spec E MAX_REPEAT filename
        { noted filename checksum_base func st with
          log := (noted filename checksum_base func st).log ++
            [Event.checksum func filename
              (E.checksum func (noted filename checksum_base func st).world filename)] }
      have e : (Ctl.val t, s2) = (Ctl.val t3, s3) := hd.symm.trans hd3
      simp only [Prod.mk.injEq, Ctl.val.injEq] at e
      obtain ⟨rfl, rfl⟩ := e
      by_cases ht : t = DL_DOWNLOADED
      · rw [n2 ht]
        refine key _ _ ?_ huf hcnt
        dsimp only
        rw [hlog]
        simp only [List.append_assoc]
        exact ⟨_, rfl⟩
      · rw [n1 ht]
        refine key _ _ ?_ huf hcnt
        rw [hlog]
        simp only [List.append_assoc]
        exact ⟨_, rfl⟩

theorem after_check_success {W : Type} (MAX_REPEAT : Int) (status : DLStatus) (st : State W)
    (h : DL_SUCCESS status = true) : after_check MAX_REPEAT status st = (Ctl.val (), st) := by
  have h1 : status ≠ DL_TRY_AGAIN := by
    intro he; rw [he] at h; simp [DL_SUCCESS] at h
  simp [after_check, M.bind_apply, M.get, h1, h]

/-- The `.lzma` part of a `+`, `=` or `!` line in `update4` (232-258), after a
successful first `download_check` with result `status`. -/
theorem update4_entry_lzma {W : Type} (E : Env W) (MAX_REPEAT : Int)
    (remotedir buf filename crc_base : CString) (st s1 : State W) (status : DLStatus)
    (hname : entry_filename remotedir buf = some filename)
    (hcrc : entry_crc_base buf = some crc_base)
    (hrun : download_check E MAX_REPEAT filename crc_base Hasher.crc32sum st =
      (Ctl.val status, s1))
    (hok : DL_SUCCESS status = true) :
    (status = DL_DOWNLOADED ∨ E.exist s1.world (filename ++ ".lzma".toList) = true →
      RunsLzmaGate s1 (filename ++ ".lzma".toList) crc_base Hasher.crc32sum_lzma
        (update4_entry E MAX_REPEAT remotedir buf st)) ∧
    (¬ (status = DL_DOWNLOADED ∨ E.exist s1.world (filename ++ ".lzma".toList) = true) →
      update4_entry E MAX_REPEAT remotedir buf st = (Ctl.val (), s1)) := by
  have hrest : ∀ st2 : DLStatus, Obeys MAX_REPEAT
      (if st2 = DL_NOT_FOUND then delete_stale_lzma E remotedir (filename ++ ".lzma".toList)
        else after_check MAX_REPEAT st2) := by
    intro st2
    split
    · exact obeys_delete_stale_lzma _ _ _ _
    · exact obeys_after_check _ _
  constructor
  · intro hc
    obtain ⟨t, s2, evs, hd, hlog, -⟩ := download_check_val E MAX_REPEAT
      (filename ++ ".lzma".toList) crc_base Hasher.crc32sum_lzma s1
    obtain ⟨evs2, hg⟩ := grows_of_obeys (hrest t) s2
    refine ⟨evs ++ evs2, ?_⟩
    have : update4_entry E MAX_REPEAT remotedir buf st =
        (if t = DL_NOT_FOUND then delete_stale_lzma E remotedir (filename ++ ".lzma".toList)
          else after_check MAX_REPEAT t) s2 := by
      simp only [update4_entry, hname, hcrc, M.bind_apply, hrun, after_check_success _ _ _ hok,
        M.get, if_pos hc, hd]
    rw [this, hg, hlog]
    simp
  · intro hc
    simp only [update4_entry, hname, hcrc, M.bind_apply, hrun, after_check_success _ _ _ hok,
      M.get, if_neg hc, M.pure_apply]

theorem bind_log_head {W α β : Type} {MAX_REPEAT : Int} {m : M W α} {k : α → M W β}
    (hk : ∀ a, Obeys MAX_REPEAT (k a)) (s1 : State W) (ev : Event)
    (hm : ∃ t s2 evs, m s1 = (Ctl.val t, s2) ∧ s2.log = s1.log ++ ev :: evs) :
    ∃ evs, ((m >>= k) s1).2.log = s1.log ++ ev :: evs := by
  obtain ⟨t, s2, evs, hd, hlog⟩ := hm
  obtain ⟨evs2, hg⟩ := grows_of_obeys (hk t) s2
  refine ⟨evs ++ evs2, ?_⟩
  rw [M.bind_val _ _ _ _ _ hd, hg, hlog]
  simp

theorem not_runs_of_skip {W : Type} (s1 : State W) (lzma base : CString) (func : Hasher) :
    ¬ RunsLzmaGate s1 lzma base func (Ctl.val (), s1) := by
  rintro ⟨evs, h⟩
  have := congrArg List.length h
  simp at this

/-- The `.lzma` part of a line in `update5x_internal` (473-533) after a
successful first `download_check` and size check. -/
theorem update5x_entry_lzma {W : Type} (E : Env W) (MAX_REPEAT : Int)
    (remotedir buf : CString) (e : Entry5) (st s1 : State W) (status : DLStatus)
    (hparse : entry5_parse remotedir buf = some e)
    (hrun : download_check E MAX_REPEAT e.filename e.sha_base Hasher.sha256sum st =
      (Ctl.val status, s1))
    (hok : DL_SUCCESS status = true)
    (hsize : ¬ (e.filesize ≥ 0 ∧ (!E.check_size s1.world e.filename e.filesize) = true)) :
    (status = DL_DOWNLOADED ∨ E.exist s1.world (e.filename ++ ".lzma".toList) = true →
      RunsLzmaGate s1 (e.filename ++ ".lzma".toList) e.sha_base Hasher.sha256sum_lzma
        (update5x_entry E MAX_REPEAT remotedir buf st)) ∧
    (¬ (status = DL_DOWNLOADED ∨ E.exist s1.world (e.filename ++ ".lzma".toList) = true) →
      update5x_entry E MAX_REPEAT remotedir buf st = (Ctl.val (), s1)) := by
  have h0 : update5x_entry E MAX_REPEAT remotedir buf st =
      update5x_lzma E MAX_REPEAT remotedir e status s1 := by
    simp only [update5x_entry, hparse, M.bind_apply, hrun, after_check_success _ _ _ hok,
      M.get, if_neg hsize, M.pure_apply]
  rw [h0]
  constructor
  · intro hc
    obtain ⟨t, s2, evs, hd, hlog, -⟩ := download_check_val E MAX_REPEAT
      (e.filename ++ ".lzma".toList) e.sha_base Hasher.sha256sum_lzma s1
    unfold update5x_lzma RunsLzmaGate
    simp only [M.bind_apply, M.get, if_pos hc]
    exact bind_log_head (fun status => obeys_update5x_lzma_status MAX_REPEAT E remotedir e status)
      s1 _ ⟨t, s2, evs, hd, hlog⟩
  · intro hc
    simp only [update5x_lzma, M.bind_apply, M.get, if_neg hc, M.pure_apply]

/-- C9 (as amended). In `update4` and `update5x_internal`, after the first
`download_check` of a `+`, `=` or `!` line has succeeded (and, in
`update5x_internal`, the size check has passed), `download_check` is called
for the `.lzma` path with the same expected checksum and the `_lzma` function
exactly when the first call returned `DL_DOWNLOADED` or the `.lzma` file
exists locally; otherwise the line is finished without any further step. -/
theorem lzma_gate_guarded {W : Type} (E : Env W) (MAX_REPEAT : Int) (remotedir buf : CString)
    (st s1 : State W) (status : DLStatus) :
    (∀ filename crc_base, entry_filename remotedir buf = some filename →
      entry_crc_base buf = some crc_base →
      download_check E MAX_REPEAT filename crc_base Hasher.crc32sum st = (Ctl.val status, s1) →
      DL_SUCCESS status = true →
      (RunsLzmaGate s1 (filename ++ ".lzma".toList) crc_base Hasher.crc32sum_lzma
          (update4_entry E MAX_REPEAT remotedir buf st) ↔
        (status = DL_DOWNLOADED ∨ E.exist s1.world (filename ++ ".lzma".toList) = true)) ∧
      (¬ (status = DL_DOWNLOADED ∨ E.exist s1.world (filename ++ ".lzma".toList) = true) →
        update4_entry E MAX_REPEAT remotedir buf st = (Ctl.val (), s1))) ∧
    (∀ e, entry5_parse remotedir buf = some e →
      download_check E MAX_REPEAT e.filename e.sha_base Hasher.sha256sum st =
        (Ctl.val status, s1) →
      DL_SUCCESS status = true →
      ¬ (e.filesize ≥ 0 ∧ (!E.check_size s1.world e.filename e.filesize) = true) →
      (RunsLzmaGate s1 (e.filename ++ ".lzma".toList) e.sha_base Hasher.sha256sum_lzma
          (update5x_entry E MAX_REPEAT remotedir buf st) ↔
        (status = DL_DOWNLOADED ∨ E.exist s1.world (e.filename ++ ".lzma".toList) = true)) ∧
      (¬ (status = DL_DOWNLOADED ∨ E.exist s1.world (e.filename ++ ".lzma".toList) = true) →
        update5x_entry E MAX_REPEAT remotedir buf st = (Ctl.val (), s1))) := by
  constructor
  · intro filename crc_base hname hcrc hrun hok
    obtain ⟨h1, h2⟩ := update4_entry_lzma E MAX_REPEAT remotedir buf filename crc_base st s1
      status hname hcrc hrun hok
    refine ⟨⟨fun hr => ?_, h1⟩, h2⟩
    by_contra hc
    rw [h2 hc] at hr
    exact not_runs_of_skip _ _ _ _ hr
  · intro e hparse hrun hok hsize
    obtain ⟨h1, h2⟩ := update5x_entry_lzma E MAX_REPEAT remotedir buf e st s1 status hparse
      hrun hok hsize
    refine ⟨⟨fun hr => ?_, h1⟩, h2⟩
    by_contra hc
    rw [h2 hc] at hr
    exact not_runs_of_skip _ _ _ _ hr

theorem lzma_gate_guarded_witness :
    RunsLzmaGate
      (download_check smallEnv 3 "d/a".toList "AB".toList Hasher.crc32sum present_lzma_state).2
      "d/a.lzma".toList "AB".toList Hasher.crc32sum_lzma
      (update4_entry smallEnv 3 "d".toList "+a, AB".toList present_lzma_state) :=
  ((lzma_gate_guarded smallEnv 3 "d".toList "+a, AB".toList present_lzma_state
    (download_check smallEnv 3 "d/a".toList "AB".toList Hasher.crc32sum present_lzma_state).2
    DL_EXIST).1 "d/a".toList "AB".toList (by decide) (by decide) rfl
    (by decide)).1.2 (Or.inr (by decide))

/-- C9 (counterexample). In `update4`, a `+` line whose file is present with
the listed checksum and has no local `.lzma` file is finished with success
without any call of `download_check` for the `.lzma` path. -/
theorem lzma_gate_skipped :
    download_check smallEnv 3 "d/a".toList "AB".toList Hasher.crc32sum present_state =
      (Ctl.val DL_EXIST,
        { present_state with log :=
          [Event.download_check 0 false "d/a".toList "AB".toList Hasher.crc32sum,
           Event.checksum Hasher.crc32sum "d/a".toList (some "AB".toList)] }) ∧
    update4_entry smallEnv 3 "d".toList "+a, AB".toList present_state =
      (Ctl.val (),
        { present_state with log :=
          [Event.download_check 0 false "d/a".toList "AB".toList Hasher.crc32sum,
           Event.checksum Hasher.crc32sum "d/a".toList (some "AB".toList)] }) ∧
    ¬ RunsLzmaGate
      (download_check smallEnv 3 "d/a".toList "AB".toList Hasher.crc32sum present_state).2
      "d/a.lzma".toList "AB".toList Hasher.crc32sum_lzma
      (update4_entry smallEnv 3 "d".toList "+a, AB".toList present_state) := by
  refine ⟨rfl, rfl, ?_⟩
  rintro ⟨evs, h⟩
  have h1 : (update4_entry smallEnv 3 "d".toList "+a, AB".toList present_state).2.log =
      (download_check smallEnv 3 "d/a".toList "AB".toList Hasher.crc32sum present_state).2.log :=
    by decide
  rw [h1] at h
  have := congrArg List.length h
  simp at this

theorem pair_eq {α β : Type} {p : α × β} {a : α} (h : p.1 = a) : p = (a, p.2) := by
  cases p
  cases h
  rfl

theorem bind_inv {W α β : Type} {m : M W α} {k : α → M W β} {st st1 : State W} {b : β}
    (h : (m >>= k) st = (Ctl.val b, st1)) :
    ∃ a s, m st = (Ctl.val a, s) ∧ k a s = (Ctl.val b, st1) := by
  rcases hm : m st with ⟨c, s⟩
  cases c with
  | val a => exact ⟨a, s, rfl, by rw [M.bind_val _ _ _ _ _ hm] at h; exact h⟩
  | exit e =>
    rw [M.bind_exit _ _ _ _ _ hm] at h
    cases h

theorem verifies_of_obeys {W α : Type} {n : Int} {m : M W α}
    (hm : Obeys n m) (Q : List Event → Prop) (hQ : ∀ evs, Q evs) : Verifies m Q := by
  intro st a st1 hf hrun
  obtain ⟨⟨g1, -, evs, g3, -⟩, -⟩ := hm st
  rw [hrun] at g1 g3
  exact ⟨g1.trans hf, evs, g3, hQ _⟩

theorem verifies_exit {W α : Type} (e : Exit) (Q : List Event → Prop) :
    Verifies (M.exit e : M W α) Q := by
  intro st a st1 _ hrun
  cases hrun

theorem verifies_pure {W α : Type} (a : α) (Q : List Event → Prop) (hQ : Q []) :
    Verifies (pure a : M W α) Q := by
  intro st b st1 hf hrun
  cases hrun
  exact ⟨hf, [], by simp, hQ⟩

theorem verifies_bind {W α β : Type} {m : M W α} {k : α → M W β} {P R Q : List Event → Prop}
    (hm : Verifies m P) (hk : ∀ a, Verifies (k a) R)
    (hQ : ∀ e1 e2, P e1 → R e2 → Q (e1 ++ e2)) : Verifies (m >>= k) Q := by
  intro st b st1 hf hrun
  obtain ⟨a, s, h1, h2⟩ := bind_inv hrun
  obtain ⟨f1, e1, l1, q1⟩ := hm st a s hf h1
  obtain ⟨f2, e2, l2, q2⟩ := hk a s b st1 f1 h2
  exact ⟨f2, e1 ++ e2, by rw [l2, l1, List.append_assoc], hQ _ _ q1 q2⟩

theorem verifies_weaken {W α : Type} {m : M W α} {Q1 Q : List Event → Prop}
    (hm : Verifies m Q1) (hQ : ∀ evs, Q1 evs → Q evs) : Verifies m Q := by
  intro st a st1 hf hrun
  obtain ⟨f1, e1, l1, q1⟩ := hm st a st1 hf hrun
  exact ⟨f1, e1, l1, hQ _ q1⟩

theorem after_check_fail {W : Type} (MAX_REPEAT : Int) (status : DLStatus) (st : State W)
    (h : DL_SUCCESS status = false) : ∃ e, after_check MAX_REPEAT status st = (Ctl.exit e, st) := by
  simp only [after_check, M.bind_apply, M.get]
  split_ifs with h1 h2
  · exact ⟨_, rfl⟩
  · exact ⟨_, rfl⟩
  · simp [h] at h2

theorem success_cases (status : DLStatus) (h : DL_SUCCESS status = true) :
    status = DL_EXIST ∨ status = DL_DOWNLOADED := by
  cases status <;> simp [DL_SUCCESS] at h ⊢

/-- A `download_check` followed by the three-way test on its status: when the
code goes on with fast mode off, the checksum function gave the expected value. -/
theorem verifies_gate {W α : Type} (E : Env W) (MAX_REPEAT : Int)
    (filename checksum_base : CString) (func : Hasher) (k : DLStatus → M W α)
    (hk : ∀ status, Obeys MAX_REPEAT (k status)) :
    Verifies (download_check E MAX_REPEAT filename checksum_base func >>= fun status =>
        after_check MAX_REPEAT status >>= fun _ => k status)
      (fun evs => Event.checksum func filename (some checksum_base) ∈ evs) := by
  intro st a st1 hf hrun
  obtain ⟨status, s1, h1, h2⟩ := bind_inv hrun
  obtain ⟨u, s2, h3, h4⟩ := bind_inv h2
  by_cases hs : DL_SUCCESS status = true
  · rw [after_check_success _ _ _ hs] at h3
    cases h3
    rcases download_check_sound E MAX_REPEAT filename checksum_base func st s1 status h1
      (success_cases _ hs) with ⟨-, evs, hlog⟩ | ⟨-, hfast, -⟩
    · obtain ⟨⟨g1, -, evs2, g3, -⟩, -⟩ := hk status s1
      rw [h4] at g1 g3
      obtain ⟨t, r, e0, hd, -, ufs, -⟩ := download_check_val E MAX_REPEAT filename
        checksum_base func st
      rw [h1] at hd
      cases hd
      refine ⟨g1.trans (ufs.trans hf), evs ++ [Event.checksum func filename (some checksum_base)]
        ++ evs2, ?_, by simp⟩
      rw [g3, hlog]
      simp
    · rw [hf] at hfast
      cases hfast
  · obtain ⟨e, he⟩ := after_check_fail MAX_REPEAT status s1 (by simpa using hs)
    rw [he] at h3
    cases h3

theorem verifies_update4_entry {W : Type} (E : Env W) (MAX_REPEAT : Int)
    (remotedir buf : CString) :
    Verifies (update4_entry E MAX_REPEAT remotedir buf) (checked4 remotedir buf) := by
  unfold update4_entry
  split
  · rename_i filename crc_base hname hcrc
    refine verifies_weaken (verifies_gate E MAX_REPEAT filename crc_base Hasher.crc32sum _
      fun status => ?_) fun evs h => ⟨filename, crc_base, hname, hcrc, h⟩
    refine obeys_bind (obeys_get _) fun st => ?_
    split
    · refine obeys_bind (obeys_download_check _ _ _ _ _) fun status => ?_
      split
      · exact obeys_delete_stale_lzma _ _ _ _
      · exact obeys_after_check _ _
    · exact obeys_pure _ _
  · exact verifies_exit _ _

theorem verifies_update4_lines {W : Type} (E : Env W) (MAX_REPEAT : Int) (remotedir : CString)
    (lines : List CString) :
    Verifies (update4_lines E MAX_REPEAT remotedir lines) (verified4 remotedir lines) := by
  induction lines with
  | nil => exact verifies_pure _ _ (by simp [verified4])
  | cons buf rest ih =>
    unfold update4_lines
    refine verifies_bind (P := fun evs => is_download_line buf = true →
      checked4 remotedir buf evs) ?_ (fun _ => ih) ?_
    · split
      · exact verifies_weaken (verifies_update4_entry _ _ _ _) fun _ h _ => h
      · rename_i hd
        split
        · exact verifies_of_obeys (obeys_delete_entry MAX_REPEAT _ _ _) _ fun _ h => absurd h hd
        · exact verifies_pure _ _ fun h => absurd h hd
    · intro e1 e2 q1 q2 b hb hdl
      rcases List.mem_cons.mp hb with rfl | hb
      · obtain ⟨f, c, p1, p2, p3⟩ := q1 hdl
        exact ⟨f, c, p1, p2, List.mem_append_left _ p3⟩
      · obtain ⟨f, c, p1, p2, p3⟩ := q2 b hb hdl
        exact ⟨f, c, p1, p2, List.mem_append_right _ p3⟩

theorem completes_bind {W α : Type} {read : W → Option (List CString)}
    {loop : List CString → M W Unit} {spec : List CString → List Event → Prop}
    {m : M W α} {k : α → M W Int} (hm : Verifies m (fun _ => True))
    (hk : ∀ a, Completes read loop spec (k a)) : Completes read loop spec (m >>= k) := by
  intro st st1 hf hrun
  obtain ⟨a, s, h1, h2⟩ := bind_inv hrun
  obtain ⟨f1, e1, l1, -⟩ := hm st a s hf h1
  obtain ⟨s0, lines, pre, evs, c1, c2, c3, c4, c5, c6⟩ := hk a s st1 f1 h2
  exact ⟨s0, lines, e1 ++ pre, evs, c1, by rw [c2, l1, List.append_assoc], c3, c4, c5, c6⟩

theorem completes_loop {W : Type} {read : W → Option (List CString)}
    {loop : List CString → M W Unit} {spec : List CString → List Event → Prop}
    (hloop : ∀ lines, Verifies (loop lines) (spec lines))
    (s st1 : State W) (lines : List CString) (hf : s.use_fast = false)
    (hread : read s.world = some lines)
    (hrun : (loop lines >>= fun _ => (pure EXIT_SUCCESS : M W Int)) s =
      (Ctl.val EXIT_SUCCESS, st1)) :
    SyncVerified read loop spec s st1 := by
  obtain ⟨u, s2, h1, h2⟩ := bind_inv hrun
  have e : s2 = st1 := (Prod.mk.inj h2).2
  rw [e] at h1
  obtain ⟨-, evs, l1, q⟩ := hloop lines s u st1 hf h1
  exact ⟨s, lines, [], evs, hf, by simp, hread, h1, l1, q⟩

theorem completes_read {W : Type} {read : W → Option (List CString)}
    {loop : List CString → M W Unit} {spec : List CString → List Event → Prop}
    (hloop : ∀ lines, Verifies (loop lines) (spec lines))
    (f : State W → M W Int)
    (hf : ∀ s, f s = M.exit Exit.undef ∨ ∃ lines, read s.world = some lines ∧
      f s = (loop lines >>= fun _ => (pure EXIT_SUCCESS : M W Int))) :
    Completes read loop spec (M.get >>= f) := by
  intro s st1 hfast hrun
  have hrun1 : f s s = (Ctl.val EXIT_SUCCESS, st1) := hrun
  rcases hf s with h | ⟨lines, hread, h⟩
  · rw [h] at hrun1
    cases hrun1
  · rw [h] at hrun1
    exact completes_loop hloop s st1 lines hfast hread hrun1

theorem verifies_fetch_manifest {W : Type} (E : Env W) (MAX_REPEAT : Int) (manifest : CString)
    (main_hash_old : CString) (main_size_old : Int) :
    Verifies (fetch_manifest E MAX_REPEAT manifest main_hash_old main_size_old)
      (fun _ => True) := by
  intro st a st1 hf hrun
  rw [fetch_manifest_eq] at hrun
  obtain ⟨status, k, s1, hd, -, hlog, huf, -, -⟩ :=
    download_spec E MAX_REPEAT manifest (after_label st)
  rw [hd] at hrun
  dsimp only at hrun
  have huf1 : s1.use_fast = false := by rw [huf]; simp [after_label, hf]
  have hlog1 : ∃ evs, s1.log = st.log ++ evs := ⟨_, by rw [hlog]; simp [after_label]; rfl⟩
  split_ifs at hrun with h1 h2 h3
  · cases hrun
  · cases hrun
  · rw [huf1] at h2
    simp at h2
  · cases hrun
    exact ⟨huf1, by obtain ⟨evs, h⟩ := hlog1; exact ⟨evs, h, trivial⟩⟩

theorem restart_loop_final {W : Type} (MAX_REPEAT : Int) (manifest : CString) (pass : M W Int)
    (hp : PassOK MAX_REPEAT manifest pass) :
    ∀ (fuel : Nat) (st : State W) (res : Ctl Int) (st1 : State W), st.use_fast = false →
      restart_loop pass fuel st = (res, st1) → res ≠ Ctl.exit Exit.nofuel →
      ∃ s0 pre, s0.use_fast = false ∧ s0.log = st.log ++ pre ∧ pass s0 = (res, st1) := by
  intro fuel
  induction fuel with
  | zero =>
    intro st res st1 _ hrun hne
    cases hrun
    exact absurd rfl hne
  | succ n ih =>
    intro st res st1 hf hrun hne
    obtain ⟨-, huf, -, -, -, evs, hlog, -⟩ := hp st
    rw [restart_loop_succ] at hrun
    rcases hps : pass st with ⟨r, s1⟩
    rw [hps] at hrun huf hlog
    dsimp only at huf hlog
    by_cases hr : r = Ctl.exit Exit.restart
    · subst hr
      dsimp only at hrun
      obtain ⟨s0, pre, c1, c2, c3⟩ := ih (next_attempt s1) res st1
        (by simp [next_attempt, huf, hf]) hrun hne
      exact ⟨s0, Event.repeat_label st.counter_global st.use_fast :: Event.download manifest ::
        evs ++ pre, c1, by rw [c2]; simp only [next_attempt]; rw [hlog, List.append_assoc], c3⟩
    · have : (res, st1) = (r, s1) := by
        rw [← hrun]
        split
        · rename_i heq
          simp only [Prod.mk.injEq] at heq
          exact absurd heq.1 hr
        · rfl
      cases this
      exact ⟨st, [], hf, by simp, hps⟩

/-- A call of an engine with fast mode off that returns `EXIT_SUCCESS` ends with
a complete run of the loop over the manifest in its last pass. -/
theorem engine_verified {W : Type} (E : Env W) (MAX_REPEAT : Int) (dir manifest : CString)
    (cache : M W Unit) (pass : CString → Int → M W Int) (hq : Quiet cache)
    (hp : ∀ h s, PassOK MAX_REPEAT manifest (pass h s))
    (read : W → Option (List CString)) (loop : List CString → M W Unit)
    (spec : List CString → List Event → Prop)
    (hc : ∀ h s, Completes read loop spec (pass h s))
    (st st1 : State W) (hf : st.use_fast = false)
    (hrun : engine E MAX_REPEAT dir manifest cache pass st = (Ctl.val EXIT_SUCCESS, st1)) :
    SyncVerified read loop spec st st1 := by
  obtain ⟨o1, o2, o3, pre1, o4, o5⟩ :=
    prelude_open_directory E manifest dir { st with counter_global := 0 }
  simp only [engine, M.returning, M.bind_apply, M.set_counter] at hrun
  generalize open_directory E dir _ = r at *
  obtain ⟨c, sa⟩ := r
  dsimp only at o1 o2 o3 o4 hrun
  have hfa : sa.use_fast = false := by
    cases h : sa.use_fast
    · rfl
    · have := o3 h; simp [hf] at this
  rcases o1 with ⟨a, h⟩ | h | h
  · cases h
    dsimp only at hrun
    obtain ⟨p1, p2, p3, pre2, p4, p5⟩ := prelude_fast_prepare E manifest cache hq sa
    generalize fast_prepare E manifest cache sa = r at *
    obtain ⟨c, sb⟩ := r
    dsimp only at p1 p2 p3 p4 hrun
    have hfb : sb.use_fast = false := by
      cases h : sb.use_fast
      · rfl
      · have := p3 h; simp [hfa] at this
    rcases p1 with ⟨old, h⟩ | h | h
    · cases h
      dsimp only at hrun
      have hok := restart_loop_ok MAX_REPEAT manifest (pass old.1 old.2) (hp _ _)
        (MAX_REPEAT.toNat + 1) sb (Nat.succ_pos _) (by rw [p2, o2]; omega)
      rcases hloop : restart_loop (pass old.1 old.2) (MAX_REPEAT.toNat + 1) sb with ⟨res0, sc⟩
      rw [hloop] at hrun hok
      obtain ⟨s0, pre3, c1, c2, c3⟩ := restart_loop_final MAX_REPEAT manifest _ (hp _ _) _ sb
        res0 sc hfb hloop hok.1
      have hcase : (res0 = Ctl.val EXIT_SUCCESS ∨ res0 = Ctl.exit (Exit.ret EXIT_SUCCESS)) ∧
          sc = st1 := by
        rcases res0 with a | e
        · cases hrun; exact ⟨Or.inl rfl, rfl⟩
        · cases e <;> cases hrun
          exact ⟨Or.inr rfl, rfl⟩
      obtain ⟨hres, rfl⟩ := hcase
      rcases hres with rfl | rfl
      · obtain ⟨s, lines, pre, evs, d1, d2, d3, d4, d5, d6⟩ := hc _ _ s0 sc c1 c3
        refine ⟨s, lines, pre1 ++ pre2 ++ pre3 ++ pre, evs, d1, ?_, d3, d4, d5, d6⟩
        rw [d2, c2, p4, o4]
        simp
      · obtain ⟨-, q2, -, -, q5, -⟩ := hp old.1 old.2 s0
        rw [c3] at q2 q5
        have := q5 rfl
        rw [q2, c1] at this
        simp at this
    · cases h
      cases hrun
    · cases h
      cases hrun
  · cases h
    cases hrun
  · cases h
    cases hrun

theorem update4_pass_completes {W : Type} (E : Env W) (MAX_REPEAT : Int) (remotedir : CString)
    (main_hash_old : CString) (main_size_old : Int) :
    Completes (fun w => E.read_lines w (remotedir ++ "/drweb32.lst".toList))
      (update4_lines E MAX_REPEAT remotedir)
      (verified4 remotedir)
      (update4_pass E MAX_REPEAT remotedir main_hash_old main_size_old) := by
  unfold update4_pass
  refine completes_bind (verifies_fetch_manifest _ _ _ _ _) fun _ => ?_
  refine completes_bind (verifies_of_obeys (obeys_download_optional MAX_REPEAT _ _) _
    fun _ => trivial) fun _ => ?_
  refine completes_bind (verifies_of_obeys (obeys_download_optional MAX_REPEAT _ _) _
    fun _ => trivial) fun _ => ?_
  refine completes_bind (verifies_of_obeys (obeys_download_optional MAX_REPEAT _ _) _
    fun _ => trivial) fun _ => ?_
  refine completes_bind (verifies_of_obeys (obeys_download_optional MAX_REPEAT _ _) _
    fun _ => trivial) fun _ => ?_
  refine completes_bind (verifies_of_obeys (obeys_download_optional MAX_REPEAT _ _) _
    fun _ => trivial) fun _ => ?_
  refine completes_read (verifies_update4_lines E MAX_REPEAT remotedir) _ fun s => ?_
  rcases E.read_lines s.world (remotedir ++ "/drweb32.lst".toList) with _ | lines
  · exact Or.inl rfl
  · exact Or.inr ⟨lines, rfl, rfl⟩

theorem update4_verified {W : Type} (E : Env W) (MAX_REPEAT : Int) (remotedir : CString)
    (st st1 : State W) (hf : st.use_fast = false)
    (hrun : update4 E MAX_REPEAT remotedir st = (Ctl.val EXIT_SUCCESS, st1)) :
    SyncVerified (fun w => E.read_lines w (remotedir ++ "/drweb32.lst".toList))
      (update4_lines E MAX_REPEAT remotedir)
      (verified4 remotedir) st st1 :=
  engine_verified E MAX_REPEAT remotedir _ (cache4 E remotedir)
    (fun h s => update4_pass E MAX_REPEAT remotedir h s) (quiet_cache4 _ _)
    (fun _ _ => update4_pass_ok _ _ _ _ _) _ _ _
    (fun _ _ => update4_pass_completes _ _ _ _ _) st st1 hf hrun

/-! #### v5 / v5.2 -/

theorem verifies_update5x_entry {W : Type} (E : Env W) (MAX_REPEAT : Int)
    (remotedir buf : CString) :
    Verifies (update5x_entry E MAX_REPEAT remotedir buf) (checked5 remotedir buf) := by
  unfold update5x_entry
  split
  · exact verifies_exit _ _
  · rename_i e hparse
    refine verifies_weaken (verifies_gate E MAX_REPEAT e.filename e.sha_base Hasher.sha256sum _
      fun status => ?_) fun evs h => ⟨e, hparse, h⟩
    refine obeys_bind (obeys_get _) fun st => ?_
    refine obeys_bind ?_ fun _ => obeys_update5x_lzma _ _ _ _ _
    split
    · exact obeys_wrong_size _
    · exact obeys_pure _ _

theorem verifies_update5x_lines {W : Type} (E : Env W) (MAX_REPEAT : Int) (remotedir : CString)
    (lines : List CString) :
    Verifies (update5x_lines E MAX_REPEAT remotedir lines) (verified5 remotedir lines) := by
  induction lines with
  | nil => exact verifies_pure _ _ (by simp [verified5])
  | cons buf rest ih =>
    unfold update5x_lines
    refine verifies_bind (P := fun evs => is_download_line buf = true →
      checked5 remotedir buf evs) ?_ (fun _ => ih) ?_
    · split
      · exact verifies_weaken (verifies_update5x_entry _ _ _ _) fun _ h _ => h
      · rename_i hd
        split
        · exact verifies_of_obeys (obeys_delete_entry MAX_REPEAT _ _ _) _ fun _ h => absurd h hd
        · exact verifies_pure _ _ fun h => absurd h hd
    · intro e1 e2 q1 q2 b hb hdl
      rcases List.mem_cons.mp hb with rfl | hb
      · obtain ⟨e, p1, p3⟩ := q1 hdl
        exact ⟨e, p1, List.mem_append_left _ p3⟩
      · obtain ⟨e, p1, p3⟩ := q2 b hb hdl
        exact ⟨e, p1, List.mem_append_right _ p3⟩

theorem update5x_pass_completes {W : Type} (E : Env W) (MAX_REPEAT : Int)
    (remotedir version_file : CString) (main_hash_old : CString) (main_size_old : Int) :
    Completes (fun w => E.read_lines w (remotedir ++ '/' :: version_file))
      (update5x_lines E MAX_REPEAT remotedir) (verified5 remotedir)
      (update5x_pass E MAX_REPEAT remotedir version_file main_hash_old main_size_old) := by
  unfold update5x_pass
  refine completes_bind (verifies_fetch_manifest _ _ _ _ _) fun _ => ?_
  refine completes_bind (verifies_of_obeys (obeys_download_optional MAX_REPEAT _ _) _
    fun _ => trivial) fun _ => ?_
  refine completes_bind (verifies_of_obeys (obeys_download_optional MAX_REPEAT _ _) _
    fun _ => trivial) fun _ => ?_
  refine completes_bind (verifies_of_obeys (obeys_download_optional MAX_REPEAT _ _) _
    fun _ => trivial) fun _ => ?_
  refine completes_bind (m := if version_file ≠ "version.lst".toList then _ else _) ?_ fun _ => ?_
  · split
    · exact verifies_of_obeys (obeys_bind (obeys_download_optional MAX_REPEAT _ _) fun _ =>
        obeys_download_optional MAX_REPEAT _ _) _ fun _ => trivial
    · exact verifies_pure _ _ trivial
  refine completes_read (verifies_update5x_lines E MAX_REPEAT remotedir) _ fun s => ?_
  rcases E.read_lines s.world (remotedir ++ '/' :: version_file) with _ | lines
  · exact Or.inl rfl
  · exact Or.inr ⟨lines, rfl, rfl⟩

theorem update5x_verified {W : Type} (E : Env W) (MAX_REPEAT : Int)
    (remotedir version_file : CString)
    (st st1 : State W) (hf : st.use_fast = false)
    (hrun : update5x_internal E MAX_REPEAT remotedir version_file st =
      (Ctl.val EXIT_SUCCESS, st1)) :
    SyncVerified (fun w => E.read_lines w (remotedir ++ '/' :: version_file))
      (update5x_lines E MAX_REPEAT remotedir) (verified5 remotedir) st st1 :=
  engine_verified E MAX_REPEAT remotedir _ (cache5 E remotedir version_file)
    (fun h s => update5x_pass E MAX_REPEAT remotedir version_file h s) (quiet_cache5 _ _ _)
    (fun _ _ => update5x_pass_ok _ _ _ _ _ _) _ _ _
    (fun _ _ => update5x_pass_completes _ _ _ _ _ _) st st1 hf hrun

/-! #### v7 -/

theorem verifies_update7_check {W : Type} (E : Env W) (MAX_REPEAT : Int)
    (filename base_hash : CString) (filesize : Int) :
    Verifies (update7_check E MAX_REPEAT filename base_hash filesize)
      (fun evs => Event.checksum Hasher.sha256sum filename (some base_hash) ∈ evs) := by
  unfold update7_check
  refine verifies_gate E MAX_REPEAT filename base_hash Hasher.sha256sum _ fun status => ?_
  refine obeys_bind (obeys_get _) fun st => ?_
  split
  · exact obeys_wrong_size _
  · exact obeys_pure _ _

/-- The body of the file checks of `update7`: `make_path_for`, then the check. -/
theorem verifies_update7_file {W : Type} (E : Env W) (MAX_REPEAT : Int)
    (p : CString × CString × Int) :
    Verifies (cannot_make_path_for E p.2.1 >>= fun failed =>
        (if failed = true then M.exit (Exit.ret EXIT_FAILURE) else pure ()) >>= fun _ =>
          update7_check E MAX_REPEAT p.2.1 p.1 p.2.2)
      (fun evs => Event.checksum Hasher.sha256sum p.2.1 (some p.1) ∈ evs) := by
  refine verifies_bind (P := fun _ => True)
    (verifies_of_obeys (obeys_cannot_make_path_for MAX_REPEAT _ _) _ fun _ => trivial)
    (fun failed => ?_) fun e1 e2 _ h => List.mem_append_right _ h
  refine verifies_bind (P := fun _ => True) ?_ (fun _ => verifies_update7_check _ _ _ _ _)
    fun e1 e2 _ h => List.mem_append_right _ h
  split
  · exact verifies_exit _ _
  · exact verifies_pure _ _ trivial

theorem verifies_update7_xlines {W : Type} (E : Env W) (MAX_REPEAT : Int)
    (directory : CString) (xlines : List CString) :
    Verifies (update7_xlines E MAX_REPEAT directory xlines)
      (fun evs => ∀ xbuf ∈ xlines, (strstr xbuf "<lzma".toList).isSome = true →
        checked7 directory xbuf evs) := by
  induction xlines with
  | nil => exact verifies_pure _ _ (by simp)
  | cons buf rest ih =>
    unfold update7_xlines
    refine verifies_bind (P := fun evs => (strstr buf "<lzma".toList).isSome = true →
      checked7 directory buf evs) ?_ (fun _ => ih) ?_
    · split
      · split
        · exact verifies_exit _ _
        · rename_i p hparse
          exact verifies_weaken (verifies_update7_file E MAX_REPEAT p)
            fun evs h _ => ⟨p, hparse, h⟩
      · rename_i hd
        exact verifies_pure _ _ fun h => absurd h hd
    · intro e1 e2 q1 q2 b hb hdl
      rcases List.mem_cons.mp hb with rfl | hb
      · obtain ⟨p, p1, p3⟩ := q1 hdl
        exact ⟨p, p1, List.mem_append_left _ p3⟩
      · obtain ⟨p, p1, p3⟩ := q2 b hb hdl
        exact ⟨p, p1, List.mem_append_right _ p3⟩

/-- What the log of a line of `versions.xml` has to hold. -/
theorem verifies_update7_entry {W : Type} (E : Env W) (MAX_REPEAT : Int)
    (remotedir buf : CString) :
    Verifies (update7_entry E MAX_REPEAT remotedir buf)
      (fun evs => checked7 remotedir buf evs ∧
        ((strstr buf "<xml".toList).isSome = true →
          ∃ (p : CString × CString × Int) (w : W) (xlines : List CString) (directory : CString),
            entry7_parse remotedir buf = some p ∧ E.read_lines w p.2.1 = some xlines ∧
            before_last p.2.1 '/' = some directory ∧
            ∀ xbuf ∈ xlines, (strstr xbuf "<lzma".toList).isSome = true →
              checked7 directory xbuf evs)) := by
  unfold update7_entry
  split
  · exact verifies_exit _ _
  · rename_i p hparse
    have hmono : ∀ (d b : CString) (e1 e2 e3 : List Event), checked7 d b e2 →
        checked7 d b (e1 ++ (e2 ++ e3)) := by
      rintro d b e1 e2 e3 ⟨q, h1, h2⟩
      exact ⟨q, h1, List.mem_append_right _ (List.mem_append_left _ h2)⟩
    refine verifies_bind (P := fun _ => True)
      (verifies_of_obeys (obeys_cannot_make_path_for MAX_REPEAT _ _) _ fun _ => trivial)
      (fun failed => ?_) (R := fun evs => checked7 remotedir buf evs ∧
        ((strstr buf "<xml".toList).isSome = true →
          ∃ (p : CString × CString × Int) (w : W) (xlines : List CString) (directory : CString),
            entry7_parse remotedir buf = some p ∧ E.read_lines w p.2.1 = some xlines ∧
            before_last p.2.1 '/' = some directory ∧
            ∀ xbuf ∈ xlines, (strstr xbuf "<lzma".toList).isSome = true →
              checked7 directory xbuf evs)) ?_
    swap
    · rintro e1 e2 - ⟨h1, h2⟩
      refine ⟨by simpa using hmono _ _ e1 e2 [] h1, fun hx => ?_⟩
      obtain ⟨q, w, xl, d, a1, a2, a3, a4⟩ := h2 hx
      exact ⟨q, w, xl, d, a1, a2, a3, fun xb hxb hl => by
        simpa using hmono _ _ e1 e2 [] (a4 xb hxb hl)⟩
    intro st a st1 hf hrun
    obtain ⟨u1, s1, r1, hrun⟩ := bind_inv hrun
    obtain ⟨s1', s2, r2, hrun⟩ := bind_inv hrun
    cases r2
    obtain ⟨u3, s3, r3, hrun⟩ := bind_inv hrun
    obtain ⟨u4, s4, r4, hrun⟩ := bind_inv hrun
    have k1 : Verifies (if failed = true then (M.exit (Exit.ret EXIT_FAILURE) : M W Unit)
        else pure ()) (fun _ => True) := by
      split
      · exact verifies_exit _ _
      · exact verifies_pure _ _ trivial
    obtain ⟨f1, e1, l1, -⟩ := k1 st u1 s1 hf r1
    have k3 : Verifies (if (!s1.tree.isEmpty) = true ∧ s1.counter_global = 0 ∧
          (strstr buf "<xml".toList).isSome = true then
        match before_last p.2.1 '/' with
        | none => (M.exit Exit.undef : M W Unit)
        | some directory => cache7 E p.2.1 directory
        else pure ()) (fun _ => True) := by
      split
      · split
        · exact verifies_exit _ _
        · exact verifies_of_obeys (obeys_cache7 MAX_REPEAT _ _ _) _ fun _ => trivial
      · exact verifies_pure _ _ trivial
    obtain ⟨f3, e3, l3, -⟩ := k3 s1 u3 s3 f1 r3
    obtain ⟨f4, e4, l4, q4⟩ := verifies_update7_check E MAX_REPEAT p.2.1 p.1 p.2.2 s3 u4 s4 f3 r4
    by_cases hx : (strstr buf "<xml".toList).isSome = true
    · rw [if_pos hx] at hrun
      have hrun1 : (match E.read_lines s4.world p.2.1, before_last p.2.1 '/' with
          | some xlines, some directory => update7_xlines E MAX_REPEAT directory xlines
          | _, _ => M.exit Exit.undef) s4 = (Ctl.val a, st1) := hrun
      rcases hr : E.read_lines s4.world p.2.1 with _ | xlines
      · rw [hr] at hrun1
        cases hrun1
      · rcases hb : before_last p.2.1 '/' with _ | directory
        · rw [hr, hb] at hrun1
          cases hrun1
        · rw [hr, hb] at hrun1
          obtain ⟨f5, e5, l5, q5⟩ := verifies_update7_xlines E MAX_REPEAT directory xlines
            s4 a st1 f4 hrun1
          refine ⟨f5, e1 ++ (e3 ++ (e4 ++ e5)), by rw [l5, l4, l3, l1]; simp, ?_, fun _ => ?_⟩
          · exact ⟨p, hparse, by simp [q4]⟩
          · refine ⟨p, s4.world, xlines, directory, hparse, hr, hb, fun xb hxb hl => ?_⟩
            obtain ⟨q, a1, a2⟩ := q5 xb hxb hl
            exact ⟨q, a1, by simp [a2]⟩
    · rw [if_neg hx] at hrun
      cases hrun
      exact ⟨f4, e1 ++ (e3 ++ e4), by rw [l4, l3, l1]; simp, ⟨p, hparse, by simp [q4]⟩,
        fun h => absurd h hx⟩

theorem verifies_update7_lines {W : Type} (E : Env W) (MAX_REPEAT : Int) (remotedir : CString)
    (lines : List CString) :
    Verifies (update7_lines E MAX_REPEAT remotedir lines) (verified7 E remotedir lines) := by
  induction lines with
  | nil => exact verifies_pure _ _ (by simp [verified7])
  | cons buf rest ih =>
    unfold update7_lines
    have hmono : ∀ (d b : CString) (e1 e2 e3 : List Event), checked7 d b e2 →
        checked7 d b (e1 ++ (e2 ++ e3)) := by
      rintro d b e1 e2 e3 ⟨q, h1, h2⟩
      exact ⟨q, h1, List.mem_append_right _ (List.mem_append_left _ h2)⟩
    refine verifies_bind (P := fun evs => verified7 E remotedir [buf] evs) ?_ (fun _ => ih) ?_
    · split
      · refine verifies_weaken (verifies_update7_entry _ _ _ _) fun evs h b hb _ => ?_
        rw [List.mem_singleton.mp hb]
        exact h
      · rename_i hd
        refine verifies_pure _ _ fun b hb h => ?_
        rw [List.mem_singleton.mp hb] at h
        exact absurd h hd
    · intro e1 e2 q1 q2 b hb hdl
      rcases List.mem_cons.mp hb with rfl | hb
      · obtain ⟨h1, h2⟩ := q1 b (List.mem_singleton.mpr rfl) hdl
        refine ⟨by simpa using hmono _ _ [] e1 e2 h1, fun hx => ?_⟩
        obtain ⟨q, w, xl, d, a1, a2, a3, a4⟩ := h2 hx
        exact ⟨q, w, xl, d, a1, a2, a3, fun xb hxb hl => by
          simpa using hmono _ _ [] e1 e2 (a4 xb hxb hl)⟩
      · obtain ⟨h1, h2⟩ := q2 b hb hdl
        refine ⟨by simpa using hmono _ _ e1 e2 [] h1, fun hx => ?_⟩
        obtain ⟨q, w, xl, d, a1, a2, a3, a4⟩ := h2 hx
        exact ⟨q, w, xl, d, a1, a2, a3, fun xb hxb hl => by
          simpa using hmono _ _ e1 e2 [] (a4 xb hxb hl)⟩

theorem update7_pass_completes {W : Type} (E : Env W) (MAX_REPEAT : Int) (remotedir : CString)
    (main_hash_old : CString) (main_size_old : Int) :
    Completes (fun w => E.read_lines w (remotedir ++ "/versions.xml".toList))
      (update7_lines E MAX_REPEAT remotedir) (verified7 E remotedir)
      (update7_pass E MAX_REPEAT remotedir main_hash_old main_size_old) := by
  unfold update7_pass
  refine completes_bind (verifies_fetch_manifest _ _ _ _ _) fun _ => ?_
  refine completes_read (verifies_update7_lines E MAX_REPEAT remotedir) _ fun s => ?_
  rcases E.read_lines s.world (remotedir ++ "/versions.xml".toList) with _ | lines
  · exact Or.inl rfl
  · exact Or.inr ⟨lines, rfl, rfl⟩

theorem update7_verified {W : Type} (E : Env W) (MAX_REPEAT : Int) (remotedir : CString)
    (st st1 : State W) (hf : st.use_fast = false)
    (hrun : update7 E MAX_REPEAT remotedir st = (Ctl.val EXIT_SUCCESS, st1)) :
    SyncVerified (fun w => E.read_lines w (remotedir ++ "/versions.xml".toList))
      (update7_lines E MAX_REPEAT remotedir) (verified7 E remotedir) st st1 :=
  engine_verified E MAX_REPEAT remotedir _
    (cache7 E (remotedir ++ "/versions.xml".toList) remotedir)
    (fun h s => update7_pass E MAX_REPEAT remotedir h s) (quiet_cache7 _ _ _)
    (fun _ _ => update7_pass_ok _ _ _ _ _) _ _ _
    (fun _ _ => update7_pass_completes _ _ _ _ _) st st1 hf hrun

/-! #### Android -/

theorem verifies_updateA_entry {W : Type} (E : Env W) (MAX_REPEAT : Int)
    (real_dir buf : CString) :
    Verifies (updateA_entry E MAX_REPEAT real_dir buf) (checkedA real_dir buf) := by
  unfold updateA_entry
  split
  · exact verifies_exit _ _
  · rename_i file_op filesize_ul md5 filename_base hparse
    dsimp only
    split
    · rename_i h0
      refine verifies_weaken (verifies_gate E MAX_REPEAT _ _ Hasher.md5sum _
        fun status => ?_) fun evs h => ⟨_, _, _, _, hparse, fun _ => h⟩
      refine obeys_bind (obeys_get _) fun st => ?_
      split
      · exact obeys_wrong_size _
      · exact obeys_pure _ _
    · rename_i h0
      split
      · refine verifies_of_obeys (n := MAX_REPEAT) ?_ _
          fun evs => ⟨_, _, _, _, hparse, fun h => absurd h h0⟩
        refine obeys_bind (obeys_get _) fun st => ?_
        split
        · exact obeys_delete_files _ _ _ _
        · exact obeys_pure _ _
      · exact verifies_exit _ _

theorem verifies_updateA_lines {W : Type} (E : Env W) (MAX_REPEAT : Int) (real_dir : CString)
    (lines : List CString) :
    ∀ flag_files, Verifies (updateA_lines E MAX_REPEAT real_dir flag_files lines)
      (fun evs => ∀ buf ∈ filesA flag_files lines, checkedA real_dir buf evs) := by
  induction lines with
  | nil =>
    intro f
    cases f <;> exact verifies_pure _ _ (by simp [filesA])
  | cons buf rest ih =>
    intro f
    cases f with
    | true =>
      unfold updateA_lines filesA
      split
      · exact verifies_pure _ _ (by simp)
      · refine verifies_bind (verifies_updateA_entry E MAX_REPEAT real_dir buf)
          (fun _ => ih true) ?_
        intro e1 e2 q1 q2 b hb
        rcases List.mem_cons.mp hb with rfl | hb
        · obtain ⟨a, b1, c, d, h1, h2⟩ := q1
          exact ⟨a, b1, c, d, h1, fun h => List.mem_append_left _ (h2 h)⟩
        · obtain ⟨a, b1, c, d, h1, h2⟩ := q2 b hb
          exact ⟨a, b1, c, d, h1, fun h => List.mem_append_right _ (h2 h)⟩
    | false =>
      unfold updateA_lines filesA
      exact ih _

theorem updateA_pass_completes {W : Type} (E : Env W) (MAX_REPEAT : Int)
    (remotedir real_dir : CString) (main_hash_old : CString) (main_size_old : Int) :
    Completes (fun w => E.read_lines_lf w remotedir)
      (updateA_lines E MAX_REPEAT real_dir false) (verifiedA real_dir)
      (updateA_pass E MAX_REPEAT remotedir real_dir main_hash_old main_size_old) := by
  unfold updateA_pass
  refine completes_bind (verifies_fetch_manifest _ _ _ _ _) fun _ => ?_
  refine completes_read (fun lines => verifies_updateA_lines E MAX_REPEAT real_dir lines false)
    _ fun s => ?_
  rcases E.read_lines_lf s.world remotedir with _ | lines
  · exact Or.inl rfl
  · exact Or.inr ⟨lines, rfl, rfl⟩

theorem updateA_verified {W : Type} (E : Env W) (MAX_REPEAT : Int) (remotedir real_dir : CString)
    (hdir : before_last remotedir '/' = some real_dir)
    (st st1 : State W) (hf : st.use_fast = false)
    (hrun : updateA E MAX_REPEAT remotedir st = (Ctl.val EXIT_SUCCESS, st1)) :
    SyncVerified (fun w => E.read_lines_lf w remotedir)
      (updateA_lines E MAX_REPEAT real_dir false) (verifiedA real_dir) st st1 := by
  unfold updateA at hrun
  rw [hdir] at hrun
  exact engine_verified E MAX_REPEAT real_dir _ (cacheA E remotedir real_dir)
    (fun h s => updateA_pass E MAX_REPEAT remotedir real_dir h s) (quiet_cacheA _ _ _)
    (fun _ _ => updateA_pass_ok _ _ _ _ _ _) _ _ _
    (fun _ _ => updateA_pass_completes _ _ _ _ _ _) st st1 hf hrun

/-- C1 (as amended). A successful result of `download_check` means that the
checksum function, applied to the file in the state in which the gate returns,
yields exactly the expected digest, unless the gate returned `DL_EXIST` through
its fast check (fast mode on, the file exists, the index holds the expected
digest for the path), in which case nothing was hashed.  Hence, when an engine
is called with fast mode off and returns `EXIT_SUCCESS`, its last pass has run
the loop over the lines of the manifest to the end, and for every add/update
line (`+`, `=`, `!` in v4, v5, v5.2; `<xml` and `<lzma` lines, and the `<lzma`
lines of each listed xml file, in v7; the lines of `[Files]` with operation 0
for Android) the log of that loop holds a call of the checksum function on the
file of the line whose result is the digest of the line. -/
theorem gate_sound_unless_fast_path {W : Type} (E : Env W) (MAX_REPEAT : Int) :
    (∀ (filename checksum_base : CString) (func : Hasher) (st st1 : State W)
        (status : DLStatus),
      download_check E MAX_REPEAT filename checksum_base func st = (Ctl.val status, st1) →
      status = DL_EXIST ∨ status = DL_DOWNLOADED →
      (E.checksum func st1.world filename = some checksum_base ∧
        ∃ evs, st1.log = st.log ++ evs ++
          [Event.checksum func filename (some checksum_base)]) ∨
      (status = DL_EXIST ∧ st.use_fast = true ∧ E.exist st.world filename = true ∧
        avl_hash st.tree filename = some checksum_base ∧ st1.world = st.world)) ∧
    (∀ (remotedir : CString) (st st1 : State W), st.use_fast = false →
      update4 E MAX_REPEAT remotedir st = (Ctl.val EXIT_SUCCESS, st1) →
      SyncVerified (fun w => E.read_lines w (remotedir ++ "/drweb32.lst".toList))
        (update4_lines E MAX_REPEAT remotedir) (verified4 remotedir) st st1) ∧
    (∀ (remotedir version_file : CString) (st st1 : State W), st.use_fast = false →
      update5x_internal E MAX_REPEAT remotedir version_file st = (Ctl.val EXIT_SUCCESS, st1) →
      SyncVerified (fun w => E.read_lines w (remotedir ++ '/' :: version_file))
        (update5x_lines E MAX_REPEAT remotedir) (verified5 remotedir) st st1) ∧
    (∀ (remotedir : CString) (st st1 : State W), st.use_fast = false →
      update7 E MAX_REPEAT remotedir st = (Ctl.val EXIT_SUCCESS, st1) →
      SyncVerified (fun w => E.read_lines w (remotedir ++ "/versions.xml".toList))
        (update7_lines E MAX_REPEAT remotedir) (verified7 E remotedir) st st1) ∧
    (∀ (remotedir real_dir : CString) (st st1 : State W), st.use_fast = false →
      before_last remotedir '/' = some real_dir →
      updateA E MAX_REPEAT remotedir st = (Ctl.val EXIT_SUCCESS, st1) →
      SyncVerified (fun w => E.read_lines_lf w remotedir)
        (updateA_lines E MAX_REPEAT real_dir false) (verifiedA real_dir) st st1) :=
  ⟨fun filename checksum_base func st st1 status hrun hok =>
      download_check_sound E MAX_REPEAT filename checksum_base func st st1 status hrun hok,
    fun remotedir st st1 hf hrun => update4_verified E MAX_REPEAT remotedir st st1 hf hrun,
    fun remotedir version_file st st1 hf hrun =>
      update5x_verified E MAX_REPEAT remotedir version_file st st1 hf hrun,
    fun remotedir st st1 hf hrun => update7_verified E MAX_REPEAT remotedir st st1 hf hrun,
    fun remotedir real_dir st st1 hf hdir hrun =>
      updateA_verified E MAX_REPEAT remotedir real_dir hdir st st1 hf hrun⟩

theorem gate_sound_unless_fast_path_witness :
    (mutated_state false).use_fast = false ∧
    (update4 smallEnv 3 "d".toList (mutated_state false)).1 = Ctl.val EXIT_SUCCESS ∧
    SyncVerified (fun w => smallEnv.read_lines w ("d".toList ++ "/drweb32.lst".toList))
      (update4_lines smallEnv 3 "d".toList) (verified4 "d".toList) (mutated_state false)
      (update4 smallEnv 3 "d".toList (mutated_state false)).2 :=
  ⟨rfl, by decide!,
    (gate_sound_unless_fast_path smallEnv 3).2.1 "d".toList (mutated_state false)
      (update4 smallEnv 3 "d".toList (mutated_state false)).2 rfl (pair_eq (by decide!))⟩

/-- C1 (counterexample). In fast mode `download_check` returns `DL_EXIST` for a
file whose checksum is not the expected one, when the index holds the expected
digest for the path; and `update4` returns `EXIT_SUCCESS` although the file of
the line `+a, AB` of the manifest has the checksum `XY`.  With fast mode off,
`update4` returns `EXIT_SUCCESS` for the manifest `+a, AB`, `-a, ` with no file
`d/a` left: the digest holds when the line is checked, not at the end. -/
theorem gate_trusts_index :
    (download_check smallEnv 3 "d/a".toList "AB".toList Hasher.crc32sum stale_state).1 =
      Ctl.val DL_EXIST ∧
    smallEnv.checksum Hasher.crc32sum
        (download_check smallEnv 3 "d/a".toList "AB".toList Hasher.crc32sum stale_state).2.world
        "d/a".toList = some "XY".toList ∧
    (update4 smallEnv 3 "d".toList drift_state).1 = Ctl.val EXIT_SUCCESS ∧
    smallEnv.read_lines (update4 smallEnv 3 "d".toList drift_state).2.world
        "d/drweb32.lst".toList = some ["+a, AB".toList, "+b, EF".toList] ∧
    entry_filename "d".toList "+a, AB".toList = some "d/a".toList ∧
    entry_crc_base "+a, AB".toList = some "AB".toList ∧
    smallEnv.checksum Hasher.crc32sum (update4 smallEnv 3 "d".toList drift_state).2.world
        "d/a".toList = some "XY".toList ∧
    add_delete_state.use_fast = false ∧
    (update4 smallEnv 3 "d".toList add_delete_state).1 = Ctl.val EXIT_SUCCESS ∧
    smallEnv.read_lines (update4 smallEnv 3 "d".toList add_delete_state).2.world
        "d/drweb32.lst".toList = some ["+a, AB".toList, "-a, ".toList] ∧
    smallEnv.checksum Hasher.crc32sum (update4 smallEnv 3 "d".toList add_delete_state).2.world
        "d/a".toList = none := by
  decide!

theorem keeps_bind {W α β : Type} {P : W → Prop} {m : M W α} {k : α → M W β}
    (hm : KeepsWorld P m) (hk : ∀ a, KeepsWorld P (k a)) : KeepsWorld P (m >>= k) := by
  intro st h
  have h1 := hm st h
  rw [M.bind_apply]
  rcases hm0 : m st with ⟨c, s⟩
  rw [hm0] at h1
  cases c with
  | val a => exact hk a s h1
  | exit e => exact h1

theorem keeps_same {W α : Type} {P : W → Prop} {m : M W α}
    (hm : ∀ st, (m st).2.world = st.world) : KeepsWorld P m := by
  intro st h
  rw [hm st]
  exact h

theorem keeps_download_loop {W : Type} (E : Env W) (MAX_REPEAT : Int) (filename : CString)
    (P : W → Prop) (hP : ∀ w, P w → P (E.conn_get w filename).2) :
    ∀ (fuel : Nat) (counter : Int),
      KeepsWorld P (download_loop E MAX_REPEAT filename fuel counter) := by
  intro fuel
  induction fuel with
  | zero => intro counter; exact keeps_same fun _ => rfl
  | succ n ih =>
    intro counter
    unfold download_loop
    refine keeps_bind ?_ fun status => ?_
    · intro st h
      exact hP _ h
    · dsimp only
      split_ifs <;> first | exact ih _ | exact keeps_same fun _ => rfl

theorem keeps_download {W : Type} (E : Env W) (MAX_REPEAT : Int) (filename : CString)
    (P : W → Prop) (hP : ∀ w, P w → P (E.conn_get w filename).2) :
    KeepsWorld P (download E MAX_REPEAT filename) := by
  unfold download
  refine keeps_bind (keeps_same fun _ => rfl) fun _ => ?_
  refine keeps_bind (keeps_download_loop E MAX_REPEAT filename P hP _ _) fun status => ?_
  split_ifs <;> exact keeps_same fun _ => rfl

theorem keeps_download_check {W : Type} (E : Env W) (MAX_REPEAT : Int)
    (filename checksum_base : CString) (func : Hasher)
    (P : W → Prop) (hP : ∀ w, P w → P (E.conn_get w filename).2) :
    KeepsWorld P (download_check E MAX_REPEAT filename checksum_base func) := by
  unfold download_check
  refine keeps_bind (keeps_same fun _ => rfl) fun st => ?_
  refine keeps_bind (keeps_same fun _ => rfl) fun _ => ?_
  split
  · exact keeps_same fun _ => rfl
  · unfold download_check_slow
    refine keeps_bind (keeps_same fun _ => rfl) fun real => ?_
    split
    · exact keeps_same fun _ => rfl
    · refine keeps_bind (keeps_download E MAX_REPEAT filename P hP) fun status => ?_
      split
      · exact keeps_same fun _ => rfl
      · refine keeps_bind (keeps_same fun _ => rfl) fun real2 => ?_
        split
        · exact keeps_same fun _ => rfl
        · split <;> exact keeps_same fun _ => rfl

/-- With fast mode off, a `download_check` of a file whose digest is not the
expected one succeeds only by downloading the file and finding the expected
digest afterwards. -/
theorem gate_heals {W : Type} (E : Env W) (MAX_REPEAT : Int) (filename D : CString)
    (func : Hasher) (s s1 : State W) (status : DLStatus) (hf : s.use_fast = false)
    (hmut : E.checksum func s.world filename ≠ some D)
    (hrun : download_check E MAX_REPEAT filename D func s = (Ctl.val status, s1))
    (hok : DL_SUCCESS status = true) :
    status = DL_DOWNLOADED ∧ E.checksum func s1.world filename = some D ∧
    Healed E func filename D s s1 := by
  rw [download_check_eq, fast_check_off E filename D s (Or.inl hf)] at hrun
  simp only [Bool.false_eq_true, if_false] at hrun
  obtain ⟨-, c2⟩ := download_check_slow_cases E MAX_REPEAT filename D func (noted filename D func s)
  obtain ⟨t, sd, hd, n1, n2⟩ := c2 hmut
  obtain ⟨t3, k, s3, hd3, ht3, hlog, -⟩ := download_spec E MAX_REPEAT filename
    { noted filename D func s with
      log := (noted filename D func s).log ++
        [Event.checksum func filename (E.checksum func (noted filename D func s).world filename)] }
  have e : (Ctl.val t, sd) = (Ctl.val t3, s3) := hd.symm.trans hd3
  simp only [Prod.mk.injEq, Ctl.val.injEq] at e
  obtain ⟨rfl, rfl⟩ := e
  by_cases ht : t = DL_DOWNLOADED
  · rw [n2 ht] at hrun
    simp only [Prod.mk.injEq, Ctl.val.injEq] at hrun
    obtain ⟨hst, hs1⟩ := hrun
    rcases hsum : E.checksum func sd.world filename with _ | real
    · rw [hsum] at hst
      rw [← hst] at hok
      simp [DL_SUCCESS] at hok
    · rw [hsum] at hst
      dsimp only at hst
      by_cases hreal : D = real
      · subst hreal
        rw [if_neg (by simp)] at hst
        refine ⟨hst.symm, ?_, k, [], ?_⟩
        · rw [← hs1]
          exact hsum
        · rw [← hs1]
          dsimp only
          rw [hsum, hlog]
          simp [noted]
      · rw [if_pos hreal] at hst
        rw [← hst] at hok
        simp [DL_SUCCESS] at hok
  · rw [n1 ht] at hrun
    simp only [Prod.mk.injEq, Ctl.val.injEq] at hrun
    rw [← hrun.1] at hok
    rcases ht3 with h | h | h
    · exact absurd h ht
    · rw [h] at hok; simp [DL_SUCCESS] at hok
    · rw [h] at hok; simp [DL_SUCCESS] at hok

theorem keeps_delete_stale_lzma {W : Type} (E : Env W) (remotedir buf : CString)
    (P : W → Prop)
    (hP : ∀ w nm, strrchr buf '/' = some nm → P w → P (E.delete_files w remotedir nm.tail)) :
    KeepsWorld P (delete_stale_lzma E remotedir buf) := by
  unfold delete_stale_lzma
  refine keeps_bind (keeps_same fun _ => rfl) fun st => ?_
  split
  · split
    · exact keeps_same fun _ => rfl
    · rename_i nm hnm
      intro st1 h
      exact hP _ nm hnm h
  · exact keeps_same fun _ => rfl

theorem keeps_after_check {W : Type} (MAX_REPEAT : Int) (status : DLStatus) (P : W → Prop) :
    KeepsWorld P (after_check MAX_REPEAT status : M W Unit) := by
  unfold after_check
  refine keeps_bind (keeps_same fun _ => rfl) fun st => ?_
  split_ifs <;> exact keeps_same fun _ => rfl

/-- The loop of `update4` over a manifest of one line whose file does not have
the listed digest, with fast mode off. -/
theorem update4_single_heals {W : Type} (E : Env W) (MAX_REPEAT : Int)
    (remotedir buf filename D : CString) (s st1 : State W) (hf : s.use_fast = false)
    (hdl : is_download_line buf = true)
    (hname : entry_filename remotedir buf = some filename)
    (hcrc : entry_crc_base buf = some D)
    (hmut : E.checksum Hasher.crc32sum s.world filename ≠ some D)
    (hrun : update4_lines E MAX_REPEAT remotedir [buf] s = (Ctl.val (), st1)) :
    Healed E Hasher.crc32sum filename D s st1 ∧
    (SiblingFrame E Hasher.crc32sum remotedir filename →
      E.checksum Hasher.crc32sum st1.world filename = some D) := by
  simp only [update4_lines, hdl, if_true] at hrun
  obtain ⟨u, s', hentry, hnil⟩ := bind_inv hrun
  have e : s' = st1 := (Prod.mk.inj hnil).2
  rw [e] at hentry
  simp only [update4_entry, hname, hcrc] at hentry
  obtain ⟨status, s1, hgate, hentry⟩ := bind_inv hentry
  obtain ⟨u2, s2, hafter, hentry⟩ := bind_inv hentry
  have hok : DL_SUCCESS status = true := by
    by_contra hn
    obtain ⟨ex, he⟩ := after_check_fail MAX_REPEAT status s1 (by simpa using hn)
    rw [he] at hafter
    cases hafter
  rw [after_check_success _ _ _ hok] at hafter
  have e2 : s1 = s2 := (Prod.mk.inj hafter).2
  rw [← e2] at hentry
  obtain ⟨hst, hsum, k, rest, hlog⟩ := gate_heals E MAX_REPEAT filename D Hasher.crc32sum s s1
    status hf hmut hgate hok
  obtain ⟨u3, s3, hget, hentry⟩ := bind_inv hentry
  cases hget
  rw [if_pos (Or.inl hst)] at hentry
  obtain ⟨t2, s4, hgate2, hentry⟩ := bind_inv hentry
  have hrest : Obeys MAX_REPEAT (if t2 = DL_NOT_FOUND then
      delete_stale_lzma E remotedir (filename ++ ".lzma".toList)
      else after_check MAX_REPEAT t2) := by
    split
    · exact obeys_delete_stale_lzma _ _ _ _
    · exact obeys_after_check _ _
  obtain ⟨ev4, hlog4⟩ := grows_of_obeys hrest s4
  obtain ⟨t5, s5, ev3, hd5, hlog3, -⟩ := download_check_val E MAX_REPEAT
    (filename ++ ".lzma".toList) D Hasher.crc32sum_lzma s1
  rw [hgate2] at hd5
  cases hd5
  rw [hentry] at hlog4
  constructor
  · refine ⟨k, rest ++ (Event.download_check s1.counter_global s1.use_fast
      (filename ++ ".lzma".toList) D Hasher.crc32sum_lzma :: ev3 ++ ev4), ?_⟩
    rw [hlog4, hlog3, hlog]
    simp
  · rintro ⟨hconn, hdel⟩
    have k1 := keeps_download_check E MAX_REPEAT (filename ++ ".lzma".toList) D
      Hasher.crc32sum_lzma (fun w => E.checksum Hasher.crc32sum w filename = some D)
      (fun w h => (hconn w).trans h) s1 hsum
    rw [hgate2] at k1
    have k2 : KeepsWorld (fun w => E.checksum Hasher.crc32sum w filename = some D)
        (if t2 = DL_NOT_FOUND then delete_stale_lzma E remotedir (filename ++ ".lzma".toList)
          else after_check MAX_REPEAT t2) := by
      split
      · exact keeps_delete_stale_lzma E remotedir _ _ fun w nm hnm h =>
          (hdel w nm hnm).trans h
      · exact keeps_after_check _ _ _
    have k3 := k2 s4 k1
    rw [hentry] at k3
    exact k3

theorem lookup_filter_ne (m : List (CString × CString)) (k p : CString) (h : p ≠ k) :
    SmallWorld.lookup (m.filter (fun kv => kv.1 != k)) p = SmallWorld.lookup m p := by
  induction m with
  | nil => rfl
  | cons a rest ih =>
    unfold SmallWorld.lookup at ih ⊢
    by_cases ha : a.1 = k
    · have hp : (a.1 == p) = false := by
        rw [ha]
        exact beq_false_of_ne (Ne.symm h)
      simp only [List.filter_cons, ha, bne_self_eq_false, Bool.false_eq_true, if_false,
        List.find?_cons]
      rw [← ha, hp]
      rw [ha]
      exact ih
    · have hk : (a.1 != k) = true := by simpa using ha
      simp only [List.filter_cons, hk, if_true, List.find?_cons]
      cases hap : a.1 == p
      · exact ih
      · rfl

theorem small_sibling_frame (func : Hasher) :
    SiblingFrame smallEnv func "d".toList "d/a".toList := by
  constructor
  · intro w
    show SmallWorld.lookup (smallEnv.conn_get w "d/a.lzma".toList).2.files "d/a".toList =
      SmallWorld.lookup w.files "d/a".toList
    show SmallWorld.lookup (match SmallWorld.lookup w.server "d/a.lzma".toList with
      | some c => ((0 : Int), { w with files := SmallWorld.store w.files "d/a.lzma".toList c })
      | none => ((404 : Int), w)).2.files "d/a".toList = _
    cases SmallWorld.lookup w.server "d/a.lzma".toList with
    | none => rfl
    | some c =>
      show SmallWorld.lookup (("d/a.lzma".toList, c) ::
        w.files.filter (fun kv => kv.1 != "d/a.lzma".toList)) "d/a".toList = _
      have := lookup_filter_ne w.files "d/a.lzma".toList "d/a".toList (by decide)
      rw [← this]
      rfl
  · intro w nm hnm
    have e : nm = "/a.lzma".toList := by
      have h0 : strrchr ("d/a".toList ++ ".lzma".toList) '/' = some "/a.lzma".toList := by decide
      rw [h0] at hnm
      exact (Option.some.inj hnm).symm
    subst e
    exact lookup_filter_ne w.files _ "d/a".toList (by decide)

/-- C8 (counterexample). A first run of `update4` mirrors `d/a` with the digest
`AB` of the manifest; the file is then overwritten with `XY`; the second run, in
fast mode against the same server, finds the manifest unchanged and returns
`EXIT_SUCCESS` after six events, no call of `download_check` among them, and
`d/a` still has the digest `XY`. -/
theorem fast_rerun_keeps_mutation :
    (update4 smallEnv 3 "d".toList (smallState [] mirror_server true [])).1 =
      Ctl.val EXIT_SUCCESS ∧
    smallEnv.checksum Hasher.crc32sum first_run.world "d/a".toList = some "AB".toList ∧
    smallEnv.checksum Hasher.crc32sum (rerun_state true).world "d/a".toList =
      some "XY".toList ∧
    (update4 smallEnv 3 "d".toList (rerun_state true)).1 = Ctl.val EXIT_SUCCESS ∧
    (update4 smallEnv 3 "d".toList (rerun_state true)).2.log =
      [Event.checksum Hasher.sha256sum "d/drweb32.lst".toList (some "+a, AB".toList),
       Event.repeat_label 0 true,
       Event.download "d/drweb32.lst".toList,
       Event.conn_get "d/drweb32.lst".toList,
       Event.checksum Hasher.sha256sum "d/drweb32.lst".toList (some "+a, AB".toList),
       Event.nothing_changed] ∧
    smallEnv.checksum Hasher.crc32sum
      (update4 smallEnv 3 "d".toList (rerun_state true)).2.world "d/a".toList =
      some "XY".toList := by
  decide!

theorem wrong_size_rule {W α : Type} (MAX_REPEAT : Int) (s : State W) :
    SizeRule MAX_REPEAT s (wrong_size MAX_REPEAT s : Ctl α × State W) := by
  constructor
  · intro h
    simp [wrong_size, M.bind_apply, M.get, not_le.mpr h, M.exit]
  · intro h
    simp [wrong_size, M.bind_apply, M.get, h, M.exit]

theorem ends_in_wrong_size_iff {W : Type} (MAX_REPEAT : Int) (r : Ctl Int × State W) :
    EndsInWrongSize MAX_REPEAT r ↔
      r.1 = if r.2.counter_global ≥ MAX_REPEAT then Ctl.exit (Exit.ret EXIT_FAILURE)
        else Ctl.exit Exit.restart := by
  obtain ⟨c, s⟩ := r
  unfold EndsInWrongSize
  simp only [wrong_size, M.bind_apply, M.get]
  split_ifs with h
  · simp [M.exit]
  · simp [M.exit]

theorem restart_loop_wrong_size {W : Type} (MAX_REPEAT : Int) (pass : M W Int)
    (hcount : ∀ st, (pass st).2.counter_global = st.counter_global) :
    ∀ (n : Nat) (st : State W), st.counter_global + n = MAX_REPEAT →
      (∀ i, i ≤ n → EndsInWrongSize MAX_REPEAT (pass (attempt pass i st))) →
      ∀ fuel, n < fuel →
        restart_loop pass fuel st =
          (Ctl.exit (Exit.ret EXIT_FAILURE), (pass (attempt pass n st)).2) ∧
        (pass (attempt pass n st)).2.counter_global = MAX_REPEAT := by
  intro n
  induction n with
  | zero =>
    intro st hc hall fuel hfuel
    obtain ⟨f, rfl⟩ : ∃ f, fuel = f + 1 := ⟨fuel - 1, by omega⟩
    have h0 := hall 0 (le_refl _)
    have hcnt := hcount st
    simp only [attempt] at h0 ⊢
    have hge : MAX_REPEAT ≤ (pass st).2.counter_global := by rw [hcnt]; simp at hc; omega
    have h1 := (wrong_size_rule (α := Int) MAX_REPEAT (pass st).2).2 hge
    rw [restart_loop_succ]
    unfold EndsInWrongSize at h0
    rw [h1] at h0
    refine ⟨?_, by rw [hcnt]; simp at hc; omega⟩
    rw [h0]
  | succ n ih =>
    intro st hc hall fuel hfuel
    obtain ⟨f, rfl⟩ : ∃ f, fuel = f + 1 := ⟨fuel - 1, by omega⟩
    have h0 := hall 0 (Nat.zero_le _)
    have hcnt := hcount st
    simp only [attempt] at h0
    have hlt : (pass st).2.counter_global < MAX_REPEAT := by
      rw [hcnt]; push_cast at hc; omega
    have h1 := (wrong_size_rule (α := Int) MAX_REPEAT (pass st).2).1 hlt
    unfold EndsInWrongSize at h0
    rw [h1] at h0
    rw [restart_loop_succ, h0]
    dsimp only
    have hnext : (next_attempt (pass st).2).counter_global + n = MAX_REPEAT := by
      simp only [next_attempt]
      rw [hcnt]; push_cast at hc; omega
    have := ih (next_attempt (pass st).2) hnext
      (fun i hi => hall (i + 1) (Nat.succ_le_succ hi)) f (by omega)
    exact this

theorem engine_size_mismatch {W : Type} (E : Env W) (MAX_REPEAT : Int) (dir manifest : CString)
    (cache : M W Unit) (pass : CString → Int → M W Int) (hq : Quiet cache)
    (hp : ∀ h s, PassOK MAX_REPEAT manifest (pass h s)) (h0 : 0 ≤ MAX_REPEAT) (st : State W) :
    SizeMismatchRun E MAX_REPEAT dir manifest cache pass st
      (engine E MAX_REPEAT dir manifest cache pass st) := by
  intro sa sb old hopen hprep hall
  obtain ⟨-, o2, -⟩ := prelude_open_directory E manifest dir { st with counter_global := 0 }
  obtain ⟨-, p2, -⟩ := prelude_fast_prepare E manifest cache hq sa
  rw [hopen] at o2
  rw [hprep] at p2
  have hc0 : sb.counter_global = 0 := by rw [p2, o2]
  obtain ⟨r1, r2⟩ := restart_loop_wrong_size MAX_REPEAT (pass old.1 old.2)
    (fun s => (hp old.1 old.2 s).1) MAX_REPEAT.toNat sb
    (by rw [hc0, Int.toNat_of_nonneg h0]; simp) hall (MAX_REPEAT.toNat + 1) (Nat.lt_succ_self _)
  have e : engine E MAX_REPEAT dir manifest cache pass st = (Ctl.val EXIT_FAILURE,
      (pass old.1 old.2 (attempt (pass old.1 old.2) MAX_REPEAT.toNat sb)).2) := by
    simp only [engine, M.returning, M.bind_apply, M.set_counter, hopen, hprep, r1]
  rw [e]
  exact ⟨rfl, r2⟩

/-- The size check of `update5x_internal` (463-470) after a successful gate. -/
theorem update5x_entry_wrong_size {W : Type} (E : Env W) (MAX_REPEAT : Int)
    (remotedir buf : CString) (e : Entry5) (st s1 : State W) (status : DLStatus)
    (hparse : entry5_parse remotedir buf = some e)
    (hrun : download_check E MAX_REPEAT e.filename e.sha_base Hasher.sha256sum st =
      (Ctl.val status, s1))
    (hok : DL_SUCCESS status = true) (hdecl : 0 ≤ e.filesize)
    (hsize : E.check_size s1.world e.filename e.filesize = false) :
    update5x_entry E MAX_REPEAT remotedir buf st = wrong_size MAX_REPEAT s1 := by
  have hc : e.filesize ≥ 0 ∧ (!E.check_size s1.world e.filename e.filesize) = true :=
    ⟨hdecl, by simp [hsize]⟩
  have hw : ∀ (k : Unit → M W Unit), ((wrong_size MAX_REPEAT : M W Unit) >>= k) s1 =
      wrong_size MAX_REPEAT s1 := by
    intro k
    simp only [wrong_size, M.bind_apply, M.get]
    split_ifs <;> rfl
  simp only [update5x_entry, hparse]
  rw [M.bind_val _ _ _ _ _ hrun, M.bind_val _ _ _ _ _ (after_check_success _ _ _ hok)]
  rw [M.bind_apply]
  simp only [M.get]
  rw [if_pos hc]
  exact hw _

/-- The size check of `update7` (713-721 and 776-785) after a successful gate. -/
theorem update7_check_wrong_size {W : Type} (E : Env W) (MAX_REPEAT : Int)
    (filename base_hash : CString) (filesize : Int) (st s1 : State W) (status : DLStatus)
    (hrun : download_check E MAX_REPEAT filename base_hash Hasher.sha256sum st =
      (Ctl.val status, s1))
    (hok : DL_SUCCESS status = true) (hdecl : 0 ≤ filesize)
    (hsize : E.check_size s1.world filename filesize = false) :
    update7_check E MAX_REPEAT filename base_hash filesize st = wrong_size MAX_REPEAT s1 := by
  have hc : filesize ≥ 0 ∧ (!E.check_size s1.world filename filesize) = true :=
    ⟨hdecl, by simp [hsize]⟩
  simp only [update7_check]
  rw [M.bind_val _ _ _ _ _ hrun, M.bind_val _ _ _ _ _ (after_check_success _ _ _ hok)]
  rw [M.bind_apply]
  simp only [M.get]
  rw [if_pos hc]

/-- The size check of `updateA` (945-953) after a successful gate. -/
theorem updateA_entry_wrong_size {W : Type} (E : Env W) (MAX_REPEAT : Int)
    (real_dir buf : CString) (filesize_ul : Nat) (md5 filename_base : CString)
    (st s1 : State W) (status : DLStatus)
    (hparse : entryA_parse buf = some (0, filesize_ul, md5, filename_base))
    (hrun : download_check E MAX_REPEAT (real_dir ++ '/' :: filename_base) (to_lowercase md5)
      Hasher.md5sum st = (Ctl.val status, s1))
    (hok : DL_SUCCESS status = true)
    (hsize : E.check_size s1.world (real_dir ++ '/' :: filename_base)
      (to_off_t filesize_ul) = false) :
    updateA_entry E MAX_REPEAT real_dir buf st = wrong_size MAX_REPEAT s1 := by
  simp only [updateA_entry, hparse, if_true]
  rw [M.bind_val _ _ _ _ _ hrun, M.bind_val _ _ _ _ _ (after_check_success _ _ _ hok)]
  rw [M.bind_apply]
  simp only [M.get]
  rw [if_pos (by simp [hsize])]

theorem after_check_try_again {W : Type} (MAX_REPEAT : Int) (s : State W) :
    after_check MAX_REPEAT DL_TRY_AGAIN s = wrong_size MAX_REPEAT s := by
  simp only [after_check, wrong_size, M.bind_apply, M.get]
  by_cases h : s.counter_global < MAX_REPEAT
  · simp [h, not_le.mpr h]
  · simp [h, not_lt.mp h, DL_SUCCESS]

/-- C6 (as amended). A declared-size mismatch is handled by the rule of a
digest mismatch: the "wrong size" block gives what the three-way test gives for
`DL_TRY_AGAIN`, a restart while `counter_global < MAX_REPEAT` and the failure
otherwise, and a restart runs the pass again with the counter incremented.  In
`update5x_internal`, `update7` (for a declared size, `filesize ≥ 0`) and
`updateA`, an entry whose gate succeeds and whose size check fails ends in that
block.  Hence a run in which every attempt ends in the block returns
`EXIT_FAILURE` after exactly `MAX_REPEAT` restarts (`0 ≤ MAX_REPEAT`). -/
theorem size_mismatch_rule {W : Type} (E : Env W) (MAX_REPEAT : Int) :
    (∀ s : State W, after_check MAX_REPEAT DL_TRY_AGAIN s = wrong_size MAX_REPEAT s ∧
      SizeRule MAX_REPEAT s (wrong_size MAX_REPEAT s : Ctl Unit × State W)) ∧
    (∀ (pass : M W Int) (n : Nat) (st s1 : State W), pass st = (Ctl.exit Exit.restart, s1) →
      restart_loop pass (n + 1) st = restart_loop pass n (next_attempt s1) ∧
      (next_attempt s1).counter_global = s1.counter_global + 1) ∧
    (∀ (remotedir buf : CString) (e : Entry5) (st s1 : State W) (status : DLStatus),
      entry5_parse remotedir buf = some e →
      download_check E MAX_REPEAT e.filename e.sha_base Hasher.sha256sum st =
        (Ctl.val status, s1) →
      DL_SUCCESS status = true → 0 ≤ e.filesize →
      E.check_size s1.world e.filename e.filesize = false →
      update5x_entry E MAX_REPEAT remotedir buf st = wrong_size MAX_REPEAT s1) ∧
    (∀ (filename base_hash : CString) (filesize : Int) (st s1 : State W) (status : DLStatus),
      download_check E MAX_REPEAT filename base_hash Hasher.sha256sum st =
        (Ctl.val status, s1) →
      DL_SUCCESS status = true → 0 ≤ filesize →
      E.check_size s1.world filename filesize = false →
      update7_check E MAX_REPEAT filename base_hash filesize st = wrong_size MAX_REPEAT s1) ∧
    (∀ (real_dir buf : CString) (filesize_ul : Nat) (md5 filename_base : CString)
        (st s1 : State W) (status : DLStatus),
      entryA_parse buf = some (0, filesize_ul, md5, filename_base) →
      download_check E MAX_REPEAT (real_dir ++ '/' :: filename_base) (to_lowercase md5)
        Hasher.md5sum st = (Ctl.val status, s1) →
      DL_SUCCESS status = true →
      E.check_size s1.world (real_dir ++ '/' :: filename_base) (to_off_t filesize_ul) = false →
      updateA_entry E MAX_REPEAT real_dir buf st = wrong_size MAX_REPEAT s1) ∧
    (0 ≤ MAX_REPEAT → ∀ (remotedir version_file : CString) (st : State W),
      SizeMismatchRun E MAX_REPEAT remotedir (remotedir ++ '/' :: version_file)
        (cache5 E remotedir version_file) (update5x_pass E MAX_REPEAT remotedir version_file) st
        (update5x_internal E MAX_REPEAT remotedir version_file st)) ∧
    (0 ≤ MAX_REPEAT → ∀ (remotedir : CString) (st : State W),
      SizeMismatchRun E MAX_REPEAT remotedir (remotedir ++ "/versions.xml".toList)
        (cache7 E (remotedir ++ "/versions.xml".toList) remotedir)
        (update7_pass E MAX_REPEAT remotedir) st (update7 E MAX_REPEAT remotedir st)) ∧
    (0 ≤ MAX_REPEAT → ∀ (remotedir real_dir : CString) (st : State W),
      before_last remotedir '/' = some real_dir →
      SizeMismatchRun E MAX_REPEAT real_dir remotedir (cacheA E remotedir real_dir)
        (updateA_pass E MAX_REPEAT remotedir real_dir) st (updateA E MAX_REPEAT remotedir st)) := by
  refine ⟨fun s => ⟨after_check_try_again _ _, wrong_size_rule _ _⟩, ?_, ?_, ?_, ?_, ?_, ?_, ?_⟩
  · intro pass n st s1 h
    rw [restart_loop_succ, h]
    exact ⟨rfl, rfl⟩
  · intro remotedir buf e st s1 status h1 h2 h3 h4 h5
    exact update5x_entry_wrong_size E MAX_REPEAT remotedir buf e st s1 status h1 h2 h3 h4 h5
  · intro filename base_hash filesize st s1 status h2 h3 h4 h5
    exact update7_check_wrong_size E MAX_REPEAT filename base_hash filesize st s1 status h2 h3
      h4 h5
  · intro real_dir buf filesize_ul md5 filename_base st s1 status h1 h2 h3 h5
    exact updateA_entry_wrong_size E MAX_REPEAT real_dir buf filesize_ul md5 filename_base st s1
      status h1 h2 h3 h5
  · intro h0 remotedir version_file st
    exact engine_size_mismatch E MAX_REPEAT remotedir _ (cache5 E remotedir version_file)
      (fun h s => update5x_pass E MAX_REPEAT remotedir version_file h s) (quiet_cache5 _ _ _)
      (fun _ _ => update5x_pass_ok _ _ _ _ _ _) h0 st
  · intro h0 remotedir st
    exact engine_size_mismatch E MAX_REPEAT remotedir _
      (cache7 E (remotedir ++ "/versions.xml".toList) remotedir)
      (fun h s => update7_pass E MAX_REPEAT remotedir h s) (quiet_cache7 _ _ _)
      (fun _ _ => update7_pass_ok _ _ _ _ _) h0 st
  · intro h0 remotedir real_dir st hdir
    unfold updateA
    rw [hdir]
    exact engine_size_mismatch E MAX_REPEAT real_dir _ (cacheA E remotedir real_dir)
      (fun h s => updateA_pass E MAX_REPEAT remotedir real_dir h s) (quiet_cacheA _ _ _)
      (fun _ _ => updateA_pass_ok _ _ _ _ _ _) h0 st

theorem size_mismatch_rule_witness :
    (update5x_internal smallEnv 3 "d".toList "version.lst".toList (size_state false)).1 =
      Ctl.val EXIT_FAILURE ∧
    (update5x_internal smallEnv 3 "d".toList "version.lst".toList
      (size_state false)).2.counter_global = 3 := by
  have h := (size_mismatch_rule smallEnv 3).2.2.2.2.2.1 (by decide) "d".toList
    "version.lst".toList (size_state false)
    (open_directory smallEnv "d".toList { size_state false with counter_global := 0 }).2
    (fast_prepare smallEnv ("d".toList ++ '/' :: "version.lst".toList)
      (cache5 smallEnv "d".toList "version.lst".toList)
      (open_directory smallEnv "d".toList { size_state false with counter_global := 0 }).2).2
    ([], 0) (pair_eq (by decide!)) (pair_eq (by decide!))
    (by
      intro i hi
      have hi3 : i ≤ 3 := hi
      rw [ends_in_wrong_size_iff]
      interval_cases i <;> decide!)
  exact ⟨by rw [h.1], h.2⟩

/-- C6 (counterexample). The file `d/a` has the digest of the line `size_line`
and 64 bytes where the line declares 3, locally and on the server.  Run in fast
mode with the manifest of the server already on disk, `update5` finds the
manifest unchanged and returns `EXIT_SUCCESS` without a restart, while the size
check of the file still fails. -/
theorem size_mismatch_passes_in_fast_mode :
    (entry5_parse "d".toList size_line).map (fun e => (e.filename, e.sha_base, e.filesize)) =
      some ("d/a".toList, List.replicate 64 'a', 3) ∧
    (update5 smallEnv 3 "d".toList (size_state true)).1 = Ctl.val EXIT_SUCCESS ∧
    (update5 smallEnv 3 "d".toList (size_state true)).2.counter_global = 0 ∧
    smallEnv.checksum Hasher.sha256sum
      (update5 smallEnv 3 "d".toList (size_state true)).2.world "d/a".toList =
      some (List.replicate 64 'a') ∧
    smallEnv.check_size (update5 smallEnv 3 "d".toList (size_state true)).2.world
      "d/a".toList 3 = false := by
  decide!

theorem body_loop_succ (NETBUFSIZE : Nat) (is_chunked : Bool) (msgsize fuel : Nat)
    (loc : BodyLoc) (s : BodyState) :
    body_loop NETBUFSIZE is_chunked msgsize (fuel + 1) loc s =
      match body_step NETBUFSIZE is_chunked msgsize loc s with
      | BodyStep.next loc1 s1 => body_loop NETBUFSIZE is_chunked msgsize fuel loc1 s1
      | BodyStep.exit e s1 => (e, s1) := rfl

theorem body_loop_more_fuel (NETBUFSIZE : Nat) (is_chunked : Bool) (msgsize : Nat) :
    ∀ (n k : Nat) (loc : BodyLoc) (s s1 : BodyState) (e : BodyExit),
      body_loop NETBUFSIZE is_chunked msgsize n loc s = (e, s1) → e ≠ BodyExit.nofuel →
      body_loop NETBUFSIZE is_chunked msgsize (n + k) loc s = (e, s1) := by
  intro n
  induction n with
  | zero =>
    intro k loc s s1 e h hne
    have h1 : (BodyExit.nofuel, s) = (e, s1) := h
    exact absurd (Prod.mk.inj h1).1.symm hne
  | succ n ih =>
    intro k loc s s1 e h hne
    rw [Nat.add_right_comm, body_loop_succ]
    rw [body_loop_succ] at h
    cases hstep : body_step NETBUFSIZE is_chunked msgsize loc s with
    | next loc1 s2 =>
      rw [hstep] at h
      exact ih k loc1 s2 s1 e h hne
    | exit e1 s2 =>
      rw [hstep] at h
      exact h

theorem conn_get_body_more_fuel (NETBUFSIZE : Nat) (is_chunked : Bool) (msgsize n k : Nat)
    (buffer : List Char) (bufpos bufend : Nat) (stream : List (List Char))
    (h : (conn_get_body NETBUFSIZE is_chunked msgsize n buffer bufpos bufend stream).1 ≠
      BodyExit.nofuel) :
    conn_get_body NETBUFSIZE is_chunked msgsize (n + k) buffer bufpos bufend stream =
      conn_get_body NETBUFSIZE is_chunked msgsize n buffer bufpos bufend stream := by
  unfold conn_get_body at h ⊢
  dsimp only at h ⊢
  rw [body_loop_more_fuel NETBUFSIZE is_chunked _ n k BodyLoc.outer _ _ _ rfl h]

/-- C10 (the code departs from the claim). The body `A` in the chunked encoding
`1\r\nA\r\n0\r\n\r\n`, received after the header in the two parts `1\r` and
`\nA\r\n0\r\n\r\n`: the body loop takes the size line for complete, sets
`bufpos` behind `bufend`, writes the byte `P` that the header left in `buffer`
and leaves the loop, for every amount of fuel from 20 on.  The same encoding
split behind `1\r\n`, and the identity transfer of the same body, write `A`.
When the part `1\r` arrives together with the header, the loop writes a zero
byte and then calls `memmove` with a wrapped size. -/
theorem chunked_split_after_cr :
    (∀ k, conn_get_body 64 true 0 (20 + k) (buffer_after chunked_header) 0 0
        ["1\r".toList, "\nA\r\n0\r\n\r\n".toList] = (BodyExit.finished, ['P'])) ∧
    (∀ k, conn_get_body 64 true 0 (20 + k) (buffer_after chunked_header) 0 0
        ["1\r\n".toList, "A\r\n0\r\n\r\n".toList] = (BodyExit.finished, ['A'])) ∧
    (∀ k, conn_get_body 64 false 1 (20 + k) (buffer_after identity_header) 0 0
        ["A".toList] = (BodyExit.finished, ['A'])) ∧
    (∀ k, conn_get_body 64 true 0 (20 + k) (buffer_after (chunked_header ++ "1\r".toList))
        47 49 ["\nA\r\n0\r\n\r\n".toList] = (BodyExit.undef, [NUL])) := by
  refine ⟨fun k => ?_, fun k => ?_, fun k => ?_, fun k => ?_⟩
  · rw [conn_get_body_more_fuel _ _ _ _ _ _ _ _ _ (by decide!)]
    decide!
  · rw [conn_get_body_more_fuel _ _ _ _ _ _ _ _ _ (by decide!)]
    decide!
  · rw [conn_get_body_more_fuel _ _ _ _ _ _ _ _ _ (by decide!)]
    decide!
  · rw [conn_get_body_more_fuel _ _ _ _ _ _ _ _ _ (by decide!)]
    decide!

theorem correctable_ne (s : Int) (h : correctable s = true) : s ≠ EXIT_SUCCESS ∧ s ≠ 404 := by
  simp only [correctable, Bool.or_eq_true, beq_iff_eq, EXIT_FAILURE] at h
  simp only [EXIT_SUCCESS]
  omega

theorem attempt_world_succ {W : Type} (E : Env W) (filename : CString) (n : Nat) (w : W) :
    attempt_world E filename (n + 1) w =
      (E.conn_get (attempt_world E filename n w) filename).2 := by
  induction n generalizing w with
  | zero => rfl
  | succ n ih =>
    show attempt_world E filename (n + 1) (E.conn_get w filename).2 = _
    rw [ih]
    rfl

/-- The loop of `download`: `n` attempts after which it goes on, then one after
which it stops. -/
theorem download_loop_run {W : Type} (E : Env W) (MAX_REPEAT : Int) (filename : CString) :
    ∀ (n fuel : Nat) (c : Int) (st : State W), n < fuel →
      (∀ i, i < n → correctable (attempt_status E filename i st.world) = true ∧
        c + i + 1 < MAX_REPEAT) →
      ¬ ((if correctable (attempt_status E filename n st.world) = true then c + n + 1
            else c + n + MAX_REPEAT) < MAX_REPEAT ∧
          attempt_status E filename n st.world ≠ EXIT_SUCCESS ∧
          attempt_status E filename n st.world ≠ 404) →
      download_loop E MAX_REPEAT filename fuel c st =
        (Ctl.val (attempt_status E filename n st.world),
          { st with world := attempt_world E filename (n + 1) st.world,
                    log := st.log ++ List.replicate (n + 1) (Event.conn_get filename) }) := by
  intro n
  induction n with
  | zero =>
    intro fuel c st hfuel _ hstop
    obtain ⟨f, rfl⟩ : ∃ f, fuel = f + 1 := ⟨fuel - 1, by omega⟩
    simp only [attempt_status, attempt_world, Nat.cast_zero, add_zero] at hstop
    simp only [download_loop, conn_get, M.bind_apply, M.log, M.io]
    rw [if_neg hstop]
    rfl
  | succ n ih =>
    intro fuel c st hfuel hgo hstop
    obtain ⟨f, rfl⟩ : ∃ f, fuel = f + 1 := ⟨fuel - 1, by omega⟩
    obtain ⟨h0, h1⟩ := hgo 0 (Nat.succ_pos _)
    simp only [attempt_status, attempt_world, Nat.cast_zero, add_zero] at h0 h1
    obtain ⟨n0, n4⟩ := correctable_ne _ h0
    simp only [download_loop, conn_get, M.bind_apply, M.log, M.io]
    rw [if_pos h0, if_pos ⟨h1, n0, n4⟩]
    have := ih f (c + 1)
      { st with world := (E.conn_get st.world filename).2,
                log := st.log ++ [Event.conn_get filename] } (by omega)
      (fun i hi => by
        obtain ⟨a, b⟩ := hgo (i + 1) (Nat.succ_lt_succ hi)
        refine ⟨a, ?_⟩
        push_cast at b
        omega)
      (by
        intro hcon
        apply hstop
        simp only [attempt_status, attempt_world] at hcon ⊢
        push_cast
        split_ifs at hcon ⊢ with hc
        · exact ⟨by omega, hcon.2⟩
        · exact ⟨by omega, hcon.2⟩)
    rw [this]
    simp only [attempt_status, attempt_world, List.append_assoc, List.singleton_append,
      List.replicate_succ]

theorem download_run {W : Type} (E : Env W) (MAX_REPEAT : Int) (filename : CString)
    (n : Nat) (st : State W) (hn : (n : Int) < MAX_REPEAT ∨ n = 0)
    (hgo : ∀ i, i < n → correctable (attempt_status E filename i st.world) = true)
    (hstop : ¬ ((if correctable (attempt_status E filename n st.world) = true then (n : Int) + 1
            else n + MAX_REPEAT) < MAX_REPEAT ∧
          attempt_status E filename n st.world ≠ EXIT_SUCCESS ∧
          attempt_status E filename n st.world ≠ 404)) :
    DownloadMakes E MAX_REPEAT filename st (n + 1)
      (if attempt_status E filename n st.world = EXIT_SUCCESS then DL_DOWNLOADED
        else if attempt_status E filename n st.world = 404 then DL_NOT_FOUND else DL_FAILED) := by
  unfold DownloadMakes
  have hfuel : n < MAX_REPEAT.toNat + 1 := by
    rcases hn with h | h
    · omega
    · omega
  have h := download_loop_run E MAX_REPEAT filename n (MAX_REPEAT.toNat + 1) 0
    { st with log := st.log ++ [Event.download filename] } hfuel
    (fun i hi => ⟨hgo i hi, by
      rcases hn with h | h
      · omega
      · omega⟩)
    (by simpa using hstop)
  simp only [download, M.bind_apply, M.log, h, after_attempts]
  split_ifs <;> simp

/-- The body loop in identity mode with `msgsize = 0`, nothing written, nothing
left in `buffer` and the stream at its end never leaves: every call of `recv`
returns 0, the inner loop is left by `break`, and the outer loop starts again
since `msgcurr` is still 0. -/
theorem body_loop_idle (NETBUFSIZE : Nat) :
    ∀ (fuel : Nat) (loc : BodyLoc) (s : BodyState),
      s.msgcurr = 0 → s.bufpos = s.bufend → s.stream = [] → s.written = [] →
      (loc = BodyLoc.inner → s.chunk_size = 0 ∧ s.chunk_curr = 0) →
      (body_loop NETBUFSIZE false 0 fuel loc s).1 = BodyExit.nofuel ∧
      (body_loop NETBUFSIZE false 0 fuel loc s).2.written = [] := by
  intro fuel
  induction fuel with
  | zero => intro loc s _ _ _ hw _; exact ⟨rfl, hw⟩
  | succ fuel ih =>
    intro loc s hm hb hs hw hc
    rw [body_loop_succ]
    cases loc with
    | outer =>
      have : body_step NETBUFSIZE false 0 BodyLoc.outer s =
          BodyStep.next BodyLoc.inner { s with chunk_size := 0, chunk_curr := 0 } := by
        simp [body_step, body_outer, body_write, hm, hb]
      rw [this]
      exact ih _ _ hm hb hs hw (fun _ => ⟨rfl, rfl⟩)
    | inner =>
      obtain ⟨hc0, hc1⟩ := hc rfl
      have : body_step NETBUFSIZE false 0 BodyLoc.inner s =
          BodyStep.next BodyLoc.outer
            { s with bufpos := 0, bufend := 0, stream := [] } := by
        simp [body_step, body_inner, body_compact, hc0, hc1, hm, hb, recv, hs]
      rw [this]
      exact ih _ _ hm rfl rfl hw (fun h => by cases h)

theorem sameFiles_refl (w : NetWorld) : SameFiles w w := ⟨rfl, rfl⟩

theorem sameFiles_of (w0 w w1 : NetWorld) (h : SameFiles w0 w) (hf : w1.files = w.files)
    (he : w1.opened = w.opened) : SameFiles w0 w1 :=
  ⟨hf.trans h.1, he.trans h.2⟩

theorem sameFiles_event (w0 w w1 : NetWorld) (ev : NetEvent) (h : SameFiles w0 w)
    (hf : w1.files = w.files) (he : w1.events = w.events ++ [ev]) (hev : ev.is_fopen = false) :
    SameFiles w0 w1 := by
  refine sameFiles_of w0 w w1 h hf ?_
  simp [NetWorld.opened, he, List.filter_append, hev]

theorem sameFiles_conn_close (sock_fd : Nat) (w w1 : NetWorld) (h : SameFiles w w1) :
    SameFiles w (conn_close sock_fd w1) := by
  obtain ⟨h1, h2⟩ := h
  refine ⟨h1, ?_⟩
  simp only [conn_close, NetWorld.opened, List.filter_append] at h2 ⊢
  rw [h2]
  simp [NetEvent.is_fopen]

theorem sameFiles_close_unless_kept (sock_fd : Nat) (stream : List (List Char))
    (w w1 : NetWorld) (h : SameFiles w w1) :
    SameFiles w (close_unless_kept sock_fd stream w1) := by
  unfold close_unless_kept
  split
  · exact sameFiles_conn_close _ _ _ h
  · exact h

theorem sameFiles_close_unless_kept_redirect (stream : List (List Char))
    (w w1 : NetWorld) (h : SameFiles w w1) :
    SameFiles w (close_unless_kept_redirect stream w1) := by
  unfold close_unless_kept_redirect
  split <;> exact h

theorem conn_get_end_status (filename : CString) (x : Exchange) (sock_fd : Nat) (lastmod : Int)
    (r : BodyExit × BodyState) (w : NetWorld) (status : Int)
    (hr : (conn_get_end filename x sock_fd lastmod r w).1 = GetResult.ret status) :
    status = EXIT_SUCCESS ∨ status = EXIT_FAILURE := by
  unfold conn_get_end at hr
  split at hr
  · split_ifs at hr
    · exact Or.inl (GetResult.ret.inj hr).symm
    · exact Or.inr (GetResult.ret.inj hr).symm
    · exact Or.inl (GetResult.ret.inj hr).symm
  · exact Or.inr (GetResult.ret.inj hr).symm
  · cases hr
  · cases hr
  · cases hr

/-- The part of `conn_get` after the header loop returns a value other than
`EXIT_SUCCESS` and `EXIT_FAILURE` only before `fopen`, and it is the status of
the response. -/
theorem conn_get_finish_status (c : NetConfig) (fuel : Nat) (filename : CString) (x : Exchange)
    (sock_fd : Nat) (h : HeaderState) (w0 w : NetWorld) (hw : SameFiles w0 w)
    (status : Int) (w1 : NetWorld)
    (hr : conn_get_finish c fuel filename x sock_fd h w = (GetResult.ret status, w1))
    (h0 : status ≠ EXIT_SUCCESS) (h1 : status ≠ EXIT_FAILURE) :
    SameFiles w0 w1 := by
  unfold conn_get_finish at hr
  by_cases hs : h.status ≠ 200 ∧ h.status ≠ 203
  · rw [if_pos hs] at hr
    obtain ⟨_, e2⟩ := Prod.mk.inj hr
    exact e2 ▸ sameFiles_close_unless_kept _ _ _ _ hw
  · rw [if_neg hs] at hr
    by_cases hf : x.fopen_ok = false
    · rw [if_pos hf] at hr
      obtain ⟨e1, _⟩ := Prod.mk.inj hr
      exact absurd (GetResult.ret.inj e1).symm h1
    · rw [if_neg hf] at hr
      rcases conn_get_end_status _ _ _ _ _ _ status (congrArg Prod.fst hr) with e | e
      · exact absurd e h0
      · exact absurd e h1

theorem conn_get_after_header_status (c : NetConfig) (fuel : Nat) (filename : CString)
    (x : Exchange) (sock_fd : Nat) (l : GetLocals) (e : HeaderExit) (h : HeaderState)
    (w0 w : NetWorld) (hw : SameFiles w0 w) :
    KeepsFiles w0 (conn_get_after_header c fuel filename x sock_fd l e h w) := by
  have hw1 : SameFiles w0 { w with sock_fd_ka := apply_ka h.ka sock_fd w.sock_fd_ka } := hw
  unfold conn_get_after_header
  cases e <;> dsimp only
  · exact KeepsFiles.done _ _ (fun status e _ h1 => absurd (GetResult.ret.inj e).symm h1)
  · exact KeepsFiles.done _ _ (fun status e _ _ => sameFiles_close_unless_kept _ _ _ _ hw1)
  · split
    · exact KeepsFiles.again _ _ (sameFiles_conn_close _ _ _ hw1)
    · exact KeepsFiles.again _ _ (sameFiles_close_unless_kept_redirect _ _ _ hw1)
  · exact KeepsFiles.done _ _ (fun status e _ h1 => absurd (GetResult.ret.inj e).symm h1)
  · exact KeepsFiles.done _ _ (fun status e h0 h1 =>
      conn_get_finish_status c fuel filename x sock_fd h w0 _ hw1 status _
        (Prod.ext e rfl) h0 h1)
  · exact KeepsFiles.done _ _ (fun status e => by cases e)
  · exact KeepsFiles.done _ _ (fun status e => by cases e)
  · exact KeepsFiles.done _ _ (fun status e => by cases e)

theorem conn_get_exchange_status (c : NetConfig) (MAX_REDIRECT fuel : Nat) (filename : CString)
    (x : Exchange) (sock_fd : Nat) (unread : List (List Char)) (l : GetLocals)
    (w0 w : NetWorld) (hw : SameFiles w0 w) :
    KeepsFiles w0 (conn_get_exchange c MAX_REDIRECT fuel filename x sock_fd unread l w) := by
  unfold conn_get_exchange
  dsimp only
  split
  · exact KeepsFiles.done _ _ (fun status e => by cases e)
  · split
    · exact KeepsFiles.done _ _ (fun status e _ h1 => absurd (GetResult.ret.inj e).symm h1)
    · exact conn_get_after_header_status _ _ _ _ _ _ _ _ w0 _
        (sameFiles_event w0 w _ _ hw rfl rfl rfl)

theorem conn_get_round_status (c : NetConfig) (MAX_REDIRECT fuel : Nat) (filename : CString)
    (l : GetLocals) (w0 w : NetWorld) (hw : SameFiles w0 w) :
    KeepsFiles w0 (conn_get_round c MAX_REDIRECT fuel filename l w) := by
  unfold conn_get_round
  dsimp only
  cases hk : w.sock_fd_ka with
  | none =>
    dsimp only
    split
    · exact conn_get_exchange_status c MAX_REDIRECT fuel filename _ _ _ _ w0 _
        (sameFiles_event w0 w _ _ hw rfl rfl rfl)
    · exact KeepsFiles.done _ _ (fun status e _ h1 => absurd (GetResult.ret.inj e).symm h1)
  | some fd =>
    dsimp only
    exact conn_get_exchange_status c MAX_REDIRECT fuel filename _ _ _ _ w0 _
      (sameFiles_of w0 w _ hw rfl rfl)

set_option maxRecDepth 100000 in
theorem status_block_0 : ∀ s, s < 100 → status_as_expected (0 + s) = true := by
  decide!

set_option maxRecDepth 100000 in
theorem status_block_1 : ∀ s, s < 100 → status_as_expected (100 + s) = true := by
  decide!

set_option maxRecDepth 100000 in
theorem status_block_2 : ∀ s, s < 100 → status_as_expected (200 + s) = true := by
  decide!

set_option maxRecDepth 100000 in
theorem status_block_3 : ∀ s, s < 100 → status_as_expected (300 + s) = true := by
  decide!

set_option maxRecDepth 100000 in
theorem status_block_4 : ∀ s, s < 100 → status_as_expected (400 + s) = true := by
  decide!

set_option maxRecDepth 100000 in
theorem status_block_5 : ∀ s, s < 100 → status_as_expected (500 + s) = true := by
  decide!

set_option maxRecDepth 100000 in
theorem status_block_6 : ∀ s, s < 100 → status_as_expected (600 + s) = true := by
  decide!

set_option maxRecDepth 100000 in
theorem status_block_7 : ∀ s, s < 100 → status_as_expected (700 + s) = true := by
  decide!

set_option maxRecDepth 100000 in
theorem status_block_8 : ∀ s, s < 100 → status_as_expected (800 + s) = true := by
  decide!

set_option maxRecDepth 100000 in
theorem status_block_9 : ∀ s, s < 100 → status_as_expected (900 + s) = true := by
  decide!

/-- The outcome of `conn_get` for every status code of up to three digits:
200 and 203 write the body and give `EXIT_SUCCESS`, every other code is
returned as it is with no file opened. -/
theorem status_cases : ∀ s, s < 1000 →
    (status_outcome s).1 = GetResult.ret (if s = 200 ∨ s = 203 then EXIT_SUCCESS else s) ∧
    (status_outcome s).2.files =
      (if s = 200 ∨ s = 203 then [("f".toList, "body".toList)] else []) ∧
    (status_outcome s).2.opened =
      (if s = 200 ∨ s = 203 then [NetEvent.fopen "f".toList] else []) := by
  intro s hs
  have key : status_as_expected s = true := by
    obtain ⟨q, r, hr, rfl⟩ : ∃ q r, r < 100 ∧ s = 100 * q + r :=
      ⟨s / 100, s % 100, Nat.mod_lt _ (by decide), (Nat.div_add_mod s 100).symm⟩
    have hq : q < 10 := by omega
    interval_cases q
    · simpa using status_block_0 r hr
    · exact status_block_1 r hr
    · exact status_block_2 r hr
    · exact status_block_3 r hr
    · exact status_block_4 r hr
    · exact status_block_5 r hr
    · exact status_block_6 r hr
    · exact status_block_7 r hr
    · exact status_block_8 r hr
    · exact status_block_9 r hr
  exact of_decide_eq_true key

/-- A single attempt of `download` whose `conn_get` returns a value that is
neither `EXIT_SUCCESS` nor 404 nor one that is tried again. -/
theorem download_once {W : Type} (E : Env W) (MAX_REPEAT : Int) (filename : CString)
    (st : State W) (hc : correctable (attempt_status E filename 0 st.world) = false) :
    DownloadMakes E MAX_REPEAT filename st 1
      (if attempt_status E filename 0 st.world = EXIT_SUCCESS then DL_DOWNLOADED
        else if attempt_status E filename 0 st.world = 404 then DL_NOT_FOUND else DL_FAILED) := by
  refine download_run E MAX_REPEAT filename 0 st (Or.inr rfl) (fun i hi => absurd hi (by omega)) ?_
  rw [hc]
  simp

/-- C15: in the example configuration `conn_get` returns `EXIT_SUCCESS` for
the status codes 0, 200 and 203 and for no other code below 1000, while it
writes the file for 200 and 203 only: the status 0 of a response is returned at
`return status;` and is the value `EXIT_SUCCESS`; and `download` returns
`DL_DOWNLOADED` after one attempt whenever `conn_get` returns `EXIT_SUCCESS`. -/
theorem status_zero_counts_as_success :
    (∀ s : Nat, s < 1000 →
      ((status_outcome s).1 = GetResult.ret EXIT_SUCCESS ↔ s = 0 ∨ s = 200 ∨ s = 203) ∧
      ((status_outcome s).2.files ≠ [] ↔ s = 200 ∨ s = 203)) ∧
    ((status_outcome 0).1 = GetResult.ret EXIT_SUCCESS ∧ (status_outcome 0).2.files = [] ∧
      (status_outcome 0).2.opened = []) ∧
    (∀ (W : Type) (E : Env W) (MAX_REPEAT : Int) (filename : CString) (st : State W),
      attempt_status E filename 0 st.world = EXIT_SUCCESS →
      DownloadMakes E MAX_REPEAT filename st 1 DL_DOWNLOADED) := by
  refine ⟨?_, ?_, ?_⟩
  · intro s hs
    have hcase := status_cases s hs
    by_cases h : s = 200 ∨ s = 203
    · rw [if_pos h, if_pos h, if_pos h] at hcase
      obtain ⟨e1, e2, _⟩ := hcase
      refine ⟨⟨fun _ => Or.inr h, fun _ => e1⟩, ⟨fun _ => h, fun _ => ?_⟩⟩
      rw [e2]
      exact List.cons_ne_nil _ _
    · rw [if_neg h, if_neg h, if_neg h] at hcase
      obtain ⟨e1, e2, _⟩ := hcase
      rw [e1, e2]
      refine ⟨⟨fun e => ?_, fun e => ?_⟩, ⟨fun e => absurd rfl e, fun e => absurd e h⟩⟩
      · have e3 : (s : Int) = EXIT_SUCCESS := GetResult.ret.inj e
        simp only [EXIT_SUCCESS] at e3
        exact Or.inl (by omega)
      · rcases e with e | e
        · rw [e]; rfl
        · exact absurd e h
  · have h := status_cases 0 (by decide)
    rwa [if_neg (by decide), if_neg (by decide), if_neg (by decide)] at h
  · intro W E MAX_REPEAT filename st h0
    have hc : correctable (attempt_status E filename 0 st.world) = false := by
      rw [h0]; rfl
    have h := download_once E MAX_REPEAT filename st hc
    rwa [if_pos h0] at h

theorem status_zero_counts_as_success_witness :
    (status_outcome 0).1 = GetResult.ret EXIT_SUCCESS ∧ ¬ (status_outcome 0).2.files ≠ [] ∧
    DownloadMakes scriptEnv 3 ['f'] (scriptState [0]) 1 DL_DOWNLOADED :=
  ⟨((status_zero_counts_as_success.1 0 (by decide)).1).2 (Or.inl rfl),
    fun h => absurd (((status_zero_counts_as_success.1 0 (by decide)).2).1 h) (by decide),
    status_zero_counts_as_success.2.2 (List Int) scriptEnv 3 ['f'] (scriptState [0])
      (by decide)⟩

theorem downloadMakes_count {W : Type} (E : Env W) (MAX_REPEAT : Int) (filename : CString)
    (st : State W) (n m : Nat) (a b : DLStatus) (hn : DownloadMakes E MAX_REPEAT filename st n a)
    (hm : DownloadMakes E MAX_REPEAT filename st m b) : n = m := by
  unfold DownloadMakes at hn hm
  rw [hn] at hm
  have h := congrArg (fun p => p.2.log.length) hm
  simpa [after_attempts] using h

/-- When every attempt of `conn_get` returns `EXIT_FAILURE`, `download` makes
`MAX_REPEAT` attempts. -/
theorem download_all_failed {W : Type} (E : Env W) (MAX_REPEAT : Int) (filename : CString)
    (st : State W) (h1 : 1 ≤ MAX_REPEAT)
    (hall : ∀ i, i < MAX_REPEAT.toNat → attempt_status E filename i st.world = EXIT_FAILURE) :
    DownloadMakes E MAX_REPEAT filename st MAX_REPEAT.toNat DL_FAILED := by
  obtain ⟨n, hn⟩ : ∃ n : Nat, MAX_REPEAT.toNat = n + 1 := ⟨MAX_REPEAT.toNat - 1, by omega⟩
  have hlast := hall n (by omega)
  have h := download_run E MAX_REPEAT filename n st (Or.inl (by omega))
    (fun i hi => by rw [hall i (by omega)]; rfl)
    (by rw [hlast]; simp [correctable]; intro; omega)
  rw [hlast] at h
  rw [hn]
  exact h

set_option maxRecDepth 100000 in
/-- C16, counterexample: a response with `Transfer-Encoding: gzip` makes
`conn_get` return `EXIT_FAILURE` after closing the socket, and `download` with
`MAX_REPEAT = 3` whose three attempts return `EXIT_FAILURE` makes three attempts
before it returns `DL_FAILED`, not one. -/
theorem gzip_response_is_retried :
    gzip_outcome.1 = GetResult.ret EXIT_FAILURE ∧
    gzip_outcome.2.sock_fd_ka = none ∧
    DownloadMakes scriptEnv 3 ['f']
      (scriptState [EXIT_FAILURE, EXIT_FAILURE, EXIT_FAILURE]) 3 DL_FAILED ∧
    ¬ DownloadMakes scriptEnv 3 ['f']
      (scriptState [EXIT_FAILURE, EXIT_FAILURE, EXIT_FAILURE]) 1 DL_FAILED := by
  have h3 : DownloadMakes scriptEnv 3 ['f']
      (scriptState [EXIT_FAILURE, EXIT_FAILURE, EXIT_FAILURE]) 3 DL_FAILED :=
    download_all_failed scriptEnv 3 ['f'] _ (by decide)
      (fun i hi => by
        have hi3 : i < 3 := hi
        interval_cases i <;> rfl)
  refine ⟨by decide!, by decide!, h3, fun h1 => ?_⟩
  have := downloadMakes_count _ _ _ _ _ _ _ _ h3 h1
  omega

theorem scan_field_keeps (STRBUFSIZE : Nat) (s s1 : HeaderState)
    (h : scan_field STRBUFSIZE s = some s1) : s1.target = s.target ∧ s1.ka = s.ka := by
  unfold scan_field at h
  simp only [Option.bind_eq_bind, Option.bind_eq_some] at h
  obtain ⟨_, _, _, _, _, _, _, _, _, _, _, _, h⟩ := h
  cases h
  exact ⟨rfl, rfl⟩

theorem handle_field_uncached (c : HeaderConfig) (s : HeaderState)
    (field_name field_content : CString) (h : NotKept c s) :
    StaysUncached c (handle_field c s field_name field_content) := by
  obtain ⟨hn, hk⟩ := h
  unfold handle_field
  dsimp only
  split
  · refine StaysUncached.next _ ⟨hn, ?_⟩
    simp [hn]
  · split
    · split
      · exact StaysUncached.next _ ⟨hn, hk⟩
      · exact StaysUncached.next _ ⟨hn, hk⟩
    · split
      · split
        · exact StaysUncached.next _ ⟨hn, hk⟩
        · exact StaysUncached.next _ ⟨hn, hk⟩
        · exact StaysUncached.exit _ _ hk
        · exact StaysUncached.exit _ _ hk
      · split
        · split
          · exact StaysUncached.next _ ⟨hn, hk⟩
          · split
            · exact StaysUncached.next _ ⟨hn, hk⟩
            · exact StaysUncached.exit _ _ (by simp)
        · exact StaysUncached.next _ ⟨hn, hk⟩

theorem header_finish_uncached (c : HeaderConfig) (s : HeaderState) (t : FieldTest)
    (h : NotKept c s) : StaysUncached c (header_finish s t) := by
  obtain ⟨hn, hk⟩ := h
  unfold header_finish
  split
  · split
    · exact StaysUncached.exit _ _ hk
    · exact StaysUncached.exit _ _ hk
  · split
    · split
      · exact StaysUncached.exit _ _ hk
      · exact StaysUncached.next _ ⟨hn, hk⟩
    · exact StaysUncached.exit _ _ hk

theorem header_fields_uncached (c : HeaderConfig) :
    ∀ (n : Nat) (s : HeaderState), NotKept c s → StaysUncached c (header_fields c n s) := by
  intro n
  induction n with
  | zero => intro s h; exact StaysUncached.exit _ _ h.2
  | succ n ih =>
    intro s h
    unfold header_fields
    split
    · exact StaysUncached.exit _ _ h.2
    · split
      · exact StaysUncached.exit _ _ h.2
      · rename_i s1 hs1
        obtain ⟨e1, e2⟩ := scan_field_keeps _ _ _ hs1
        have h1 : NotKept c s1 := ⟨e1 ▸ h.1, e2 ▸ h.2⟩
        have hf := handle_field_uncached c s1 (s1.field_name.getD []) (s1.field_content.getD []) h1
        revert hf
        generalize handle_field c s1 (s1.field_name.getD []) (s1.field_content.getD []) = step
        intro hf
        cases hf with
        | next s2 h2 => exact ih s2 h2
        | exit e s2 h2 => exact StaysUncached.exit _ _ h2
    · exact header_finish_uncached c s _ h

theorem redirect_fields_uncached (c : HeaderConfig) (STRBUFSIZE : Nat) :
    ∀ (n : Nat) (s : HeaderState), s.ka ≠ some true →
      StaysUncached c (redirect_fields STRBUFSIZE n s) := by
  intro n
  induction n with
  | zero => intro s h; exact StaysUncached.exit _ _ h
  | succ n ih =>
    intro s h
    unfold redirect_fields
    split
    · exact StaysUncached.exit _ _ h
    · split
      · exact StaysUncached.exit _ _ h
      · rename_i s1 hs1
        obtain ⟨_, e2⟩ := scan_field_keeps _ _ _ hs1
        have h1 : s1.ka ≠ some true := e2 ▸ h
        split
        · split
          · exact StaysUncached.exit _ _ h1
          · exact ih _ h1
        · exact ih _ h1
    · exact StaysUncached.exit _ _ h

theorem parse_status_uncached (c : HeaderConfig) (s : HeaderState) (h : NotKept c s) :
    StaysUncached c (parse_status s) := by
  obtain ⟨hn, hk⟩ := h
  unfold parse_status
  split
  · exact StaysUncached.exit _ _ hk
  · exact StaysUncached.exit _ _ hk
  · dsimp only
    split
    · split
      · split
        · exact StaysUncached.exit _ _ hk
        · exact StaysUncached.exit _ _ hk
        · split
          · exact StaysUncached.exit _ _ hk
          · exact StaysUncached.next _ ⟨hn, hk⟩
      · exact StaysUncached.exit _ _ hk
    · split
      · exact StaysUncached.exit _ _ hk
      · exact StaysUncached.exit _ _ hk
      · exact StaysUncached.next _ ⟨hn, hk⟩

theorem header_parse_uncached (c : HeaderConfig) (follow : Bool) (s : HeaderState)
    (h : NotKept c s) : StaysUncached c (header_parse c follow s) := by
  unfold header_parse
  split
  · have hp := parse_status_uncached c s h
    revert hp
    generalize parse_status s = step
    intro hp
    cases hp with
    | next s1 h1 =>
      dsimp only
      split
      · exact redirect_fields_uncached c _ _ _ h1.2
      · exact header_fields_uncached c _ _ h1
    | exit e s1 h1 => exact StaysUncached.exit _ _ h1
  · exact header_fields_uncached c _ _ h

theorem header_round_uncached (c : HeaderConfig) (follow : Bool) (s : HeaderState)
    (h : NotKept c s) : StaysUncached c (header_round c follow s) := by
  unfold header_round
  dsimp only
  split
  · exact StaysUncached.exit _ _ h.2
  · split
    · exact StaysUncached.exit _ _ h.2
    · exact header_parse_uncached c follow _ ⟨h.1, h.2⟩

/-- The header loop of a request that went to a server other than `servername`
never assigns `sock_fd` to `sock_fd_ka`. -/
theorem header_loop_uncached (c : HeaderConfig) (follow : Bool) :
    ∀ (fuel : Nat) (s : HeaderState), NotKept c s →
      (header_loop c follow fuel s).2.ka ≠ some true := by
  intro fuel
  induction fuel with
  | zero => intro s h; exact h.2
  | succ fuel ih =>
    intro s h
    have hr := header_round_uncached c follow s h
    unfold header_loop
    revert hr
    generalize header_round c follow s = step
    intro hr
    cases hr with
    | next s1 h1 => exact ih s1 h1
    | exit e s1 h1 => exact h1

theorem close_unless_kept_none (sock_fd : Nat) (stream : List (List Char)) (w : NetWorld)
    (h : w.sock_fd_ka = none) : (close_unless_kept sock_fd stream w).sock_fd_ka = none := by
  unfold close_unless_kept
  rw [h]
  rfl

theorem conn_get_end_none (filename : CString) (x : Exchange) (sock_fd : Nat) (lastmod : Int)
    (r : BodyExit × BodyState) (w : NetWorld) (h : w.sock_fd_ka = none) :
    (conn_get_end filename x sock_fd lastmod r w).2.sock_fd_ka = none := by
  unfold conn_get_end
  split
  · dsimp only
    split
    · split
      · exact close_unless_kept_none _ _ _ h
      · exact close_unless_kept_none _ _ _ h
    · exact close_unless_kept_none _ _ _ h
  · rfl
  · exact h
  · exact h
  · exact h

theorem conn_get_finish_none (c : NetConfig) (fuel : Nat) (filename : CString) (x : Exchange)
    (sock_fd : Nat) (h : HeaderState) (w : NetWorld) (hk : w.sock_fd_ka = none) :
    (conn_get_finish c fuel filename x sock_fd h w).2.sock_fd_ka = none := by
  unfold conn_get_finish
  split
  · exact close_unless_kept_none _ _ _ hk
  · split
    · exact close_unless_kept_none _ _ _ hk
    · exact conn_get_end_none _ _ _ _ _ _ hk

theorem conn_get_after_header_none (c : NetConfig) (fuel : Nat) (filename : CString)
    (x : Exchange) (sock_fd : Nat) (l : GetLocals) (e : HeaderExit) (h : HeaderState)
    (w : NetWorld) (hka : h.ka ≠ some true) (hk : w.sock_fd_ka = none) :
    (conn_get_after_header c fuel filename x sock_fd l e h w).world.sock_fd_ka = none := by
  have hw : ({ w with sock_fd_ka := apply_ka h.ka sock_fd w.sock_fd_ka } : NetWorld).sock_fd_ka =
      none := by
    show apply_ka h.ka sock_fd w.sock_fd_ka = none
    rw [hk]
    rcases hcase : h.ka with _ | b
    · rfl
    · cases b
      · rfl
      · exact absurd hcase hka
  unfold conn_get_after_header
  cases e <;> dsimp only
  · rfl
  · exact close_unless_kept_none _ _ _ hw
  · split
    · rfl
    · show (close_unless_kept_redirect _ _).sock_fd_ka = none
      unfold close_unless_kept_redirect
      rw [hw]
  · rfl
  · exact conn_get_finish_none _ _ _ _ _ _ _ hw
  · exact hw
  · exact hw
  · exact hw

theorem conn_get_exchange_none (c : NetConfig) (MAX_REDIRECT fuel : Nat) (filename : CString)
    (x : Exchange) (sock_fd : Nat) (unread : List (List Char)) (l : GetLocals) (w : NetWorld)
    (hn : c.servername ≠ l.target.servername_dl) (hk : w.sock_fd_ka = none) :
    (conn_get_exchange c MAX_REDIRECT fuel filename x sock_fd unread l w).world.sock_fd_ka =
      none := by
  unfold conn_get_exchange
  dsimp only
  split
  · exact hk
  · split
    · rfl
    · exact conn_get_after_header_none _ _ _ _ _ _ _ _ _
        (header_loop_uncached c.toHeaderConfig _ fuel _ ⟨hn, by simp [header_start]⟩) hk

/-- A pass of `conn_get` whose request goes to a server other than `servername`,
started with no socket cached, ends with no socket cached. -/
theorem round_to_other_host (c : NetConfig) (MAX_REDIRECT fuel : Nat)
    (filename : CString) (l : GetLocals) (w : NetWorld)
    (hn : c.servername ≠ l.target.servername_dl) (hk : w.sock_fd_ka = none) :
    (conn_get_round c MAX_REDIRECT fuel filename l w).world.sock_fd_ka = none := by
  unfold conn_get_round
  dsimp only
  rw [hk]
  dsimp only
  split
  · apply conn_get_exchange_none
    · split
      · exact hn
      · exact hn
    · rfl
  · rfl

set_option maxRecDepth 100000 in
/-- C18: a pass of `conn_get` whose request goes to a server other than
`servername`, started with no socket cached, ends with no socket cached
whatever the server answers: `Connection: keep-alive` is honoured for the
configured server name only.  So with the server `host-a:80`, `host-a`
answering each of two requests with `302 Location: http://host-b/...` and
`host-b` answering 200 with `Connection: keep-alive`, nothing is cached after
the first call, and the two calls open two connections to `host-a` and two to
`host-b`, each request on a connection of its own. -/
theorem other_host_is_not_cached :
    (∀ (c : NetConfig) (MAX_REDIRECT fuel : Nat) (filename : CString) (l : GetLocals)
      (w : NetWorld),
      c.servername ≠ l.target.servername_dl → w.sock_fd_ka = none →
      (conn_get_round c MAX_REDIRECT fuel filename l w).world.sock_fd_ka = none) ∧
    redirect_run.1.1 = GetResult.ret EXIT_SUCCESS ∧
    redirect_run.1.2.sock_fd_ka = none ∧
    redirect_run.2.1 = GetResult.ret EXIT_SUCCESS ∧
    redirect_run.2.2.connections =
      [(3, "host-a".toList, 80), (4, "host-b".toList, 80), (5, "host-a".toList, 80),
       (6, "host-b".toList, 80)] ∧
    redirect_run.2.2.sent_on = [3, 4, 5, 6] :=
  ⟨round_to_other_host, by decide!, by decide!, by decide!, by decide!, by decide!⟩

theorem other_host_is_not_cached_witness :
    (conn_get_round exampleConfig 1 20 "f".toList host_b_locals
      (freshWorld
        [answer "HTTP/1.1 200 OK\r\nConnection: keep-alive\r\nContent-Length: 2\r\n\r\nok"])
      ).world.sock_fd_ka = none :=
  other_host_is_not_cached.1 exampleConfig 1 20 "f".toList host_b_locals
    (freshWorld
      [answer "HTTP/1.1 200 OK\r\nConnection: keep-alive\r\nContent-Length: 2\r\n\r\nok"])
    (by decide) rfl

set_option maxRecDepth 100000 in
/-- C18, counterexample: with the server `host-a:80`, `host-a` answering each of
two requests with `302 Location: http://host-b/...` and `host-b` answering 200
with `Connection: keep-alive`, both calls of `conn_get` succeed, nothing is
cached after the first, and four connections are opened, two of them to
`host-b`; the second request to `host-b` goes out on descriptor 6, not on the
descriptor 4 of the first. -/
theorem redirect_target_reconnects :
    redirect_run.1.1 = GetResult.ret EXIT_SUCCESS ∧
    redirect_run.1.2.sock_fd_ka = none ∧
    redirect_run.2.1 = GetResult.ret EXIT_SUCCESS ∧
    redirect_run.2.2.connections =
      [(3, "host-a".toList, 80), (4, "host-b".toList, 80), (5, "host-a".toList, 80),
       (6, "host-b".toList, 80)] ∧
    redirect_run.2.2.sent_on = [3, 4, 5, 6] ∧
    redirect_run.2.2.closed = [3, 4, 5, 6] := by
  decide!

set_option maxRecDepth 100000 in
/-- C17: a `Connection` field makes `conn_get` keep the socket in `sock_fd_ka`
exactly when its value is `keep-alive` in lower case and `servername_dl` equals
`servername`; the port is not compared.  With the server `host-a:80`, a redirect
of the request for `f` to `http://host-a:8080/g` and the answer
`Connection: keep-alive` from there leave the socket 4 to port 8080 cached, and
the following call `conn_get("h")` opens no connection: it sends its request
for `host-a:80` on socket 4. -/
theorem keep_alive_ignores_port :
    (∀ (c : HeaderConfig) (s : HeaderState) (field_content : CString),
      handle_field c s "Connection".toList field_content =
        HeaderStep.next
          { s with field_content := some (to_lowercase field_content),
                   ka := some (decide (to_lowercase field_content = "keep-alive".toList ∧
                          c.servername = s.target.servername_dl)) }) ∧
    port_run.1.1 = GetResult.ret EXIT_SUCCESS ∧
    port_run.1.2.sock_fd_ka = some 4 ∧
    port_run.1.2.connections = [(3, "host-a".toList, 80), (4, "host-a".toList, 8080)] ∧
    port_run.2.1 = GetResult.ret EXIT_SUCCESS ∧
    port_run.2.2.connections = [(3, "host-a".toList, 80), (4, "host-a".toList, 8080)] ∧
    port_run.2.2.sent_on = [3, 4, 4] ∧
    NetEvent.send 4
      (build_request exampleConfig
        { servername_dl := "host-a".toList, serverport_dl := 80, filename_dl := "h".toList }
        "Keep-Alive".toList) ∈ port_run.2.2.events := by
  refine ⟨fun c s field_content => ?_, by decide!, by decide!, by decide!, by decide!,
    by decide!, by decide!, by decide!⟩
  simp only [handle_field]
  rw [if_pos trivial]

/-- C19: the RFC 1123 form and the asctime form of 1994-11-06 08:49:37 are
parsed into the same broken-down time (day 6, month index 10, year 94,
08:49:37), but the RFC 850 form `Sunday, 06-Nov-94 08:49:37 GMT` is not: the
first `sscanf` call, with the RFC 1123 format, stores the seven characters
`-Nov-94` and a `'\0'` into `char month[4]` before the second call, with the
RFC 850 format, would assign the same six values. -/
theorem rfc850_date_overruns_month :
    last_modified_tm "Sun, 06 Nov 1994 08:49:37 GMT".toList = LastModified.parsed example_time ∧
    last_modified_tm "Sun Nov  6 08:49:37 1994".toList = LastModified.parsed example_time ∧
    last_modified_tm "Sunday, 06-Nov-94 08:49:37 GMT".toList = LastModified.undef ∧
    (sscanf_time format_rfc1123 "Sunday, 06-Nov-94 08:49:37 GMT".toList scan_start).overrun =
      true ∧
    sscanf_time format_rfc850 "Sunday, 06-Nov-94 08:49:37 GMT".toList scan_start =
      { raw_time := { example_time with tm_mon := 0 }, month := some "Nov".toList, count := 6,
        overrun := false } ∧
    (last_modified_outcome "Sunday, 06-Nov-94 08:49:37 GMT").1 = GetResult.undef ∧
    (last_modified_outcome "Sun, 06 Nov 1994 08:49:37 GMT").1 = GetResult.ret EXIT_SUCCESS ∧
    NetEvent.set_mtime "f".toList 784111777 ∈
      (last_modified_outcome "Sun, 06 Nov 1994 08:49:37 GMT").2.events := by
  decide!

set_option maxRecDepth 100000 in
/-- C20: a `Last-Modified` value that no format matches leaves `lastmod` at 0
and the request goes on (the file is written, no modification time is set), but
a value whose layout matches a format and whose month token is not one of the
twelve names reaches `assert(0)`: `conn_get` is aborted in the header loop, before
the file is opened. -/
theorem unknown_month_aborts :
    last_modified_tm "yesterday".toList = LastModified.fallback ∧
    (last_modified_outcome "yesterday").1 = GetResult.ret EXIT_SUCCESS ∧
    (last_modified_outcome "yesterday").2.files = [("f".toList, "ok".toList)] ∧
    (last_modified_outcome "yesterday").2.events.all
      (fun e => e != NetEvent.set_mtime "f".toList 0) = true ∧
    (scan_last_modified "Sun, 06 Foo 1994 08:49:37 GMT".toList).count = 6 ∧
    (scan_last_modified "Sun, 06 Foo 1994 08:49:37 GMT".toList).month = some "Foo".toList ∧
    month_index (to_lowercase "Foo".toList) = none ∧
    last_modified_tm "Sun, 06 Foo 1994 08:49:37 GMT".toList = LastModified.aborted ∧
    (∀ (mktime : TM → Int) (tzshift : Int),
      last_modified mktime tzshift "Sun, 06 Foo 1994 08:49:37 GMT".toList =
        LastModified.aborted) ∧
    (last_modified_outcome "Sun, 06 Foo 1994 08:49:37 GMT").1 = GetResult.aborted ∧
    (last_modified_outcome "Sun, 06 Foo 1994 08:49:37 GMT").2.files = [] := by
  have h : last_modified_tm "Sun, 06 Foo 1994 08:49:37 GMT".toList = LastModified.aborted := by
    decide!
  refine ⟨by decide!, by decide!, by decide!, by decide!, by decide!, by decide!, by decide!, h,
    fun mktime tzshift => ?_, by decide!, by decide!⟩
  simp only [last_modified, h]

set_option maxRecDepth 100000 in
theorem chain_locals_start :
    mem_write (List.replicate (exampleConfig.NETBUFSIZE + 4) NUL) 0 (chain_request ++ [NUL]) =
      some chain_buffer := by
  decide!

/-- A pass of `conn_get` in the chain: a connection is opened, the request for
`f` is sent, and the header loop runs on the answer. -/
theorem chain_round (M fuel : Nat) (l : GetLocals) (w : NetWorld) (x : Exchange)
    (rest : List Exchange) (hl : ChainLocals l) (hk : w.sock_fd_ka = none)
    (hs : w.script = x :: rest) (hc : x.connect_ok = true) (hsend : x.send_ok = true) :
    conn_get_round exampleConfig M fuel "f".toList l w =
      conn_get_after_header exampleConfig fuel "f".toList x w.next_fd l
        (header_loop exampleConfig.toHeaderConfig (decide (l.redirect_num < M)) fuel
          (header_start chain_buffer chain_target x.stream)).1
        (header_loop exampleConfig.toHeaderConfig (decide (l.redirect_num < M)) fuel
          (header_start chain_buffer chain_target x.stream)).2
        { w with script := rest, next_fd := w.next_fd + 1,
                 events := w.events ++ [NetEvent.conn_open w.next_fd "host-a".toList 80] ++
                   [NetEvent.send w.next_fd chain_request] } := by
  obtain ⟨ht, hka, hb⟩ := hl
  have horigin : ¬ (exampleConfig.servername ≠ l.target.servername_dl ∨
      exampleConfig.serverport ≠ l.target.serverport_dl) := by
    rw [ht]
    decide
  have hproxy : exampleConfig.use_proxy = false := rfl
  have hname : chain_target.servername_dl = "host-a".toList := rfl
  have hport : chain_target.serverport_dl = 80 := rfl
  unfold conn_get_round
  simp only [if_neg horigin, hs, List.headD_cons, List.tail_cons, hk, hc, if_true]
  unfold conn_get_exchange
  simp only [ht, hka, hproxy, hname, hport, Bool.false_eq_true, if_false]
  rw [show build_request exampleConfig chain_target "Keep-Alive".toList = chain_request from rfl,
    hb]
  simp only [hsend, Bool.true_eq_false, if_false, List.nil_append]

theorem chain_locals_call : ChainLocals
    { buffer := List.replicate (exampleConfig.NETBUFSIZE + 4) NUL,
      target := { servername_dl := bsd_strlcpy exampleConfig.servername 256,
                  serverport_dl := exampleConfig.serverport,
                  filename_dl := bsd_strlcpy "f".toList exampleConfig.STRBUFSIZE },
      conn_ka := bsd_strlcpy "Keep-Alive".toList 11, redirect_num := 0 } :=
  ⟨by decide, by decide, chain_locals_start⟩

set_option maxRecDepth 100000 in
theorem chain_recv_failed : ∀ follow : Bool,
    (header_loop exampleConfig.toHeaderConfig follow 20
      (header_start chain_buffer chain_target [])).1 = HeaderExit.recv_failed := by
  decide!

/-- A call `conn_get("f")` in the example configuration with no socket cached
returns `EXIT_FAILURE` when `conn_open` fails, when `send` fails, and when the
first `recv` returns 0. -/
theorem local_failure_cases (M : Nat) (w : NetWorld) (x : Exchange) (rest : List Exchange)
    (hk : w.sock_fd_ka = none) (hs : w.script = x :: rest)
    (hx : x.connect_ok = false ∨ x.send_ok = false ∨ x.stream = []) :
    (conn_get_call exampleConfig M 20 "f".toList w).1 = GetResult.ret EXIT_FAILURE := by
  have horigin : ¬ (exampleConfig.servername ≠ bsd_strlcpy exampleConfig.servername 256 ∨
      exampleConfig.serverport ≠ exampleConfig.serverport) := by decide
  unfold conn_get_call
  simp only [conn_get_rounds]
  by_cases hc : x.connect_ok = true
  · by_cases hsend : x.send_ok = true
    · have hstream : x.stream = [] := by
        rcases hx with h | h | h
        · rw [hc] at h; cases h
        · rw [hsend] at h; cases h
        · exact h
      rw [chain_round M 20 _ w x rest chain_locals_call hk hs hc hsend, hstream,
        chain_recv_failed]
      rfl
    · unfold conn_get_round
      simp only [if_neg horigin, hs, List.headD_cons, List.tail_cons, hk, hc, if_true]
      unfold conn_get_exchange
      have hb := chain_locals_call.2.2
      have ht : ({ servername_dl := bsd_strlcpy exampleConfig.servername 256,
                   serverport_dl := exampleConfig.serverport,
                   filename_dl := bsd_strlcpy "f".toList exampleConfig.STRBUFSIZE } : Target) =
          chain_target := by decide
      have hka : bsd_strlcpy "Keep-Alive".toList 11 = "Keep-Alive".toList := by decide
      simp only at hb
      simp only [ht, hka] at hb ⊢
      rw [show build_request exampleConfig chain_target "Keep-Alive".toList = chain_request
        from rfl, hb]
      simp only [Bool.not_eq_true] at hsend
      simp only [hsend, if_true]
  · unfold conn_get_round
    simp only [Bool.not_eq_true] at hc
    simp only [if_neg horigin, hs, List.headD_cons, List.tail_cons, hk, hc, Bool.false_eq_true,
      if_false]

/-- C13: with `MAX_REPEAT >= 1`, when every attempt of `conn_get` ends with a
transient outcome (`EXIT_FAILURE`, 408, 413, 500, 502, 503 or 504), `download`
makes exactly `MAX_REPEAT` attempts and returns `DL_FAILED`; when attempt
number `j <= MAX_REPEAT` is the first one that is not transient and it returns
`EXIT_SUCCESS`, `download` returns `DL_DOWNLOADED` after exactly `j`
attempts.  The transient outcomes are what `conn_get` returns for a response
with one of the six status codes and, in the example configuration, for a
failure of `conn_open`, of `send` or of the first `recv`. -/
theorem transient_retry_bound {W : Type} (E : Env W) (MAX_REPEAT : Int) (filename : CString)
    (st : State W) (h1 : 1 ≤ MAX_REPEAT) :
    ((∀ i, i < MAX_REPEAT.toNat → correctable (attempt_status E filename i st.world) = true) →
      DownloadMakes E MAX_REPEAT filename st MAX_REPEAT.toNat DL_FAILED) ∧
    (∀ j : Nat, 1 ≤ j → (j : Int) ≤ MAX_REPEAT →
      (∀ i, i + 1 < j → correctable (attempt_status E filename i st.world) = true) →
      attempt_status E filename (j - 1) st.world = EXIT_SUCCESS →
      DownloadMakes E MAX_REPEAT filename st j DL_DOWNLOADED) ∧
    (∀ s ∈ [408, 413, 500, 502, 503, 504],
      (status_outcome s).1 = GetResult.ret s ∧ correctable s = true) ∧
    (∀ (M : Nat) (w : NetWorld) (x : Exchange) (rest : List Exchange),
      w.sock_fd_ka = none → w.script = x :: rest →
      x.connect_ok = false ∨ x.send_ok = false ∨ x.stream = [] →
      (conn_get_call exampleConfig M 20 "f".toList w).1 = GetResult.ret EXIT_FAILURE ∧
        correctable EXIT_FAILURE = true) := by
  refine ⟨?_, ?_, ?_, ?_⟩
  · intro hall
    obtain ⟨n, hn⟩ : ∃ n : Nat, MAX_REPEAT.toNat = n + 1 := ⟨MAX_REPEAT.toNat - 1, by omega⟩
    have hlast := hall n (by omega)
    obtain ⟨n0, n4⟩ := correctable_ne _ hlast
    have h := download_run E MAX_REPEAT filename n st (Or.inl (by omega))
      (fun i hi => hall i (by omega))
      (by rw [if_pos hlast]; intro hcon; omega)
    rw [if_neg n0, if_neg n4] at h
    rw [hn]
    exact h
  · intro j hj hle hgo hok
    obtain ⟨n, rfl⟩ : ∃ n : Nat, j = n + 1 := ⟨j - 1, by omega⟩
    simp only [Nat.add_sub_cancel] at hok
    have h := download_run E MAX_REPEAT filename n st (Or.inl (by push_cast at hle; omega))
      (fun i hi => hgo i (by omega))
      (fun hcon => hcon.2.1 hok)
    rw [if_pos hok] at h
    exact h
  · intro s hs
    have hlt : s < 1000 := by
      simp only [List.mem_cons, List.mem_singleton, List.not_mem_nil, or_false] at hs
      omega
    have hne : ¬ (s = 200 ∨ s = 203) := by
      simp only [List.mem_cons, List.mem_singleton, List.not_mem_nil, or_false] at hs
      omega
    have h := (status_cases s hlt).1
    rw [if_neg hne] at h
    refine ⟨h, ?_⟩
    simp only [List.mem_cons, List.mem_singleton, List.not_mem_nil, or_false] at hs
    rcases hs with rfl | rfl | rfl | rfl | rfl | rfl <;> rfl
  · intro M w x rest hk hs hx
    exact ⟨local_failure_cases M w x rest hk hs hx, rfl⟩

theorem transient_retry_bound_witness :
    DownloadMakes scriptEnv 3 ['f'] (scriptState [503, 1, 408, 0]) 3 DL_FAILED ∧
    DownloadMakes scriptEnv 3 ['f'] (scriptState [503, 1, 0]) 3 DL_DOWNLOADED ∧
    ((status_outcome 503).1 = GetResult.ret (503 : Nat) ∧ correctable (503 : Nat) = true) ∧
    ((conn_get_call exampleConfig 0 20 "f".toList
        (freshWorld
          [{ connect_ok := true, send_ok := false, stream := [], fopen_ok := true,
             set_mtime_ok := true }])).1 = GetResult.ret EXIT_FAILURE ∧
      correctable EXIT_FAILURE = true) :=
  ⟨(transient_retry_bound scriptEnv 3 ['f'] (scriptState [503, 1, 408, 0]) (by decide)).1
      (by decide),
    (transient_retry_bound scriptEnv 3 ['f'] (scriptState [503, 1, 0]) (by decide)).2.1 3
      (by decide) (by decide)
      (fun i hi => by
        have hi2 : i < 2 := by omega
        interval_cases i <;> decide)
      (by decide),
    (transient_retry_bound scriptEnv 3 ['f'] (scriptState []) (by decide)).2.2.1 503
      (by decide),
    (transient_retry_bound scriptEnv 3 ['f'] (scriptState []) (by decide)).2.2.2 0
      (freshWorld
        [{ connect_ok := true, send_ok := false, stream := [], fopen_ok := true,
           set_mtime_ok := true }]) _ [] rfl rfl (Or.inr (Or.inl rfl))⟩

theorem empty_body_header : ∀ response ∈ ["HTTP/1.1 200 OK\r\nContent-Length: 0\r\n\r\n",
      "HTTP/1.1 200 OK\r\n\r\n"],
    ∃ h, first_round response = HeaderStep.exit HeaderExit.msgbegin h ∧ h.status = 200 ∧
      h.is_chunked = false ∧ h.msgsize = 0 ∧ h.bufpos = h.bufend ∧ h.stream = [] := by
  intro response hr
  simp only [List.mem_cons, List.mem_singleton, List.not_mem_nil, or_false] at hr
  rcases hr with rfl | rfl
  · exact ⟨(header_loop exampleConfig.toHeaderConfig false 1
      (header_start chain_buffer chain_target
        ["HTTP/1.1 200 OK\r\nContent-Length: 0\r\n\r\n".toList])).2, by decide!, by decide!,
      by decide!, by decide!, by decide!, by decide!⟩
  · exact ⟨(header_loop exampleConfig.toHeaderConfig false 1
      (header_start chain_buffer chain_target ["HTTP/1.1 200 OK\r\n\r\n".toList])).2,
      by decide!, by decide!, by decide!, by decide!, by decide!, by decide!⟩

/-- A call of `conn_get` for a 200 response with an empty identity body does not
return, whatever the fuel. -/
theorem empty_body_call (response : String)
    (hr : response ∈ ["HTTP/1.1 200 OK\r\nContent-Length: 0\r\n\r\n", "HTTP/1.1 200 OK\r\n\r\n"])
    (fuel : Nat) : (body_outcome fuel [response]).1 = GetResult.nofuel := by
  obtain ⟨h, h1, h2, h3, h4, h5, h6⟩ := empty_body_header response hr
  unfold body_outcome conn_get_call
  simp only [conn_get_rounds]
  rw [chain_round 0 fuel _ _ _ [] chain_locals_call rfl rfl rfl rfl]
  cases fuel with
  | zero => rfl
  | succ fuel =>
    have hl : header_loop exampleConfig.toHeaderConfig (decide (0 < 0)) (fuel + 1)
        (header_start chain_buffer chain_target [response.toList]) =
        (HeaderExit.msgbegin, h) := by
      simp only [header_loop]
      change (match first_round response with
        | HeaderStep.next s1 => header_loop exampleConfig.toHeaderConfig false fuel s1
        | HeaderStep.exit e s1 => (e, s1)) = _
      rw [h1]
    simp only [List.map_cons, List.map_nil]
    rw [hl]
    unfold conn_get_after_header
    simp only
    unfold conn_get_finish
    rw [if_neg (by rw [h2]; decide), if_neg (by simp)]
    have hidle := body_loop_idle exampleConfig.NETBUFSIZE (fuel + 1) BodyLoc.outer
      { buffer := h.buffer, bufpos := h.bufpos, bufend := h.bufend, msgcurr := 0,
        chunk_size := 0, chunk_curr := 0, stream := h.stream, written := [] }
      rfl h5 h6 rfl (fun hloc => by cases hloc)
    simp only [h3, h4, Bool.false_eq_true, if_false] at hidle ⊢
    unfold conn_get_end
    simp only [hidle.1]

set_option maxRecDepth 100000 in
/-- C11: the body loop of `conn_get` does not terminate for an identity
response with an empty body: with `msgsize = 0` (which stands both for
`Content-Length: 0` and for no `Content-Length`), no body byte in `buffer` and
the connection at its end, the loop is still running after any number of
steps, with nothing written; so a call of `conn_get` answered by
`200` with `Content-Length: 0`, or by `200` with neither `Content-Length` nor
body, does not return whatever the fuel.  In the other cases of the example the
loop does what is claimed: the first `Content-Length` bytes are written
whatever the split and whatever follows, all bytes up to the end of the
connection are written when there is no `Content-Length`, and a connection that
ends early gives `EXIT_FAILURE`. -/
theorem identity_empty_body_never_ends :
    (∀ (NETBUFSIZE : Nat) (buffer : List Char) (bufpos fuel : Nat),
      conn_get_body NETBUFSIZE false 0 fuel buffer bufpos bufpos [] = (BodyExit.nofuel, [])) ∧
    (∀ fuel, (body_outcome fuel ["HTTP/1.1 200 OK\r\nContent-Length: 0\r\n\r\n"]).1 =
      GetResult.nofuel) ∧
    (∀ fuel, (body_outcome fuel ["HTTP/1.1 200 OK\r\n\r\n"]).1 = GetResult.nofuel) ∧
    ((body_outcome 20 ["HTTP/1.1 200 OK\r\nContent-Length: 5\r\n\r\nhe", "l", "lo"]).1 =
        GetResult.ret EXIT_SUCCESS ∧
      (body_outcome 20 ["HTTP/1.1 200 OK\r\nContent-Length: 5\r\n\r\nhe", "l", "lo"]).2.files =
        [("f".toList, "hello".toList)]) ∧
    ((body_outcome 20 ["HTTP/1.1 200 OK\r\nContent-Length: 5\r\n\r\n", "hel", "lo and more"]).1 =
        GetResult.ret EXIT_SUCCESS ∧
      (body_outcome 20
        ["HTTP/1.1 200 OK\r\nContent-Length: 5\r\n\r\n", "hel", "lo and more"]).2.files =
        [("f".toList, "hello".toList)]) ∧
    ((body_outcome 20 ["HTTP/1.1 200 OK\r\n\r\nhe", "l", "lo"]).1 = GetResult.ret EXIT_SUCCESS ∧
      (body_outcome 20 ["HTTP/1.1 200 OK\r\n\r\nhe", "l", "lo"]).2.files =
        [("f".toList, "hello".toList)]) ∧
    (body_outcome 20 ["HTTP/1.1 200 OK\r\nContent-Length: 5\r\n\r\nhe", "l"]).1 =
      GetResult.ret EXIT_FAILURE := by
  refine ⟨fun NETBUFSIZE buffer bufpos fuel => ?_,
    fun fuel => empty_body_call _ (by simp) fuel,
    fun fuel => empty_body_call _ (by simp) fuel,
    ⟨by decide!, by decide!⟩, ⟨by decide!, by decide!⟩, ⟨by decide!, by decide!⟩, by decide!⟩
  have h := body_loop_idle NETBUFSIZE fuel BodyLoc.outer
    { buffer := buffer, bufpos := bufpos, bufend := bufpos, msgcurr := 0, chunk_size := 0,
      chunk_curr := 0, stream := [], written := [] } rfl rfl rfl rfl (fun h => by cases h)
  exact Prod.ext h.1 h.2

theorem strchr_none (s : CString) (c : Char) (h : c ∉ s) : strchr s c = none := by
  have : s.dropWhile (fun x => x != c) = [] := by
    rw [List.dropWhile_eq_nil_iff]
    intro x hx
    have : x ≠ c := fun e => h (e ▸ hx)
    simpa using this
  unfold strchr
  rw [this]

theorem strchr_found (a b : CString) (c : Char) (h : c ∉ a) :
    strchr (a ++ c :: b) c = some (c :: b) := by
  have : (a ++ c :: b).dropWhile (fun x => x != c) = c :: b := by
    induction a with
    | nil => simp [List.dropWhile]
    | cons x xs ih =>
      have hx : x ≠ c := fun e => h (by simp [e])
      have hxs : c ∉ xs := fun e => h (by simp [e])
      simp [List.dropWhile_cons, hx, ih hxs]
  unfold strchr
  rw [this]

theorem strchr_some_mem (s t : CString) (c : Char) (h : strchr s c = some t) : c ∈ s := by
  by_contra hc
  rw [strchr_none s c hc] at h
  cases h

theorem strrchr_none (s : CString) (c : Char) (h : c ∉ s) : strrchr s c = none := by
  induction s with
  | nil => rfl
  | cons x xs ih =>
    have hx : x ≠ c := fun e => h (by simp [e])
    have hxs : c ∉ xs := fun e => h (by simp [e])
    simp [strrchr, ih hxs, hx]

theorem strrchr_found (a b : CString) (c : Char) (h : c ∉ b) :
    strrchr (a ++ c :: b) c = some (c :: b) := by
  induction a with
  | nil => simp [strrchr, strrchr_none b c h]
  | cons x xs ih => simp [strrchr, ih]

theorem takeWhile_found (a b : CString) (c : Char) (h : c ∉ a) :
    (a ++ c :: b).takeWhile (fun x => x != c) = a := by
  induction a with
  | nil => simp [List.takeWhile]
  | cons x xs ih =>
    have hx : x ≠ c := fun e => h (by simp [e])
    have hxs : c ∉ xs := fun e => h (by simp [e])
    simp [List.takeWhile_cons, hx, ih hxs]

theorem takeWhile_all (a : CString) (c : Char) (h : c ∉ a) :
    a.takeWhile (fun x => x != c) = a := by
  induction a with
  | nil => rfl
  | cons x xs ih =>
    have hx : x ≠ c := fun e => h (by simp [e])
    have hxs : c ∉ xs := fun e => h (by simp [e])
    simp [List.takeWhile_cons, hx, ih hxs]

theorem takeWhile_split (s : CString) (c : Char) :
    ∃ t, s = s.takeWhile (fun x => x != c) ++ t :=
  ⟨s.dropWhile (fun x => x != c), (List.takeWhile_append_dropWhile _ s).symm⟩

theorem dropWhile_head (s : CString) (c : Char) :
    (s.dropWhile (fun x => x == c)).head? ≠ some c := by
  induction s with
  | nil => simp
  | cons x xs ih =>
    by_cases hx : x = c
    · simpa [List.dropWhile_cons, hx] using ih
    · simp [List.dropWhile_cons, hx]

theorem dropWhile_fixed (s : CString) (c : Char) (h : s.head? ≠ some c) :
    s.dropWhile (fun x => x == c) = s := by
  cases s with
  | nil => rfl
  | cons x xs =>
    have hx : x ≠ c := fun e => h (by simp [e])
    simp [List.dropWhile_cons, hx]

theorem logs_first_bind {W α β : Type} (MAX_REPEAT : Int) {e : State W → Event} {m : M W α}
    {f : α → M W β} (hm : LogsFirst e m) (hf : ∀ a, Obeys MAX_REPEAT (f a)) :
    LogsFirst e (m >>= f) := by
  intro st
  obtain ⟨evs, h⟩ := hm st
  rw [M.bind_apply]
  rcases hres : m st with ⟨c, st1⟩
  rw [hres] at h
  cases c with
  | val a =>
    obtain ⟨⟨_, _, evs2, h2, _⟩, _⟩ := hf a st1
    refine ⟨evs ++ evs2, ?_⟩
    dsimp only at h ⊢
    rw [h2, h]
    simp
  | exit x => exact ⟨evs, h⟩

theorem obeys_download_check_slow {W : Type} (MAX_REPEAT : Int) (E : Env W)
    (filename checksum_base : CString) (func : Hasher) :
    Obeys MAX_REPEAT (download_check_slow E MAX_REPEAT filename checksum_base func) := by
  unfold download_check_slow
  refine obeys_bind (obeys_checksum _ _ _ _) fun real => ?_
  split
  · exact obeys_pure _ _
  refine obeys_bind (obeys_download _ _ _) fun status => ?_
  split
  · exact obeys_pure _ _
  refine obeys_bind (obeys_checksum _ _ _ _) fun real2 => ?_
  split
  · exact obeys_pure _ _
  · split <;> exact obeys_pure _ _

theorem logs_first_download_check {W : Type} (E : Env W) (MAX_REPEAT : Int)
    (filename checksum_base : CString) (func : Hasher) :
    LogsFirst (gate_event filename checksum_base func)
      (download_check E MAX_REPEAT filename checksum_base func) := by
  intro st
  rw [download_check_eq]
  split_ifs
  · exact ⟨[], rfl⟩
  · obtain ⟨⟨_, _, evs, h, _⟩, _⟩ :=
      obeys_download_check_slow MAX_REPEAT E filename checksum_base func
        (noted filename checksum_base func st)
    refine ⟨evs, ?_⟩
    rw [h]
    simp [noted, gate_event]

theorem update4_entry_gate {W : Type} (E : Env W) (MAX_REPEAT : Int)
    (remotedir buf filename crc_base : CString) (hf : entry_filename remotedir buf = some filename)
    (hc : entry_crc_base buf = some crc_base) :
    LogsFirst (gate_event filename crc_base Hasher.crc32sum)
      (update4_entry E MAX_REPEAT remotedir buf) := by
  unfold update4_entry
  rw [hf, hc]
  dsimp only
  refine logs_first_bind MAX_REPEAT (logs_first_download_check _ _ _ _ _) fun status => ?_
  refine obeys_bind (obeys_after_check _ _) fun _ => ?_
  refine obeys_bind (obeys_get _) fun st => ?_
  split
  · refine obeys_bind (obeys_download_check _ _ _ _ _) fun status => ?_
    split
    · exact obeys_delete_stale_lzma _ _ _ _
    · exact obeys_after_check _ _
  · exact obeys_pure _ _

theorem update5x_entry_gate {W : Type} (E : Env W) (MAX_REPEAT : Int)
    (remotedir buf : CString) (e : Entry5) (he : entry5_parse remotedir buf = some e) :
    LogsFirst (gate_event e.filename e.sha_base Hasher.sha256sum)
      (update5x_entry E MAX_REPEAT remotedir buf) := by
  unfold update5x_entry
  rw [he]
  dsimp only
  refine logs_first_bind MAX_REPEAT (logs_first_download_check _ _ _ _ _) fun status => ?_
  refine obeys_bind (obeys_after_check _ _) fun _ => ?_
  refine obeys_bind (obeys_get _) fun st => ?_
  refine obeys_bind ?_ fun _ => obeys_update5x_lzma _ _ _ _ _
  split
  · exact obeys_wrong_size _
  · exact obeys_pure _ _

theorem entry_after_comma_some (buf : CString) (h : ',' ∈ buf) :
    ∃ field, entry_after_comma buf = some field := by
  unfold entry_after_comma
  rcases hs : strchr buf ',' with _ | t
  · exfalso
    unfold strchr at hs
    split at hs
    · rename_i heq
      rw [List.dropWhile_eq_nil_iff] at heq
      have := heq ',' h
      simp at this
    · cases hs
  · exact ⟨_, rfl⟩

theorem entry_after_comma_none (buf : CString) (h : ',' ∉ buf) :
    entry_after_comma buf = none := by
  unfold entry_after_comma
  rw [strchr_none buf ',' h]

theorem entry_filename_eq (remotedir buf : CString) :
    entry_filename remotedir buf =
      match strchr (remotedir ++ '/' :: entry_beg buf) ',' with
      | none => none
      | some _ => some (((remotedir ++ '/' :: entry_beg buf).takeWhile
          (fun x => x != ',')).takeWhile (fun x => x != '|')) := rfl

theorem takeWhile_append_all (a b : CString) (p : Char → Bool) (h : ∀ x ∈ a, p x = true) :
    (a ++ b).takeWhile p = a ++ b.takeWhile p := by
  induction a with
  | nil => rfl
  | cons x xs ih =>
    have hx : p x = true := h x (by simp)
    have hxs : ∀ y ∈ xs, p y = true := fun y hy => h y (by simp [hy])
    simp [List.takeWhile_cons, hx, ih hxs]

theorem entry_crc_base_eq (buf field : CString) (h : entry_after_comma buf = some field) :
    entry_crc_base buf = some ((field.take 8).dropWhile (fun x => x == '0')) := by
  unfold entry_crc_base
  rw [h]
  rfl

/-- C23: the CRC of a v4 line.  For a `+`, `=` or `!` line whose text after the
first comma and the spaces that follow it is `field`, the digest `crc_base` is
the first 8 characters of `field` without their leading `0` characters; it does
not start with `0`; normalising it again gives the same string; and it is the
value that `cache4` stores for the file and for its `.lzma` sibling and that
`update4` hands to the gate for the same line. -/
theorem crc_normalisation {W : Type} (E : Env W) (MAX_REPEAT : Int)
    (remotedir buf field : CString) (st : State W) (hline : is_download_line buf = true)
    (hfield : entry_after_comma buf = some field) :
    ∃ crc_base, crc_base = (field.take 8).dropWhile (fun x => x == '0') ∧
      entry_crc_base buf = some crc_base ∧
      crc_base.head? ≠ some '0' ∧
      (crc_base.take 8).dropWhile (fun x => x == '0') = crc_base ∧
      ∀ filename, entry_filename remotedir buf = some filename →
        (cache4_lines remotedir [buf] st).2.tree =
          avl_insert (avl_insert st.tree filename crc_base) (filename ++ ".lzma".toList)
            crc_base ∧
        ∃ evs, (update4_entry E MAX_REPEAT remotedir buf st).2.log =
          st.log ++ Event.download_check st.counter_global st.use_fast filename crc_base
            Hasher.crc32sum :: evs := by
  refine ⟨_, rfl, entry_crc_base_eq buf field hfield, dropWhile_head _ _, ?_, ?_⟩
  · have hlen : ((field.take 8).dropWhile (fun x => x == '0')).length ≤ 8 := by
      have h1 := (List.dropWhile_suffix (fun x => x == '0') (l := field.take 8)).length_le
      have h2 := List.length_take_le 8 field
      omega
    rw [List.take_of_length_le hlen]
    exact dropWhile_fixed _ _ (dropWhile_head _ _)
  · intro filename hf
    refine ⟨?_, update4_entry_gate E MAX_REPEAT remotedir buf filename _ hf
      (entry_crc_base_eq buf field hfield) st⟩
    simp [cache4_lines, M.bind_apply, hline, hf, entry_crc_base_eq buf field hfield, M.get,
      M.set_tree]

/-- The line `+drweb32.dll, 0000ABCD` has the digest `ABCD`, in `cache4` and in
`update4`. -/
theorem crc_normalisation_witness :
    entry_crc_base "+drweb32.dll, 0000ABCD".toList = some "ABCD".toList ∧
    (cache4_lines "d".toList ["+drweb32.dll, 0000ABCD".toList] (smallState [] [] false [])).2.tree =
      [("d/drweb32.dll.lzma".toList, "ABCD".toList), ("d/drweb32.dll".toList, "ABCD".toList)] ∧
    ((update4_entry smallEnv 3 "d".toList "+drweb32.dll, 0000ABCD".toList
      (smallState [] [] false [])).2.log.head? =
      some (Event.download_check 0 false "d/drweb32.dll".toList "ABCD".toList Hasher.crc32sum)) := by
  obtain ⟨crc_base, h1, h2, _, _, h5⟩ := crc_normalisation smallEnv 3 "d".toList
    "+drweb32.dll, 0000ABCD".toList "0000ABCD".toList (smallState [] [] false []) (by decide)
    (by decide)
  have hc : crc_base = "ABCD".toList := by rw [h1]; decide
  subst hc
  obtain ⟨h6, evs, h7⟩ := h5 "d/drweb32.dll".toList (by decide)
  refine ⟨h2, ?_, ?_⟩
  · rw [h6]; decide
  · rw [h7]; rfl

/-- C24: a line that begins with `+`, `=`, `!` or `-` and has no comma is not
skipped.  `update4` and `update5x_internal` take it for an entry, and the
statement `* strchr(filename, ',') = '\0';` (or `tmp = strchr(buf, ','); do
tmp++; ...`) then goes through the null pointer that `strchr` returns: the
behaviour is undefined and the remaining lines are not processed.  Lines that
begin with any other character are passed over and the loop goes on with the
next line. -/
theorem entry_without_comma_is_undefined {W : Type} (E : Env W) (MAX_REPEAT : Int)
    (remotedir buf : CString) (rest : List CString) (st : State W)
    (hop : is_download_line buf = true ∨ buf.head? = some '-') (hcomma : ',' ∉ buf) :
    update4_lines E MAX_REPEAT remotedir (buf :: rest) st = (Ctl.exit Exit.undef, st) ∧
    update5x_lines E MAX_REPEAT remotedir (buf :: rest) st = (Ctl.exit Exit.undef, st) ∧
    ∀ other : CString, is_download_line other = false → other.head? ≠ some '-' →
      update4_lines E MAX_REPEAT remotedir (other :: rest) st =
        update4_lines E MAX_REPEAT remotedir rest st ∧
      update5x_lines E MAX_REPEAT remotedir (other :: rest) st =
        update5x_lines E MAX_REPEAT remotedir rest st := by
  have hnone := entry_after_comma_none buf hcomma
  have h4 : update4_entry E MAX_REPEAT remotedir buf = M.exit Exit.undef := by
    unfold update4_entry entry_crc_base
    rw [hnone]
    cases entry_filename remotedir buf <;> rfl
  have h5 : update5x_entry E MAX_REPEAT remotedir buf = M.exit Exit.undef := by
    unfold update5x_entry entry5_parse
    rw [hnone]
    cases entry_filename remotedir buf <;> rfl
  have hd : delete_entry E remotedir buf = M.exit Exit.undef := by
    unfold delete_entry
    have : ',' ∉ buf.tail := fun h => hcomma (List.mem_of_mem_tail h)
    rw [strchr_none _ _ this]
  refine ⟨?_, ?_, fun other h1 h2 => ⟨?_, ?_⟩⟩
  · rcases hop with hop | hop
    · simp [update4_lines, M.bind_apply, hop, h4, M.exit]
    · have hno : is_download_line buf = false := by simp [is_download_line, hop]
      simp [update4_lines, M.bind_apply, hop, hno, hd, M.exit]
  · rcases hop with hop | hop
    · simp [update5x_lines, M.bind_apply, hop, h5, M.exit]
    · have hno : is_download_line buf = false := by simp [is_download_line, hop]
      simp [update5x_lines, M.bind_apply, hop, hno, hd, M.exit]
  · simp [update4_lines, M.bind_apply, h1, h2]
  · simp [update5x_lines, M.bind_apply, h1, h2]

/-- The manifest line `+drweb32.dll` (no comma) makes both engines leave the
defined behaviour, although a valid line follows; the line `-drweb32.dll` does
the same. -/
theorem entry_without_comma_is_undefined_witness :
    update4_lines smallEnv 3 "d".toList ["+drweb32.dll".toList, "+a, AB".toList]
      (smallState [] [] false []) = (Ctl.exit Exit.undef, smallState [] [] false []) ∧
    update5x_lines smallEnv 3 "d".toList ["+drweb32.dll".toList, "+a, AB".toList]
      (smallState [] [] false []) = (Ctl.exit Exit.undef, smallState [] [] false []) ∧
    update4_lines smallEnv 3 "d".toList ["-drweb32.dll".toList, "+a, AB".toList]
      (smallState [] [] false []) = (Ctl.exit Exit.undef, smallState [] [] false []) :=
  ⟨(entry_without_comma_is_undefined smallEnv 3 "d".toList "+drweb32.dll".toList
      ["+a, AB".toList] (smallState [] [] false []) (Or.inl (by decide)) (by decide)).1,
    (entry_without_comma_is_undefined smallEnv 3 "d".toList "+drweb32.dll".toList
      ["+a, AB".toList] (smallState [] [] false []) (Or.inl (by decide)) (by decide)).2.1,
    (entry_without_comma_is_undefined smallEnv 3 "d".toList "-drweb32.dll".toList
      ["+a, AB".toList] (smallState [] [] false []) (Or.inr (by decide)) (by decide)).1⟩

theorem entry_filename_under_dir (remotedir buf path : CString) (h1 : ',' ∉ remotedir)
    (h2 : '|' ∉ remotedir) (h : entry_filename remotedir buf = some path) :
    (remotedir ++ ['/']) <+: path := by
  rw [entry_filename_eq] at h
  split at h
  · cases h
  · injection h with h
    rw [← h, takeWhile_append_all remotedir _ _ (fun x hx => by
        have : x ≠ ',' := fun e => h1 (e ▸ hx)
        simpa using this),
      takeWhile_append_all remotedir _ _ (fun x hx => by
        have : x ≠ '|' := fun e => h2 (e ▸ hx)
        simpa using this)]
    simp [List.takeWhile_cons]

/-- C22: a target directory that contains a comma is cut by the parser.  With
`remotedir = dir1 ++ "," ++ dir2` (no comma in `dir1`) the statement
`* strchr(filename, ',') = '\0';` finds the comma of the directory, not that of
the line, so the path of every `+`, `=` or `!` line is what stands before the
first comma (and before the first `|`) of `dir1`: it does not begin with
`remotedir/`, and it is the path that `update4` hands to the gate and that
`update5x_internal` parses.  A `|` in the directory cuts the path in the same way.
When the directory has neither character, the path begins with `remotedir/`. -/
theorem remotedir_with_comma_is_cut {W : Type} (E : Env W) (MAX_REPEAT : Int)
    (dir1 dir2 buf : CString) (st : State W) (hdir : ',' ∉ dir1) (hcomma : ',' ∈ buf) :
    entry_filename (dir1 ++ ',' :: dir2) buf = some (dir1.takeWhile (fun x => x != '|')) ∧
    ¬ ((dir1 ++ ',' :: dir2) ++ ['/']) <+: dir1.takeWhile (fun x => x != '|') ∧
    (∃ crc_base evs, (update4_entry E MAX_REPEAT (dir1 ++ ',' :: dir2) buf st).2.log =
      st.log ++ Event.download_check st.counter_global st.use_fast
        (dir1.takeWhile (fun x => x != '|')) crc_base Hasher.crc32sum :: evs) ∧
    (∀ e, entry5_parse (dir1 ++ ',' :: dir2) buf = some e →
      e.filename = dir1.takeWhile (fun x => x != '|')) ∧
    (∀ path, '|' ∉ dir1 → entry_filename (dir1 ++ '|' :: dir2) buf = some path → path = dir1) ∧
    (∀ remotedir path, ',' ∉ remotedir → '|' ∉ remotedir →
      entry_filename remotedir buf = some path → (remotedir ++ ['/']) <+: path) := by
  have hf : entry_filename (dir1 ++ ',' :: dir2) buf =
      some (dir1.takeWhile (fun x => x != '|')) := by
    rw [entry_filename_eq, List.append_assoc, List.cons_append, strchr_found _ _ _ hdir,
      takeWhile_found _ _ _ hdir]
  refine ⟨hf, fun hp => ?_, ?_, fun e he => ?_, fun path hbar hp => ?_,
    fun remotedir path h1 h2 h => entry_filename_under_dir remotedir buf path h1 h2 h⟩
  · have h1 := hp.length_le
    have h2 := ( List.takeWhile_prefix (fun x => x != '|') (l := dir1)).length_le
    simp at h1
    omega
  · obtain ⟨field, hfield⟩ := entry_after_comma_some buf hcomma
    exact ⟨_, update4_entry_gate E MAX_REPEAT _ buf _ _ hf (entry_crc_base_eq buf field hfield) st⟩
  · unfold entry5_parse at he
    rw [hf] at he
    rcases hac : entry_after_comma buf with _ | tmp
    · rw [hac] at he
      cases he
    · rw [hac] at he
      dsimp only at he
      rcases hz : entry_sizes tmp with _ | z
      · rw [hz] at he
        cases he
      · rw [hz] at he
        injection he with he
        rw [← he]
  · rw [entry_filename_eq] at hp
    split at hp
    · cases hp
    · injection hp with hp
      rw [← hp, List.append_assoc, List.cons_append,
        takeWhile_append_all dir1 _ _ (fun x hx => by
          have : x ≠ ',' := fun e => hdir (e ▸ hx)
          simpa using this),
        takeWhile_append_all dir1 _ _ (fun x hx => by
          have : x ≠ '|' := fun e => hbar (e ▸ hx)
          simpa using this)]
      simp [List.takeWhile_cons]

/-- With the target directory `mirror,v4` the line `+drweb32.dll, 0000ABCD` is
given the path `mirror`. -/
theorem remotedir_with_comma_is_cut_witness :
    entry_filename "mirror,v4".toList "+drweb32.dll, 0000ABCD".toList = some "mirror".toList ∧
    ¬ ("mirror,v4".toList ++ ['/']) <+: "mirror".toList :=
  ⟨(remotedir_with_comma_is_cut smallEnv 3 "mirror".toList "v4".toList
      "+drweb32.dll, 0000ABCD".toList (smallState [] [] false []) (by decide) (by decide)).1,
    (remotedir_with_comma_is_cut smallEnv 3 "mirror".toList "v4".toList
      "+drweb32.dll, 0000ABCD".toList (smallState [] [] false []) (by decide) (by decide)).2.1⟩

theorem entry_beg_clean (op : Char) (marker pfx rest : CString)
    (hmarker : (marker = [] ∧ '>' ∉ pfx ++ rest) ∨ ∃ p, marker = '<' :: p ++ ['>'] ∧ '>' ∉ p)
    (hpfx : pfx = [] ∨ ∃ d, pfx = d ++ [BACKSLASH])
    (hrest : BACKSLASH ∉ rest) :
    entry_beg (op :: (marker ++ (pfx ++ rest))) = rest := by
  have h1 : (match strchr (marker ++ (pfx ++ rest)) '>' with
      | some tmp => tmp.tail
      | none => marker ++ (pfx ++ rest)) = pfx ++ rest := by
    rcases hmarker with ⟨hm, hgt⟩ | ⟨p, hm, hgt⟩
    · subst hm
      rw [List.nil_append, strchr_none _ _ hgt]
    · subst hm
      have : '>' ∉ '<' :: p := by
        intro h
        rcases List.mem_cons.1 h with h | h
        · exact absurd h (by decide)
        · exact hgt h
      rw [show ('<' :: p ++ ['>']) ++ (pfx ++ rest) = ('<' :: p) ++ '>' :: (pfx ++ rest) by simp,
        strchr_found _ _ _ this]
      rfl
  have h2 : (match strrchr (pfx ++ rest) BACKSLASH with
      | some tmp => tmp.tail
      | none => pfx ++ rest) = rest := by
    rcases hpfx with hp | ⟨d, hp⟩
    · subst hp
      rw [List.nil_append, strrchr_none _ _ hrest]
    · subst hp
      rw [show (d ++ [BACKSLASH]) ++ rest = d ++ BACKSLASH :: rest by simp,
        strrchr_found _ _ _ hrest]
      rfl
  show (match strrchr (match strchr (marker ++ (pfx ++ rest)) '>' with
      | some tmp => tmp.tail
      | none => marker ++ (pfx ++ rest)) BACKSLASH with
    | some tmp => tmp.tail
    | none => (match strchr (marker ++ (pfx ++ rest)) '>' with
      | some tmp => tmp.tail
      | none => marker ++ (pfx ++ rest))) = rest
  rw [h1, h2]

/-- C21: the path and the digest of a `+`, `=` or `!` line.  For the line
`op marker pfx name args , digest` the path is `remotedir/name` and the digest
is what follows the comma and its spaces, and `update4` hands both to the gate,
when, besides what is asked of `name` and `remotedir`, the parts around the
name are free of the characters that the code searches for in the whole line:
no `>` in the platform, nor (without a marker) in `pfx`, `args` and `digest`;
no backslash in `args` and `digest`; no comma in `marker`, `pfx` and `args`.
Without these conditions the statement fails: in
`!drwreg.exe|-d C:\tmp, FE7E4B36` the search `strrchr(beg, '\\')` finds the
backslash of the arguments and the path becomes `d/tmp`, which the gate then
receives; in `=<w95,wnt>spider.vxd, C54AAA37` the search `strchr(buf, ',')`
finds the comma of the marker and the digest becomes `wnt>spid`. -/
theorem path_extraction {W : Type} (E : Env W) (MAX_REPEAT : Int) (st : State W)
    (remotedir marker pfx name args digest : CString) (op : Char)
    (hop : op = '+' ∨ op = '=' ∨ op = '!')
    (hmarker : (marker = [] ∧ '>' ∉ pfx ++ args ++ digest) ∨
      ∃ p, marker = '<' :: p ++ ['>'] ∧ '>' ∉ p)
    (hpfx : pfx = [] ∨ ∃ d, pfx = d ++ [BACKSLASH])
    (hargs : args = [] ∨ ∃ a, args = '|' :: a)
    (hname : '>' ∉ name ∧ BACKSLASH ∉ name ∧ ',' ∉ name ∧ '|' ∉ name)
    (hdir : ',' ∉ remotedir ∧ '|' ∉ remotedir)
    (hback : BACKSLASH ∉ args ++ digest)
    (hcomma : ',' ∉ marker ++ pfx ++ args) :
    (entry_filename remotedir (op :: marker ++ pfx ++ name ++ args ++ ',' :: digest) =
        some (remotedir ++ '/' :: name) ∧
      entry_after_comma (op :: marker ++ pfx ++ name ++ args ++ ',' :: digest) =
        some (digest.dropWhile (fun x => x == ' ')) ∧
      (∃ evs, (update4_entry E MAX_REPEAT remotedir
            (op :: marker ++ pfx ++ name ++ args ++ ',' :: digest) st).2.log =
          st.log ++ Event.download_check st.counter_global st.use_fast (remotedir ++ '/' :: name)
            (((digest.dropWhile (fun x => x == ' ')).take 8).dropWhile (fun x => x == '0'))
            Hasher.crc32sum :: evs) ∧
      ∀ e, entry5_parse remotedir (op :: marker ++ pfx ++ name ++ args ++ ',' :: digest) =
          some e →
        e.filename = remotedir ++ '/' :: name ∧
        e.sha_base = (digest.dropWhile (fun x => x == ' ')).take 64) ∧
    (entry_filename "d".toList "!drwreg.exe|-d C:\\tmp, FE7E4B36".toList = some "d/tmp".toList ∧
      (update4_entry smallEnv 3 "d".toList "!drwreg.exe|-d C:\\tmp, FE7E4B36".toList
          (smallState [] [] false [])).2.log.head? =
        some (Event.download_check 0 false "d/tmp".toList "FE7E4B36".toList Hasher.crc32sum) ∧
      entry_crc_base "=<w95,wnt>spider.vxd, C54AAA37".toList = some "wnt>spid".toList) := by
  simp only [List.mem_append, not_or] at hmarker hback hcomma
  have hline : op :: marker ++ pfx ++ name ++ args ++ ',' :: digest =
      op :: (marker ++ (pfx ++ (name ++ (args ++ ',' :: digest)))) := by simp
  have hop1 : op ≠ ',' := by rcases hop with h | h | h <;> subst h <;> decide
  have hbeg : entry_beg (op :: marker ++ pfx ++ name ++ args ++ ',' :: digest) =
      name ++ (args ++ ',' :: digest) := by
    rw [hline]
    refine entry_beg_clean op marker pfx _ ?_ hpfx ?_
    · rcases hmarker with ⟨hm, hgt⟩ | h
      · refine Or.inl ⟨hm, ?_⟩
        simp only [List.mem_append, List.mem_cons, not_or]
        exact ⟨hgt.1.1, hname.1, hgt.1.2, by decide, hgt.2⟩
      · exact Or.inr h
    · simp only [List.mem_append, List.mem_cons, not_or]
      exact ⟨hname.2.1, hback.1, by decide, hback.2⟩
  have hfn : entry_filename remotedir (op :: marker ++ pfx ++ name ++ args ++ ',' :: digest) =
      some (remotedir ++ '/' :: name) := by
    have hfront : ',' ∉ remotedir ++ '/' :: (name ++ args) := by
      simp only [List.mem_append, List.mem_cons, not_or]
      exact ⟨hdir.1, by decide, hname.2.2.1, hcomma.2⟩
    rw [entry_filename_eq, hbeg,
      show remotedir ++ '/' :: (name ++ (args ++ ',' :: digest)) =
        (remotedir ++ '/' :: (name ++ args)) ++ ',' :: digest by simp,
      strchr_found _ _ _ hfront, takeWhile_found _ _ _ hfront]
    have hbar : '|' ∉ remotedir ++ '/' :: name := by
      simp only [List.mem_append, List.mem_cons, not_or]
      exact ⟨hdir.2, by decide, hname.2.2.2⟩
    rcases hargs with ha | ⟨a, ha⟩
    · subst ha
      rw [List.append_nil, takeWhile_all _ _ hbar]
    · subst ha
      rw [show remotedir ++ '/' :: (name ++ '|' :: a) = (remotedir ++ '/' :: name) ++ '|' :: a
        by simp, takeWhile_found _ _ _ hbar]
  have hac : entry_after_comma (op :: marker ++ pfx ++ name ++ args ++ ',' :: digest) =
      some (digest.dropWhile (fun x => x == ' ')) := by
    have hfront : ',' ∉ op :: (marker ++ (pfx ++ (name ++ args))) := by
      simp only [List.mem_append, List.mem_cons, not_or]
      exact ⟨fun h => hop1 h.symm, hcomma.1.1, hcomma.1.2, hname.2.2.1, hcomma.2⟩
    unfold entry_after_comma
    rw [show op :: marker ++ pfx ++ name ++ args ++ ',' :: digest =
        (op :: (marker ++ (pfx ++ (name ++ args)))) ++ ',' :: digest by simp,
      strchr_found _ _ _ hfront]
    rfl
  refine ⟨⟨hfn, hac, update4_entry_gate E MAX_REPEAT remotedir _ _ _ hfn
    (entry_crc_base_eq _ _ hac) st, fun e he => ?_⟩, by decide, by decide!, by decide⟩
  unfold entry5_parse at he
  rw [hfn, hac] at he
  dsimp only at he
  rcases hz : entry_sizes (digest.dropWhile (fun x => x == ' ')) with _ | z
  · rw [hz] at he
    cases he
  · rw [hz] at he
    injection he with he
    rw [← he]
    exact ⟨rfl, rfl⟩

/-- The line `=<wnt>%SYSDIR%\spider.cpl, 871D501E` gives `d/spider.cpl` and
`871D501E`. -/
theorem path_extraction_witness :
    entry_filename "d".toList "=<wnt>%SYSDIR%\\spider.cpl, 871D501E".toList =
      some "d/spider.cpl".toList ∧
    entry_after_comma "=<wnt>%SYSDIR%\\spider.cpl, 871D501E".toList = some "871D501E".toList :=
  ⟨(path_extraction smallEnv 3 (smallState [] [] false []) "d".toList "<wnt>".toList
      "%SYSDIR%\\".toList "spider.cpl".toList [] " 871D501E".toList '=' (by decide)
      (Or.inr ⟨"wnt".toList, rfl, by decide⟩) (Or.inr ⟨"%SYSDIR%".toList, rfl⟩) (Or.inl rfl)
      (by decide) (by decide) (by decide) (by decide)).1.1,
    (path_extraction smallEnv 3 (smallState [] [] false []) "d".toList "<wnt>".toList
      "%SYSDIR%\\".toList "spider.cpl".toList [] " 871D501E".toList '=' (by decide)
      (Or.inr ⟨"wnt".toList, rfl, by decide⟩) (Or.inr ⟨"%SYSDIR%".toList, rfl⟩) (Or.inl rfl)
      (by decide) (by decide) (by decide) (by decide)).1.2.1⟩

theorem avl_hash_insert_same (tree : AvlTree) (key value : CString) :
    avl_hash (avl_insert tree key value) key = some value := by
  simp [avl_hash, avl_insert]

theorem avl_hash_insert_other (tree : AvlTree) (key value other : CString) (h : other ≠ key) :
    avl_hash (avl_insert tree key value) other = avl_hash tree other := by
  have h1 : (key == other) = false := by simpa using fun e => h e.symm
  have h2 : ∀ t : AvlTree, (t.filter (fun kv => kv.1 != key)).find? (fun kv => kv.1 == other) =
      t.find? (fun kv => kv.1 == other) := by
    intro t
    induction t with
    | nil => rfl
    | cons a t ih =>
      by_cases ha : a.1 = key
      · have hn : ¬ (a.1 != key) = true := by simp [ha]
        have ho : ¬ (a.1 == other) = true := by rw [ha, h1]; simp
        rw [List.filter_cons_of_neg (p := fun kv => kv.1 != key) (a := a) hn, List.find?_cons_of_neg (p := fun kv => kv.1 == other) (a := a) _ ho, ih]
      · have hp : (a.1 != key) = true := by simpa using ha
        rw [List.filter_cons_of_pos (p := fun kv => kv.1 != key) (a := a) hp]
        by_cases hb : (a.1 == other) = true
        · rw [List.find?_cons_of_pos (p := fun kv => kv.1 == other) (a := a) _ hb,
            List.find?_cons_of_pos (p := fun kv => kv.1 == other) (a := a) _ hb]
        · rw [List.find?_cons_of_neg (p := fun kv => kv.1 == other) (a := a) _ hb,
            List.find?_cons_of_neg (p := fun kv => kv.1 == other) (a := a) _ hb, ih]
  unfold avl_hash avl_insert
  rw [List.find?_cons]
  simp only [h1]
  rw [h2]

theorem lzma_name_ne (f : CString) : f ≠ f ++ ".lzma".toList := by
  intro h
  have := congrArg List.length h
  simp at this

theorem cache4_lines_cons {W : Type} (remotedir buf : CString) (rest : List CString)
    (st : State W) :
    cache4_lines remotedir (buf :: rest) st =
      if is_download_line buf = true then
        match entry_filename remotedir buf, entry_crc_base buf with
        | some filename, some crc_base =>
          cache4_lines remotedir rest
            { st with
              tree := avl_insert (avl_insert st.tree filename crc_base)
                (filename ++ ".lzma".toList) crc_base }
        | _, _ => (Ctl.exit Exit.undef, st)
      else cache4_lines remotedir rest st := by
  by_cases h : is_download_line buf = true
  · rcases hf : entry_filename remotedir buf with _ | f <;>
      rcases hc : entry_crc_base buf with _ | c <;>
      simp [cache4_lines, M.bind_apply, h, hf, hc, M.exit, M.get, M.set_tree]
  · simp [cache4_lines, M.bind_apply, h]

theorem cache5_lines_cons {W : Type} (remotedir buf : CString) (rest : List CString)
    (st : State W) :
    cache5_lines remotedir (buf :: rest) st =
      if is_download_line buf = true then
        match entry_filename remotedir buf, entry_sha_base buf with
        | some filename, some sha_base =>
          cache5_lines remotedir rest
            { st with
              tree := avl_insert (avl_insert st.tree filename sha_base)
                (filename ++ ".lzma".toList) sha_base }
        | _, _ => (Ctl.exit Exit.undef, st)
      else cache5_lines remotedir rest st := by
  by_cases h : is_download_line buf = true
  · rcases hf : entry_filename remotedir buf with _ | f <;>
      rcases hc : entry_sha_base buf with _ | c <;>
      simp [cache5_lines, M.bind_apply, h, hf, hc, M.exit, M.get, M.set_tree]
  · simp [cache5_lines, M.bind_apply, h]

theorem cache4_lines_keeps {W : Type} (remotedir key value : CString) :
    ∀ (lines : List CString) (st st1 : State W),
      cache4_lines remotedir lines st = (Ctl.val (), st1) →
      avl_hash st.tree key = some value →
      (∀ l ∈ lines, is_download_line l = true → ∀ p, entry_filename remotedir l = some p →
        p ≠ key ∧ p ++ ".lzma".toList ≠ key) →
      avl_hash st1.tree key = some value := by
  intro lines
  induction lines with
  | nil =>
    intro st st1 h hk _
    cases h
    exact hk
  | cons buf rest ih =>
    intro st st1 h hk hl
    rw [cache4_lines_cons] at h
    by_cases hd : is_download_line buf = true
    · rw [if_pos hd] at h
      rcases hf : entry_filename remotedir buf with _ | f
      · rw [hf] at h; cases h
      · rcases hc : entry_crc_base buf with _ | c
        · rw [hf, hc] at h; cases h
        · rw [hf, hc] at h
          obtain ⟨n1, n2⟩ := hl buf (by simp) hd f hf
          refine ih _ st1 h ?_ fun l hm => hl l (by simp [hm])
          show avl_hash (avl_insert (avl_insert st.tree f c) (f ++ ".lzma".toList) c) key = _
          rw [avl_hash_insert_other _ _ _ _ (Ne.symm n2),
            avl_hash_insert_other _ _ _ _ (Ne.symm n1)]
          exact hk
    · rw [if_neg hd] at h
      exact ih st st1 h hk fun l hm => hl l (by simp [hm])

theorem cache5_lines_keeps {W : Type} (remotedir key value : CString) :
    ∀ (lines : List CString) (st st1 : State W),
      cache5_lines remotedir lines st = (Ctl.val (), st1) →
      avl_hash st.tree key = some value →
      (∀ l ∈ lines, is_download_line l = true → ∀ p, entry_filename remotedir l = some p →
        p ≠ key ∧ p ++ ".lzma".toList ≠ key) →
      avl_hash st1.tree key = some value := by
  intro lines
  induction lines with
  | nil =>
    intro st st1 h hk _
    cases h
    exact hk
  | cons buf rest ih =>
    intro st st1 h hk hl
    rw [cache5_lines_cons] at h
    by_cases hd : is_download_line buf = true
    · rw [if_pos hd] at h
      rcases hf : entry_filename remotedir buf with _ | f
      · rw [hf] at h; cases h
      · rcases hc : entry_sha_base buf with _ | c
        · rw [hf, hc] at h; cases h
        · rw [hf, hc] at h
          obtain ⟨n1, n2⟩ := hl buf (by simp) hd f hf
          refine ih _ st1 h ?_ fun l hm => hl l (by simp [hm])
          show avl_hash (avl_insert (avl_insert st.tree f c) (f ++ ".lzma".toList) c) key = _
          rw [avl_hash_insert_other _ _ _ _ (Ne.symm n2),
            avl_hash_insert_other _ _ _ _ (Ne.symm n1)]
          exact hk
    · rw [if_neg hd] at h
      exact ih st st1 h hk fun l hm => hl l (by simp [hm])

theorem cache4_lines_split {W : Type} (remotedir : CString) (rest : List CString) :
    ∀ (pre : List CString) (st st1 : State W),
      cache4_lines remotedir (pre ++ rest) st = (Ctl.val (), st1) →
      ∃ sa, cache4_lines remotedir rest sa = (Ctl.val (), st1) := by
  intro pre
  induction pre with
  | nil => exact fun st st1 h => ⟨st, h⟩
  | cons buf pre ih =>
    intro st st1 h
    rw [List.cons_append, cache4_lines_cons] at h
    by_cases hd : is_download_line buf = true
    · rw [if_pos hd] at h
      rcases hf : entry_filename remotedir buf with _ | f
      · rw [hf] at h; cases h
      · rcases hc : entry_crc_base buf with _ | c
        · rw [hf, hc] at h; cases h
        · rw [hf, hc] at h
          exact ih _ st1 h
    · rw [if_neg hd] at h
      exact ih st st1 h

theorem cache5_lines_split {W : Type} (remotedir : CString) (rest : List CString) :
    ∀ (pre : List CString) (st st1 : State W),
      cache5_lines remotedir (pre ++ rest) st = (Ctl.val (), st1) →
      ∃ sa, cache5_lines remotedir rest sa = (Ctl.val (), st1) := by
  intro pre
  induction pre with
  | nil => exact fun st st1 h => ⟨st, h⟩
  | cons buf pre ih =>
    intro st st1 h
    rw [List.cons_append, cache5_lines_cons] at h
    by_cases hd : is_download_line buf = true
    · rw [if_pos hd] at h
      rcases hf : entry_filename remotedir buf with _ | f
      · rw [hf] at h; cases h
      · rcases hc : entry_sha_base buf with _ | c
        · rw [hf, hc] at h; cases h
        · rw [hf, hc] at h
          exact ih _ st1 h
    · rw [if_neg hd] at h
      exact ih st st1 h

theorem fast_gate_hit {W : Type} (E : Env W) (MAX_REPEAT : Int) (key digest : CString)
    (func : Hasher) (s : State W) (hfast : s.use_fast = true)
    (hkey : avl_hash s.tree key = some digest) (hex : E.exist s.world key = true) :
    download_check E MAX_REPEAT key digest func s =
      (Ctl.val DL_EXIST, noted key digest func s) := by
  have : fast_check E key digest s = true := by
    simp [fast_check, hfast, hex, hkey, avl_hash_nonempty _ _ _ hkey]
  rw [download_check_eq, if_pos this]

theorem entry5_parse_fields (remotedir buf : CString) (e : Entry5)
    (h : entry5_parse remotedir buf = some e) :
    entry_filename remotedir buf = some e.filename ∧ entry_sha_base buf = some e.sha_base := by
  unfold entry5_parse at h
  unfold entry_sha_base
  rcases hf : entry_filename remotedir buf with _ | f
  · rw [hf] at h; cases h
  · rcases hac : entry_after_comma buf with _ | tmp
    · rw [hf, hac] at h; cases h
    · rw [hf, hac] at h
      dsimp only at h
      rcases hz : entry_sizes tmp with _ | z
      · rw [hz] at h; cases h
      · rw [hz] at h
        injection h with h
        rw [← h]
        exact ⟨rfl, rfl⟩

theorem index_keys_found {W : Type} (E : Env W) (MAX_REPEAT : Int) (remotedir f c : CString)
    (post : List CString) (sa st1 s : State W)
    (hlater : ∀ l ∈ post, is_download_line l = true → ∀ p, entry_filename remotedir l = some p →
      p ≠ f ∧ p ++ ".lzma".toList ≠ f ∧ p ≠ f ++ ".lzma".toList)
    (hs : s.tree = st1.tree ∧ s.use_fast = true)
    (keeps : ∀ key, avl_hash (avl_insert (avl_insert sa.tree f c) (f ++ ".lzma".toList) c) key =
        some c →
      (∀ l ∈ post, is_download_line l = true → ∀ p, entry_filename remotedir l = some p →
        p ≠ key ∧ p ++ ".lzma".toList ≠ key) → avl_hash st1.tree key = some c)
    (key : CString) (hkey : key = f ∨ key = f ++ ".lzma".toList) :
    avl_hash st1.tree key = some c ∧
      ∀ func, E.exist s.world key = true →
        download_check E MAX_REPEAT key c func s = (Ctl.val DL_EXIST, noted key c func s) := by
  have h1 : avl_hash st1.tree key = some c := by
    rcases hkey with hk | hk
    · subst hk
      refine keeps key ?_ fun l hl hd p hp => ⟨(hlater l hl hd p hp).1, (hlater l hl hd p hp).2.1⟩
      rw [avl_hash_insert_other _ _ _ _ (lzma_name_ne key), avl_hash_insert_same]
    · subst hk
      refine keeps _ (avl_hash_insert_same _ _ _) fun l hl hd p hp =>
        ⟨(hlater l hl hd p hp).2.2, fun h => (hlater l hl hd p hp).1 (List.append_cancel_right h)⟩
  refine ⟨h1, fun func hex => fast_gate_hit E MAX_REPEAT key c func s hs.2 ?_ hex⟩
  rw [hs.1]
  exact h1

/-- C28: the index of `cache4` and `cache5` holds what the engine computes.
For a `+`, `=` or `!` line for which `update4` computes the path `filename` and
the digest `crc_base` (resp. `update5x_internal` the fields `e`), and hands
them to the gate, the step of `cache4` (resp. `cache5`) on this line is
exactly the two insertions of `(filename, crc_base)` and
`(filename.lzma, crc_base)`.  When the manifest `pre ++ buf :: post` has been
cached without a later line that names the same path, its `.lzma` sibling or
a path whose sibling it is, the index gives this digest for both keys, and in
fast mode a call of the gate with it for a key that exists returns `DL_EXIST`
from the index, with no other step than the note of the call. -/
theorem index_agrees_with_engine {W : Type} (E : Env W) (MAX_REPEAT : Int)
    (remotedir buf : CString) (pre post : List CString) (st st1 s : State W)
    (hline : is_download_line buf = true)
    (hlater : ∀ l ∈ post, is_download_line l = true → ∀ p f,
      entry_filename remotedir l = some p → entry_filename remotedir buf = some f →
      p ≠ f ∧ p ++ ".lzma".toList ≠ f ∧ p ≠ f ++ ".lzma".toList)
    (hs : s.tree = st1.tree ∧ s.use_fast = true) :
    (∀ filename crc_base, entry_filename remotedir buf = some filename →
      entry_crc_base buf = some crc_base →
      cache4_lines remotedir [buf] st = (Ctl.val (), { st with
        tree := avl_insert (avl_insert st.tree filename crc_base) (filename ++ ".lzma".toList)
          crc_base }) ∧
      (∃ evs, (update4_entry E MAX_REPEAT remotedir buf s).2.log = s.log ++
        Event.download_check s.counter_global s.use_fast filename crc_base Hasher.crc32sum ::
          evs) ∧
      (cache4_lines remotedir (pre ++ buf :: post) st = (Ctl.val (), st1) →
        ∀ key, key = filename ∨ key = filename ++ ".lzma".toList →
          avl_hash st1.tree key = some crc_base ∧
          ∀ func, E.exist s.world key = true →
            download_check E MAX_REPEAT key crc_base func s =
              (Ctl.val DL_EXIST, noted key crc_base func s))) ∧
    (∀ e, entry5_parse remotedir buf = some e →
      cache5_lines remotedir [buf] st = (Ctl.val (), { st with
        tree := avl_insert (avl_insert st.tree e.filename e.sha_base)
          (e.filename ++ ".lzma".toList) e.sha_base }) ∧
      (∃ evs, (update5x_entry E MAX_REPEAT remotedir buf s).2.log = s.log ++
        Event.download_check s.counter_global s.use_fast e.filename e.sha_base
          Hasher.sha256sum :: evs) ∧
      (cache5_lines remotedir (pre ++ buf :: post) st = (Ctl.val (), st1) →
        ∀ key, key = e.filename ∨ key = e.filename ++ ".lzma".toList →
          avl_hash st1.tree key = some e.sha_base ∧
          ∀ func, E.exist s.world key = true →
            download_check E MAX_REPEAT key e.sha_base func s =
              (Ctl.val DL_EXIST, noted key e.sha_base func s))) := by
  constructor
  · intro f c hf hc
    refine ⟨?_, update4_entry_gate E MAX_REPEAT remotedir buf f c hf hc s, fun hrun key hkey => ?_⟩
    · rw [cache4_lines_cons, if_pos hline, hf, hc]
      rfl
    · obtain ⟨sa, hsa⟩ := cache4_lines_split remotedir (buf :: post) pre st st1 hrun
      rw [cache4_lines_cons, if_pos hline, hf, hc] at hsa
      exact index_keys_found E MAX_REPEAT remotedir f c post sa st1 s
        (fun l hl hd p hp => hlater l hl hd p f hp hf) hs
        (fun k hk hl => cache4_lines_keeps remotedir k c post _ st1 hsa hk hl) key hkey
  · intro e he
    obtain ⟨hf, hc⟩ := entry5_parse_fields remotedir buf e he
    refine ⟨?_, update5x_entry_gate E MAX_REPEAT remotedir buf e he s, fun hrun key hkey => ?_⟩
    · rw [cache5_lines_cons, if_pos hline, hf, hc]
      rfl
    · obtain ⟨sa, hsa⟩ := cache5_lines_split remotedir (buf :: post) pre st st1 hrun
      rw [cache5_lines_cons, if_pos hline, hf, hc] at hsa
      exact index_keys_found E MAX_REPEAT remotedir e.filename e.sha_base post sa st1 s
        (fun l hl hd p hp => hlater l hl hd p e.filename hp hf) hs
        (fun k hk hl => cache5_lines_keeps remotedir k e.sha_base post _ st1 hsa hk hl) key hkey

set_option maxRecDepth 100000 in
/-- For the line `+a, AB` of the manifest `+b, CD`, `+a, AB`, `+c, EF` the index
holds `AB` for `d/a` and for `d/a.lzma`, and the gate takes both from it. -/
theorem index_agrees_with_engine_witness :
    avl_hash indexed_state.tree "d/a".toList = some "AB".toList ∧
    avl_hash indexed_state.tree "d/a.lzma".toList = some "AB".toList ∧
    download_check smallEnv 3 "d/a".toList "AB".toList Hasher.crc32sum indexed_state =
      (Ctl.val DL_EXIST, noted "d/a".toList "AB".toList Hasher.crc32sum indexed_state) ∧
    download_check smallEnv 3 "d/a.lzma".toList "AB".toList Hasher.crc32sum_lzma indexed_state =
      (Ctl.val DL_EXIST,
        noted "d/a.lzma".toList "AB".toList Hasher.crc32sum_lzma indexed_state) := by
  have h := (index_agrees_with_engine smallEnv 3 "d".toList "+a, AB".toList ["+b, CD".toList]
    ["+c, EF".toList] (smallState [] [] true [])
    (cache4_lines "d".toList ["+b, CD".toList, "+a, AB".toList, "+c, EF".toList]
      (smallState [] [] true [])).2 indexed_state (by decide)
    (by
      intro l hl _ p f hp hf
      rw [List.mem_singleton] at hl
      subst hl
      have h1 : entry_filename "d".toList "+c, EF".toList = some "d/c".toList := by decide
      have h2 : entry_filename "d".toList "+a, AB".toList = some "d/a".toList := by decide
      rw [h1] at hp
      rw [h2] at hf
      cases hp
      cases hf
      decide)
    ⟨rfl, rfl⟩).1 "d/a".toList "AB".toList (by decide) (by decide)
  have h3 := h.2.2 (pair_eq (p := cache4_lines "d".toList
    (["+b, CD".toList] ++ ["+a, AB".toList, "+c, EF".toList]) (smallState [] [] true []))
    (by decide!))
  exact ⟨(h3 _ (Or.inl rfl)).1, (h3 _ (Or.inr rfl)).1,
    (h3 _ (Or.inl rfl)).2 Hasher.crc32sum (by decide!),
    (h3 _ (Or.inr rfl)).2 Hasher.crc32sum_lzma (by decide!)⟩

theorem mask_loop_exact (mask : CString) :
    ∀ (d_name : CString) (fuel : Nat), mask.length < fuel → ¬ (d_name = [] ∧ mask = []) →
      '*' ∉ mask → '?' ∉ mask →
      mask_loop fuel d_name mask =
        if d_name = mask then MaskResult.selected else MaskResult.rejected := by
  induction mask with
  | nil =>
    intro d_name fuel hfuel hne _ _
    obtain ⟨f, rfl⟩ : ∃ f, fuel = f + 1 := ⟨fuel - 1, by omega⟩
    cases d_name with
    | nil => exact absurd ⟨rfl, rfl⟩ hne
    | cons x n => simp [mask_loop, mask_round]
  | cons c m ih =>
    intro d_name fuel hfuel hne hs hq
    obtain ⟨f, rfl⟩ : ∃ f, fuel = f + 1 := ⟨fuel - 1, by omega⟩
    have hc1 : c ≠ '*' := fun e => hs (by simp [e])
    have hc2 : c ≠ '?' := fun e => hq (by simp [e])
    have hs1 : '*' ∉ m := fun e => hs (by simp [e])
    have hq1 : '?' ∉ m := fun e => hq (by simp [e])
    cases d_name with
    | nil => simp [mask_loop, mask_round, hc1, hc2]
    | cons x n =>
      by_cases hx : x = c
      · subst hx
        by_cases hend : n = [] ∧ m = []
        · obtain ⟨rfl, rfl⟩ := hend
          simp [mask_loop, mask_round, hc1, hc2, mask_advance]
        · have := ih n f (by simpa using hfuel) hend hs1 hq1
          simp [mask_loop, mask_round, hc1, hc2, mask_advance, hend, this]
      · simp [mask_loop, mask_round, hc1, hc2, hx]

/-- C29: for a mask that is not empty and has neither `*` nor `?`, and a
directory entry with any name (the names that `readdir` yields are not empty),
the matcher of `delete_files` ends in a defined way and selects the entry
exactly when the name equals the mask. -/
theorem wildcard_free_mask_is_exact (d_name mask : CString) (hmask : mask ≠ [])
    (hstar : '*' ∉ mask) (hquery : '?' ∉ mask) :
    mask_match d_name mask =
        (if d_name = mask then MaskResult.selected else MaskResult.rejected) ∧
      (mask_match d_name mask = MaskResult.selected ↔ d_name = mask) := by
  have h := mask_loop_exact mask d_name (mask.length + 1) (by omega) (fun h => hmask h.2)
    hstar hquery
  refine ⟨h, ?_⟩
  unfold mask_match
  rw [h]
  by_cases he : d_name = mask <;> simp [he]

/-- The mask `drweb32.dll` selects the entry `drweb32.dll` and neither
`drweb32.dl` nor `drweb32.dll.lzma`. -/
theorem wildcard_free_mask_is_exact_witness :
    mask_match "drweb32.dll".toList "drweb32.dll".toList = MaskResult.selected ∧
    mask_match "drweb32.dl".toList "drweb32.dll".toList = MaskResult.rejected ∧
    mask_match "drweb32.dll.lzma".toList "drweb32.dll".toList = MaskResult.rejected :=
  ⟨(wildcard_free_mask_is_exact "drweb32.dll".toList "drweb32.dll".toList (by decide)
      (by decide) (by decide)).1,
    (wildcard_free_mask_is_exact "drweb32.dl".toList "drweb32.dll".toList (by decide)
      (by decide) (by decide)).1,
    (wildcard_free_mask_is_exact "drweb32.dll.lzma".toList "drweb32.dll".toList (by decide)
      (by decide) (by decide)).1⟩

theorem delete_files_loop_exact (directory mask : CString) (hmask : mask ≠ [])
    (hstar : '*' ∉ mask) (hquery : '?' ∉ mask) :
    ∀ d_names : List CString, (∀ n ∈ d_names, n ≠ []) →
      delete_files_loop directory mask d_names =
        some ((d_names.filter (fun n => n == mask)).map (fun n => directory ++ '/' :: n)) := by
  intro d_names
  induction d_names with
  | nil => intro _; rfl
  | cons n rest ih =>
    intro h
    have hm : mask_match n mask =
        if n = mask then MaskResult.selected else MaskResult.rejected :=
      mask_loop_exact mask n (mask.length + 1) (by omega) (fun h => hmask h.2) hstar hquery
    have ih1 := ih fun x hx => h x (by simp [hx])
    unfold delete_files_loop
    rw [hm]
    by_cases he : n = mask
    · simp [he, ih1]
    · simp [he, ih1]

set_option maxRecDepth 100000 in
/-- C25: the Android delete is a call of `delete_files` with the name as mask.
`updateA` hands `filename_base` to the matcher of `delete_files`, so a name
with `?` or `*` removes every entry that the mask selects: with the files
`d/a?`, `d/ab` and `d/c`, the entry with `file_op = 0x2` for `a?` removes
`d/a?` and also `d/ab`.  A relative path with `/` is compared with the names
of the entries of the directory and selects none of them: `d/sub/old.bin`
exists and stays.  For a name that is not empty and has none of `*`, `?` the
calls of `remove` are exactly those for the entries with that name, so the
delete is exact (the entry for `ab` removes `d/ab` only). -/
theorem android_delete_uses_mask :
    ((updateA_entry dirEnv 3 "d".toList delete_line_query
        (smallState [("d/a?".toList, []), ("d/ab".toList, []), ("d/c".toList, [])] [] false
          [])).1 = Ctl.val () ∧
      (updateA_entry dirEnv 3 "d".toList delete_line_query
        (smallState [("d/a?".toList, []), ("d/ab".toList, []), ("d/c".toList, [])] [] false
          [])).2.world.files = [("d/c".toList, [])]) ∧
    ((updateA_entry dirEnv 3 "d".toList delete_line_sub
        (smallState [("d/sub/old.bin".toList, []), ("d/c".toList, [])] [] false [])).2.log =
        [Event.delete_files "d".toList "sub/old.bin".toList] ∧
      (updateA_entry dirEnv 3 "d".toList delete_line_sub
        (smallState [("d/sub/old.bin".toList, []), ("d/c".toList, [])] [] false
          [])).2.world.files = [("d/sub/old.bin".toList, []), ("d/c".toList, [])]) ∧
    (updateA_entry dirEnv 3 "d".toList delete_line_plain
        (smallState [("d/a?".toList, []), ("d/ab".toList, []), ("d/c".toList, [])] [] false
          [])).2.world.files = [("d/a?".toList, []), ("d/c".toList, [])] ∧
    (∀ (directory p : CString) (d_names : List CString), p ≠ [] → '*' ∉ p → '?' ∉ p →
      (∀ n ∈ d_names, n ≠ []) →
      delete_files_on directory p (some d_names) =
        some (EXIT_SUCCESS,
          (d_names.filter (fun n => n == p)).map (fun n => directory ++ '/' :: n))) := by
  refine ⟨⟨by decide!, by decide!⟩, ⟨by decide!, by decide!⟩, by decide!, ?_⟩
  intro directory p d_names hp hs hq hn
  simp [delete_files_on, delete_files_loop_exact directory p hp hs hq d_names hn]

/-- In a directory with the entries `.`, `..`, `ab`, `a?` and `c` the mask `ab`
makes `delete_files` call `remove` for `d/ab` only. -/
theorem android_delete_uses_mask_witness :
    delete_files_on "d".toList "ab".toList
        (some [".".toList, "..".toList, "ab".toList, "a?".toList, "c".toList]) =
      some (EXIT_SUCCESS, ["d/ab".toList]) :=
  android_delete_uses_mask.2.2.2 "d".toList "ab".toList
    [".".toList, "..".toList, "ab".toList, "a?".toList, "c".toList] (by decide) (by decide)
    (by decide) (by decide)

theorem glob_spec_star (mask d_name : CString) :
    glob_spec ('*' :: mask) d_name = d_name.tails.any (fun t => glob_spec mask t) := by
  simp [glob_spec]

theorem glob_spec_char (c x : Char) (mask rest : CString) (hc : c ≠ '*') :
    glob_spec (c :: mask) (x :: rest) = ((c == '?' || c == x) && glob_spec mask rest) := by
  simp [glob_spec, hc]

theorem glob_spec_star_intro (mask t d_name : CString) (ht : t <:+ d_name)
    (h : glob_spec mask t = true) : glob_spec ('*' :: mask) d_name = true := by
  rw [glob_spec_star, List.any_eq_true]
  exact ⟨t, (List.mem_tails t d_name).2 ht, h⟩

theorem glob_spec_stars (mask : CString) :
    ∀ (t d_name : CString), mask.head? = some '*' → t <:+ d_name →
      glob_spec (mask.dropWhile (fun x => x == '*')) t = true → glob_spec mask d_name = true := by
  induction mask with
  | nil => intro t d_name h; cases h
  | cons c m ih =>
    intro t d_name hc ht h
    have hc1 : c = '*' := by simpa using hc
    subst hc1
    rw [List.dropWhile_cons] at h
    simp only [beq_self_eq_true, if_true] at h
    by_cases hm : m.head? = some '*'
    · exact glob_spec_star_intro m t d_name ht (ih t t hm (List.suffix_refl t) h)
    · rw [dropWhile_fixed m '*' hm] at h
      exact glob_spec_star_intro m t d_name ht h

theorem dropWhile_ne_head (s t : CString) (c x : Char)
    (h : s.dropWhile (fun y => y != c) = x :: t) : x = c := by
  induction s with
  | nil => cases h
  | cons y ys ih =>
    rw [List.dropWhile_cons] at h
    by_cases hy : y = c
    · simp only [hy, bne_self_eq_false, Bool.false_eq_true, if_false] at h
      injection h with h1 _
      exact h1.symm
    · have : (y != c) = true := by simpa using hy
      rw [if_pos this] at h
      exact ih h

theorem mask_advance_sound (name1 mask1 : CString) (fuel : Nat)
    (ih : mask_loop fuel name1 mask1 = MaskResult.selected → glob_spec mask1 name1 = true)
    (h : (match mask_advance name1 mask1 with
      | MaskStep.again n m => mask_loop fuel n m
      | MaskStep.done r => r) = MaskResult.selected) :
    glob_spec mask1 name1 = true := by
  unfold mask_advance at h
  by_cases hend : name1 = [] ∧ mask1 = []
  · obtain ⟨rfl, rfl⟩ := hend
    rfl
  · rw [if_neg hend] at h
    exact ih h

theorem mask_loop_sound :
    ∀ (fuel : Nat) (d_name mask : CString), mask_loop fuel d_name mask = MaskResult.selected →
      glob_spec mask d_name = true := by
  intro fuel
  induction fuel with
  | zero => intro d_name mask h; cases h
  | succ fuel ih =>
    intro d_name mask h
    unfold mask_loop mask_round at h
    by_cases hstar : mask.head? = some '*'
    · rw [if_pos hstar] at h
      rcases hm : mask.dropWhile (fun x => x == '*') with _ | ⟨c, mask1⟩
      · exact glob_spec_stars mask [] d_name hstar List.nil_suffix (by rw [hm]; rfl)
      · rw [hm] at h
        dsimp only at h
        rcases hn : d_name.dropWhile (fun x => x != c) with _ | ⟨x, name1⟩
        · rw [hn] at h
          cases h
        · rw [hn] at h
          dsimp only at h
          have hx : x = c := dropWhile_ne_head d_name name1 c x hn
          have hc : c ≠ '*' := by
            intro e
            have := dropWhile_head mask '*'
            rw [hm, e] at this
            exact this rfl
          have hsuf : (x :: name1) <:+ d_name := by
            rw [← hn]
            exact List.dropWhile_suffix _
          refine glob_spec_stars mask (x :: name1) d_name hstar hsuf ?_
          rw [hm, glob_spec_char c x mask1 name1 hc,
            mask_advance_sound name1 mask1 fuel (ih name1 mask1) h]
          simp [hx]
    · rw [if_neg hstar] at h
      by_cases hcond : mask.head? = some '?' ∨ d_name.head? = mask.head?
      · rw [if_pos hcond] at h
        cases d_name with
        | nil => cases mask <;> cases h
        | cons x name1 =>
          cases mask with
          | nil => cases h
          | cons c mask1 =>
            dsimp only at h
            have hc : c ≠ '*' := fun e => hstar (by simp [e])
            rw [glob_spec_char c x mask1 name1 hc,
              mask_advance_sound name1 mask1 fuel (ih name1 mask1) h]
            rcases hcond with hq | he
            · have : c = '?' := by simpa using hq
              simp [this]
            · have : x = c := by simpa using he
              simp [this]
      · rw [if_neg hcond] at h
        cases h

theorem glob_spec_literal (mask : CString) (hstar : '*' ∉ mask) (hquery : '?' ∉ mask) :
    ∀ d_name : CString, glob_spec mask d_name = true ↔ d_name = mask := by
  induction mask with
  | nil => intro d_name; cases d_name <;> simp [glob_spec]
  | cons c m ih =>
    intro d_name
    have hc1 : c ≠ '*' := fun e => hstar (by simp [e])
    have hc2 : c ≠ '?' := fun e => hquery (by simp [e])
    have hs1 : '*' ∉ m := fun e => hstar (by simp [e])
    have hq1 : '?' ∉ m := fun e => hquery (by simp [e])
    cases d_name with
    | nil => simp [glob_spec, hc1]
    | cons x rest =>
      rw [glob_spec_char c x m rest hc1]
      simp only [Bool.and_eq_true, Bool.or_eq_true, beq_iff_eq, ih hs1 hq1 rest, hc2, false_or,
        List.cons.injEq]
      constructor
      · rintro ⟨h1, h2⟩; exact ⟨h1.symm, h2⟩
      · rintro ⟨h1, h2⟩; exact ⟨h1.symm, h2⟩

set_option maxRecDepth 100000 in
/-- C26: the matcher of `delete_files` does not go back after a `*`.  Behind a
run of `*` it looks for the first occurrence of the next mask character in the
name and goes on from there; when the rest does not fit it leaves the loop with
`break`.  So `a.b.vdb` matches `*.vdb` but is not selected, and the line
`-*.vdb, ` of `drweb32.lst` removes `d/c.vdb` and leaves `d/a.b.vdb`; a `?`
behind `*` is looked for as the character `?`, so `drw` is not selected by
`dr*?`.  What the matcher selects does
match the mask, and for a mask without `*` and `?` it selects every name that
matches. -/
theorem delete_mask_without_backtracking :
    (glob_spec "*.vdb".toList "a.b.vdb".toList = true ∧
      mask_match "a.b.vdb".toList "*.vdb".toList = MaskResult.rejected) ∧
    ((update4_lines dirEnv 3 "d".toList ["-*.vdb, ".toList]
        (smallState [("d/a.b.vdb".toList, []), ("d/c.vdb".toList, [])] [] false [])).1 =
        Ctl.val () ∧
      (update4_lines dirEnv 3 "d".toList ["-*.vdb, ".toList]
        (smallState [("d/a.b.vdb".toList, []), ("d/c.vdb".toList, [])] [] false
          [])).2.world.files = [("d/a.b.vdb".toList, [])]) ∧
    (glob_spec "dr*?".toList "drw".toList = true ∧
      mask_match "drw".toList "dr*?".toList = MaskResult.rejected) ∧
    (∀ d_name mask : CString, mask_match d_name mask = MaskResult.selected →
      glob_spec mask d_name = true) ∧
    (∀ d_name mask : CString, mask ≠ [] → '*' ∉ mask → '?' ∉ mask →
      glob_spec mask d_name = true → mask_match d_name mask = MaskResult.selected) := by
  refine ⟨⟨by decide!, by decide!⟩, ⟨by decide!, by decide!⟩, ⟨by decide!, by decide!⟩,
    fun d_name mask h => mask_loop_sound _ d_name mask h, fun d_name mask hm hs hq h => ?_⟩
  have he := (glob_spec_literal mask hs hq d_name).1 h
  unfold mask_match
  rw [mask_loop_exact mask d_name (mask.length + 1) (by omega) (fun h => hm h.2) hs hq, if_pos he]

/-- The mask `*.vdb` selects `c.vdb`, which matches it, and the mask
`drweb32.dll` selects the name `drweb32.dll`, which matches it. -/
theorem delete_mask_without_backtracking_witness :
    glob_spec "*.vdb".toList "c.vdb".toList = true ∧
    mask_match "drweb32.dll".toList "drweb32.dll".toList = MaskResult.selected :=
  ⟨delete_mask_without_backtracking.2.2.2.1 "c.vdb".toList "*.vdb".toList (by decide!),
    delete_mask_without_backtracking.2.2.2.2 "drweb32.dll".toList "drweb32.dll".toList
      (by decide) (by decide) (by decide) (by decide!)⟩

theorem appends_silent {W α : Type} (P : Event → Prop) (m : M W α)
    (h : ∀ st, (m st).2.log = st.log) : Appends P m := fun st =>
  ⟨[], by simp [h st], by simp⟩

theorem appends_bind {W α β : Type} {P : Event → Prop} {m : M W α} {f : α → M W β}
    (hm : Appends P m) (hf : ∀ a, Appends P (f a)) : Appends P (m >>= f) := by
  intro st
  obtain ⟨evs, h, hp⟩ := hm st
  rw [M.bind_apply]
  rcases hres : m st with ⟨c, st1⟩
  rw [hres] at h
  cases c with
  | val a =>
    obtain ⟨evs2, h2, hp2⟩ := hf a st1
    refine ⟨evs ++ evs2, ?_, ?_⟩
    · dsimp only at h ⊢
      rw [h2, h]
      simp
    · intro e he
      rcases List.mem_append.1 he with he | he
      · exact hp e he
      · exact hp2 e he
  | exit x => exact ⟨evs, h, hp⟩

theorem appends_download {W : Type} (E : Env W) (MAX_REPEAT : Int) (filename : CString) :
    Appends (fun e => e.of_gate = true) (download E MAX_REPEAT filename) := by
  intro st
  obtain ⟨status, k, st1, h1, -, h2, -⟩ := download_spec E MAX_REPEAT filename st
  rw [h1]
  refine ⟨_, h2, ?_⟩
  intro e he
  rcases List.mem_cons.1 he with he | he
  · subst he; rfl
  · rw [List.eq_of_mem_replicate he]; rfl

theorem appends_checksum {W : Type} (E : Env W) (func : Hasher) (filename : CString) :
    Appends (fun e => e.of_gate = true) (checksum E func filename) := fun st =>
  ⟨[_], rfl, by simp [Event.of_gate]⟩

theorem appends_download_check {W : Type} (E : Env W) (MAX_REPEAT : Int)
    (filename checksum_base : CString) (func : Hasher) :
    Appends (fun e => e.of_gate = true)
      (download_check E MAX_REPEAT filename checksum_base func) := by
  unfold download_check
  refine appends_bind (appends_silent _ _ fun st => rfl) fun st => ?_
  refine appends_bind (fun s => ⟨[_], rfl, by simp [Event.of_gate]⟩) fun _ => ?_
  split
  · exact appends_silent _ _ fun st => rfl
  unfold download_check_slow
  refine appends_bind (appends_checksum _ _ _) fun real => ?_
  split
  · exact appends_silent _ _ fun st => rfl
  refine appends_bind (appends_download _ _ _) fun status => ?_
  split
  · exact appends_silent _ _ fun st => rfl
  refine appends_bind (appends_checksum _ _ _) fun real2 => ?_
  split
  · exact appends_silent _ _ fun st => rfl
  · split <;> exact appends_silent _ _ fun st => rfl

theorem appends_after_check {W : Type} (P : Event → Prop) (MAX_REPEAT : Int)
    (status : DLStatus) : Appends P (after_check MAX_REPEAT status : M W Unit) := by
  refine appends_silent _ _ fun st => ?_
  simp only [after_check, M.bind_apply, M.get]
  split_ifs <;> rfl

theorem appends_wrong_size {W α : Type} (P : Event → Prop) (MAX_REPEAT : Int) :
    Appends P (wrong_size MAX_REPEAT : M W α) := by
  refine appends_silent _ _ fun st => ?_
  simp only [wrong_size, M.bind_apply, M.get]
  split_ifs <;> rfl

theorem updateA_entry_zero {W : Type} (E : Env W) (MAX_REPEAT : Int) (real_dir buf : CString)
    (filesize : Nat) (md5 filename_base : CString)
    (hparse : entryA_parse buf = some (0, filesize, md5, filename_base)) :
    updateA_entry E MAX_REPEAT real_dir buf =
      updateA_download E MAX_REPEAT (real_dir ++ '/' :: filename_base) (to_lowercase md5)
        (to_off_t filesize) := by
  unfold updateA_entry updateA_download
  rw [hparse]
  rfl

theorem updateA_entry_two {W : Type} (E : Env W) (MAX_REPEAT : Int) (real_dir buf : CString)
    (filesize : Nat) (md5 filename_base : CString) (st : State W)
    (hparse : entryA_parse buf = some (2, filesize, md5, filename_base)) :
    updateA_entry E MAX_REPEAT real_dir buf st =
      if E.exist st.world (real_dir ++ '/' :: filename_base) = true then
        delete_files E real_dir filename_base st
      else (Ctl.val (), st) := by
  unfold updateA_entry
  rw [hparse]
  by_cases he : E.exist st.world (real_dir ++ '/' :: filename_base) = true
  · simp [M.bind_apply, M.get, he]
  · simp [M.bind_apply, M.get, he]

theorem updateA_entry_other {W : Type} (E : Env W) (MAX_REPEAT : Int) (real_dir buf : CString)
    (file_op filesize : Nat) (md5 filename_base : CString) (st : State W)
    (hparse : entryA_parse buf = some (file_op, filesize, md5, filename_base))
    (h0 : file_op ≠ 0) (h2 : file_op ≠ 2) :
    updateA_entry E MAX_REPEAT real_dir buf st = (Ctl.exit (Exit.ret EXIT_FAILURE), st) := by
  unfold updateA_entry
  rw [hparse]
  simp [h0, h2, M.exit]

theorem appends_updateA_download {W : Type} (E : Env W) (MAX_REPEAT : Int)
    (filename md5_base : CString) (filesize : Int) :
    Appends (fun e => e.of_gate = true)
      (updateA_download E MAX_REPEAT filename md5_base filesize) := by
  unfold updateA_download
  refine appends_bind (appends_download_check _ _ _ _ _) fun status => ?_
  refine appends_bind (appends_after_check _ _ _) fun _ => ?_
  refine appends_bind (appends_silent _ _ fun st => rfl) fun st => ?_
  split
  · exact appends_wrong_size _ _
  · exact appends_silent _ _ fun st => rfl

theorem logs_first_updateA_download {W : Type} (E : Env W) (MAX_REPEAT : Int)
    (filename md5_base : CString) (filesize : Int) :
    LogsFirst (gate_event filename md5_base Hasher.md5sum)
      (updateA_download E MAX_REPEAT filename md5_base filesize) := by
  unfold updateA_download
  refine logs_first_bind MAX_REPEAT (logs_first_download_check _ _ _ _ _) fun status => ?_
  refine obeys_bind (obeys_after_check _ _) fun _ => ?_
  refine obeys_bind (obeys_get _) fun st => ?_
  split
  · exact obeys_wrong_size _
  · exact obeys_pure _ _

/-- C27 (as amended). For an entry line of the `[Files]` section with the
fields `file_op`, `filesize`, `md5` and `filename_base`, the events `evs` that
`updateA` logs for the line are such that: events of the gate (note of the
call, checksum, download) occur iff `file_op = 0x0`, and then the first one is
the call of the gate for the file with the lowercased MD5 and the MD5 hasher,
and after a successful gate the declared size is checked; `delete_files` is
called iff `file_op = 0x2` and the named file exists, and then it is the only
step; for every other `file_op` the function returns `EXIT_FAILURE` in an
unchanged state, with neither a download nor a deletion. -/
theorem android_operation_codes {W : Type} (E : Env W) (MAX_REPEAT : Int)
    (real_dir buf : CString) (st : State W) (file_op filesize : Nat)
    (md5 filename_base : CString)
    (hparse : entryA_parse buf = some (file_op, filesize, md5, filename_base)) :
    ∃ evs, (updateA_entry E MAX_REPEAT real_dir buf st).2.log = st.log ++ evs ∧
      ((∃ e ∈ evs, e.of_gate = true) ↔ file_op = 0) ∧
      ((∃ directory mask, Event.delete_files directory mask ∈ evs) ↔
        (file_op = 2 ∧ E.exist st.world (real_dir ++ '/' :: filename_base) = true)) ∧
      (file_op = 0 →
        evs.head? = some (Event.download_check st.counter_global st.use_fast
          (real_dir ++ '/' :: filename_base) (to_lowercase md5) Hasher.md5sum) ∧
        ∀ status s1,
          download_check E MAX_REPEAT (real_dir ++ '/' :: filename_base) (to_lowercase md5)
            Hasher.md5sum st = (Ctl.val status, s1) →
          DL_SUCCESS status = true →
          updateA_entry E MAX_REPEAT real_dir buf st =
            if E.check_size s1.world (real_dir ++ '/' :: filename_base) (to_off_t filesize) = true
            then (Ctl.val (), s1) else wrong_size MAX_REPEAT s1) ∧
      (file_op = 2 → E.exist st.world (real_dir ++ '/' :: filename_base) = true →
        updateA_entry E MAX_REPEAT real_dir buf st =
          delete_files E real_dir filename_base st ∧
        evs = [Event.delete_files real_dir filename_base]) ∧
      (file_op ≠ 0 → file_op ≠ 2 →
        updateA_entry E MAX_REPEAT real_dir buf st = (Ctl.exit (Exit.ret EXIT_FAILURE), st)) := by
  by_cases h0 : file_op = 0
  · subst h0
    have heq := updateA_entry_zero E MAX_REPEAT real_dir buf filesize md5 filename_base hparse
    obtain ⟨evs, hlog, hall⟩ := appends_updateA_download E MAX_REPEAT
      (real_dir ++ '/' :: filename_base) (to_lowercase md5) (to_off_t filesize) st
    obtain ⟨evs1, hfirst⟩ := logs_first_updateA_download E MAX_REPEAT
      (real_dir ++ '/' :: filename_base) (to_lowercase md5) (to_off_t filesize) st
    have hevs : evs = gate_event (real_dir ++ '/' :: filename_base) (to_lowercase md5)
        Hasher.md5sum st :: evs1 := List.append_cancel_left (hlog.symm.trans hfirst)
    refine ⟨evs, by rw [heq]; exact hlog, ?_, ?_, fun _ => ⟨by rw [hevs]; rfl, ?_⟩,
      fun h => by omega, fun h => absurd rfl h⟩
    · refine ⟨fun _ => rfl, fun _ => ⟨gate_event (real_dir ++ '/' :: filename_base)
        (to_lowercase md5) Hasher.md5sum st, ?_, rfl⟩⟩
      rw [hevs]
      exact List.mem_cons_self _ _
    · constructor
      · rintro ⟨directory, mask, hm⟩
        have := hall _ hm
        simp [Event.of_gate] at this
      · rintro ⟨h, _⟩
        omega
    · intro status s1 hrun hok
      rw [heq]
      unfold updateA_download
      simp only [M.bind_apply, hrun, after_check_success _ _ _ hok, M.get]
      by_cases hc : E.check_size s1.world (real_dir ++ '/' :: filename_base) (to_off_t filesize) =
          true
      · simp [hc]
      · simp [hc]
  · by_cases h2 : file_op = 2
    · subst h2
      have heq := updateA_entry_two E MAX_REPEAT real_dir buf filesize md5 filename_base st hparse
      by_cases he : E.exist st.world (real_dir ++ '/' :: filename_base) = true
      · rw [if_pos he] at heq
        refine ⟨[Event.delete_files real_dir filename_base], by rw [heq]; rfl, ?_, ?_,
          fun h => absurd h h0, fun _ _ => ⟨heq, rfl⟩, fun _ h => absurd rfl h⟩
        · constructor
          · rintro ⟨e, hm, hg⟩
            rw [List.mem_singleton] at hm
            subst hm
            simp [Event.of_gate] at hg
          · intro h
            omega
        · exact ⟨fun _ => ⟨rfl, he⟩, fun _ => ⟨_, _, List.mem_singleton.2 rfl⟩⟩
      · rw [if_neg he] at heq
        refine ⟨[], by rw [heq]; simp, ?_, ?_, fun h => absurd h h0, fun _ h => absurd h he,
          fun _ h => absurd rfl h⟩
        · constructor
          · rintro ⟨e, hm, _⟩
            cases hm
          · intro h
            omega
        · constructor
          · rintro ⟨_, _, hm⟩
            cases hm
          · rintro ⟨_, h⟩
            exact absurd h he
    · have heq := updateA_entry_other E MAX_REPEAT real_dir buf file_op filesize md5
        filename_base st hparse h0 h2
      refine ⟨[], by rw [heq]; simp, ?_, ?_, fun h => absurd h h0, fun h => absurd h h2,
        fun _ _ => heq⟩
      · constructor
        · rintro ⟨e, hm, _⟩
          cases hm
        · intro h
          exact absurd h h0
      · constructor
        · rintro ⟨_, _, hm⟩
          cases hm
        · rintro ⟨h, _⟩
          exact absurd h h2

set_option maxRecDepth 100000 in
/-- The line with `file_op = 0x2` for `ab`, in a directory that holds `d/ab`:
the only step is the call `delete_files("d", "ab")`. -/
theorem android_operation_codes_witness :
    (updateA_entry smallEnv 3 "d".toList delete_line_plain
      (smallState [("d/ab".toList, []), ("d/c".toList, [])] [] false [])).2.log =
      [Event.delete_files "d".toList "ab".toList] := by
  obtain ⟨evs, hlog, -, -, -, h2, -⟩ := android_operation_codes smallEnv 3 "d".toList
    delete_line_plain (smallState [("d/ab".toList, []), ("d/c".toList, [])] [] false [])
    2 0 "0123456789abcdef0123456789abcdef".toList "ab".toList (by decide!)
  rw [hlog, (h2 rfl (by decide!)).2]
  rfl

set_option maxRecDepth 100000 in
/-- The line with `file_op = 0x2` for `ab`, in a directory without `d/ab`:
`delete_files` is not called, the entry is passed over, also when the line is
read by the loop of `updateA` behind `[Files]` (it has the 84 characters that
the loop asks for, and with `d/ab` in place the same run calls
`delete_files`). -/
theorem delete_skipped_for_missing_file :
    entryA_parse delete_line_plain =
      some (2, 0, "0123456789abcdef0123456789abcdef".toList, "ab".toList) ∧
    (updateA_entry smallEnv 3 "d".toList delete_line_plain
      (smallState [("d/c".toList, [])] [] false [])).1 = Ctl.val () ∧
    (updateA_entry smallEnv 3 "d".toList delete_line_plain
      (smallState [("d/c".toList, [])] [] false [])).2.log = [] ∧
    (updateA_lines smallEnv 3 "d".toList false ["[Files]".toList, delete_line_plain]
      (smallState [("d/c".toList, [])] [] false [])).2.log = [] ∧
    84 ≤ delete_line_plain.length ∧
    (updateA_lines smallEnv 3 "d".toList false ["[Files]".toList, delete_line_plain]
      (smallState [("d/ab".toList, []), ("d/c".toList, [])] [] false [])).2.log =
      [Event.delete_files "d".toList "ab".toList] := by
  refine ⟨by decide!, by decide!, by decide!, by decide!, by decide!, by decide!⟩

theorem strchr_suffix (s t : CString) (c : Char) (h : strchr s c = some t) :
    t <:+ s ∧ t ≠ [] := by
  unfold strchr at h
  split at h
  · cases h
  · rename_i hne
    injection h with h
    subst h
    exact ⟨List.dropWhile_suffix _, fun e => hne e⟩

theorem strchr_pos (path t : CString) (curr : Nat) (h : strchr (path.drop curr) '/' = some t) :
    curr ≤ path.length - t.length ∧ path.length - t.length < path.length ∧
      t.length ≤ path.length := by
  obtain ⟨hs, hne⟩ := strchr_suffix _ _ _ h
  have h1 := hs.length_le
  rw [List.length_drop] at h1
  have h2 : 0 < t.length := List.length_pos.2 hne
  have h3 : t.length ≤ path.length := by omega
  omega

theorem make_path_loop_returns {W : Type} (make_dir : CString → W → Int × W) (path : CString) :
    ∀ (fuel curr : Nat) (status : Int) (w : W), curr ≤ path.length →
      path.length - curr + 2 ≤ fuel →
      (make_path_loop make_dir path fuel (some curr) status w).1 ≠ PathResult.nofuel ∧
      ∀ s, (make_path_loop make_dir path fuel (some curr) status w).1 = PathResult.ret s →
        ∃ w0, s = (make_dir path w0).1 := by
  intro fuel
  induction fuel with
  | zero => intro curr status w _ h; omega
  | succ fuel ih =>
    intro curr status w hc hf
    unfold make_path_loop
    rcases hs : strchr (path.drop curr) '/' with _ | t
    · dsimp only
      by_cases hst : status = EXIT_SUCCESS
      · rw [if_pos hst]
        exact ⟨by simp, fun s h => ⟨w, by injection h with h; exact h.symm⟩⟩
      · rw [if_neg hst]
        obtain ⟨f, rfl⟩ : ∃ f, fuel = f + 1 := ⟨fuel - 1, by omega⟩
        unfold make_path_loop
        exact ⟨by simp, fun s h => by cases h⟩
    · dsimp only
      obtain ⟨h1, h2, -⟩ := strchr_pos path t curr hs
      exact ih _ _ _ (by omega) (by omega)

theorem strchr_drop_found (path1 last : CString) (curr : Nat) (hc : curr ≤ path1.length) :
    ∃ t, strchr ((path1 ++ '/' :: last).drop curr) '/' = some t := by
  rcases hs : strchr ((path1 ++ '/' :: last).drop curr) '/' with _ | t
  · exfalso
    have hmem : '/' ∈ (path1 ++ '/' :: last).drop curr := by
      rw [List.drop_append_of_le_length hc]
      simp
    unfold strchr at hs
    split at hs
    · rename_i heq
      rw [List.dropWhile_eq_nil_iff] at heq
      have := heq '/' hmem
      simp at this
    · cases hs
  · exact ⟨t, rfl⟩

theorem make_path_loop_stuck {W : Type} (make_dir : CString → W → Int × W)
    (path1 last : CString) (hlast : '/' ∉ last)
    (hfail : ∀ w0, (make_dir path1 w0).1 ≠ EXIT_SUCCESS) :
    ∀ (fuel curr : Nat) (status : Int) (w : W), curr ≤ path1.length →
      path1.length - curr + 3 ≤ fuel →
      (make_path_loop make_dir (path1 ++ '/' :: last) fuel (some curr) status w).1 =
        PathResult.undef := by
  intro fuel
  induction fuel with
  | zero => intro curr status w _ h; omega
  | succ fuel ih =>
    intro curr status w hc hf
    obtain ⟨t, hs⟩ := strchr_drop_found path1 last curr hc
    obtain ⟨h1, h2, h3⟩ := strchr_pos _ t curr hs
    unfold make_path_loop
    rw [hs]
    dsimp only
    by_cases hp : (path1 ++ '/' :: last).length - t.length < path1.length
    · exact ih _ _ _ (by omega) (by omega)
    · -- the `/` found is the one behind `path1`
      have hlen : (path1 ++ '/' :: last).length = path1.length + 1 + last.length := by simp; omega
      have htl : t.length ≤ last.length + 1 := by omega
      have ht : t = '/' :: last := by
        obtain ⟨hsuf, hne⟩ := strchr_suffix _ _ _ hs
        have hsuf2 : t <:+ path1 ++ '/' :: last := hsuf.trans (List.drop_suffix _ _)
        have hsuf3 : ('/' :: last) <:+ path1 ++ '/' :: last := List.suffix_append _ _
        rcases List.suffix_or_suffix_of_suffix hsuf2 hsuf3 with h | h
        · -- `t` is a suffix of `/ last`: it begins with `/`, which `last` does not hold
          rcases List.suffix_cons_iff.1 h with h | h
          · exact h
          · exfalso
            have hhead : t.head? = some '/' := by
              unfold strchr at hs
              split at hs
              · cases hs
              · injection hs with hs
                rw [← hs]
                rcases hd : ((path1 ++ '/' :: last).drop curr).dropWhile (fun x => x != '/')
                  with _ | ⟨x, r⟩
                · rw [hd] at hs
                  exact absurd hs.symm hne
                · rw [dropWhile_ne_head _ r '/' x hd]
                  rfl
            cases t with
            | nil => exact hne rfl
            | cons x r =>
              have hx : x = '/' := by simpa using hhead
              exact hlast (h.subset (by simp [hx]))
        · exact List.IsSuffix.eq_of_length h (by
            have := h.length_le
            simp at this ⊢
            omega) |>.symm
      have hpos : (path1 ++ '/' :: last).length - t.length = path1.length := by
        rw [ht, hlen]
        simp
        omega
      rw [hpos, List.take_left' rfl]
      obtain ⟨f, rfl⟩ : ∃ f, fuel = f + 1 := ⟨fuel - 1, by omega⟩
      unfold make_path_loop
      have hd : (path1 ++ '/' :: last).drop (path1.length + 1) = last := by
        rw [show path1 ++ '/' :: last = (path1 ++ ['/']) ++ last by simp]
        exact List.drop_left' (by simp)
      rw [hd, strchr_none last '/' hlast]
      dsimp only
      rw [if_neg (hfail w)]
      obtain ⟨g, rfl⟩ : ∃ g, f = g + 1 := ⟨f - 1, by omega⟩
      rfl

set_option maxRecDepth 100000 in
/-- C30: `make_path` does not return when `make_dir` fails for the last prefix
before the final component.  For a path `path1/last` (no `/` in `last`) for
which `make_dir(path1)` fails, `curr` is then `NULL` and `status` is not
`EXIT_SUCCESS`, so neither branch is taken, `flag` stays `1`, and the next
round calls `strchr(NULL, '/')`.  This is the case of `/a`, whose only prefix
is the empty string, while `/a/b` and `a/b` are made; and on a file system
that refuses `mkdir` the failure for `a/b` is returned when `a` exists and the
call does not return when `a` does not exist.  In every call with a
path that fits `tmppath` the loop ends, and when the function returns, its
status is that of the call of `make_dir` on the complete path. -/
theorem make_path_stops_after_failed_dir {W : Type} (STRBUFSIZE : Nat)
    (make_dir_oracle : CString → W → Int × W) (path1 last : CString) (w : W)
    (hlen : (path1 ++ '/' :: last).length + 1 < STRBUFSIZE) (hlast : '/' ∉ last)
    (hfail : ∀ w0, (make_dir_oracle path1 w0).1 ≠ EXIT_SUCCESS) :
    (make_path STRBUFSIZE make_dir_oracle (path1 ++ '/' :: last) w).1 = PathResult.undef ∧
    (∀ (V : Type) (md : CString → V → Int × V) (path : CString) (v : V),
      path.length + 1 < STRBUFSIZE →
      (make_path STRBUFSIZE md path v).1 ≠ PathResult.nofuel ∧
      ∀ s, (make_path STRBUFSIZE md path v).1 = PathResult.ret s →
        ∃ v0, s = (md path v0).1) ∧
    make_path 128 (make_dir listOps) "/a/b".toList [] =
      (PathResult.ret EXIT_SUCCESS, ["/a".toList, "/a/b".toList]) ∧
    make_path 128 (make_dir listOps) "a/b".toList [] =
      (PathResult.ret EXIT_SUCCESS, ["a".toList, "a/b".toList]) ∧
    make_path 128 (make_dir listOps) "a".toList [] =
      (PathResult.ret EXIT_SUCCESS, ["a".toList]) ∧
    make_path 128 (make_dir listOps) "/a".toList [] = (PathResult.undef, []) ∧
    make_path 128 (make_dir frozenOps) "a/b".toList ["a".toList] =
      (PathResult.ret EXIT_FAILURE, ["a".toList]) ∧
    make_path 128 (make_dir frozenOps) "a/b".toList [] = (PathResult.undef, []) := by
  refine ⟨?_, fun V md path v hl => ?_, by decide!, by decide!, by decide!, by decide!,
    by decide!, ?_⟩
  · unfold make_path
    rw [if_pos hlen]
    exact make_path_loop_stuck make_dir_oracle path1 last hlast hfail _ 0 EXIT_SUCCESS w
      (Nat.zero_le _) (by simp)
  · unfold make_path
    rw [if_pos hl]
    exact make_path_loop_returns md path _ 0 EXIT_SUCCESS v (Nat.zero_le _) (by omega)
  · decide!

/-- With the file system `listOps`, in which `stat` and `mkdir` fail for the
empty name, `make_path("/a")` does not return. -/
theorem make_path_stops_after_failed_dir_witness :
    (make_path 128 (make_dir listOps) "/a".toList []).1 = PathResult.undef :=
  (make_path_stops_after_failed_dir 128 (make_dir listOps) [] "a".toList [] (by decide) (by decide)
    (fun w0 => by simp [make_dir, listOps, EXIT_FAILURE, EXIT_SUCCESS])).1

theorem fast_check_index {W : Type} (E : Env W) (filename checksum_base : CString)
    (st : State W) (h : fast_check E filename checksum_base st = true) :
    avl_hash st.tree filename = some checksum_base := by
  unfold fast_check at h
  split at h
  · rcases hh : avl_hash st.tree filename with _ | t
    · rw [hh] at h
      cases h
    · rw [hh] at h
      simp only [beq_iff_eq] at h
      rw [h]
  · cases h

set_option maxRecDepth 100000 in
/-- C28, counterexample: a manifest may list one path twice.  For the lines
`+a, AB` and `+a, CD` the engine hands the gate the path `d/a` with `AB` and
then with `CD`; a lookup gives one digest for a key, so with no index at all
does the fast check find an equal digest for both lines.  The index that
`cache4` builds from this manifest holds `CD` for `d/a` and for `d/a.lzma`; for
the unchanged first line the fast check fails, and the gate hashes the file. -/
theorem twice_listed_path_misses_index :
    (∀ (tree : AvlTree) (files : List (CString × CString)),
      ¬ (fast_check smallEnv "d/a".toList "AB".toList (smallState files [] true tree) = true ∧
        fast_check smallEnv "d/a".toList "CD".toList (smallState files [] true tree) = true)) ∧
    entry_filename "d".toList "+a, AB".toList = some "d/a".toList ∧
    entry_crc_base "+a, AB".toList = some "AB".toList ∧
    entry_filename "d".toList "+a, CD".toList = some "d/a".toList ∧
    entry_crc_base "+a, CD".toList = some "CD".toList ∧
    avl_hash twice_listed_state.tree "d/a".toList = some "CD".toList ∧
    avl_hash twice_listed_state.tree "d/a.lzma".toList = some "CD".toList ∧
    fast_check smallEnv "d/a".toList "AB".toList twice_listed_state = false ∧
    (download_check smallEnv 3 "d/a".toList "AB".toList Hasher.crc32sum twice_listed_state).2.log =
      [Event.download_check 0 true "d/a".toList "AB".toList Hasher.crc32sum,
        Event.checksum Hasher.crc32sum "d/a".toList (some "AB".toList)] := by
  refine ⟨fun tree files h => ?_, by decide, by decide, by decide, by decide, by decide!,
    by decide!, by decide!, by decide!⟩
  have h1 := fast_check_index smallEnv _ _ _ h.1
  have h2 := fast_check_index smallEnv _ _ _ h.2
  rw [h1] at h2
  revert h2
  decide

theorem conn_get_call_eq (c : NetConfig) (MAX_REDIRECT fuel : Nat) (filename : CString)
    (w : NetWorld) :
    conn_get_call c MAX_REDIRECT fuel filename w =
      conn_get_rounds c MAX_REDIRECT fuel filename (MAX_REDIRECT + 1)
        (conn_get_locals c filename) w := rfl

theorem netEnv_runs (c : NetConfig) (MAX_REDIRECT fuel : Nat) :
    RunsConnGet c MAX_REDIRECT fuel (netEnv c MAX_REDIRECT fuel) := by
  intro w filename status w1 h
  simp only [netEnv, h]

theorem conn_get_send_on_exchange (c : NetConfig) (MAX_REDIRECT fuel : Nat) (filename : CString)
    (x : Exchange) (sock_fd : Nat) (unread : List (List Char)) (l : GetLocals) (w : NetWorld)
    (q : Sent) (h : conn_get_send_on c x sock_fd unread l w = some q) :
    conn_get_exchange c MAX_REDIRECT fuel filename x sock_fd unread l w =
      conn_get_after_header c fuel filename q.x q.sock_fd q.l
        (header_loop c.toHeaderConfig (decide (q.l.redirect_num < MAX_REDIRECT)) fuel q.start).1
        (header_loop c.toHeaderConfig (decide (q.l.redirect_num < MAX_REDIRECT)) fuel q.start).2
        q.w := by
  unfold conn_get_send_on at h
  unfold conn_get_exchange
  dsimp only at h ⊢
  rcases hm : mem_write l.buffer 0 (build_request c l.target l.conn_ka ++ [NUL]) with _ | buffer
  · rw [hm] at h
    cases h
  · rw [hm] at h
    dsimp only at h ⊢
    by_cases hs : x.send_ok = false
    · rw [if_pos hs] at h
      cases h
    · rw [if_neg hs] at h ⊢
      cases h
      rfl

/-- A pass that comes to its header loop goes on from it with what the loop has
left. -/
theorem conn_get_round_send (c : NetConfig) (MAX_REDIRECT fuel : Nat) (filename : CString)
    (l0 : GetLocals) (w0 : NetWorld) (q : Sent) (h : conn_get_send c l0 w0 = some q) :
    conn_get_round c MAX_REDIRECT fuel filename l0 w0 =
      conn_get_after_header c fuel filename q.x q.sock_fd q.l
        (header_loop c.toHeaderConfig (decide (q.l.redirect_num < MAX_REDIRECT)) fuel q.start).1
        (header_loop c.toHeaderConfig (decide (q.l.redirect_num < MAX_REDIRECT)) fuel q.start).2
        q.w := by
  unfold conn_get_send at h
  unfold conn_get_round
  dsimp only at h ⊢
  rcases hk : w0.sock_fd_ka with _ | fd
  · rw [hk] at h
    dsimp only at h ⊢
    by_cases hc : (w0.script.headD
        { connect_ok := false, send_ok := false, stream := [], fopen_ok := false,
          set_mtime_ok := false }).connect_ok = true
    · rw [if_pos hc] at h ⊢
      exact conn_get_send_on_exchange c MAX_REDIRECT fuel filename _ _ _ _ _ q h
    · rw [if_neg hc] at h
      cases h
  · rw [hk] at h
    dsimp only at h ⊢
    exact conn_get_send_on_exchange c MAX_REDIRECT fuel filename _ _ _ _ _ q h

theorem conn_get_send_on_facts (c : NetConfig) (x : Exchange) (sock_fd : Nat)
    (unread : List (List Char)) (l : GetLocals) (w : NetWorld) (q : Sent)
    (h : conn_get_send_on c x sock_fd unread l w = some q) :
    q.w.requests = w.requests + 1 ∧ q.w.files = w.files ∧ q.w.opened = w.opened ∧
      q.w.sock_fd_ka = w.sock_fd_ka ∧ q.l = l ∧ q.sock_fd = sock_fd := by
  unfold conn_get_send_on at h
  dsimp only at h
  rcases hm : mem_write l.buffer 0 (build_request c l.target l.conn_ka ++ [NUL]) with _ | buffer
  · rw [hm] at h
    cases h
  · rw [hm] at h
    dsimp only at h
    by_cases hs : x.send_ok = false
    · rw [if_pos hs] at h
      cases h
    · rw [if_neg hs] at h
      cases h
      refine ⟨?_, rfl, ?_, rfl, rfl, rfl⟩
      · simp [NetWorld.requests, List.filter_append, NetEvent.is_send]
      · simp [NetWorld.opened, List.filter_append, NetEvent.is_fopen]

/-- A pass that comes to its header loop has sent one request, has touched no
file, and counts the redirects as the pass before it left them. -/
theorem conn_get_send_facts (c : NetConfig) (l0 : GetLocals) (w0 : NetWorld) (q : Sent)
    (h : conn_get_send c l0 w0 = some q) :
    q.w.requests = w0.requests + 1 ∧ q.w.files = w0.files ∧ q.w.opened = w0.opened ∧
      q.w.sock_fd_ka = w0.sock_fd_ka ∧ q.l.redirect_num = l0.redirect_num := by
  have hnum : (if c.servername ≠ l0.target.servername_dl ∨
      c.serverport ≠ l0.target.serverport_dl then
        { l0 with conn_ka := bsd_strlcpy "close".toList 11 } else l0).redirect_num =
      l0.redirect_num := by
    split <;> rfl
  unfold conn_get_send at h
  dsimp only at h
  rcases hk : w0.sock_fd_ka with _ | fd
  · rw [hk] at h
    dsimp only at h
    by_cases hc : (w0.script.headD
        { connect_ok := false, send_ok := false, stream := [], fopen_ok := false,
          set_mtime_ok := false }).connect_ok = true
    · rw [if_pos hc] at h
      obtain ⟨h1, h2, h3, h4, h5, -⟩ := conn_get_send_on_facts c _ _ _ _ _ q h
      refine ⟨?_, h2, ?_, h4, by rw [h5, hnum]⟩
      · rw [h1]
        simp [NetWorld.requests, List.filter_append, NetEvent.is_send]
      · rw [h3]
        simp [NetWorld.opened, List.filter_append, NetEvent.is_fopen]
    · rw [if_neg hc] at h
      cases h
  · rw [hk] at h
    dsimp only at h
    obtain ⟨h1, h2, h3, h4, h5, -⟩ := conn_get_send_on_facts c _ _ _ _ _ q h
    exact ⟨h1, h2, h3, h4, by rw [h5, hnum]⟩

theorem scan_field_some (STRBUFSIZE : Nat) (s s1 : HeaderState)
    (h : scan_field STRBUFSIZE s = some s1) :
    (∃ n v, s1.field_name = some n ∧ s1.field_content = some v) ∧ s1.status = s.status ∧
      s1.buffer = s.buffer := by
  unfold scan_field at h
  simp only [Option.bind_eq_bind, Option.bind_eq_some] at h
  obtain ⟨_, _, _, _, _, _, _, _, _, _, _, _, h⟩ := h
  cases h
  exact ⟨⟨_, _, rfl, rfl⟩, rfl, rfl⟩

/-- The chain of comparisons for one header field leaves the header loop only
at an unsupported `Transfer-Encoding`, at a `Last-Modified` value that overruns
`month`, or at `assert(0)`. -/
theorem handle_field_exit (c : HeaderConfig) (s : HeaderState) (field_name field_content : CString)
    (e : HeaderExit) (h : HeaderState)
    (hx : handle_field c s field_name field_content = HeaderStep.exit e h) :
    e = HeaderExit.undef ∨ e = HeaderExit.aborted ∨
      (e = HeaderExit.unsupported ∧ field_name = "Transfer-Encoding".toList ∧
        to_lowercase field_content ≠ "chunked".toList ∧
        to_lowercase field_content ≠ "identity".toList ∧
        h = { s with field_content := some (to_lowercase field_content), ka := some false }) := by
  unfold handle_field at hx
  dsimp only at hx
  split at hx
  · cases hx
  · split at hx
    · split at hx <;> cases hx
    · split at hx
      · split at hx
        · cases hx
        · cases hx
        · cases hx
          exact Or.inl rfl
        · cases hx
          exact Or.inr (Or.inl rfl)
      · split at hx
        · rename_i hname
          split at hx
          · cases hx
          · split at hx
            · cases hx
            · rename_i h1 h2
              cases hx
              exact Or.inr (Or.inr ⟨rfl, hname, h1, h2, rfl⟩)
        · cases hx

theorem handle_field_next_status (c : HeaderConfig) (s s2 : HeaderState)
    (field_name field_content : CString)
    (hx : handle_field c s field_name field_content = HeaderStep.next s2) :
    s2.status = s.status ∧ s2.buffer = s.buffer ∧ s2.bufpos = s.bufpos := by
  unfold handle_field at hx
  dsimp only at hx
  split at hx
  · cases hx
    exact ⟨rfl, rfl, rfl⟩
  · split at hx
    · split at hx <;> cases hx <;> exact ⟨rfl, rfl, rfl⟩
    · split at hx
      · split at hx <;> cases hx <;> exact ⟨rfl, rfl, rfl⟩
      · split at hx
        · split at hx
          · cases hx
            exact ⟨rfl, rfl, rfl⟩
          · split at hx
            · cases hx
              exact ⟨rfl, rfl, rfl⟩
            · cases hx
        · cases hx
          exact ⟨rfl, rfl, rfl⟩

theorem header_finish_exit (s : HeaderState) (t : FieldTest) (e : HeaderExit) (h : HeaderState)
    (hx : header_finish s t = HeaderStep.exit e h) :
    (e = HeaderExit.msgbegin ∧ h.status = s.status) ∨ e = HeaderExit.undef := by
  unfold header_finish at hx
  split at hx
  · split at hx <;> cases hx <;> exact Or.inl ⟨rfl, rfl⟩
  · split at hx
    · split at hx
      · cases hx
        exact Or.inr rfl
      · cases hx
    · cases hx
      exact Or.inr rfl

/-- The loop over the header fields of a response that is not followed as a
redirect (558-662) never ends in `goto redirect`, and it ends at
`return EXIT_FAILURE;` (658) only with `field_name` holding `Transfer-Encoding`
and `field_content` a value that is neither `chunked` nor `identity`. -/
theorem header_fields_exit (c : HeaderConfig) :
    ∀ (n : Nat) (s : HeaderState) (e : HeaderExit) (h : HeaderState),
      header_fields c n s = HeaderStep.exit e h →
      e ≠ HeaderExit.redirect ∧ e ≠ HeaderExit.recv_failed ∧ e ≠ HeaderExit.bad_status ∧
        (e = HeaderExit.unsupported → AtUnsupported h) ∧
        (e = HeaderExit.msgbegin → h.status = s.status) := by
  intro n
  induction n with
  | zero =>
    intro s e h hx
    simp only [header_fields] at hx
    cases hx
    exact ⟨by decide, by decide, by decide, nofun, nofun⟩
  | succ n ih =>
    intro s e h hx
    simp only [header_fields] at hx
    split at hx
    · cases hx
      exact ⟨by decide, by decide, by decide, nofun, nofun⟩
    · rcases hsf : scan_field c.STRBUFSIZE s with _ | s1
      · rw [hsf] at hx
        cases hx
        exact ⟨by decide, by decide, by decide, nofun, nofun⟩
      · rw [hsf] at hx
        dsimp only at hx
        obtain ⟨⟨fn, fv, hfn, hfv⟩, hst, -⟩ := scan_field_some _ _ _ hsf
        rcases hhf : handle_field c s1 (s1.field_name.getD []) (s1.field_content.getD [])
          with s2 | ⟨e2, s2⟩
        · rw [hhf] at hx
          dsimp only at hx
          obtain ⟨h1, h2, h3, h4, h5⟩ := ih s2 e h hx
          refine ⟨h1, h2, h3, h4, fun he => ?_⟩
          rw [h5 he, (handle_field_next_status c s1 s2 _ _ hhf).1, hst]
        · rw [hhf] at hx
          dsimp only at hx
          cases hx
          rcases handle_field_exit c s1 _ _ e h hhf with rfl | rfl | ⟨rfl, hname, hv1, hv2, rfl⟩
          · exact ⟨by decide, by decide, by decide, nofun, nofun⟩
          · exact ⟨by decide, by decide, by decide, nofun, nofun⟩
          · refine ⟨by decide, by decide, by decide, fun _ => ?_, nofun⟩
            rw [hfn] at hname
            exact ⟨by rw [hfn]; exact congrArg some hname, rfl, _, rfl, hv1, hv2⟩
    · rcases header_finish_exit s _ e h hx with ⟨rfl, hs⟩ | rfl
      · exact ⟨by decide, by decide, by decide, nofun, fun _ => hs⟩
      · exact ⟨by decide, by decide, by decide, nofun, nofun⟩

/-- The loop over the header fields of a followed redirect (496-527) looks at
`Location` only: it always leaves the header loop, with `goto redirect` or with
undefined behaviour, and never at `return EXIT_FAILURE;` (658), whatever
`Transfer-Encoding` the response carries. -/
theorem redirect_fields_exit (STRBUFSIZE : Nat) :
    ∀ (n : Nat) (s : HeaderState), ∃ e h, redirect_fields STRBUFSIZE n s = HeaderStep.exit e h ∧
      h.status = s.status ∧
      (e = HeaderExit.redirect ∨ e = HeaderExit.undef ∨ e = HeaderExit.nofuel) := by
  intro n
  induction n with
  | zero =>
    intro s
    exact ⟨_, _, rfl, rfl, Or.inr (Or.inr rfl)⟩
  | succ n ih =>
    intro s
    simp only [redirect_fields]
    split
    · exact ⟨_, _, rfl, rfl, Or.inr (Or.inl rfl)⟩
    · rcases hsf : scan_field STRBUFSIZE s with _ | s1
      · exact ⟨_, _, rfl, rfl, Or.inr (Or.inl rfl)⟩
      · dsimp only
        obtain ⟨-, hst, -⟩ := scan_field_some _ _ _ hsf
        split
        · split
          · exact ⟨_, _, rfl, hst, Or.inr (Or.inl rfl)⟩
          · rename_i t _
            obtain ⟨e, h, h1, h2, h3⟩ := ih { s1 with target := t }
            exact ⟨e, h, h1, h2.trans hst, h3⟩
        · obtain ⟨e, h, h1, h2, h3⟩ := ih s1
          exact ⟨e, h, h1, h2.trans hst, h3⟩
    · exact ⟨_, _, rfl, rfl, Or.inl rfl⟩

theorem parse_status_exit (s : HeaderState) (e : HeaderExit) (h : HeaderState)
    (hx : parse_status s = HeaderStep.exit e h) :
    e = HeaderExit.undef ∨ e = HeaderExit.bad_status := by
  unfold parse_status at hx
  dsimp only at hx
  split at hx
  · cases hx; exact Or.inl rfl
  · cases hx; exact Or.inr rfl
  · split at hx
    · split at hx
      · split at hx
        · cases hx; exact Or.inl rfl
        · cases hx; exact Or.inr rfl
        · split at hx
          · cases hx; exact Or.inr rfl
          · cases hx
      · cases hx; exact Or.inl rfl
    · split at hx
      · cases hx; exact Or.inl rfl
      · cases hx; exact Or.inr rfl
      · cases hx

theorem header_parse_exit (c : HeaderConfig) (follow : Bool) (s : HeaderState) (e : HeaderExit)
    (h : HeaderState) (hx : header_parse c follow s = HeaderStep.exit e h) :
    ExitFacts follow e h := by
  unfold header_parse at hx
  split at hx
  · rcases hps : parse_status s with s1 | ⟨e1, s1⟩
    · rw [hps] at hx
      dsimp only at hx
      by_cases hr : is_redirect s1.status follow = true
      · rw [if_pos hr] at hx
        obtain ⟨e2, h2, hx2, hst, he⟩ := redirect_fields_exit c.STRBUFSIZE (s1.buffer.length + 1) s1
        rw [hx2] at hx
        cases hx
        refine ⟨fun _ => by rw [hst]; exact hr, fun hu => ?_⟩
        rcases he with rfl | rfl | rfl <;> cases hu
      · rw [if_neg hr] at hx
        obtain ⟨h1, -, -, h4, -⟩ := header_fields_exit c _ _ _ _ hx
        exact ⟨fun he => absurd he h1, h4⟩
    · rw [hps] at hx
      dsimp only at hx
      cases hx
      rcases parse_status_exit s e h hps with rfl | rfl
      · exact ⟨nofun, nofun⟩
      · exact ⟨nofun, nofun⟩
  · obtain ⟨h1, -, -, h4, -⟩ := header_fields_exit c _ _ _ _ hx
    exact ⟨fun he => absurd he h1, h4⟩

theorem header_round_exit (c : HeaderConfig) (follow : Bool) (s : HeaderState) (e : HeaderExit)
    (h : HeaderState) (hx : header_round c follow s = HeaderStep.exit e h) :
    ExitFacts follow e h := by
  unfold header_round at hx
  dsimp only at hx
  split at hx
  · cases hx
    exact ⟨nofun, nofun⟩
  · split at hx
    · cases hx
      exact ⟨nofun, nofun⟩
    · exact header_parse_exit c follow _ e h hx

/-- The header loop is left with `goto redirect` only for a status 300, 301,
302, 303 or 307 read while `redirect_num < MAX_REDIRECT`, and at
`return EXIT_FAILURE;` (658) only at an unsupported `Transfer-Encoding`. -/
theorem header_loop_exit (c : HeaderConfig) (follow : Bool) :
    ∀ (fuel : Nat) (s : HeaderState),
      ExitFacts follow (header_loop c follow fuel s).1 (header_loop c follow fuel s).2 := by
  intro fuel
  induction fuel with
  | zero =>
    intro s
    exact ⟨nofun, nofun⟩
  | succ fuel ih =>
    intro s
    simp only [header_loop]
    rcases hr : header_round c follow s with s1 | ⟨e, s1⟩
    · exact ih s1
    · exact header_round_exit c follow s e s1 hr

theorem requests_event (w w1 : NetWorld) (ev : NetEvent) (he : w1.events = w.events ++ [ev])
    (hev : ev.is_send = false) : w1.requests = w.requests := by
  simp [NetWorld.requests, he, List.filter_append, hev]

theorem requests_conn_close (sock_fd : Nat) (w : NetWorld) :
    (conn_close sock_fd w).requests = w.requests :=
  requests_event w _ _ rfl rfl

theorem requests_close_unless_kept (sock_fd : Nat) (stream : List (List Char)) (w : NetWorld) :
    (close_unless_kept sock_fd stream w).requests = w.requests := by
  unfold close_unless_kept
  split
  · exact requests_conn_close _ _
  · rfl

theorem requests_close_unless_kept_redirect (stream : List (List Char)) (w : NetWorld) :
    (close_unless_kept_redirect stream w).requests = w.requests := by
  unfold close_unless_kept_redirect
  split <;> rfl

theorem requests_conn_get_end (filename : CString) (x : Exchange) (sock_fd : Nat) (lastmod : Int)
    (r : BodyExit × BodyState) (w : NetWorld) :
    (conn_get_end filename x sock_fd lastmod r w).2.requests = w.requests := by
  unfold conn_get_end
  split
  · dsimp only
    split_ifs
    · exact (requests_event _ _ (NetEvent.set_mtime filename lastmod) rfl rfl).trans
        (requests_close_unless_kept _ _ _)
    · exact requests_close_unless_kept _ _ _
    · exact requests_close_unless_kept _ _ _
  · exact requests_conn_close _ _
  · rfl
  · rfl
  · rfl

theorem requests_conn_get_finish (c : NetConfig) (fuel : Nat) (filename : CString) (x : Exchange)
    (sock_fd : Nat) (h : HeaderState) (w : NetWorld) :
    (conn_get_finish c fuel filename x sock_fd h w).2.requests = w.requests := by
  unfold conn_get_finish
  by_cases hs : h.status ≠ 200 ∧ h.status ≠ 203
  · rw [if_pos hs]
    exact requests_close_unless_kept _ _ _
  · rw [if_neg hs]
    by_cases hf : x.fopen_ok = false
    · rw [if_pos hf]
      exact requests_close_unless_kept _ _ _
    · rw [if_neg hf]
      exact (requests_conn_get_end _ _ _ _ _ _).trans
        (requests_event _ _ (NetEvent.fopen filename) rfl rfl)

/-- What follows the header loop sends no request, and goes to the label
`redirect` only when the loop was left with `goto redirect`, with one more
redirect followed. -/
theorem conn_get_after_header_counts (c : NetConfig) (MAX_REDIRECT fuel : Nat)
    (filename : CString) (x : Exchange) (sock_fd : Nat) (l l0 : GetLocals) (e : HeaderExit)
    (h : HeaderState) (w w0 : NetWorld) (hl : l.redirect_num = l0.redirect_num)
    (hw : w.requests = w0.requests + 1)
    (he : e = HeaderExit.redirect → l0.redirect_num < MAX_REDIRECT) :
    PassCounts MAX_REDIRECT l0 w0 (conn_get_after_header c fuel filename x sock_fd l e h w) := by
  have hw1 : ({ w with sock_fd_ka := apply_ka h.ka sock_fd w.sock_fd_ka } : NetWorld).requests =
      w0.requests + 1 := hw
  unfold conn_get_after_header
  cases e <;> dsimp only
  · exact PassCounts.done _ _ (by rw [requests_conn_close, hw1])
  · exact PassCounts.done _ _ (by rw [requests_close_unless_kept, hw1])
  · split
    · exact PassCounts.again _ _ (he rfl) (by rw [← hl]) (by rw [requests_conn_close, hw1])
    · exact PassCounts.again _ _ (he rfl) (by rw [← hl])
        (by rw [requests_close_unless_kept_redirect, hw1])
  · exact PassCounts.done _ _ (by rw [requests_conn_close, hw1])
  · exact PassCounts.done _ _ (by rw [requests_conn_get_finish, hw1])
  · exact PassCounts.done _ _ (by rw [hw1])
  · exact PassCounts.done _ _ (by rw [hw1])
  · exact PassCounts.done _ _ (by rw [hw1])

theorem follow_of_exit (c : HeaderConfig) (follow : Bool) (fuel : Nat) (s : HeaderState)
    (h : (header_loop c follow fuel s).1 = HeaderExit.redirect) : follow = true := by
  have h1 := (header_loop_exit c follow fuel s).1 h
  unfold is_redirect at h1
  simp only [Bool.and_eq_true] at h1
  exact h1.2

theorem conn_get_exchange_counts (c : NetConfig) (MAX_REDIRECT fuel : Nat) (filename : CString)
    (x : Exchange) (sock_fd : Nat) (unread : List (List Char)) (l l0 : GetLocals)
    (w w0 : NetWorld) (hl : l.redirect_num = l0.redirect_num) (hw : w.requests = w0.requests) :
    PassCounts MAX_REDIRECT l0 w0
      (conn_get_exchange c MAX_REDIRECT fuel filename x sock_fd unread l w) := by
  unfold conn_get_exchange
  dsimp only
  split
  · exact PassCounts.done _ _ (by rw [hw]; omega)
  · split
    · exact PassCounts.done _ _ (by rw [requests_conn_close, hw]; omega)
    · refine conn_get_after_header_counts c MAX_REDIRECT fuel filename x sock_fd l l0 _ _ _ w0 hl
        ?_ fun he => ?_
      · simp [NetWorld.requests, List.filter_append, NetEvent.is_send] at hw ⊢
        exact hw
      · have := follow_of_exit _ _ _ _ he
        rw [← hl]
        exact of_decide_eq_true this

/-- Every pass of `conn_get` sends at most one request, and it ends with
`goto redirect` only while `redirect_num < MAX_REDIRECT`, adding one to
`redirect_num`. -/
theorem conn_get_round_counts (c : NetConfig) (MAX_REDIRECT fuel : Nat) (filename : CString)
    (l : GetLocals) (w : NetWorld) :
    PassCounts MAX_REDIRECT l w (conn_get_round c MAX_REDIRECT fuel filename l w) := by
  have hnum : (if c.servername ≠ l.target.servername_dl ∨
      c.serverport ≠ l.target.serverport_dl then
        { l with conn_ka := bsd_strlcpy "close".toList 11 } else l).redirect_num =
      l.redirect_num := by
    split <;> rfl
  unfold conn_get_round
  dsimp only
  cases hk : w.sock_fd_ka with
  | none =>
    dsimp only
    split
    · exact conn_get_exchange_counts c MAX_REDIRECT fuel filename _ _ _ _ l _ w hnum
        (requests_event w _ (NetEvent.conn_open _ _ _) rfl rfl)
    · exact PassCounts.done _ _
        (by rw [requests_event w _ (NetEvent.conn_open_failed _ _) rfl rfl]; exact Nat.le_succ _)
  | some fd =>
    dsimp only
    exact conn_get_exchange_counts c MAX_REDIRECT fuel filename _ _ _ _ l _ w hnum rfl

/-- After `k` passes that all ended with `goto redirect`, `k` redirects more
were followed, which `MAX_REDIRECT` bounds, `k` requests were sent, and no file
was touched. -/
theorem after_redirects_counts (c : NetConfig) (MAX_REDIRECT fuel : Nat) (filename : CString) :
    ∀ (k : Nat) (l : GetLocals) (w : NetWorld) (l1 : GetLocals) (w1 : NetWorld),
      after_redirects c MAX_REDIRECT fuel filename k l w = some (l1, w1) →
      l1.redirect_num = l.redirect_num + k ∧ (0 < k → l1.redirect_num ≤ MAX_REDIRECT) ∧
        w1.requests = w.requests + k ∧ SameFiles w w1 := by
  intro k
  induction k with
  | zero =>
    intro l w l1 w1 h
    simp only [after_redirects] at h
    cases h
    exact ⟨rfl, fun h => absurd h (by decide), rfl, sameFiles_refl w⟩
  | succ k ih =>
    intro l w l1 w1 h
    have hc := conn_get_round_counts c MAX_REDIRECT fuel filename l w
    have hf := conn_get_round_status c MAX_REDIRECT fuel filename l w w (sameFiles_refl w)
    simp only [after_redirects] at h
    generalize conn_get_round c MAX_REDIRECT fuel filename l w = step at hc hf h
    cases hc with
    | done r w2 _ => cases h
    | again l2 w2 hnum hl hreq =>
      dsimp only at h
      obtain ⟨h1, h2, h3, h4⟩ := ih l2 w2 l1 w1 h
      cases hf with
      | again _ _ hsame =>
        refine ⟨by rw [h1, hl]; omega, fun _ => ?_, by rw [h3, hreq]; omega,
          ⟨h4.1.trans hsame.1, h4.2.trans hsame.2⟩⟩
        rcases Nat.eq_zero_or_pos k with hk | hk
        · rw [h1, hl, hk]
          omega
        · exact h2 hk

/-- The passes that follow `k` followed redirects are the rest of the call. -/
theorem conn_get_rounds_after (c : NetConfig) (MAX_REDIRECT fuel : Nat) (filename : CString) :
    ∀ (k n : Nat) (l : GetLocals) (w : NetWorld) (l1 : GetLocals) (w1 : NetWorld),
      after_redirects c MAX_REDIRECT fuel filename k l w = some (l1, w1) →
      conn_get_rounds c MAX_REDIRECT fuel filename (k + n) l w =
        conn_get_rounds c MAX_REDIRECT fuel filename n l1 w1 := by
  intro k
  induction k with
  | zero =>
    intro n l w l1 w1 h
    simp only [after_redirects] at h
    cases h
    rw [Nat.zero_add]
  | succ k ih =>
    intro n l w l1 w1 h
    simp only [after_redirects] at h
    rw [show k + 1 + n = (k + n) + 1 by omega]
    simp only [conn_get_rounds]
    generalize conn_get_round c MAX_REDIRECT fuel filename l w = step at h
    cases step with
    | done r w2 => cases h
    | again l2 w2 => exact ih n l2 w2 l1 w1 h

/-- A call of `conn_get` returns what the pass after its followed redirects
returns: the `MAX_REDIRECT + 1` passes of the model are never used up. -/
theorem conn_get_call_after (c : NetConfig) (MAX_REDIRECT fuel : Nat) (filename : CString)
    (k : Nat) (w : NetWorld) (l1 : GetLocals) (w1 : NetWorld) (r : GetResult) (w2 : NetWorld)
    (h : after_redirects c MAX_REDIRECT fuel filename k (conn_get_locals c filename) w =
      some (l1, w1))
    (hr : conn_get_round c MAX_REDIRECT fuel filename l1 w1 = RoundStep.done r w2) :
    conn_get_call c MAX_REDIRECT fuel filename w = (r, w2) ∧ k ≤ MAX_REDIRECT ∧
      w2.requests ≤ w.requests + k + 1 := by
  obtain ⟨h1, h2, h3, -⟩ := after_redirects_counts c MAX_REDIRECT fuel filename k _ w l1 w1 h
  have hk : k ≤ MAX_REDIRECT := by
    rcases Nat.eq_zero_or_pos k with hk | hk
    · omega
    · have := h2 hk
      rw [h1] at this
      simp only [conn_get_locals] at this
      omega
  refine ⟨?_, hk, ?_⟩
  · rw [conn_get_call_eq, show MAX_REDIRECT + 1 = k + (MAX_REDIRECT - k + 1) by omega,
      conn_get_rounds_after c MAX_REDIRECT fuel filename k _ _ w l1 w1 h]
    simp only [conn_get_rounds, hr]
  · have hc := conn_get_round_counts c MAX_REDIRECT fuel filename l1 w1
    rw [hr] at hc
    cases hc with
    | done _ _ hreq => omega

/-- A pass whose header loop is left at an unsupported `Transfer-Encoding` closes
the socket, leaves `sock_fd_ka` at `SOCKET_BAD_VALUE` and returns
`EXIT_FAILURE`, with no file touched. -/
theorem pass_returns_failure (c : NetConfig) (MAX_REDIRECT fuel : Nat) (filename : CString)
    (l : GetLocals) (w : NetWorld) (h : HeaderState)
    (hp : pass_header c MAX_REDIRECT fuel l w = some (HeaderExit.unsupported, h)) :
    ∃ w1, conn_get_round c MAX_REDIRECT fuel filename l w =
        RoundStep.done (GetResult.ret EXIT_FAILURE) w1 ∧
      SameFiles w w1 ∧ w1.requests = w.requests + 1 ∧ w1.sock_fd_ka = none ∧
      (∃ sock_fd, w1.events.getLast? = some (NetEvent.conn_close sock_fd)) ∧
      AtUnsupported h := by
  unfold pass_header at hp
  rcases hq : conn_get_send c l w with _ | q
  · rw [hq] at hp
    cases hp
  · rw [hq] at hp
    simp only [Option.map_some', Option.some.injEq] at hp
    obtain ⟨f1, f2, f3, -, -⟩ := conn_get_send_facts c l w q hq
    have hfacts := (header_loop_exit c.toHeaderConfig
      (decide (q.l.redirect_num < MAX_REDIRECT)) fuel q.start).2
    rw [conn_get_round_send c MAX_REDIRECT fuel filename l w q hq, hp]
    rw [hp] at hfacts
    unfold conn_get_after_header
    dsimp only
    refine ⟨_, rfl, ?_, ?_, rfl, ⟨q.sock_fd, ?_⟩, hfacts rfl⟩
    · exact sameFiles_conn_close _ _ _ ⟨f2, f3⟩
    · rw [requests_conn_close]
      exact f1
    · simp [conn_close]

theorem find_from_none (s : CString) (hs : ':' ∉ s) :
    ∀ i, find_from [':', '/', '/'] s i = none := by
  induction s with
  | nil =>
    intro i
    simp [find_from]
  | cons x xs ih =>
    intro i
    have hx : x ≠ ':' := fun e => hs (e ▸ List.mem_cons_self _ _)
    have hxs : ':' ∉ xs := fun h => hs (List.mem_cons_of_mem _ h)
    simp [find_from, starts_with, hx, ih hxs]

/-- A `Location` without a colon (a path only) leaves the target as it is. -/
theorem parse_location_relative (STRBUFSIZE : Nat) (field_content : CString) (t : Target)
    (hs : ':' ∉ field_content) :
    parse_location STRBUFSIZE field_content t = some t := by
  unfold parse_location
  rw [find_from_none field_content hs 0]

/-- A round of the loop 558-662 at a field `Transfer-Encoding` whose value is,
in lower case, neither `chunked` nor `identity`: the loop is left at once by
`return EXIT_FAILURE;` (658), after `sock_fd_ka = SOCKET_BAD_VALUE`. -/
theorem header_fields_unsupported (c : HeaderConfig) (n : Nat) (s s1 : HeaderState)
    (field_content : CString)
    (ht : field_test s.buffer s.bufpos = FieldTest.field)
    (hsf : scan_field c.STRBUFSIZE s = some s1)
    (hn : s1.field_name = some "Transfer-Encoding".toList)
    (hv : s1.field_content = some field_content)
    (h1 : to_lowercase field_content ≠ "chunked".toList)
    (h2 : to_lowercase field_content ≠ "identity".toList) :
    header_fields c (n + 1) s =
      HeaderStep.exit HeaderExit.unsupported
        { s1 with field_content := some (to_lowercase field_content), ka := some false } := by
  simp only [header_fields, ht, hsf, hn, hv, Option.getD_some, handle_field]
  rw [if_neg (by decide), if_neg (by decide), if_neg (by decide), if_pos trivial, if_neg h1,
    if_neg h2]

/-- A call of `conn_get` whose pass after `k` followed redirects leaves its
header loop at an unsupported `Transfer-Encoding` returns `EXIT_FAILURE` with
the socket closed and `sock_fd_ka` cleared. -/
theorem call_returns_failure (c : NetConfig) (MAX_REDIRECT fuel : Nat) (filename : CString)
    (w : NetWorld) (k : Nat) (s : Int)
    (hc : call_header c MAX_REDIRECT fuel filename k w = some (HeaderExit.unsupported, s)) :
    ∃ w1, conn_get_call c MAX_REDIRECT fuel filename w = (GetResult.ret EXIT_FAILURE, w1) ∧
      SameFiles w w1 ∧ w1.requests = w.requests + k + 1 ∧ w1.sock_fd_ka = none ∧
      ∃ sock_fd, w1.events.getLast? = some (NetEvent.conn_close sock_fd) := by
  unfold call_header at hc
  rcases ha : after_redirects c MAX_REDIRECT fuel filename k (conn_get_locals c filename) w
    with _ | ⟨l1, w1⟩
  · rw [ha] at hc
    cases hc
  · rw [ha] at hc
    simp only [Option.some_bind] at hc
    rcases hp : pass_header c MAX_REDIRECT fuel l1 w1 with _ | ⟨e, h⟩
    · rw [hp] at hc
      cases hc
    · rw [hp] at hc
      simp only [Option.map_some', Option.some.injEq, Prod.mk.injEq] at hc
      obtain ⟨rfl, rfl⟩ := hc
      obtain ⟨w2, hr, hsame, hreq, hka, hclose, -⟩ :=
        pass_returns_failure c MAX_REDIRECT fuel filename l1 w1 h hp
      obtain ⟨-, -, h3, h4⟩ := after_redirects_counts c MAX_REDIRECT fuel filename k _ w l1 w1 ha
      obtain ⟨hcall, -, -⟩ := conn_get_call_after c MAX_REDIRECT fuel filename k w l1 w1 _ w2 ha hr
      exact ⟨w2, hcall, ⟨hsame.1.trans h4.1, hsame.2.trans h4.2⟩, by rw [hreq, h3], hka, hclose⟩

/-- C16: an unsupported `Transfer-Encoding` fails the request, and the failure
is tried again.  A round of the field loop 558-662 at a field
`Transfer-Encoding` whose value is, in lower case, neither `chunked` nor
`identity` leaves the header loop at once, and the loop is left by
`return EXIT_FAILURE;` (658) at such a field only.  In every configuration and
world: when the header loop of the pass after `k` followed redirects is left
so, `conn_get` has closed the socket, has cleared `sock_fd_ka` and returns
`EXIT_FAILURE`, with no file opened; and `download`, for which `EXIT_FAILURE`
is one of the values tried again, over an environment whose `conn_get` is this
call, makes `MAX_REPEAT` attempts when every attempt ends so, and returns
`DL_FAILED`.  The loop 496-527 over the fields of a followed redirect never
leaves in this way: a followed 302 with `Transfer-Encoding: gzip` does not
fail. -/
theorem unsupported_transfer_encoding_retried :
    (∀ (c : HeaderConfig) (n : Nat) (s s1 : HeaderState) (field_content : CString),
      field_test s.buffer s.bufpos = FieldTest.field →
      scan_field c.STRBUFSIZE s = some s1 →
      s1.field_name = some "Transfer-Encoding".toList →
      s1.field_content = some field_content →
      to_lowercase field_content ≠ "chunked".toList →
      to_lowercase field_content ≠ "identity".toList →
      header_fields c (n + 1) s =
        HeaderStep.exit HeaderExit.unsupported
          { s1 with field_content := some (to_lowercase field_content), ka := some false }) ∧
    (∀ (c : HeaderConfig) (follow : Bool) (fuel : Nat) (s : HeaderState),
      (header_loop c follow fuel s).1 = HeaderExit.unsupported →
      AtUnsupported (header_loop c follow fuel s).2) ∧
    (∀ (c : NetConfig) (MAX_REDIRECT fuel : Nat) (filename : CString) (w : NetWorld) (k : Nat)
      (s : Int),
      call_header c MAX_REDIRECT fuel filename k w = some (HeaderExit.unsupported, s) →
      ∃ w1, conn_get_call c MAX_REDIRECT fuel filename w = (GetResult.ret EXIT_FAILURE, w1) ∧
        SameFiles w w1 ∧ w1.requests = w.requests + k + 1 ∧ w1.sock_fd_ka = none ∧
        ∃ sock_fd, w1.events.getLast? = some (NetEvent.conn_close sock_fd)) ∧
    correctable EXIT_FAILURE = true ∧
    (∀ (c : NetConfig) (MAX_REDIRECT fuel : Nat) (E : Env NetWorld) (MAX_REPEAT : Int)
      (filename : CString) (st : State NetWorld),
      RunsConnGet c MAX_REDIRECT fuel E → 1 ≤ MAX_REPEAT →
      (∀ i, i < MAX_REPEAT.toNat → ∃ k s,
        call_header c MAX_REDIRECT fuel filename k (attempt_world E filename i st.world) =
          some (HeaderExit.unsupported, s)) →
      DownloadMakes E MAX_REPEAT filename st MAX_REPEAT.toNat DL_FAILED) ∧
    (∀ (STRBUFSIZE n : Nat) (s : HeaderState) (e : HeaderExit) (h : HeaderState),
      redirect_fields STRBUFSIZE n s = HeaderStep.exit e h → e ≠ HeaderExit.unsupported) ∧
    (conn_get_call exampleConfig 1 20 "f".toList (freshWorld [gzip_redirect, ok_answer])).1 =
      GetResult.ret EXIT_SUCCESS := by
  refine ⟨?_, ?_, ?_, rfl, ?_, ?_, by decide!⟩
  · intro c n s s1 field_content ht hsf hn hv h1 h2
    exact header_fields_unsupported c n s s1 field_content ht hsf hn hv h1 h2
  · intro c follow fuel s he
    exact (header_loop_exit c follow fuel s).2 he
  · intro c MAX_REDIRECT fuel filename w k s hc
    exact call_returns_failure c MAX_REDIRECT fuel filename w k s hc
  · intro c MAX_REDIRECT fuel E MAX_REPEAT filename st hE h1 hall
    refine download_all_failed E MAX_REPEAT filename st h1 fun i hi => ?_
    obtain ⟨k, s, hc⟩ := hall i hi
    obtain ⟨w1, hcall, -⟩ := call_returns_failure c MAX_REDIRECT fuel filename _ k s hc
    simp only [attempt_status, hE _ filename _ w1 hcall]
  · intro STRBUFSIZE n s e h hx he
    obtain ⟨e2, h2, hx2, -, hcases⟩ := redirect_fields_exit STRBUFSIZE n s
    rw [hx2] at hx
    cases hx
    rcases hcases with rfl | rfl | rfl <;> cases he

set_option maxRecDepth 100000 in
/-- The response `Transfer-Encoding: GZip` of the example: `conn_get` returns
`EXIT_FAILURE` with the socket closed, and `download` with `MAX_REPEAT = 2`
over the call of `conn_get` makes two attempts. -/
theorem unsupported_transfer_encoding_retried_witness :
    (∃ w1, conn_get_call exampleConfig 0 20 "f".toList (freshWorld [gzip_answer]) =
        (GetResult.ret EXIT_FAILURE, w1) ∧
      SameFiles (freshWorld [gzip_answer]) w1 ∧
      w1.requests = (freshWorld [gzip_answer]).requests + 0 + 1 ∧ w1.sock_fd_ka = none ∧
      ∃ sock_fd, w1.events.getLast? = some (NetEvent.conn_close sock_fd)) ∧
    DownloadMakes (netEnv exampleConfig 0 20) 2 "f".toList
      (netState (freshWorld [gzip_answer, gzip_answer])) (2 : Int).toNat DL_FAILED :=
  ⟨unsupported_transfer_encoding_retried.2.2.1 exampleConfig 0 20 "f".toList
      (freshWorld [gzip_answer]) 0 200 (by decide!),
    unsupported_transfer_encoding_retried.2.2.2.2.1 exampleConfig 0 20 (netEnv exampleConfig 0 20)
      2 "f".toList (netState (freshWorld [gzip_answer, gzip_answer]))
      (netEnv_runs exampleConfig 0 20) (by decide)
      (fun i hi => by
        have hi2 : i < 2 := hi
        interval_cases i
        · exact ⟨0, 200, by decide!⟩
        · exact ⟨0, 200, by decide!⟩)⟩

theorem download_loop_served {W : Type} (E : Env W) (MAX_REPEAT : Int) (filename D : CString)
    (Inv : W → Prop) (hinv : ∀ w, Inv w → Inv (E.conn_get w filename).2)
    (hserved : ∀ w, Inv w → (E.conn_get w filename).1 = EXIT_SUCCESS →
      E.checksum Hasher.crc32sum (E.conn_get w filename).2 filename = some D) :
    ∀ (fuel : Nat) (counter : Int) (st : State W), Inv st.world →
      Inv (download_loop E MAX_REPEAT filename fuel counter st).2.world ∧
      ((download_loop E MAX_REPEAT filename fuel counter st).1 = Ctl.val EXIT_SUCCESS →
        E.checksum Hasher.crc32sum
          (download_loop E MAX_REPEAT filename fuel counter st).2.world filename = some D) := by
  intro fuel
  induction fuel with
  | zero =>
    intro counter st h
    exact ⟨h, fun he => by cases he⟩
  | succ n ih =>
    intro counter st h
    simp only [download_loop, conn_get, M.bind_apply, M.log, M.io]
    split_ifs
    all_goals first
      | exact ih _ _ (hinv _ h)
      | exact ⟨hinv _ h, fun he => hserved _ h (by simpa using he)⟩

/-- A call of `download` for a file that the server holds with the digest `D`:
when it returns `DL_DOWNLOADED`, the local file has that digest. -/
theorem download_served {W : Type} (E : Env W) (MAX_REPEAT : Int) (filename D : CString)
    (Inv : W → Prop) (hinv : ∀ w, Inv w → Inv (E.conn_get w filename).2)
    (hserved : ∀ w, Inv w → (E.conn_get w filename).1 = EXIT_SUCCESS →
      E.checksum Hasher.crc32sum (E.conn_get w filename).2 filename = some D)
    (st : State W) (h : Inv st.world) :
    Inv (download E MAX_REPEAT filename st).2.world ∧
    ((download E MAX_REPEAT filename st).1 = Ctl.val DL_DOWNLOADED →
      E.checksum Hasher.crc32sum (download E MAX_REPEAT filename st).2.world filename =
        some D) := by
  have key := download_loop_served E MAX_REPEAT filename D Inv hinv hserved
    (MAX_REPEAT.toNat + 1) 0 { st with log := st.log ++ [Event.download filename] } h
  simp only [download, M.bind_apply, M.log]
  rcases hl : download_loop E MAX_REPEAT filename (MAX_REPEAT.toNat + 1) 0
    { st with log := st.log ++ [Event.download filename] } with ⟨c, s1⟩
  rw [hl] at key
  cases c with
  | exit e => exact ⟨key.1, fun he => by cases he⟩
  | val status =>
    dsimp only at key ⊢
    split_ifs with h1 h2
    · exact ⟨key.1, fun _ => key.2 (by rw [h1])⟩
    · exact ⟨key.1, fun he => by cases he⟩
    · exact ⟨key.1, fun he => by cases he⟩

/-- The gate with fast mode off on a file that the server holds with the digest
`D`: it never asks for another pass, a successful call leaves the file with
the digest `D`, and a file that has the digest already is found by hashing,
with nothing downloaded. -/
theorem gate_served {W : Type} (E : Env W) (MAX_REPEAT : Int) (filename D : CString)
    (Inv : W → Prop) (hinv : ∀ w, Inv w → Inv (E.conn_get w filename).2)
    (hserved : ∀ w, Inv w → (E.conn_get w filename).1 = EXIT_SUCCESS →
      E.checksum Hasher.crc32sum (E.conn_get w filename).2 filename = some D)
    (s : State W) (h : Inv s.world) (hf : s.use_fast = false) :
    ∃ status s1, download_check E MAX_REPEAT filename D Hasher.crc32sum s =
        (Ctl.val status, s1) ∧
      Inv s1.world ∧ status ≠ DL_TRY_AGAIN ∧
      (DL_SUCCESS status = true → E.checksum Hasher.crc32sum s1.world filename = some D) ∧
      (E.checksum Hasher.crc32sum s.world filename = some D → s1.world = s.world) := by
  rw [download_check_eq, fast_check_off E filename D s (Or.inl hf)]
  simp only [Bool.false_eq_true, if_false]
  obtain ⟨c1, c2⟩ := download_check_slow_cases E MAX_REPEAT filename D Hasher.crc32sum
    (noted filename D Hasher.crc32sum s)
  by_cases hb : E.checksum Hasher.crc32sum s.world filename = some D
  · rw [c1 hb]
    exact ⟨_, _, rfl, h, by decide, fun _ => hb, fun _ => rfl⟩
  · obtain ⟨t, sd, hd, n1, n2⟩ := c2 hb
    obtain ⟨t3, k, s3, hd3, ht3, -⟩ := download_spec E MAX_REPEAT filename
      { noted filename D Hasher.crc32sum s with
        log := (noted filename D Hasher.crc32sum s).log ++
          [Event.checksum Hasher.crc32sum filename
            (E.checksum Hasher.crc32sum (noted filename D Hasher.crc32sum s).world filename)] }
    have e : (Ctl.val t, sd) = (Ctl.val t3, s3) := hd.symm.trans hd3
    simp only [Prod.mk.injEq, Ctl.val.injEq] at e
    obtain ⟨rfl, rfl⟩ := e
    have hs := download_served E MAX_REPEAT filename D Inv hinv hserved
      { noted filename D Hasher.crc32sum s with
        log := (noted filename D Hasher.crc32sum s).log ++
          [Event.checksum Hasher.crc32sum filename
            (E.checksum Hasher.crc32sum (noted filename D Hasher.crc32sum s).world filename)] } h
    rw [hd] at hs
    by_cases ht : t = DL_DOWNLOADED
    · rw [n2 ht]
      have hsum := hs.2 (by rw [ht])
      dsimp only at hsum
      rw [hsum]
      dsimp only
      rw [if_neg (by simp)]
      exact ⟨_, _, rfl, hs.1, by decide, fun _ => hsum, fun hD => absurd hD hb⟩
    · rw [n1 ht]
      refine ⟨_, _, rfl, hs.1, ?_, fun hok => ?_, fun hD => absurd hD hb⟩
      · rcases ht3 with h | h | h
        · exact absurd h ht
        · rw [h]; decide
        · rw [h]; decide
      · rcases ht3 with h | h | h
        · exact absurd h ht
        · rw [h] at hok; simp [DL_SUCCESS] at hok
        · rw [h] at hok; simp [DL_SUCCESS] at hok

theorem healed_append {W : Type} (E : Env W) (func : Hasher) (filename D : CString)
    (s s1 s2 : State W) (evs : List Event) (h : Healed E func filename D s s1)
    (hlog : s2.log = s1.log ++ evs) : Healed E func filename D s s2 := by
  obtain ⟨k, rest, hl⟩ := h
  refine ⟨k, rest ++ evs, ?_⟩
  rw [hlog, hl]
  simp

/-- The line of the mirror setting in `update4`, with fast mode off: the file
has the digest `D` afterwards unless the line ends the function with an error,
and when it had another digest before, the gate has found that digest, has
downloaded the file and has then found `D`. -/
theorem update4_entry_mirror {W : Type} (E : Env W) (MAX_REPEAT : Int)
    (remotedir buf filename D : CString) (Inv : W → Prop)
    (hM : MirrorSetting E remotedir buf filename D Inv) (s : State W) (h : Inv s.world)
    (hf : s.use_fast = false) :
    Inv (update4_entry E MAX_REPEAT remotedir buf s).2.world ∧
    (∃ evs, (update4_entry E MAX_REPEAT remotedir buf s).2.log = s.log ++ evs) ∧
    (E.checksum Hasher.crc32sum s.world filename = some D →
      E.checksum Hasher.crc32sum (update4_entry E MAX_REPEAT remotedir buf s).2.world filename =
        some D) ∧
    (E.checksum Hasher.crc32sum s.world filename ≠ some D →
      ((update4_entry E MAX_REPEAT remotedir buf s).1 = Ctl.val () ∨
        (update4_entry E MAX_REPEAT remotedir buf s).1 = Ctl.exit Exit.restart) →
      E.checksum Hasher.crc32sum (update4_entry E MAX_REPEAT remotedir buf s).2.world filename =
        some D ∧
      Healed E Hasher.crc32sum filename D s (update4_entry E MAX_REPEAT remotedir buf s).2) := by
  obtain ⟨status, s1, hgate, hinv1, hnta, hsucc, hsame⟩ :=
    gate_served E MAX_REPEAT filename D Inv (fun w hw => hM.inv_conn_get w filename hw)
      hM.served s h hf
  obtain ⟨t0, s0, evs0, hd0, hlog0, -⟩ := download_check_val E MAX_REPEAT filename D
    Hasher.crc32sum s
  rw [hgate] at hd0
  cases hd0
  have hlog1 : ∃ evs, s1.log = s.log ++ evs := ⟨_, hlog0⟩
  by_cases hok : DL_SUCCESS status = true
  · have hD1 := hsucc hok
    have hheal : E.checksum Hasher.crc32sum s.world filename ≠ some D →
        Healed E Hasher.crc32sum filename D s s1 := fun hmut =>
      (gate_heals E MAX_REPEAT filename D Hasher.crc32sum s s1 status hf hmut hgate hok).2.2
    by_cases hc : status = DL_DOWNLOADED ∨ E.exist s1.world (filename ++ ".lzma".toList) = true
    · obtain ⟨t, s2, evs, hd, hlog, -⟩ := download_check_val E MAX_REPEAT
        (filename ++ ".lzma".toList) D Hasher.crc32sum_lzma s1
      have hrest : Obeys MAX_REPEAT (if t = DL_NOT_FOUND then
          delete_stale_lzma E remotedir (filename ++ ".lzma".toList)
          else after_check MAX_REPEAT t) := by
        split
        · exact obeys_delete_stale_lzma _ _ _ _
        · exact obeys_after_check _ _
      obtain ⟨evs2, hg⟩ := grows_of_obeys hrest s2
      have heq : update4_entry E MAX_REPEAT remotedir buf s =
          (if t = DL_NOT_FOUND then delete_stale_lzma E remotedir (filename ++ ".lzma".toList)
            else after_check MAX_REPEAT t) s2 := by
        simp only [update4_entry, hM.name, hM.crc, M.bind_apply, hgate,
          after_check_success _ _ _ hok, M.get, if_pos hc, hd]
      have hne : filename ++ ".lzma".toList ≠ filename := fun e => lzma_name_ne filename e.symm
      have k1 := keeps_download_check E MAX_REPEAT (filename ++ ".lzma".toList) D
        Hasher.crc32sum_lzma
        (fun w => Inv w ∧ E.checksum Hasher.crc32sum w filename = some D)
        (fun w hw => ⟨hM.inv_conn_get w _ hw.1, (hM.frame_conn_get w _ hw.1 hne).trans hw.2⟩)
        s1 ⟨hinv1, hD1⟩
      rw [hd] at k1
      have k2 : KeepsWorld (fun w => Inv w ∧ E.checksum Hasher.crc32sum w filename = some D)
          (if t = DL_NOT_FOUND then delete_stale_lzma E remotedir (filename ++ ".lzma".toList)
            else after_check MAX_REPEAT t) := by
        split
        · exact keeps_delete_stale_lzma E remotedir _ _ fun w nm hnm hw =>
            ⟨hM.inv_delete w nm hnm hw.1, (hM.frame_delete w nm hnm hw.1).trans hw.2⟩
        · exact keeps_after_check _ _ _
      have k3 := k2 s2 k1
      rw [heq]
      refine ⟨k3.1, ⟨(Event.download_check s.counter_global s.use_fast filename D
          Hasher.crc32sum :: evs0) ++ (Event.download_check s1.counter_global s1.use_fast
            (filename ++ ".lzma".toList) D Hasher.crc32sum_lzma :: evs) ++ evs2,
          by rw [hg, hlog, hlog0]; simp⟩, fun _ => k3.2,
        fun hmut _ => ⟨k3.2, ?_⟩⟩
      exact healed_append E _ filename D s s1 _
        (Event.download_check s1.counter_global s1.use_fast (filename ++ ".lzma".toList) D
          Hasher.crc32sum_lzma :: evs ++ evs2) (hheal hmut) (by rw [hg, hlog]; simp)
    · have heq : update4_entry E MAX_REPEAT remotedir buf s = (Ctl.val (), s1) := by
        simp only [update4_entry, hM.name, hM.crc, M.bind_apply, hgate,
          after_check_success _ _ _ hok, M.get, if_neg hc, M.pure_apply]
      rw [heq]
      exact ⟨hinv1, hlog1, fun _ => hD1, fun hmut _ => ⟨hD1, hheal hmut⟩⟩
  · have hok0 : DL_SUCCESS status = false := by simpa using hok
    have heq : update4_entry E MAX_REPEAT remotedir buf s =
        (Ctl.exit (Exit.ret EXIT_FAILURE), s1) := by
      simp [update4_entry, hM.name, hM.crc, M.bind_apply, hgate, after_check, M.get, hnta, hok0,
        M.exit]
    rw [heq]
    refine ⟨hinv1, hlog1, fun hD => ?_, fun _ hr => ?_⟩
    · rw [hsame hD]
      exact hD
    · rcases hr with hr | hr <;> cases hr

theorem keeps_fetch_manifest {W : Type} (E : Env W) (MAX_REPEAT : Int) (manifest : CString)
    (main_hash_old : CString) (main_size_old : Int) (P : W → Prop)
    (hP : ∀ w, P w → P (E.conn_get w manifest).2) :
    KeepsWorld P (fetch_manifest E MAX_REPEAT manifest main_hash_old main_size_old) := by
  intro st h
  rw [fetch_manifest_eq]
  have hd := keeps_download E MAX_REPEAT manifest P hP (after_label st) h
  rcases hdl : download E MAX_REPEAT manifest (after_label st) with ⟨c, s1⟩
  rw [hdl] at hd
  cases c with
  | exit e => exact hd
  | val status =>
    dsimp only at hd ⊢
    split_ifs <;> exact hd

theorem fetch_manifest_no_restart {W : Type} (E : Env W) (MAX_REPEAT : Int) (manifest : CString)
    (main_hash_old : CString) (main_size_old : Int) (st : State W) :
    (fetch_manifest E MAX_REPEAT manifest main_hash_old main_size_old st).1 ≠
      Ctl.exit Exit.restart := by
  rw [fetch_manifest_eq]
  obtain ⟨status, k, s1, hd, -⟩ := download_spec E MAX_REPEAT manifest (after_label st)
  rw [hd]
  dsimp only
  split_ifs <;> simp

theorem download_optional_val {W : Type} (E : Env W) (MAX_REPEAT : Int) (filename : CString)
    (st : State W) : (download_optional E MAX_REPEAT filename st).1 = Ctl.val () := by
  obtain ⟨status, k, s1, hd, -⟩ := download_spec E MAX_REPEAT filename st
  simp only [download_optional, M.bind_apply, hd, M.pure_apply]

theorem keeps_download_optional {W : Type} (E : Env W) (MAX_REPEAT : Int) (filename : CString)
    (P : W → Prop) (hP : ∀ w, P w → P (E.conn_get w filename).2) :
    KeepsWorld P (download_optional E MAX_REPEAT filename) := by
  unfold download_optional
  exact keeps_bind (keeps_download E MAX_REPEAT filename P hP) fun _ => keeps_same fun _ => rfl

/-- Sequencing for a property `G` of the outcome that holds of every exit
other than `goto repeatN`. -/
theorem seq_goal {W α : Type} {m : M W α} {k : α → M W Int} (X : State W → Prop)
    (G : Ctl Int × State W → Prop) (hG : ∀ e s, e ≠ Exit.restart → G (Ctl.exit e, s))
    (hm : ∀ st, X st → (m st).1 ≠ Ctl.exit Exit.restart ∧ ∀ a s, m st = (Ctl.val a, s) → X s)
    (hk : ∀ a st, X st → G (k a st)) (st : State W) (h : X st) : G ((m >>= k) st) := by
  rw [M.bind_apply]
  obtain ⟨h1, h2⟩ := hm st h
  rcases hr : m st with ⟨c, s⟩
  rw [hr] at h1
  cases c with
  | val a => exact hk a s (h2 a s hr)
  | exit e => exact hG e s fun he => h1 (by rw [he])

/-- One pass of `update4` in the mirror setting, with fast mode off: when it
ends with `EXIT_SUCCESS` or with `goto repeat4`, the file has the digest `D`,
and when it had another digest at the start, the gate has found that digest
unchanged, has downloaded the file and has then found `D`. -/
theorem update4_pass_mirror {W : Type} (E : Env W) (MAX_REPEAT : Int)
    (remotedir buf filename D : CString) (Inv : W → Prop)
    (hM : MirrorSetting E remotedir buf filename D Inv) (main_hash_old : CString)
    (main_size_old : Int) (st : State W) (hinv : Inv st.world) (hf : st.use_fast = false)
    (hr : (update4_pass E MAX_REPEAT remotedir main_hash_old main_size_old st).1 =
        Ctl.val EXIT_SUCCESS ∨
      (update4_pass E MAX_REPEAT remotedir main_hash_old main_size_old st).1 =
        Ctl.exit Exit.restart) :
    Inv (update4_pass E MAX_REPEAT remotedir main_hash_old main_size_old st).2.world ∧
    E.checksum Hasher.crc32sum
      (update4_pass E MAX_REPEAT remotedir main_hash_old main_size_old st).2.world filename =
        some D ∧
    (E.checksum Hasher.crc32sum st.world filename ≠ some D →
      ∃ s : State W, (∃ pre, s.log = st.log ++ pre) ∧ s.use_fast = false ∧
        E.checksum Hasher.crc32sum s.world filename =
          E.checksum Hasher.crc32sum st.world filename ∧
        Healed E Hasher.crc32sum filename D s
          (update4_pass E MAX_REPEAT remotedir main_hash_old main_size_old st).2) := by
  let X : State W → Prop := fun s => Inv s.world ∧
    E.checksum Hasher.crc32sum s.world filename = E.checksum Hasher.crc32sum st.world filename ∧
    s.use_fast = false ∧ ∃ pre, s.log = st.log ++ pre
  let G : Ctl Int × State W → Prop := fun r =>
    (r.1 = Ctl.val EXIT_SUCCESS ∨ r.1 = Ctl.exit Exit.restart) →
    Inv r.2.world ∧ E.checksum Hasher.crc32sum r.2.world filename = some D ∧
    (E.checksum Hasher.crc32sum st.world filename ≠ some D →
      ∃ s : State W, (∃ pre, s.log = st.log ++ pre) ∧ s.use_fast = false ∧
        E.checksum Hasher.crc32sum s.world filename =
          E.checksum Hasher.crc32sum st.world filename ∧
        Healed E Hasher.crc32sum filename D s r.2)
  have hG : ∀ e s, e ≠ Exit.restart → G (Ctl.exit e, s) := by
    intro e s he hr
    rcases hr with hr | hr
    · cases hr
    · exact absurd (Ctl.exit.inj hr) he
  have hkeep : ∀ g, g ≠ filename → ∀ w,
      (Inv w ∧ E.checksum Hasher.crc32sum w filename =
        E.checksum Hasher.crc32sum st.world filename) →
      (Inv (E.conn_get w g).2 ∧ E.checksum Hasher.crc32sum (E.conn_get w g).2 filename =
        E.checksum Hasher.crc32sum st.world filename) := fun g hg w hw =>
    ⟨hM.inv_conn_get w g hw.1, (hM.frame_conn_get w g hw.1 hg).trans hw.2⟩
  have hfetch : ∀ s, X s →
      (fetch_manifest E MAX_REPEAT (remotedir ++ "/drweb32.lst".toList) main_hash_old
        main_size_old s).1 ≠ Ctl.exit Exit.restart ∧
      ∀ a s1, fetch_manifest E MAX_REPEAT (remotedir ++ "/drweb32.lst".toList) main_hash_old
        main_size_old s = (Ctl.val a, s1) → X s1 := by
    intro s hX
    refine ⟨fetch_manifest_no_restart _ _ _ _ _ _, fun a s1 hrun => ?_⟩
    have hw := keeps_fetch_manifest E MAX_REPEAT (remotedir ++ "/drweb32.lst".toList)
      main_hash_old main_size_old _ (hkeep _ (hM.other _ (by simp))) s ⟨hX.1, hX.2.1⟩
    rw [hrun] at hw
    obtain ⟨hf1, evs, hl, -⟩ := verifies_fetch_manifest E MAX_REPEAT _ main_hash_old
      main_size_old s a s1 hX.2.2.1 hrun
    obtain ⟨pre, hpre⟩ := hX.2.2.2
    exact ⟨hw.1, hw.2, hf1, pre ++ evs, by rw [hl, hpre, List.append_assoc]⟩
  have hopt : ∀ g, g ≠ filename → ∀ s, X s →
      (download_optional E MAX_REPEAT g s).1 ≠ Ctl.exit Exit.restart ∧
      ∀ a s1, download_optional E MAX_REPEAT g s = (Ctl.val a, s1) → X s1 := by
    intro g hg s hX
    refine ⟨by rw [download_optional_val]; simp, fun a s1 hrun => ?_⟩
    have hw := keeps_download_optional E MAX_REPEAT g _ (hkeep g hg) s ⟨hX.1, hX.2.1⟩
    rw [hrun] at hw
    obtain ⟨hf1, evs, hl, -⟩ := verifies_of_obeys (obeys_download_optional MAX_REPEAT E g)
      (fun _ => True) (fun _ => trivial) s a s1 hX.2.2.1 hrun
    obtain ⟨pre, hpre⟩ := hX.2.2.2
    exact ⟨hw.1, hw.2, hf1, pre ++ evs, by rw [hl, hpre, List.append_assoc]⟩
  have key : G (update4_pass E MAX_REPEAT remotedir main_hash_old main_size_old st) := by
    unfold update4_pass
    refine seq_goal X G hG hfetch (fun _ s hX => ?_) st ⟨hinv, rfl, hf, [], by simp⟩
    refine seq_goal X G hG (hopt _ (hM.other _ (by simp))) (fun _ s hX => ?_) s hX
    refine seq_goal X G hG (hopt _ (hM.other _ (by simp))) (fun _ s hX => ?_) s hX
    refine seq_goal X G hG (hopt _ (hM.other _ (by simp))) (fun _ s hX => ?_) s hX
    refine seq_goal X G hG (hopt _ (hM.other _ (by simp))) (fun _ s hX => ?_) s hX
    refine seq_goal X G hG (hopt _ (hM.other _ (by simp))) (fun _ s hX => ?_) s hX
    obtain ⟨e1, e2, e3, e4⟩ :=
      update4_entry_mirror E MAX_REPEAT remotedir buf filename D Inv hM s hX.1 hX.2.2.1
    simp only [M.bind_apply, M.get, hM.manifest s.world hX.1, update4_lines, hM.line, if_true,
      M.pure_apply]
    rcases he : update4_entry E MAX_REPEAT remotedir buf s with ⟨c, s1⟩
    rw [he] at e1 e2 e3 e4
    have hfin : (c = Ctl.val () ∨ c = Ctl.exit Exit.restart) →
        Inv s1.world ∧ E.checksum Hasher.crc32sum s1.world filename = some D ∧
        (E.checksum Hasher.crc32sum st.world filename ≠ some D →
          ∃ s : State W, (∃ pre, s.log = st.log ++ pre) ∧ s.use_fast = false ∧
            E.checksum Hasher.crc32sum s.world filename =
              E.checksum Hasher.crc32sum st.world filename ∧
            Healed E Hasher.crc32sum filename D s s1) := by
      intro hc
      by_cases hD : E.checksum Hasher.crc32sum s.world filename = some D
      · refine ⟨e1, e3 hD, fun hmut => absurd ?_ hmut⟩
        rw [← hX.2.1]
        exact hD
      · obtain ⟨h1, h2⟩ := e4 hD hc
        exact ⟨e1, h1, fun _ => ⟨s, hX.2.2.2, hX.2.2.1, hX.2.1, h2⟩⟩
    cases c with
    | val a =>
      intro _
      exact hfin (Or.inl rfl)
    | exit e =>
      intro hr
      rcases hr with hr | hr
      · cases hr
      · have he1 : e = Exit.restart := Ctl.exit.inj hr
        exact hfin (Or.inr (by rw [he1]))
  exact key hr

/-- The passes of `update4` in the mirror setting, with fast mode off: when
they end with `EXIT_SUCCESS`, the file has the digest `D`, and when it had
another digest at the start, the gate of the first pass has found it, has
downloaded the file and has then found `D`. -/
theorem restart_loop_mirror {W : Type} (E : Env W) (MAX_REPEAT : Int)
    (remotedir buf filename D : CString) (Inv : W → Prop)
    (hM : MirrorSetting E remotedir buf filename D Inv) (main_hash_old : CString)
    (main_size_old : Int) :
    ∀ (n : Nat) (st st1 : State W), Inv st.world → st.use_fast = false →
      restart_loop (update4_pass E MAX_REPEAT remotedir main_hash_old main_size_old) n st =
        (Ctl.val EXIT_SUCCESS, st1) →
      Inv st1.world ∧ E.checksum Hasher.crc32sum st1.world filename = some D ∧
      (∃ evs, st1.log = st.log ++ evs) ∧
      (E.checksum Hasher.crc32sum st.world filename ≠ some D →
        ∃ s : State W, (∃ pre, s.log = st.log ++ pre) ∧ s.use_fast = false ∧
          E.checksum Hasher.crc32sum s.world filename =
            E.checksum Hasher.crc32sum st.world filename ∧
          Healed E Hasher.crc32sum filename D s st1) := by
  intro n
  induction n with
  | zero =>
    intro st st1 _ _ hrun
    cases hrun
  | succ n ih =>
    intro st st1 hinv hf hrun
    obtain ⟨-, huf, -, -, -, evs, hlog, -⟩ :=
      update4_pass_ok E MAX_REPEAT remotedir main_hash_old main_size_old st
    have hpass := update4_pass_mirror E MAX_REPEAT remotedir buf filename D Inv hM main_hash_old
      main_size_old st hinv hf
    rw [restart_loop_succ] at hrun
    rcases hps : update4_pass E MAX_REPEAT remotedir main_hash_old main_size_old st with ⟨c, s1⟩
    rw [hps] at hrun huf hlog hpass
    dsimp only at huf hlog hpass
    by_cases hc : c = Ctl.exit Exit.restart
    · subst hc
      dsimp only at hrun
      obtain ⟨p1, p2, p3⟩ := hpass (Or.inr rfl)
      obtain ⟨q1, q2, ⟨evs2, q3⟩, -⟩ := ih (next_attempt s1) st1 p1
        (by simp [next_attempt, huf, hf]) hrun
      refine ⟨q1, q2, ⟨_, by rw [q3]; simp only [next_attempt]; rw [hlog, List.append_assoc]⟩,
        fun hmut => ?_⟩
      obtain ⟨s, r1, r2, r3, r4⟩ := p3 hmut
      exact ⟨s, r1, r2, r3, healed_append E _ filename D s s1 st1 evs2 r4 q3⟩
    · have : (Ctl.val EXIT_SUCCESS, st1) = (c, s1) := by
        rw [← hrun]
        split
        · rename_i heq
          simp only [Prod.mk.injEq] at heq
          exact absurd heq.1 hc
        · rfl
      cases this
      obtain ⟨p1, p2, p3⟩ := hpass (Or.inl rfl)
      exact ⟨p1, p2, ⟨_, hlog⟩, p3⟩

theorem open_directory_cases {W : Type} (E : Env W) (dir : CString) (st : State W) :
    open_directory E dir st =
        (Ctl.val (), { st with world := (E.do_lock (E.make_path st.world dir).2 dir).2 }) ∨
      ∃ s1, open_directory E dir st = (Ctl.exit (Exit.ret EXIT_FAILURE), s1) := by
  by_cases h1 : (E.make_path st.world dir).1 = EXIT_SUCCESS
  · by_cases h2 : (E.do_lock (E.make_path st.world dir).2 dir).1 = EXIT_SUCCESS
    · left
      simp [open_directory, M.bind_apply, M.io, h1, h2]
    · right
      exact ⟨_, by simp [open_directory, M.bind_apply, M.io, h1, h2, M.exit]; rfl⟩
  · right
    exact ⟨_, by simp [open_directory, M.bind_apply, M.io, h1, M.exit]; rfl⟩

/-- C8: self-healing needs fast mode off.  In the mirror setting (the manifest
has the one line `buf`, which names `filename` with the digest `D`; the server
holds `filename` with that digest; requests for other files, `make_path`,
`do_lock` and the removal of the `.lzma` sibling leave the digest of
`filename` alone), when `filename` has another digest and `update4` is called
with fast mode off and returns `EXIT_SUCCESS`: there is a state `s` of the run
in which `filename` still has the digest it had at the call, and from `s` on
the log is the call of the gate for `filename` with `D`, the checksum of the
file with that other digest, the call of `download` with its calls of
`conn_get`, the checksum `D`, and what follows; and `filename` has the digest
`D` when `update4` returns. -/
theorem rerun_heals_with_fast_mode_off {W : Type} (E : Env W) (MAX_REPEAT : Int)
    (remotedir buf filename D : CString) (Inv : W → Prop)
    (hM : MirrorSetting E remotedir buf filename D Inv) (st st1 : State W)
    (hinv : Inv st.world) (hf : st.use_fast = false)
    (hmut : E.checksum Hasher.crc32sum st.world filename ≠ some D)
    (hrun : update4 E MAX_REPEAT remotedir st = (Ctl.val EXIT_SUCCESS, st1)) :
    E.checksum Hasher.crc32sum st1.world filename = some D ∧
    ∃ s : State W, (∃ pre, s.log = st.log ++ pre) ∧ s.use_fast = false ∧
      E.checksum Hasher.crc32sum s.world filename = E.checksum Hasher.crc32sum st.world filename ∧
      Healed E Hasher.crc32sum filename D s st1 := by
  simp only [update4, M.returning, M.bind_apply, M.set_counter] at hrun
  rcases open_directory_cases E remotedir { st with counter_global := 0 } with ho | ⟨s1, ho⟩
  · rw [ho] at hrun
    dsimp only at hrun
    rw [fast_prepare_eq, if_neg (by simp [hf])] at hrun
    dsimp only at hrun
    have hinv2 : Inv (E.do_lock (E.make_path st.world remotedir).2 remotedir).2 :=
      hM.inv_do_lock _ (hM.inv_make_path _ hinv)
    have hsum : E.checksum Hasher.crc32sum
        (E.do_lock (E.make_path st.world remotedir).2 remotedir).2 filename =
        E.checksum Hasher.crc32sum st.world filename :=
      (hM.frame_do_lock _ (hM.inv_make_path _ hinv)).trans (hM.frame_make_path _ hinv)
    rcases hloop : restart_loop (update4_pass E MAX_REPEAT remotedir [] 0)
      (MAX_REPEAT.toNat + 1)
      { st with counter_global := 0,
                world := (E.do_lock (E.make_path st.world remotedir).2 remotedir).2 }
      with ⟨res0, sc⟩
    rw [hloop] at hrun
    have hcase : (res0 = Ctl.val EXIT_SUCCESS ∨ res0 = Ctl.exit (Exit.ret EXIT_SUCCESS)) ∧
        sc = st1 := by
      rcases res0 with a | e
      · cases hrun; exact ⟨Or.inl rfl, rfl⟩
      · cases e <;> cases hrun
        exact ⟨Or.inr rfl, rfl⟩
    obtain ⟨hres, rfl⟩ := hcase
    rcases hres with rfl | rfl
    · obtain ⟨-, q2, -, q4⟩ := restart_loop_mirror E MAX_REPEAT remotedir buf filename D Inv hM
        [] 0 (MAX_REPEAT.toNat + 1)
        { st with counter_global := 0,
                  world := (E.do_lock (E.make_path st.world remotedir).2 remotedir).2 }
        sc hinv2 hf hloop
      obtain ⟨s, r1, r2, r3, r4⟩ := q4 (by rw [hsum]; exact hmut)
      exact ⟨q2, s, r1, r2, r3.trans hsum, r4⟩
    · obtain ⟨s0, pre3, c1, -, c3⟩ := restart_loop_final MAX_REPEAT
        (remotedir ++ "/drweb32.lst".toList) _ (update4_pass_ok E MAX_REPEAT remotedir [] 0)
        (MAX_REPEAT.toNat + 1)
        { st with counter_global := 0,
                  world := (E.do_lock (E.make_path st.world remotedir).2 remotedir).2 }
        (Ctl.exit (Exit.ret EXIT_SUCCESS)) sc hf hloop (by simp)
      obtain ⟨-, q2, -, -, q5, -⟩ := update4_pass_ok E MAX_REPEAT remotedir [] 0 s0
      rw [c3] at q2 q5
      have := q5 rfl
      rw [q2, c1] at this
      simp at this
  · rw [ho] at hrun
    cases hrun

theorem lookup_store_same (m : List (CString × CString)) (k v : CString) :
    SmallWorld.lookup (SmallWorld.store m k v) k = some v := by
  simp [SmallWorld.lookup, SmallWorld.store]

theorem lookup_store_ne (m : List (CString × CString)) (k p v : CString) (h : p ≠ k) :
    SmallWorld.lookup (SmallWorld.store m k v) p = SmallWorld.lookup m p := by
  have hk : (k == p) = false := beq_false_of_ne (Ne.symm h)
  have := lookup_filter_ne m k p h
  unfold SmallWorld.lookup at this ⊢
  unfold SmallWorld.store
  rw [List.find?_cons, hk]
  exact this

theorem small_conn_get (w : SmallWorld) (g : CString) :
    (smallEnv.conn_get w g).2.server = w.server ∧
    (∀ p, p ≠ g → SmallWorld.lookup (smallEnv.conn_get w g).2.files p =
      SmallWorld.lookup w.files p) ∧
    (∀ c, SmallWorld.lookup w.server g = some c →
      (smallEnv.conn_get w g).1 = 0 ∧
      SmallWorld.lookup (smallEnv.conn_get w g).2.files g = some c) ∧
    (SmallWorld.lookup w.server g = none → (smallEnv.conn_get w g).2 = w) := by
  have e : smallEnv.conn_get w g = match SmallWorld.lookup w.server g with
      | some c => ((0 : Int), { w with files := SmallWorld.store w.files g c })
      | none => ((404 : Int), w) := rfl
  rw [e]
  cases SmallWorld.lookup w.server g with
  | none => exact ⟨rfl, fun _ _ => rfl, nofun, fun _ => rfl⟩
  | some c =>
    refine ⟨rfl, fun p hp => lookup_store_ne _ _ _ _ hp, fun c1 hc => ?_, nofun⟩
    cases hc
    exact ⟨rfl, lookup_store_same _ _ _⟩

/-- The concrete world of the mirroring scenario is a mirror setting. -/
theorem small_mirror_setting :
    MirrorSetting smallEnv "d".toList "+a, AB".toList "d/a".toList "AB".toList mirror_world := by
  have hsib : ∀ nm, strrchr ("d/a".toList ++ ".lzma".toList) '/' = some nm →
      nm.tail = "a.lzma".toList := by
    intro nm hnm
    have h0 : strrchr ("d/a".toList ++ ".lzma".toList) '/' = some "/a.lzma".toList := by decide
    rw [h0] at hnm
    cases hnm
    rfl
  have hdel : ∀ (w : SmallWorld) (m p : CString), p ≠ "d".toList ++ '/' :: m →
      SmallWorld.lookup (smallEnv.delete_files w "d".toList m).files p =
        SmallWorld.lookup w.files p := fun w m p hp => lookup_filter_ne w.files _ p hp
  refine
    { line := by decide
      name := by decide
      crc := by decide
      other := by decide
      manifest := ?_
      served := ?_
      inv_conn_get := ?_
      inv_make_path := fun w hw => hw
      inv_do_lock := fun w hw => hw
      inv_delete := ?_
      frame_conn_get := ?_
      frame_make_path := fun w _ => rfl
      frame_do_lock := fun w _ => rfl
      frame_delete := ?_ }
  · intro w hw
    show (SmallWorld.lookup w.files "d/drweb32.lst".toList).map SmallWorld.lines = _
    rw [hw.2]
    decide
  · intro w hw _
    obtain ⟨-, -, h3, -⟩ := small_conn_get w "d/a".toList
    exact (h3 "AB".toList (by rw [hw.1]; decide)).2
  · intro w g hw
    obtain ⟨h1, h2, h3, h4⟩ := small_conn_get w g
    refine ⟨h1.trans hw.1, ?_⟩
    by_cases hg : "d/drweb32.lst".toList = g
    · subst hg
      exact (h3 "+a, AB".toList (by rw [hw.1]; decide)).2
    · rw [h2 _ hg]
      exact hw.2
  · intro w nm hnm hw
    refine ⟨hw.1, ?_⟩
    rw [hsib nm hnm]
    exact (hdel w _ _ (by decide)).trans hw.2
  · intro w g _ hg
    obtain ⟨-, h2, -, -⟩ := small_conn_get w g
    exact h2 "d/a".toList (Ne.symm hg)
  · intro w nm hnm _
    rw [hsib nm hnm]
    exact hdel w _ _ (by decide)

set_option maxRecDepth 100000 in
/-- The mirroring scenario with fast mode off: `d/a`, overwritten with `XY`, has
the digest `AB` again after the run, which has called the gate, found `XY`,
downloaded the file and found `AB`. -/
theorem rerun_heals_with_fast_mode_off_witness :
    mirror_world (rerun_state false).world ∧
    smallEnv.checksum Hasher.crc32sum (rerun_state false).world "d/a".toList ≠
      some "AB".toList ∧
    (update4 smallEnv 3 "d".toList (rerun_state false)).1 = Ctl.val EXIT_SUCCESS ∧
    smallEnv.checksum Hasher.crc32sum
      (update4 smallEnv 3 "d".toList (rerun_state false)).2.world "d/a".toList =
        some "AB".toList ∧
    ∃ s : State SmallWorld, (∃ pre, s.log = (rerun_state false).log ++ pre) ∧
      s.use_fast = false ∧
      smallEnv.checksum Hasher.crc32sum s.world "d/a".toList =
        smallEnv.checksum Hasher.crc32sum (rerun_state false).world "d/a".toList ∧
      Healed smallEnv Hasher.crc32sum "d/a".toList "AB".toList s
        (update4 smallEnv 3 "d".toList (rerun_state false)).2 :=
  ⟨⟨by decide!, by decide!⟩, by decide!, by decide!,
    rerun_heals_with_fast_mode_off smallEnv 3 "d".toList "+a, AB".toList "d/a".toList
      "AB".toList mirror_world small_mirror_setting (rerun_state false)
      (update4 smallEnv 3 "d".toList (rerun_state false)).2 ⟨by decide!, by decide!⟩ rfl
      (by decide!) (pair_eq (by decide!))⟩

theorem spends_silent {W α : Type} {manifest : CString} {m : M W α}
    (h : ∀ st, (m st).2.log = st.log) : Spends manifest 0 m :=
  fun st => ⟨[], by rw [h st]; simp, by simp [downloads_of]⟩

theorem owes_set_tree {W : Type} {manifest : CString} {t : AvlTree} :
    Spends manifest 0 (M.set_tree t : M W Unit) :=
  spends_silent fun _ => rfl

/-- On the manifests of the examples `SmallWorld.lines` gives the lines that
the calls of `fscanf` deliver. -/
theorem small_lines_are_scanned :
    ∀ text ∈ ["+a, AB".toList, "+a, AB\n+b, CD".toList, "+a, AB\n+b, EF".toList,
        "+a, AB\n-a, ".toList, "+drweb32.lst, XY".toList],
      scan_lines 128 text = some (SmallWorld.lines text) := by
  decide

end Drwebmirror
